import Mathlib

/-!
# rucbase-lab: record file, lock manager and transaction manager

A shallow embedding of

* `src/record/rm_file_handle.cpp` (slotted-page record file),
* `src/record/rm_scan.cpp` (record scan),
* `src/execution/executor_seq_scan.h` (sequential scan operator),
* `src/transaction/concurrency/lock_manager.cpp` (multi-granularity lock manager),
* `src/transaction/transaction_manager.cpp` (begin / commit / abort),

followed by theorems about them.

Conventions of the embedding.

* C++ `int` values are `Int`; no operation studied here gets near the 32-bit range.
* A C++ method that mutates `*this` and may throw becomes a function returning the
  thrown exception or the returned value together with the state reached
  (a throw keeps the mutations made before it, as in C++).
* `std::unordered_map<K, V>` is a function `K → Option V`; `operator[]` is get-or-insert,
  `at` throws `std::out_of_range` on a missing key.
* `std::unordered_set<LockDataId>` is a duplicate-free list in insertion order;
  `std::list` / `std::deque` are lists.
* The mutex `latch_` is not modelled: every public entry point runs atomically.
-/

namespace Rucbase

/-! ## Identifiers and errors -/

/-- The sentinel `RM_NO_PAGE` of `rm_defs.h`. -/
abbrev RM_NO_PAGE : Int := -1

/-- The sentinel `INVALID_PAGE_ID` of `defs.h`. -/
abbrev INVALID_PAGE_ID : Int := -1

/-- The first page that stores records; page 0 is the file header page. -/
abbrev RM_FIRST_RECORD_PAGE : Int := 1

/-- One byte of a record buffer (`char`). -/
abbrev Byte := Nat

/-- Record identifier `(page_no, slot_no)`. -/
structure Rid where
  page_no : Int
  slot_no : Int
  deriving DecidableEq, Repr

/-- The enum `AbortReason` (the spelling `LOCK_ON_SHIRINKING` is the source's). -/
inductive AbortReason where
  | LOCK_ON_SHIRINKING
  | UPGRADE_CONFLICT
  | DEADLOCK_PREVENTION
  deriving DecidableEq, Repr

/-- The exceptions that leave the modelled functions.
`MemoryFault` stands for an access outside the slot array of a page, which is
undefined behaviour in the C++ and has no counterpart in the embedding. -/
inductive Error where
  | PageNotExistError (page_no : Int)
  | TransactionAbortException (txn_id : Nat) (reason : AbortReason)
  | OutOfRange
  | BufferPoolError
  | MemoryFault
  | InternalError
  | ColumnNotFoundError
  deriving DecidableEq, Repr

deriving instance DecidableEq for Except

/-! ## Transactions -/

/-- The enum `TransactionState`. -/
inductive TransactionState where
  | DEFAULT
  | GROWING
  | SHRINKING
  | COMMITTED
  | ABORTED
  deriving DecidableEq, Repr

/-- The enum `LockDataType`. -/
inductive LockDataType where
  | TABLE
  | RECORD
  deriving DecidableEq, Repr

/-- Modelled from the spec: `LockDataId` of `txn_defs.h` is not among the sources; the
spec gives it as `(file_id, optional Rid, granularity ∈ {TABLE, RECORD})`, a hash key
compared field by field. A table id carries the rid `(-1, -1)`. -/
structure LockDataId where
  fd_ : Int
  rid_ : Rid
  type_ : LockDataType
  deriving DecidableEq, Repr

/-- The constructor `LockDataId(fd, LockDataType::TABLE)`. -/
def LockDataId.table (fd : Int) : LockDataId :=
  { fd_ := fd, rid_ := { page_no := -1, slot_no := -1 }, type_ := .TABLE }

/-- The constructor `LockDataId(fd, rid, LockDataType::RECORD)`. -/
def LockDataId.record (fd : Int) (rid : Rid) : LockDataId :=
  { fd_ := fd, rid_ := rid, type_ := .RECORD }

/-- The enum `WType`. -/
inductive WType where
  | INSERT_TUPLE
  | DELETE_TUPLE
  | UPDATE_TUPLE
  deriving DecidableEq, Repr

/-- Modelled from the spec: `WriteRecord` of `txn_defs.h`, given by the spec as
`kind, table_name, rid, before_image`. -/
structure WriteRecord where
  wtype_ : WType
  tab_name_ : String
  rid_ : Rid
  record_ : List Byte
  deriving DecidableEq, Repr

/-- Modelled from the spec: the fields of `Transaction` (`transaction.h`) that the
sources read and write: id, state, start timestamp, write set and lock set. -/
structure Transaction where
  txn_id_ : Nat
  state_ : TransactionState
  start_ts_ : Nat
  write_set_ : List WriteRecord
  lock_set_ : List LockDataId
  deriving DecidableEq, Repr

/-- The call `txn->append_lock_set(id)` / `txn->get_lock_set()->insert(id)`:
insertion into an unordered set. -/
def Transaction.append_lock_set (txn : Transaction) (id : LockDataId) : Transaction :=
  if id ∈ txn.lock_set_ then txn else { txn with lock_set_ := txn.lock_set_ ++ [id] }

/-! ## Lock manager -/

/-- The enum `LockManager::LockMode`. -/
inductive LockMode where
  | SHARED
  | EXCLUSIVE
  | INTENTION_SHARED
  | INTENTION_EXCLUSIVE
  | S_IX
  deriving DecidableEq, Repr

/-- The enum `LockManager::GroupLockMode`. -/
inductive GroupLockMode where
  | NON_LOCK
  | IS
  | IX
  | S
  | X
  | SIX
  deriving DecidableEq, Repr

/-- The class `LockManager::LockRequest`. -/
structure LockRequest where
  txn_id_ : Nat
  lock_mode_ : LockMode
  granted_ : Bool
  deriving DecidableEq, Repr

/-- The map `lock_mode_count_`, which the source indexes with the five string keys
`"S"`, `"X"`, `"IS"`, `"IX"`, `"SIX"`; a missing key reads as 0. -/
structure LockModeCount where
  S : Int := 0
  X : Int := 0
  IS : Int := 0
  IX : Int := 0
  SIX : Int := 0
  deriving DecidableEq, Repr

/-- The class `LockManager::LockRequestQueue`; the default value is the one
`operator[]` inserts. -/
structure LockRequestQueue where
  request_queue_ : List LockRequest := []
  group_lock_mode_ : GroupLockMode := .NON_LOCK
  lock_mode_count_ : LockModeCount := {}
  deriving DecidableEq, Repr

/-- The member `lock_table_ : std::unordered_map<LockDataId, LockRequestQueue>`. -/
abbrev LockTable := LockDataId → Option LockRequestQueue

/-- The empty lock table. -/
def LockTable.empty : LockTable := fun _ => none

/-- The queue that `lock_table_[id]` refers to. -/
def LockTable.index (t : LockTable) (id : LockDataId) : LockRequestQueue :=
  (t id).getD {}

/-- The table after `lock_table_[id]`: a missing key is inserted with a default queue. -/
def LockTable.touch (t : LockTable) (id : LockDataId) : LockTable :=
  match t id with
  | some _ => t
  | none => Function.update t id (some {})

/-- Write a queue back through the reference obtained from the table. -/
def LockTable.store (t : LockTable) (id : LockDataId) (q : LockRequestQueue) : LockTable :=
  Function.update t id (some q)

/-- What a lock-manager call leaves behind: the value returned or the exception thrown,
the transaction object and the lock table. -/
structure LockResult where
  result : Except Error Bool
  txn : Transaction
  lock_table_ : LockTable

/-- The function `ensure_txn_can_lock`. The five states are exhaustive, so the
fall-through without `return` at the end of the source is never reached. -/
def ensure_txn_can_lock (txn : Transaction) : Except Error Bool × Transaction :=
  if txn.state_ = .ABORTED ∨ txn.state_ = .COMMITTED then
    (.error (.TransactionAbortException txn.txn_id_ .LOCK_ON_SHIRINKING), txn)
  else if txn.state_ = .SHRINKING then
    (.error (.TransactionAbortException txn.txn_id_ .LOCK_ON_SHIRINKING), txn)
  else if txn.state_ = .DEFAULT then
    (.ok true, { txn with state_ := .GROWING })
  else
    (.ok true, txn)

/-- The method `LockManager::check_lock_conflict`. -/
def check_lock_conflict (txn : Transaction) (group_lock_mode : GroupLockMode)
    (lock_mode : LockMode) : Except Error Unit :=
  match lock_mode with
  | .SHARED =>
    if group_lock_mode = .IX ∨ group_lock_mode = .X ∨ group_lock_mode = .SIX then
      .error (.TransactionAbortException txn.txn_id_ .DEADLOCK_PREVENTION)
    else .ok ()
  | .EXCLUSIVE =>
    if group_lock_mode ≠ .NON_LOCK then
      .error (.TransactionAbortException txn.txn_id_ .DEADLOCK_PREVENTION)
    else .ok ()
  | .INTENTION_SHARED =>
    if group_lock_mode = .X then
      .error (.TransactionAbortException txn.txn_id_ .DEADLOCK_PREVENTION)
    else .ok ()
  | .INTENTION_EXCLUSIVE =>
    if group_lock_mode = .S ∨ group_lock_mode = .X ∨ group_lock_mode = .SIX then
      .error (.TransactionAbortException txn.txn_id_ .DEADLOCK_PREVENTION)
    else .ok ()
  | .S_IX =>
    if group_lock_mode = .S ∨ group_lock_mode = .X ∨ group_lock_mode = .IX
        ∨ group_lock_mode = .SIX then
      .error (.TransactionAbortException txn.txn_id_ .DEADLOCK_PREVENTION)
    else .ok ()

/-- The request found by the loop
`for (auto &lock_request : request_queue) if (lock_request.txn_id_ == txn_id) ...`,
whose body always returns or throws at the first match. -/
def find_request (request_queue : List LockRequest) (txn_id : Nat) : Option LockRequest :=
  request_queue.find? (fun r => r.txn_id_ == txn_id)

/-- The assignment `lock_request.lock_mode_ = mode` on the request found by the loop. -/
def assign_lock_mode (request_queue : List LockRequest) (txn_id : Nat) (mode : LockMode) :
    List LockRequest :=
  match request_queue with
  | [] => []
  | r :: rs =>
    if r.txn_id_ == txn_id then { r with lock_mode_ := mode } :: rs
    else r :: assign_lock_mode rs txn_id mode

/-- A granted request, as built by
`LockRequest lock_request(txn_id, mode); lock_request.granted_ = true;`. -/
def granted_request (txn_id : Nat) (mode : LockMode) : LockRequest :=
  { txn_id_ := txn_id, lock_mode_ := mode, granted_ := true }

/-- The method `LockManager::_lock_IS_on_table` (the latch is already held). -/
def _lock_IS_on_table (txn : Transaction) (tab_fd : Int) (lock_table_ : LockTable) :
    LockResult :=
  match ensure_txn_can_lock txn with
  | (.error e, txn) => { result := .error e, txn := txn, lock_table_ := lock_table_ }
  | (.ok _, txn) =>
    let lock_data_id := LockDataId.table tab_fd
    let lock_request_queue := lock_table_.index lock_data_id
    let lock_table_ := lock_table_.touch lock_data_id
    match find_request lock_request_queue.request_queue_ txn.txn_id_ with
    | some _ => { result := .ok true, txn := txn, lock_table_ := lock_table_ }
    | none =>
      match check_lock_conflict txn lock_request_queue.group_lock_mode_ .INTENTION_SHARED with
      | .error e => { result := .error e, txn := txn, lock_table_ := lock_table_ }
      | .ok _ =>
        let group_lock_mode :=
          if lock_request_queue.group_lock_mode_ = .NON_LOCK then GroupLockMode.IS
          else lock_request_queue.group_lock_mode_
        let lock_request_queue : LockRequestQueue :=
          { request_queue_ :=
              lock_request_queue.request_queue_ ++ [granted_request txn.txn_id_ .INTENTION_SHARED],
            group_lock_mode_ := group_lock_mode,
            lock_mode_count_ :=
              { lock_request_queue.lock_mode_count_ with
                IS := lock_request_queue.lock_mode_count_.IS + 1 } }
        { result := .ok true, txn := txn.append_lock_set lock_data_id,
          lock_table_ := lock_table_.store lock_data_id lock_request_queue }

/-- The method `LockManager::lock_IS_on_table`; its body is that of `_lock_IS_on_table`
under the latch. -/
def lock_IS_on_table (txn : Transaction) (tab_fd : Int) (lock_table_ : LockTable) :
    LockResult :=
  match ensure_txn_can_lock txn with
  | (.error e, txn) => { result := .error e, txn := txn, lock_table_ := lock_table_ }
  | (.ok _, txn) =>
    let lock_data_id := LockDataId.table tab_fd
    let lock_request_queue := lock_table_.index lock_data_id
    let lock_table_ := lock_table_.touch lock_data_id
    match find_request lock_request_queue.request_queue_ txn.txn_id_ with
    | some _ => { result := .ok true, txn := txn, lock_table_ := lock_table_ }
    | none =>
      match check_lock_conflict txn lock_request_queue.group_lock_mode_ .INTENTION_SHARED with
      | .error e => { result := .error e, txn := txn, lock_table_ := lock_table_ }
      | .ok _ =>
        let group_lock_mode :=
          if lock_request_queue.group_lock_mode_ = .NON_LOCK then GroupLockMode.IS
          else lock_request_queue.group_lock_mode_
        let lock_request_queue : LockRequestQueue :=
          { request_queue_ :=
              lock_request_queue.request_queue_ ++ [granted_request txn.txn_id_ .INTENTION_SHARED],
            group_lock_mode_ := group_lock_mode,
            lock_mode_count_ :=
              { lock_request_queue.lock_mode_count_ with
                IS := lock_request_queue.lock_mode_count_.IS + 1 } }
        { result := .ok true, txn := txn.append_lock_set lock_data_id,
          lock_table_ := lock_table_.store lock_data_id lock_request_queue }

/-- The method `LockManager::_lock_IX_on_table` (the latch is already held). -/
def _lock_IX_on_table (txn : Transaction) (tab_fd : Int) (lock_table_ : LockTable) :
    LockResult :=
  match ensure_txn_can_lock txn with
  | (.error e, txn) => { result := .error e, txn := txn, lock_table_ := lock_table_ }
  | (.ok _, txn) =>
    let lock_data_id := LockDataId.table tab_fd
    let lock_request_queue := lock_table_.index lock_data_id
    let lock_table_ := lock_table_.touch lock_data_id
    match find_request lock_request_queue.request_queue_ txn.txn_id_ with
    | some lock_request =>
      if lock_request.lock_mode_ = .INTENTION_EXCLUSIVE ∨ lock_request.lock_mode_ = .S_IX
          ∨ lock_request.lock_mode_ = .EXCLUSIVE then
        { result := .ok true, txn := txn, lock_table_ := lock_table_ }
      else if lock_request.lock_mode_ = .SHARED ∧ lock_request_queue.lock_mode_count_.S = 1 then
        let lock_request_queue : LockRequestQueue :=
          { request_queue_ :=
              assign_lock_mode lock_request_queue.request_queue_ txn.txn_id_ .S_IX,
            group_lock_mode_ := .SIX,
            lock_mode_count_ :=
              { lock_request_queue.lock_mode_count_ with
                S := lock_request_queue.lock_mode_count_.S - 1,
                IX := lock_request_queue.lock_mode_count_.IX + 1 } }
        { result := .ok true, txn := txn,
          lock_table_ := lock_table_.store lock_data_id lock_request_queue }
      else if lock_request.lock_mode_ = .INTENTION_SHARED
          ∧ lock_request_queue.lock_mode_count_.S = 0
          ∧ lock_request_queue.lock_mode_count_.SIX = 0 then
        let lock_request_queue : LockRequestQueue :=
          { request_queue_ :=
              assign_lock_mode lock_request_queue.request_queue_ txn.txn_id_ .INTENTION_EXCLUSIVE,
            group_lock_mode_ := .IX,
            lock_mode_count_ :=
              { lock_request_queue.lock_mode_count_ with
                IS := lock_request_queue.lock_mode_count_.IS - 1,
                IX := lock_request_queue.lock_mode_count_.IX + 1 } }
        { result := .ok true, txn := txn,
          lock_table_ := lock_table_.store lock_data_id lock_request_queue }
      else
        { result := .error (.TransactionAbortException txn.txn_id_ .DEADLOCK_PREVENTION),
          txn := txn, lock_table_ := lock_table_ }
    | none =>
      match check_lock_conflict txn lock_request_queue.group_lock_mode_ .INTENTION_EXCLUSIVE with
      | .error e => { result := .error e, txn := txn, lock_table_ := lock_table_ }
      | .ok _ =>
        let lock_request_queue : LockRequestQueue :=
          { request_queue_ :=
              lock_request_queue.request_queue_
                ++ [granted_request txn.txn_id_ .INTENTION_EXCLUSIVE],
            group_lock_mode_ := .IX,
            lock_mode_count_ :=
              { lock_request_queue.lock_mode_count_ with
                IX := lock_request_queue.lock_mode_count_.IX + 1 } }
        { result := .ok true, txn := txn.append_lock_set lock_data_id,
          lock_table_ := lock_table_.store lock_data_id lock_request_queue }

/-- The method `LockManager::lock_IX_on_table`; its body is that of `_lock_IX_on_table`
under the latch. -/
def lock_IX_on_table (txn : Transaction) (tab_fd : Int) (lock_table_ : LockTable) :
    LockResult :=
  match ensure_txn_can_lock txn with
  | (.error e, txn) => { result := .error e, txn := txn, lock_table_ := lock_table_ }
  | (.ok _, txn) =>
    let lock_data_id := LockDataId.table tab_fd
    let lock_request_queue := lock_table_.index lock_data_id
    let lock_table_ := lock_table_.touch lock_data_id
    match find_request lock_request_queue.request_queue_ txn.txn_id_ with
    | some lock_request =>
      if lock_request.lock_mode_ = .INTENTION_EXCLUSIVE ∨ lock_request.lock_mode_ = .S_IX
          ∨ lock_request.lock_mode_ = .EXCLUSIVE then
        { result := .ok true, txn := txn, lock_table_ := lock_table_ }
      else if lock_request.lock_mode_ = .SHARED ∧ lock_request_queue.lock_mode_count_.S = 1 then
        let lock_request_queue : LockRequestQueue :=
          { request_queue_ :=
              assign_lock_mode lock_request_queue.request_queue_ txn.txn_id_ .S_IX,
            group_lock_mode_ := .SIX,
            lock_mode_count_ :=
              { lock_request_queue.lock_mode_count_ with
                S := lock_request_queue.lock_mode_count_.S - 1,
                IX := lock_request_queue.lock_mode_count_.IX + 1 } }
        { result := .ok true, txn := txn,
          lock_table_ := lock_table_.store lock_data_id lock_request_queue }
      else if lock_request.lock_mode_ = .INTENTION_SHARED
          ∧ lock_request_queue.lock_mode_count_.S = 0
          ∧ lock_request_queue.lock_mode_count_.SIX = 0 then
        let lock_request_queue : LockRequestQueue :=
          { request_queue_ :=
              assign_lock_mode lock_request_queue.request_queue_ txn.txn_id_ .INTENTION_EXCLUSIVE,
            group_lock_mode_ := .IX,
            lock_mode_count_ :=
              { lock_request_queue.lock_mode_count_ with
                IS := lock_request_queue.lock_mode_count_.IS - 1,
                IX := lock_request_queue.lock_mode_count_.IX + 1 } }
        { result := .ok true, txn := txn,
          lock_table_ := lock_table_.store lock_data_id lock_request_queue }
      else
        { result := .error (.TransactionAbortException txn.txn_id_ .DEADLOCK_PREVENTION),
          txn := txn, lock_table_ := lock_table_ }
    | none =>
      match check_lock_conflict txn lock_request_queue.group_lock_mode_ .INTENTION_EXCLUSIVE with
      | .error e => { result := .error e, txn := txn, lock_table_ := lock_table_ }
      | .ok _ =>
        let lock_request_queue : LockRequestQueue :=
          { request_queue_ :=
              lock_request_queue.request_queue_
                ++ [granted_request txn.txn_id_ .INTENTION_EXCLUSIVE],
            group_lock_mode_ := .IX,
            lock_mode_count_ :=
              { lock_request_queue.lock_mode_count_ with
                IX := lock_request_queue.lock_mode_count_.IX + 1 } }
        { result := .ok true, txn := txn.append_lock_set lock_data_id,
          lock_table_ := lock_table_.store lock_data_id lock_request_queue }

/-- The method `LockManager::lock_shared_on_table`. The statements
`lock_request.lock_mode_ == LockMode::S_IX;` and `lock_request.lock_mode_ == LockMode::SHARED;`
of the two upgrade branches are comparisons whose value is dropped, so the request keeps
its mode; the counters and the group mode are updated. -/
def lock_shared_on_table (txn : Transaction) (tab_fd : Int) (lock_table_ : LockTable) :
    LockResult :=
  match ensure_txn_can_lock txn with
  | (.error e, txn) => { result := .error e, txn := txn, lock_table_ := lock_table_ }
  | (.ok _, txn) =>
    let lock_data_id := LockDataId.table tab_fd
    let lock_request_queue := lock_table_.index lock_data_id
    let lock_table_ := lock_table_.touch lock_data_id
    match find_request lock_request_queue.request_queue_ txn.txn_id_ with
    | some lock_request =>
      if lock_request.lock_mode_ = .SHARED ∨ lock_request.lock_mode_ = .EXCLUSIVE
          ∨ lock_request.lock_mode_ = .S_IX then
        { result := .ok true, txn := txn, lock_table_ := lock_table_ }
      else if lock_request.lock_mode_ = .INTENTION_EXCLUSIVE
          ∧ lock_request_queue.lock_mode_count_.IX = 1 then
        let lock_request_queue : LockRequestQueue :=
          { lock_request_queue with
            group_lock_mode_ := .SIX,
            lock_mode_count_ :=
              { lock_request_queue.lock_mode_count_ with
                IX := lock_request_queue.lock_mode_count_.IX - 1,
                SIX := lock_request_queue.lock_mode_count_.SIX + 1,
                S := lock_request_queue.lock_mode_count_.S + 1 } }
        { result := .ok true, txn := txn,
          lock_table_ := lock_table_.store lock_data_id lock_request_queue }
      else if lock_request.lock_mode_ = .INTENTION_SHARED
          ∧ lock_request_queue.lock_mode_count_.IX = 0
          ∧ lock_request_queue.lock_mode_count_.SIX = 0 then
        let lock_request_queue : LockRequestQueue :=
          { lock_request_queue with
            group_lock_mode_ := .S,
            lock_mode_count_ :=
              { lock_request_queue.lock_mode_count_ with
                IS := lock_request_queue.lock_mode_count_.IS - 1,
                S := lock_request_queue.lock_mode_count_.S + 1 } }
        { result := .ok true, txn := txn,
          lock_table_ := lock_table_.store lock_data_id lock_request_queue }
      else
        { result := .error (.TransactionAbortException txn.txn_id_ .DEADLOCK_PREVENTION),
          txn := txn, lock_table_ := lock_table_ }
    | none =>
      match check_lock_conflict txn lock_request_queue.group_lock_mode_ .SHARED with
      | .error e => { result := .error e, txn := txn, lock_table_ := lock_table_ }
      | .ok _ =>
        let lock_request_queue : LockRequestQueue :=
          { request_queue_ :=
              lock_request_queue.request_queue_ ++ [granted_request txn.txn_id_ .SHARED],
            group_lock_mode_ := .S,
            lock_mode_count_ :=
              { lock_request_queue.lock_mode_count_ with
                S := lock_request_queue.lock_mode_count_.S + 1 } }
        { result := .ok true, txn := txn.append_lock_set lock_data_id,
          lock_table_ := lock_table_.store lock_data_id lock_request_queue }

/-- The method `LockManager::lock_exclusive_on_table`. The statement
`lock_request.lock_mode_ == LockMode::EXCLUSIVE;` of the upgrade branch is a comparison
whose value is dropped. -/
def lock_exclusive_on_table (txn : Transaction) (tab_fd : Int) (lock_table_ : LockTable) :
    LockResult :=
  match ensure_txn_can_lock txn with
  | (.error e, txn) => { result := .error e, txn := txn, lock_table_ := lock_table_ }
  | (.ok _, txn) =>
    let lock_data_id := LockDataId.table tab_fd
    let lock_request_queue := lock_table_.index lock_data_id
    let lock_table_ := lock_table_.touch lock_data_id
    match find_request lock_request_queue.request_queue_ txn.txn_id_ with
    | some lock_request =>
      if lock_request.lock_mode_ = .EXCLUSIVE then
        { result := .ok true, txn := txn, lock_table_ := lock_table_ }
      else if lock_request_queue.group_lock_mode_ = .NON_LOCK then
        let lock_request_queue : LockRequestQueue :=
          { lock_request_queue with
            group_lock_mode_ := .X,
            lock_mode_count_ :=
              { lock_request_queue.lock_mode_count_ with
                X := lock_request_queue.lock_mode_count_.X + 1 } }
        { result := .ok true, txn := txn,
          lock_table_ := lock_table_.store lock_data_id lock_request_queue }
      else
        { result := .error (.TransactionAbortException txn.txn_id_ .DEADLOCK_PREVENTION),
          txn := txn, lock_table_ := lock_table_ }
    | none =>
      match check_lock_conflict txn lock_request_queue.group_lock_mode_ .EXCLUSIVE with
      | .error e => { result := .error e, txn := txn, lock_table_ := lock_table_ }
      | .ok _ =>
        let lock_request_queue : LockRequestQueue :=
          { request_queue_ :=
              lock_request_queue.request_queue_ ++ [granted_request txn.txn_id_ .EXCLUSIVE],
            group_lock_mode_ := .X,
            lock_mode_count_ :=
              { lock_request_queue.lock_mode_count_ with
                X := lock_request_queue.lock_mode_count_.X + 1 } }
        { result := .ok true, txn := txn.append_lock_set lock_data_id,
          lock_table_ := lock_table_.store lock_data_id lock_request_queue }

/-- The method `LockManager::lock_shared_on_record`. The record queue is obtained with
`lock_table_.at(lock_data_id)`, which throws `std::out_of_range` when the table has no
queue for the record; the table lock is requested after that. -/
def lock_shared_on_record (txn : Transaction) (rid : Rid) (tab_fd : Int)
    (lock_table_ : LockTable) : LockResult :=
  match ensure_txn_can_lock txn with
  | (.error e, txn) => { result := .error e, txn := txn, lock_table_ := lock_table_ }
  | (.ok _, txn) =>
    let lock_data_id := LockDataId.record tab_fd rid
    match lock_table_ lock_data_id with
    | none => { result := .error .OutOfRange, txn := txn, lock_table_ := lock_table_ }
    | some _ =>
      match _lock_IS_on_table txn tab_fd lock_table_ with
      | { result := .error e, txn := txn, lock_table_ := lock_table_ } =>
        { result := .error e, txn := txn, lock_table_ := lock_table_ }
      | { result := .ok _, txn := txn, lock_table_ := lock_table_ } =>
        let lock_request_queue := lock_table_.index lock_data_id
        match find_request lock_request_queue.request_queue_ txn.txn_id_ with
        | some _ => { result := .ok true, txn := txn, lock_table_ := lock_table_ }
        | none =>
          match check_lock_conflict txn lock_request_queue.group_lock_mode_ .SHARED with
          | .error e => { result := .error e, txn := txn, lock_table_ := lock_table_ }
          | .ok _ =>
            let lock_request_queue : LockRequestQueue :=
              { request_queue_ :=
                  lock_request_queue.request_queue_ ++ [granted_request txn.txn_id_ .SHARED],
                group_lock_mode_ := .S,
                lock_mode_count_ :=
                  { lock_request_queue.lock_mode_count_ with
                    S := lock_request_queue.lock_mode_count_.S + 1 } }
            { result := .ok true, txn := txn.append_lock_set lock_data_id,
              lock_table_ := lock_table_.store lock_data_id lock_request_queue }

/-- The method `LockManager::lock_exclusive_on_record`. The statement
`lock_request.lock_mode_ == LockMode::EXCLUSIVE;` of the upgrade branch is a comparison
whose value is dropped; the branch that appends a new request leaves `group_lock_mode_`
as it was. -/
def lock_exclusive_on_record (txn : Transaction) (rid : Rid) (tab_fd : Int)
    (lock_table_ : LockTable) : LockResult :=
  match ensure_txn_can_lock txn with
  | (.error e, txn) => { result := .error e, txn := txn, lock_table_ := lock_table_ }
  | (.ok _, txn) =>
    let lock_data_id := LockDataId.record tab_fd rid
    let lock_table_ := lock_table_.touch lock_data_id
    match _lock_IX_on_table txn tab_fd lock_table_ with
    | { result := .error e, txn := txn, lock_table_ := lock_table_ } =>
      { result := .error e, txn := txn, lock_table_ := lock_table_ }
    | { result := .ok _, txn := txn, lock_table_ := lock_table_ } =>
      let lock_request_queue := lock_table_.index lock_data_id
      match find_request lock_request_queue.request_queue_ txn.txn_id_ with
      | some lock_request =>
        if lock_request.lock_mode_ = .EXCLUSIVE then
          { result := .ok true, txn := txn, lock_table_ := lock_table_ }
        else if lock_request.lock_mode_ = .SHARED then
          let lock_request_queue : LockRequestQueue :=
            { lock_request_queue with
              group_lock_mode_ := .X,
              lock_mode_count_ :=
                { lock_request_queue.lock_mode_count_ with
                  S := lock_request_queue.lock_mode_count_.S - 1,
                  X := lock_request_queue.lock_mode_count_.X + 1 } }
          { result := .ok true, txn := txn,
            lock_table_ := lock_table_.store lock_data_id lock_request_queue }
        else
          { result := .error (.TransactionAbortException txn.txn_id_ .UPGRADE_CONFLICT),
            txn := txn, lock_table_ := lock_table_ }
      | none =>
        match check_lock_conflict txn lock_request_queue.group_lock_mode_ .EXCLUSIVE with
        | .error e => { result := .error e, txn := txn, lock_table_ := lock_table_ }
        | .ok _ =>
          let lock_request_queue : LockRequestQueue :=
            { lock_request_queue with
              request_queue_ :=
                lock_request_queue.request_queue_ ++ [granted_request txn.txn_id_ .EXCLUSIVE],
              lock_mode_count_ :=
                { lock_request_queue.lock_mode_count_ with
                  X := lock_request_queue.lock_mode_count_.X + 1 } }
          { result := .ok true, txn := txn.append_lock_set lock_data_id,
            lock_table_ := lock_table_.store lock_data_id lock_request_queue }

/-- The counter update of `unlock` for the request being erased. -/
def LockModeCount.release (c : LockModeCount) (mode : LockMode) : LockModeCount :=
  match mode with
  | .SHARED => { c with S := c.S - 1 }
  | .EXCLUSIVE => { c with X := c.X - 1 }
  | .INTENTION_SHARED => { c with IS := c.IS - 1 }
  | .INTENTION_EXCLUSIVE => { c with IX := c.IX - 1 }
  | .S_IX => { c with SIX := c.SIX - 1 }

/-- The second loop of `unlock`, which recomputes the group mode from the remaining
requests, starting from the accumulator `group_lock_mode`; an `EXCLUSIVE` request sets
`X` and leaves the loop. -/
def recompute_group_lock_mode (requests : List LockRequest)
    (group_lock_mode : GroupLockMode) : GroupLockMode :=
  match requests with
  | [] => group_lock_mode
  | request :: rest =>
    match request.lock_mode_ with
    | .SHARED =>
      recompute_group_lock_mode rest
        (if group_lock_mode = .NON_LOCK then .S else group_lock_mode)
    | .EXCLUSIVE => .X
    | .INTENTION_SHARED =>
      recompute_group_lock_mode rest
        (if group_lock_mode = .NON_LOCK then .IS else group_lock_mode)
    | .INTENTION_EXCLUSIVE => recompute_group_lock_mode rest .IX
    | .S_IX => recompute_group_lock_mode rest .SIX

/-- The method `LockManager::unlock`. -/
def unlock (txn : Transaction) (lock_data_id : LockDataId) (lock_table_ : LockTable) :
    LockResult :=
  if txn.state_ = .COMMITTED ∨ txn.state_ = .ABORTED then
    { result := .ok false, txn := txn, lock_table_ := lock_table_ }
  else
    let txn : Transaction :=
      if txn.state_ = .GROWING then { txn with state_ := .SHRINKING } else txn
    match lock_table_ lock_data_id with
    | none => { result := .ok true, txn := txn, lock_table_ := lock_table_ }
    | some lock_request_queue =>
      match find_request lock_request_queue.request_queue_ txn.txn_id_ with
      | none => { result := .ok true, txn := txn, lock_table_ := lock_table_ }
      | some request =>
        let lock_mode_count_ := lock_request_queue.lock_mode_count_.release request.lock_mode_
        let requests :=
          lock_request_queue.request_queue_.eraseP (fun r => r.txn_id_ == txn.txn_id_)
        if requests = [] then
          { result := .ok true, txn := txn,
            lock_table_ := lock_table_.store lock_data_id
              { request_queue_ := requests, group_lock_mode_ := .NON_LOCK,
                lock_mode_count_ := lock_mode_count_ } }
        else
          { result := .ok true, txn := txn,
            lock_table_ := lock_table_.store lock_data_id
              { request_queue_ := requests,
                group_lock_mode_ := recompute_group_lock_mode requests .NON_LOCK,
                lock_mode_count_ := lock_mode_count_ } }

/-! ## Record file -/

/-- Modelled from the spec: `Bitmap` of `bitmap.h` is not among the sources. A bitmap is
the list of its bits, bit `pos` being bit `pos % 8` of byte `pos / 8`.
`Bitmap::init(bm, size)` clears `size` bytes. -/
def Bitmap.init (size : Nat) : List Bool :=
  List.replicate (8 * size) false

/-- Modelled from the spec: `Bitmap::is_set(bm, pos)`. -/
def Bitmap.is_set (bm : List Bool) (pos : Int) : Bool :=
  decide (0 ≤ pos) && bm.getD pos.toNat false

/-- Modelled from the spec: `Bitmap::set(bm, pos)`. -/
def Bitmap.set (bm : List Bool) (pos : Int) : List Bool :=
  bm.set pos.toNat true

/-- Modelled from the spec: `Bitmap::reset(bm, pos)`. -/
def Bitmap.reset (bm : List Bool) (pos : Int) : List Bool :=
  bm.set pos.toNat false

/-- The loop `for (i = ...; i < max_n; i++) if (is_set(bm, i) == bit) return i;` followed by
`return max_n;`, started at `i`; `steps` is the number of iterations left before `i`
reaches `max_n`. -/
def Bitmap.scan (bit : Bool) (bm : List Bool) (max_n : Int) (steps : Nat) (i : Int) : Int :=
  match steps with
  | 0 => max_n
  | steps + 1 =>
    if i < max_n then
      if Bitmap.is_set bm i = bit then i else Bitmap.scan bit bm max_n steps (i + 1)
    else max_n

/-- Modelled from the spec: `Bitmap::next_bit(bit, bm, max_n, curr)`, "searching for the
next set bit": the least position after `curr` and below `max_n` whose bit is `bit`, or
`max_n` when there is none. -/
def Bitmap.next_bit (bit : Bool) (bm : List Bool) (max_n : Int) (curr : Int) : Int :=
  Bitmap.scan bit bm max_n (max_n - (curr + 1)).toNat (curr + 1)

/-- Modelled from the spec: `Bitmap::first_bit(bit, bm, max_n)`, "finds the first unset
bit": `next_bit` from position `-1`. -/
def Bitmap.first_bit (bit : Bool) (bm : List Bool) (max_n : Int) : Int :=
  Bitmap.next_bit bit bm max_n (-1)

/-- The number of set bits of a bitmap. -/
def Bitmap.popcount (bm : List Bool) : Int :=
  (bm.count true : Nat)

/-- The struct `RmFileHdr`. -/
structure RmFileHdr where
  record_size : Nat
  num_pages : Int
  num_records_per_page : Int
  first_free_page_no : Int
  bitmap_size : Nat
  deriving DecidableEq, Repr

/-- The struct `RmPageHdr`. -/
structure RmPageHdr where
  next_free_page_no : Int
  num_records : Int
  deriving DecidableEq, Repr

/-- A page as `RmPageHandle` presents it: header, bitmap and slot array. -/
structure RmPage where
  page_hdr : RmPageHdr
  bitmap : List Bool
  slots : List (List Byte)
  deriving DecidableEq, Repr

/-- The state behind `RmFileHandle`: the file descriptor, the in-memory file header and
the pages of the file as the buffer pool serves them, `pages[i]` being page number `i`. -/
structure RmFileHandle where
  fd_ : Int
  file_hdr_ : RmFileHdr
  pages : List RmPage
  deriving DecidableEq, Repr

/-- The struct `RmPageHandle`: a pinned page and its number. Writes through the handle
are put back with `RmFileHandle.write_page`. -/
structure RmPageHandle where
  page_no : Int
  page : RmPage
  deriving DecidableEq, Repr

/-- The class `RmRecord`. -/
structure RmRecord where
  size : Nat
  data : List Byte
  deriving DecidableEq, Repr

/-- The struct `Context`, without the log manager. -/
structure Context where
  lock_mgr_ : LockTable
  txn_ : Transaction

/-- What a record-file call leaves behind. -/
structure RmOutcome (α : Type) where
  result : Except Error α
  file : RmFileHandle
  context : Option Context

/-- Store the page behind a handle back into the file. -/
def RmFileHandle.write_page (fh : RmFileHandle) (page_no : Int) (page : RmPage) :
    RmFileHandle :=
  { fh with pages := fh.pages.set page_no.toNat page }

/-- Whether `slot_no` is a slot of the slot array. -/
def RmFileHandle.slot_in_range (fh : RmFileHandle) (slot_no : Int) : Prop :=
  0 ≤ slot_no ∧ slot_no < fh.file_hdr_.num_records_per_page

instance (fh : RmFileHandle) (slot_no : Int) : Decidable (fh.slot_in_range slot_no) :=
  inferInstanceAs (Decidable (_ ∧ _))

/-- Modelled from the spec: `BufferPoolManager::fetch_page` is an external collaborator;
it serves the page with the given number, and cannot serve a page that the file does
not have. -/
def buffer_pool_fetch_page (fh : RmFileHandle) (page_no : Int) : Except Error RmPageHandle :=
  if 0 ≤ page_no then
    match fh.pages[page_no.toNat]? with
    | some page => .ok { page_no := page_no, page := page }
    | none => .error .BufferPoolError
  else .error .BufferPoolError

/-- The method `RmFileHandle::fetch_page_handle`. -/
def fetch_page_handle (fh : RmFileHandle) (page_no : Int) : Except Error RmPageHandle :=
  if page_no = INVALID_PAGE_ID ∨ page_no ≥ fh.file_hdr_.num_pages then
    .error (.PageNotExistError page_no)
  else buffer_pool_fetch_page fh page_no

/-- The method `RmFileHandle::create_new_page_handle`. The buffer pool's `new_page`
(an external collaborator) allocates the next page number of the file; the slots of the
new page are zero-filled. -/
def create_new_page_handle (fh : RmFileHandle) : RmPageHandle × RmFileHandle :=
  let page_no : Int := fh.pages.length
  let page : RmPage :=
    { page_hdr := { next_free_page_no := RM_NO_PAGE, num_records := 0 },
      bitmap := Bitmap.init fh.file_hdr_.bitmap_size,
      slots := List.replicate fh.file_hdr_.num_records_per_page.toNat
        (List.replicate fh.file_hdr_.record_size 0) }
  ({ page_no := page_no, page := page },
   { fh with
     pages := fh.pages ++ [page],
     file_hdr_ :=
       { fh.file_hdr_ with
         num_pages := fh.file_hdr_.num_pages + 1,
         first_free_page_no := page_no } })

/-- The method `RmFileHandle::create_page_handle`. -/
def create_page_handle (fh : RmFileHandle) : Except Error RmPageHandle × RmFileHandle :=
  if fh.file_hdr_.first_free_page_no = RM_NO_PAGE then
    ((.ok (create_new_page_handle fh).1), (create_new_page_handle fh).2)
  else (fetch_page_handle fh fh.file_hdr_.first_free_page_no, fh)

/-- The method `RmFileHandle::release_page_handle`. -/
def release_page_handle (fh : RmFileHandle) (page_handle : RmPageHandle) :
    RmPageHandle × RmFileHandle :=
  ({ page_handle with
     page :=
       { page_handle.page with
         page_hdr :=
           { page_handle.page.page_hdr with
             next_free_page_no := fh.file_hdr_.first_free_page_no } } },
   { fh with file_hdr_ := { fh.file_hdr_ with first_free_page_no := page_handle.page_no } })

/-- The guard `if (context) context->lock_mgr_->lock_shared_on_record(context->txn_, rid, fd_)`. -/
def Context.lock_shared (context : Option Context) (rid : Rid) (fd : Int) :
    Except Error Bool × Option Context :=
  match context with
  | none => (.ok true, none)
  | some c =>
    ((lock_shared_on_record c.txn_ rid fd c.lock_mgr_).result,
     some { lock_mgr_ := (lock_shared_on_record c.txn_ rid fd c.lock_mgr_).lock_table_,
            txn_ := (lock_shared_on_record c.txn_ rid fd c.lock_mgr_).txn })

/-- The guard
`if (context) context->lock_mgr_->lock_exclusive_on_record(context->txn_, rid, fd_)`. -/
def Context.lock_exclusive (context : Option Context) (rid : Rid) (fd : Int) :
    Except Error Bool × Option Context :=
  match context with
  | none => (.ok true, none)
  | some c =>
    ((lock_exclusive_on_record c.txn_ rid fd c.lock_mgr_).result,
     some { lock_mgr_ := (lock_exclusive_on_record c.txn_ rid fd c.lock_mgr_).lock_table_,
            txn_ := (lock_exclusive_on_record c.txn_ rid fd c.lock_mgr_).txn })

/-- The method `RmFileHandle::get_record`. The slot is read whether or not its bitmap
bit is set. A `slot_no` outside the slot array is reported as `MemoryFault`. -/
def get_record (fh : RmFileHandle) (rid : Rid) (context : Option Context) :
    RmOutcome RmRecord :=
  match Context.lock_shared context rid fh.fd_ with
  | (.error e, context) => { result := .error e, file := fh, context := context }
  | (.ok _, context) =>
    match fetch_page_handle fh rid.page_no with
    | .error e => { result := .error e, file := fh, context := context }
    | .ok page_handle =>
      if fh.slot_in_range rid.slot_no then
        { result := .ok
            { size := fh.file_hdr_.record_size,
              data := (page_handle.page.slots.getD rid.slot_no.toNat []).take
                fh.file_hdr_.record_size },
          file := fh, context := context }
      else { result := .error .MemoryFault, file := fh, context := context }

/-- The method `RmFileHandle::insert_record(char *buf, Context *context)`. When the page
has no clear bit among its slots, `first_bit` returns `num_records_per_page` and the
writes that follow leave the slot array: `MemoryFault`. -/
def insert_record (fh : RmFileHandle) (buf : List Byte) (context : Option Context) :
    RmOutcome Rid :=
  match create_page_handle fh with
  | (.error e, fh) => { result := .error e, file := fh, context := context }
  | (.ok page_handle, fh) =>
    let slot_no :=
      Bitmap.first_bit false page_handle.page.bitmap fh.file_hdr_.num_records_per_page
    let rid : Rid := { page_no := page_handle.page_no, slot_no := slot_no }
    match Context.lock_exclusive context rid fh.fd_ with
    | (.error e, context) => { result := .error e, file := fh, context := context }
    | (.ok _, context) =>
      if fh.slot_in_range slot_no then
        let page_hdr : RmPageHdr :=
          { page_handle.page.page_hdr with
            num_records := page_handle.page.page_hdr.num_records + 1 }
        let bitmap := Bitmap.set page_handle.page.bitmap slot_no
        let fh : RmFileHandle :=
          if page_hdr.num_records = fh.file_hdr_.num_records_per_page then
            { fh with
              file_hdr_ :=
                { fh.file_hdr_ with first_free_page_no := page_hdr.next_free_page_no } }
          else fh
        let slots :=
          page_handle.page.slots.set slot_no.toNat (buf.take fh.file_hdr_.record_size)
        { result := .ok rid,
          file := fh.write_page page_handle.page_no
            { page_hdr := page_hdr, bitmap := bitmap, slots := slots },
          context := context }
      else { result := .error .MemoryFault, file := fh, context := context }

/-- The method `RmFileHandle::insert_record(const Rid &rid, char *buf)`. The guard of
the source is `rid.page_no < file_hdr_.num_pages`: a new page is created when the page
of `rid` exists. -/
def insert_record_at (fh : RmFileHandle) (rid : Rid) (buf : List Byte) : RmOutcome Unit :=
  let fh : RmFileHandle :=
    if rid.page_no < fh.file_hdr_.num_pages then (create_new_page_handle fh).2 else fh
  match fetch_page_handle fh rid.page_no with
  | .error e => { result := .error e, file := fh, context := none }
  | .ok page_handle =>
    if fh.slot_in_range rid.slot_no then
      let page_hdr : RmPageHdr :=
        { page_handle.page.page_hdr with
          num_records := page_handle.page.page_hdr.num_records + 1 }
      let bitmap := Bitmap.set page_handle.page.bitmap rid.slot_no
      let slots :=
        page_handle.page.slots.set rid.slot_no.toNat (buf.take fh.file_hdr_.record_size)
      let fh := fh.write_page page_handle.page_no
        { page_hdr := page_hdr, bitmap := bitmap, slots := slots }
      let fh : RmFileHandle :=
        if page_hdr.num_records = fh.file_hdr_.num_records_per_page then
          { fh with
            file_hdr_ :=
              { fh.file_hdr_ with first_free_page_no := page_hdr.next_free_page_no } }
        else fh
      { result := .ok (), file := fh, context := none }
    else { result := .error .MemoryFault, file := fh, context := none }

/-- The method `RmFileHandle::delete_record`. The test for releasing the page compares
the record count after the decrement with `num_records_per_page`. -/
def delete_record (fh : RmFileHandle) (rid : Rid) (context : Option Context) :
    RmOutcome Unit :=
  match Context.lock_exclusive context rid fh.fd_ with
  | (.error e, context) => { result := .error e, file := fh, context := context }
  | (.ok _, context) =>
    match fetch_page_handle fh rid.page_no with
    | .error e => { result := .error e, file := fh, context := context }
    | .ok page_handle =>
      if fh.slot_in_range rid.slot_no then
        let page_handle : RmPageHandle :=
          { page_handle with
            page :=
              { page_handle.page with
                page_hdr :=
                  { page_handle.page.page_hdr with
                    num_records := page_handle.page.page_hdr.num_records - 1 },
                bitmap := Bitmap.reset page_handle.page.bitmap rid.slot_no } }
        if page_handle.page.page_hdr.num_records = fh.file_hdr_.num_records_per_page then
          { result := .ok (),
            file := (release_page_handle fh page_handle).2.write_page page_handle.page_no
              (release_page_handle fh page_handle).1.page,
            context := context }
        else
          { result := .ok (), file := fh.write_page page_handle.page_no page_handle.page,
            context := context }
      else { result := .error .MemoryFault, file := fh, context := context }

/-- The method `RmFileHandle::update_record`. -/
def update_record (fh : RmFileHandle) (rid : Rid) (buf : List Byte)
    (context : Option Context) : RmOutcome Unit :=
  match Context.lock_exclusive context rid fh.fd_ with
  | (.error e, context) => { result := .error e, file := fh, context := context }
  | (.ok _, context) =>
    match fetch_page_handle fh rid.page_no with
    | .error e => { result := .error e, file := fh, context := context }
    | .ok page_handle =>
      if fh.slot_in_range rid.slot_no then
        { result := .ok (),
          file := fh.write_page page_handle.page_no
            { page_handle.page with
              slots := page_handle.page.slots.set rid.slot_no.toNat
                (buf.take fh.file_hdr_.record_size) },
          context := context }
      else { result := .error .MemoryFault, file := fh, context := context }

/-! ## Transaction manager -/

/-- The part of `SmManager` that `abort` reaches: `fhs_`, the record file of each table.
The catalog and the index handles are external collaborators; index entries live outside
the record files and are not modelled. -/
structure SmManager where
  fhs_ : String → Option RmFileHandle

/-- The state of `TransactionManager`: the two counters, the static `txn_map` (which
holds the transaction objects themselves here), the lock manager and the system
manager. -/
structure TransactionManager where
  next_txn_id_ : Nat
  next_timestamp_ : Nat
  txn_map : Nat → Option Transaction
  lock_manager_ : LockTable
  sm_manager_ : SmManager

/-- The constructor `Transaction(txn_id, isolation_level)`: state `DEFAULT`, empty
write set and lock set. -/
def Transaction.new (txn_id : Nat) : Transaction :=
  { txn_id_ := txn_id, state_ := .DEFAULT, start_ts_ := 0, write_set_ := [], lock_set_ := [] }

/-- The method `TransactionManager::begin`; `none` is the null pointer. -/
def TransactionManager.begin (tm : TransactionManager) (txn : Option Transaction) :
    Transaction × TransactionManager :=
  let txn' : Transaction := txn.getD (Transaction.new tm.next_txn_id_)
  let next_txn_id_ := if txn.isNone then tm.next_txn_id_ + 1 else tm.next_txn_id_
  let txn' := { txn' with state_ := .GROWING, start_ts_ := tm.next_timestamp_ }
  (txn',
   { tm with
     next_txn_id_ := next_txn_id_,
     next_timestamp_ := tm.next_timestamp_ + 1,
     txn_map := Function.update tm.txn_map txn'.txn_id_ (some txn') })

/-- The loop `for (auto &lock_id : *lock_set) lock_manager_->unlock(txn, lock_id);`
over the given ids. -/
def unlock_all (txn : Transaction) (lock_ids : List LockDataId) (lock_table_ : LockTable) :
    Transaction × LockTable :=
  match lock_ids with
  | [] => (txn, lock_table_)
  | lock_id :: rest =>
    unlock_all (unlock txn lock_id lock_table_).txn rest
      (unlock txn lock_id lock_table_).lock_table_

/-- The method `TransactionManager::commit`, on the transaction and the lock table. -/
def commit (txn : Transaction) (lock_table_ : LockTable) : Transaction × LockTable :=
  let txn : Transaction := if txn.write_set_ ≠ [] then { txn with write_set_ := [] } else txn
  let released : Transaction × LockTable :=
    if txn.lock_set_ ≠ [] then
      ({ (unlock_all txn txn.lock_set_ lock_table_).1 with lock_set_ := [] },
       (unlock_all txn txn.lock_set_ lock_table_).2)
    else (txn, lock_table_)
  ({ released.1 with state_ := .COMMITTED }, released.2)

/-- What `abort` leaves behind. -/
structure AbortOutcome where
  result : Except Error Unit
  txn : Transaction
  lock_table_ : LockTable
  sm_manager_ : SmManager

/-- The state threaded through the undo loop of `abort`. -/
structure UndoState where
  sm_manager_ : SmManager
  context : Context

/-- The file handle of a table after a record-file call on it. -/
def SmManager.put (sm : SmManager) (tab_name : String) (fh : RmFileHandle) : SmManager :=
  { sm with fhs_ := Function.update sm.fhs_ tab_name (some fh) }

/-- One iteration of the undo loop of `abort`, for one write record. A missing table makes
`fhs_.at(tab_name)` throw. The `DELETE_TUPLE` branch calls
`insert_record(record.data, context)`, the insertion that chooses the slot itself. -/
def undo_write_record (wr : WriteRecord) (st : UndoState) : Except Error Unit × UndoState :=
  match st.sm_manager_.fhs_ wr.tab_name_ with
  | none => (.error .OutOfRange, st)
  | some file_handle =>
    match wr.wtype_ with
    | .INSERT_TUPLE =>
      let r := delete_record file_handle wr.rid_ (some st.context)
      (r.result,
       { sm_manager_ := st.sm_manager_.put wr.tab_name_ r.file,
         context := r.context.getD st.context })
    | .DELETE_TUPLE =>
      let r := insert_record file_handle wr.record_ (some st.context)
      (r.result.map (fun _ => ()),
       { sm_manager_ := st.sm_manager_.put wr.tab_name_ r.file,
         context := r.context.getD st.context })
    | .UPDATE_TUPLE =>
      let r := update_record file_handle wr.rid_ wr.record_ (some st.context)
      (r.result,
       { sm_manager_ := st.sm_manager_.put wr.tab_name_ r.file,
         context := r.context.getD st.context })

/-- The undo loop of `abort` over the write records in the order given (the caller passes
the write set reversed); an exception leaves the loop. -/
def undo_all (write_records : List WriteRecord) (st : UndoState) :
    Except Error Unit × UndoState :=
  match write_records with
  | [] => (.ok (), st)
  | wr :: rest =>
    match undo_write_record wr st with
    | (.error e, st) => (.error e, st)
    | (.ok _, st) => undo_all rest st

/-- The method `TransactionManager::abort`, on the transaction, the lock table and the
record files. An exception thrown while undoing leaves `abort` before the locks are
released. After the undo loop the locks of the lock set are released, the write set is
cleared and the state becomes `ABORTED`; the lock set is not cleared. -/
def abort (txn : Transaction) (lock_table_ : LockTable) (sm_manager_ : SmManager) :
    AbortOutcome :=
  match undo_all txn.write_set_.reverse
      { sm_manager_ := sm_manager_, context := { lock_mgr_ := lock_table_, txn_ := txn } } with
  | (.error e, st) =>
    { result := .error e, txn := st.context.txn_, lock_table_ := st.context.lock_mgr_,
      sm_manager_ := st.sm_manager_ }
  | (.ok _, st) =>
    let txn := st.context.txn_
    let released := unlock_all txn txn.lock_set_ st.context.lock_mgr_
    { result := .ok (),
      txn := { released.1 with write_set_ := [], state_ := .ABORTED },
      lock_table_ := released.2,
      sm_manager_ := st.sm_manager_ }

/-! ## Predicates used in the statements -/

/-- The file format of spec §6 for the pages that hold records (pages 1 and up): a
bitmap of `bitmap_size` bytes that covers the `num_records_per_page` slots of the slot
array, at least one slot per page, and `num_pages` counting the pages of the file. -/
def RmFileHandle.WellFormed (fh : RmFileHandle) : Prop :=
  fh.file_hdr_.num_pages = fh.pages.length ∧
  0 < fh.file_hdr_.num_records_per_page ∧
  fh.file_hdr_.num_records_per_page ≤ 8 * (fh.file_hdr_.bitmap_size : Int) ∧
  ∀ page ∈ fh.pages.tail,
    page.bitmap.length = 8 * fh.file_hdr_.bitmap_size ∧
    page.slots.length = fh.file_hdr_.num_records_per_page.toNat

instance (fh : RmFileHandle) : Decidable fh.WellFormed := by
  unfold RmFileHandle.WellFormed
  infer_instance

/-- The page invariant `popcount(page.bitmap) == page_hdr.num_records` on every data
page. -/
def RmFileHandle.PageInvariant (fh : RmFileHandle) : Prop :=
  ∀ page ∈ fh.pages.tail, Bitmap.popcount page.bitmap = page.page_hdr.num_records

instance (fh : RmFileHandle) : Decidable fh.PageInvariant := by
  unfold RmFileHandle.PageInvariant
  infer_instance

/-- The bitmap bit of `rid`, when `rid` names a slot of an existing data page. -/
def RmFileHandle.slot_bit (fh : RmFileHandle) (rid : Rid) : Option Bool :=
  if 1 ≤ rid.page_no ∧ rid.page_no < fh.file_hdr_.num_pages ∧ fh.slot_in_range rid.slot_no then
    (fh.pages[rid.page_no.toNat]?).map (fun page => Bitmap.is_set page.bitmap rid.slot_no)
  else none

/-- The slot `rid` exists and holds a record. -/
def RmFileHandle.Occupied (fh : RmFileHandle) (rid : Rid) : Prop :=
  fh.slot_bit rid = some true

instance (fh : RmFileHandle) (rid : Rid) : Decidable (fh.Occupied rid) := by
  unfold RmFileHandle.Occupied
  infer_instance

/-- The slot `rid` exists and holds no record. -/
def RmFileHandle.Vacant (fh : RmFileHandle) (rid : Rid) : Prop :=
  fh.slot_bit rid = some false

instance (fh : RmFileHandle) (rid : Rid) : Decidable (fh.Vacant rid) := by
  unfold RmFileHandle.Vacant
  infer_instance

/-- The page `page_no` is an existing data page with at least one clear bitmap bit among
its slots. -/
def RmFileHandle.HasFreeSlot (fh : RmFileHandle) (page_no : Int) : Prop :=
  ∃ s : Int, fh.Vacant { page_no := page_no, slot_no := s }

/-- The four mutating operations of the record file. -/
inductive RmOp where
  | insert_record (buf : List Byte)
  | delete_record (rid : Rid)
  | insert_record_at (rid : Rid) (buf : List Byte)
  | update_record (rid : Rid) (buf : List Byte)
  deriving DecidableEq, Repr

/-- The file after an operation, run with the given lock context (the insertion at a
given rid takes none). -/
def RmOp.run (op : RmOp) (fh : RmFileHandle) (context : Option Context) : RmFileHandle :=
  match op with
  | .insert_record buf => (Rucbase.insert_record fh buf context).file
  | .delete_record rid => (Rucbase.delete_record fh rid context).file
  | .insert_record_at rid buf => (Rucbase.insert_record_at fh rid buf).file
  | .update_record rid buf => (Rucbase.update_record fh rid buf context).file

/-- When an operation is well-formed on a file: an insertion finds the free list empty or
headed by a page with a free slot, a deletion names an occupied slot, an insertion at a
rid names a vacant slot of an existing page, an update names a slot of the slot array. -/
def RmOp.WellFormedOn (op : RmOp) (fh : RmFileHandle) : Prop :=
  match op with
  | .insert_record _ =>
    fh.file_hdr_.first_free_page_no = RM_NO_PAGE ∨ fh.HasFreeSlot fh.file_hdr_.first_free_page_no
  | .delete_record rid => fh.Occupied rid
  | .insert_record_at rid _ => fh.Vacant rid
  | .update_record rid _ => fh.slot_in_range rid.slot_no

/-- The file that `insert_record` leaves when it writes the record through the page
handle `ph` obtained on the file `fh1`. -/
def insert_record_file (fh1 : RmFileHandle) (ph : RmPageHandle) (buf : List Byte) :
    RmFileHandle :=
  { fh1 with
    file_hdr_ :=
      { fh1.file_hdr_ with
        first_free_page_no :=
          if ph.page.page_hdr.num_records + 1 = fh1.file_hdr_.num_records_per_page then
            ph.page.page_hdr.next_free_page_no
          else fh1.file_hdr_.first_free_page_no },
    pages := fh1.pages.set ph.page_no.toNat
      { page_hdr := { ph.page.page_hdr with num_records := ph.page.page_hdr.num_records + 1 },
        bitmap := Bitmap.set ph.page.bitmap
          (Bitmap.first_bit false ph.page.bitmap fh1.file_hdr_.num_records_per_page),
        slots := ph.page.slots.set
          (Bitmap.first_bit false ph.page.bitmap fh1.file_hdr_.num_records_per_page).toNat
          (buf.take fh1.file_hdr_.record_size) } }

/-- The compatibility matrix as the spec prints it (§4.4): one row per requested mode,
the columns being the group modes `—, IS, IX, S, SIX, X` in that order; `true` is ✓. -/
def spec_matrix_row : LockMode → List Bool
  | .INTENTION_SHARED => [true, true, true, true, true, false]
  | .INTENTION_EXCLUSIVE => [true, true, true, false, false, false]
  | .SHARED => [true, true, false, true, false, false]
  | .S_IX => [true, true, false, false, false, false]
  | .EXCLUSIVE => [true, false, false, false, false, false]

/-- The column of a group mode in the spec's matrix. -/
def spec_matrix_column : GroupLockMode → Nat
  | .NON_LOCK => 0
  | .IS => 1
  | .IX => 2
  | .S => 3
  | .SIX => 4
  | .X => 5

/-- Whether the spec's matrix marks a request of mode `M` as compatible with a queue in
group mode `G`. -/
def spec_compatible (M : LockMode) (G : GroupLockMode) : Bool :=
  (spec_matrix_row M).getD (spec_matrix_column G) false

/-- The six public lock requests of the lock manager. -/
inductive LockCall where
  | shared_on_record (rid : Rid) (tab_fd : Int)
  | exclusive_on_record (rid : Rid) (tab_fd : Int)
  | shared_on_table (tab_fd : Int)
  | exclusive_on_table (tab_fd : Int)
  | IS_on_table (tab_fd : Int)
  | IX_on_table (tab_fd : Int)
  deriving DecidableEq, Repr

/-- Run a lock request. -/
def LockCall.run (call : LockCall) (txn : Transaction) (lock_table_ : LockTable) : LockResult :=
  match call with
  | .shared_on_record rid tab_fd => lock_shared_on_record txn rid tab_fd lock_table_
  | .exclusive_on_record rid tab_fd => lock_exclusive_on_record txn rid tab_fd lock_table_
  | .shared_on_table tab_fd => lock_shared_on_table txn tab_fd lock_table_
  | .exclusive_on_table tab_fd => lock_exclusive_on_table txn tab_fd lock_table_
  | .IS_on_table tab_fd => lock_IS_on_table txn tab_fd lock_table_
  | .IX_on_table tab_fd => lock_IX_on_table txn tab_fd lock_table_

/-- A call of a transaction to the lock manager: a lock request or `unlock`. -/
inductive LockOp where
  | lock (call : LockCall)
  | unlock (lock_data_id : LockDataId)
  deriving DecidableEq, Repr

/-- Run a lock-manager call. -/
def LockOp.run (op : LockOp) (txn : Transaction) (lock_table_ : LockTable) : LockResult :=
  match op with
  | .lock call => call.run txn lock_table_
  | .unlock lock_data_id => Rucbase.unlock txn lock_data_id lock_table_

/-- The transaction object after a history of its own lock-manager calls, each made on
the lock table that the other transactions have left at that moment. -/
def Transaction.after (txn : Transaction) (history : List (LockOp × LockTable)) : Transaction :=
  match history with
  | [] => txn
  | (op, lock_table_) :: rest => Transaction.after (op.run txn lock_table_).txn rest

/-- The transaction manager at start-up: counters at 0, no transaction, no lock. -/
def TransactionManager.init (sm_manager_ : SmManager) : TransactionManager :=
  { next_txn_id_ := 0, next_timestamp_ := 0, txn_map := fun _ => none,
    lock_manager_ := LockTable.empty, sm_manager_ := sm_manager_ }

/-- One step of the system: `begin(nullptr)`, or a lock-manager call made by a registered
transaction (named by its id; its object in `txn_map` is updated in place, as through the
pointer). -/
inductive TmStep where
  | begin_new
  | call (txn_id : Nat) (op : LockOp)
  deriving DecidableEq, Repr

/-- Run one step. A call for an id that is not registered does nothing. -/
def TransactionManager.step (tm : TransactionManager) (s : TmStep) : TransactionManager :=
  match s with
  | .begin_new => (tm.begin none).2
  | .call txn_id op =>
    match tm.txn_map txn_id with
    | none => tm
    | some txn =>
      { tm with
        txn_map := Function.update tm.txn_map txn_id (some (op.run txn tm.lock_manager_).txn),
        lock_manager_ := (op.run txn tm.lock_manager_).lock_table_ }

/-- The states reachable from start-up through `begin` and the lock-manager operations. -/
inductive TransactionManager.Reachable : TransactionManager → Prop where
  | init (sm_manager_ : SmManager) : Reachable (TransactionManager.init sm_manager_)
  | step (tm : TransactionManager) (s : TmStep) : Reachable tm → Reachable (tm.step s)

/-- The requests of transaction `txn_id` in a queue. -/
def requests_of (txn_id : Nat) (request_queue : List LockRequest) : List LockRequest :=
  request_queue.filter (fun r => r.txn_id_ == txn_id)

/-- What every lock-manager call of transaction `txn` guarantees about the transaction
object and the lock table it leaves (`txn'`, `lock_table'`): the id and the write set are
kept, the state moves at most to `GROWING` or `SHRINKING`, the lock set only grows, the
requests of the other transactions are untouched in every queue, the transaction never
gets a second request in a queue, and a queue in which it gets its first request is in
its lock set. -/
structure LockSpec (txn : Transaction) (lock_table_ : LockTable) (txn' : Transaction)
    (lock_table' : LockTable) : Prop where
  txn_id : txn'.txn_id_ = txn.txn_id_
  write_set : txn'.write_set_ = txn.write_set_
  state : txn'.state_ = txn.state_ ∨ txn'.state_ = .GROWING ∨ txn'.state_ = .SHRINKING
  lock_set : ∀ id ∈ txn.lock_set_, id ∈ txn'.lock_set_
  others : ∀ id t, t ≠ txn.txn_id_ →
    requests_of t (lock_table'.index id).request_queue_ =
      requests_of t (lock_table_.index id).request_queue_
  own_le : ∀ id, (requests_of txn.txn_id_ (lock_table_.index id).request_queue_).length ≤ 1 →
    (requests_of txn.txn_id_ (lock_table'.index id).request_queue_).length ≤ 1
  own_in : ∀ id, requests_of txn.txn_id_ (lock_table'.index id).request_queue_ ≠ [] →
    requests_of txn.txn_id_ (lock_table_.index id).request_queue_ ≠ [] ∨ id ∈ txn'.lock_set_

/-- The invariant of the reachable states: `txn_map` is keyed by the ids handed out so
far and holds no finished transaction; a transaction has at most one request in a queue;
every request belongs to a registered transaction whose lock set holds the id of the
queue. -/
structure TransactionManager.Consistent (tm : TransactionManager) : Prop where
  registered : ∀ tid txn, tm.txn_map tid = some txn →
    txn.txn_id_ = tid ∧ tid < tm.next_txn_id_ ∧
      txn.state_ ≠ .COMMITTED ∧ txn.state_ ≠ .ABORTED
  at_most_one : ∀ id tid,
    (requests_of tid (tm.lock_manager_.index id).request_queue_).length ≤ 1
  in_lock_set : ∀ id tid, requests_of tid (tm.lock_manager_.index id).request_queue_ ≠ [] →
    ∃ txn, tm.txn_map tid = some txn ∧ id ∈ txn.lock_set_

/-! ## Concrete states used as witnesses and failing inputs -/

/-- The header page as the slot of page 0 in `pages`; no operation below touches it. -/
def exHeaderPage : RmPage :=
  { page_hdr := { next_free_page_no := RM_NO_PAGE, num_records := 0 }, bitmap := [], slots := [] }

/-- A file of 2-byte records, two slots per page, with one data page: slot 0 is vacant,
slot 1 holds the bytes `[7, 8]`; the page heads the free list. -/
def exFile : RmFileHandle :=
  { fd_ := 3,
    file_hdr_ :=
      { record_size := 2, num_pages := 2, num_records_per_page := 2, first_free_page_no := 1,
        bitmap_size := 1 },
    pages :=
      [exHeaderPage,
       { page_hdr := { next_free_page_no := RM_NO_PAGE, num_records := 1 },
         bitmap := [false, true, false, false, false, false, false, false],
         slots := [[0, 0], [7, 8]] }] }

/-- A file of 1-byte records, one slot per page, whose only data page is full (slot 0
holds `[9]`), so the free list is empty. -/
def exFullFile : RmFileHandle :=
  { fd_ := 3,
    file_hdr_ :=
      { record_size := 1, num_pages := 2, num_records_per_page := 1,
        first_free_page_no := RM_NO_PAGE, bitmap_size := 1 },
    pages :=
      [exHeaderPage,
       { page_hdr := { next_free_page_no := RM_NO_PAGE, num_records := 1 },
         bitmap := [true, false, false, false, false, false, false, false],
         slots := [[9]] }] }

/-- Transaction 1, as `begin` leaves it. -/
def exT1 : Transaction :=
  { txn_id_ := 1, state_ := .GROWING, start_ts_ := 0, write_set_ := [], lock_set_ := [] }

/-- Transaction 2, as `begin` leaves it. -/
def exT2 : Transaction :=
  { txn_id_ := 2, state_ := .GROWING, start_ts_ := 1, write_set_ := [], lock_set_ := [] }

/-- The rid of slot 1 of page 1. -/
def exRid : Rid := { page_no := 1, slot_no := 1 }

/-- The system manager whose only table, `"t"`, is stored in the given file. -/
def exSm (fh : RmFileHandle) : SmManager :=
  { fhs_ := fun name => if name = "t" then some fh else none }

/-- Transaction 1 deletes the record at `exRid` from table `"t"` (stored in `exFile`) the
way `DeleteExecutor` does: `delete_record(rid, context)`, then a `DELETE_TUPLE` write
record with the before-image `[7, 8]`. -/
def exAfterDelete : RmOutcome Unit :=
  delete_record exFile exRid (some { lock_mgr_ := LockTable.empty, txn_ := exT1 })

/-- The transaction of `exAfterDelete`, with the write record appended. -/
def exDeleter : Transaction :=
  { (exAfterDelete.context.getD { lock_mgr_ := LockTable.empty, txn_ := exT1 }).txn_ with
    write_set_ :=
      [{ wtype_ := .DELETE_TUPLE, tab_name_ := "t", rid_ := exRid, record_ := [7, 8] }] }

/-- The abort that follows the delete of `exAfterDelete`. -/
def exAbortAfterDelete : AbortOutcome :=
  abort exDeleter
    (exAfterDelete.context.getD { lock_mgr_ := LockTable.empty, txn_ := exT1 }).lock_mgr_
    (exSm exAfterDelete.file)

/-- Transaction 1 after a granted `lock_shared_on_table` on table 0 of an empty lock
table. -/
def exHolder : LockResult :=
  lock_shared_on_table exT1 0 LockTable.empty

/-- The system after `begin(nullptr)` and a `lock_shared_on_table` on table 5 by the
transaction just begun (id 0). -/
def exTm : TransactionManager :=
  ((TransactionManager.init (exSm exFile)).step .begin_new).step
    (.call 0 (.lock (.shared_on_table 5)))

/-- The transaction with id 0 in `exTm`. -/
def exCommitter : Transaction :=
  { txn_id_ := 0, state_ := .GROWING, start_ts_ := 0, write_set_ := [],
    lock_set_ := [LockDataId.table 5] }

/-! ## Lock lattice and further predicates on lock tables -/

/-- The group mode that stands for a request mode. -/
def LockMode.toGroup : LockMode → GroupLockMode
  | .SHARED => .S
  | .EXCLUSIVE => .X
  | .INTENTION_SHARED => .IS
  | .INTENTION_EXCLUSIVE => .IX
  | .S_IX => .SIX

/-- The order of the spec's lattice, `IS ≤ IX ≤ SIX ≤ X` and `IS ≤ S ≤ SIX ≤ X`, with
`NON_LOCK` (the mode of an empty queue) below every mode. -/
def GroupLockMode.le (a b : GroupLockMode) : Bool :=
  decide (a = b) || decide (a = .NON_LOCK) || decide (b = .X)
    || (decide (a = .IS) && decide (b ≠ .NON_LOCK))
    || (decide (b = .SIX) && decide (a ≠ .X))

/-- The least upper bound in the spec's lattice; `S` and `IX`, the only incomparable
pair, join to `SIX`. -/
def GroupLockMode.join (a b : GroupLockMode) : GroupLockMode :=
  if a.le b then b else if b.le a then a else .SIX

/-- The least upper bound of the modes of the granted requests of a queue (`NON_LOCK` for
none). -/
def granted_lub (request_queue : List LockRequest) : GroupLockMode :=
  (request_queue.filter (fun r => r.granted_)).foldl
    (fun g r => g.join r.lock_mode_.toGroup) .NON_LOCK

/-- Run a list of steps. -/
def TransactionManager.run (tm : TransactionManager) (steps : List TmStep) :
    TransactionManager :=
  steps.foldl TransactionManager.step tm

/-- How the requests of a queue can change through the lock-manager calls of transaction
`txn_id`: a first request of the transaction is appended (granted), its request changes
mode, or its first request is erased. -/
inductive QueueEvolves (txn_id : Nat) : List LockRequest → List LockRequest → Prop where
  | refl (q : List LockRequest) : QueueEvolves txn_id q q
  | append (q : List LockRequest) (mode : LockMode) :
      find_request q txn_id = none →
      QueueEvolves txn_id q (q ++ [granted_request txn_id mode])
  | assign (q : List LockRequest) (mode : LockMode) :
      QueueEvolves txn_id q (assign_lock_mode q txn_id mode)
  | erase (q : List LockRequest) :
      QueueEvolves txn_id q (q.eraseP (fun r => r.txn_id_ == txn_id))
  | trans (q₁ q₂ q₃ : List LockRequest) :
      QueueEvolves txn_id q₁ q₂ → QueueEvolves txn_id q₂ q₃ → QueueEvolves txn_id q₁ q₃

/-- Every queue of the table changes as `QueueEvolves` allows. -/
def TableEvolves (txn_id : Nat) (lock_table_ lock_table' : LockTable) : Prop :=
  ∀ id, QueueEvolves txn_id (lock_table_.index id).request_queue_
    (lock_table'.index id).request_queue_

/-- Every request in the table is granted. -/
def LockTable.AllGranted (lock_table_ : LockTable) : Prop :=
  ∀ id, ∀ r ∈ (lock_table_.index id).request_queue_, r.granted_ = true

/-! ## Further concrete states -/

/-- Transaction 0 begins and is granted `lock_exclusive_on_record` on `exRid` of table
7. -/
def exExclusiveOnRecord : TransactionManager :=
  (TransactionManager.init (exSm exFile)).run
    [.begin_new, .call 0 (.lock (.exclusive_on_record exRid 7))]

/-- Four transactions on table 7: 0 takes `IS`, 1 takes `S`, 2 takes `IS` and unlocks it,
then 3 asks for `IX`. -/
def exTableRace : TransactionManager :=
  (TransactionManager.init (exSm exFile)).run
    [.begin_new, .begin_new, .begin_new, .begin_new,
     .call 0 (.lock (.IS_on_table 7)),
     .call 1 (.lock (.shared_on_table 7)),
     .call 2 (.lock (.IS_on_table 7)),
     .call 2 (.unlock (LockDataId.table 7)),
     .call 3 (.lock (.IX_on_table 7))]

/-- Three transactions: 0 creates the queue of `exRid` (table 7) with an `X` lock and
releases it; 1 and 2 are then both granted `lock_shared_on_record` on `exRid`. -/
def exTwoReaders : TransactionManager :=
  (TransactionManager.init (exSm exFile)).run
    [.begin_new, .begin_new, .begin_new,
     .call 0 (.lock (.exclusive_on_record exRid 7)),
     .call 0 (.unlock (LockDataId.record 7 exRid)),
     .call 0 (.unlock (LockDataId.table 7)),
     .call 1 (.lock (.shared_on_record exRid 7)),
     .call 2 (.lock (.shared_on_record exRid 7))]

/-- The state `exTwoReaders` after transaction 1 calls `lock_exclusive_on_record` on
`exRid`. -/
def exUpgrade : TransactionManager :=
  exTwoReaders.step (.call 1 (.lock (.exclusive_on_record exRid 7)))

/-- A file that has only its header page. -/
def exEmptyFile : RmFileHandle :=
  { fd_ := 3,
    file_hdr_ :=
      { record_size := 2, num_pages := 1, num_records_per_page := 2,
        first_free_page_no := RM_NO_PAGE, bitmap_size := 1 },
    pages := [exHeaderPage] }

/-! ## Record scan -/

/-- The class `RmScan` of `src/record/rm_scan.cpp`: the file it reads and the cursor
`rid_`. The file is read, never written, by the scan. -/
structure RmScan where
  file_handle_ : RmFileHandle
  rid_ : Rid
  deriving DecidableEq, Repr

/-- The `while (true)` loop of `RmScan::next`, started with the cursor `rid_`. Each turn
that does not leave the loop moves to the next page, and the loop is left when the page
number reaches `num_pages`; `steps` counts the pages from the cursor to `num_pages`, so
the last alternative (no step left) is never taken. A throw of `fetch_page_handle` leaves
the cursor as it is at that moment. -/
def RmScan.next_loop (fh : RmFileHandle) (steps : Nat) (rid_ : Rid) : Except Error Unit × Rid :=
  match fetch_page_handle fh rid_.page_no with
  | .error e => (.error e, rid_)
  | .ok page_handle =>
    let slot_no := Bitmap.next_bit true page_handle.page.bitmap
      fh.file_hdr_.num_records_per_page rid_.slot_no
    if slot_no < fh.file_hdr_.num_records_per_page then
      (.ok (), { page_no := rid_.page_no, slot_no := slot_no })
    else if rid_.page_no + 1 ≥ fh.file_hdr_.num_pages then
      (.ok (), { page_no := RM_NO_PAGE, slot_no := -1 })
    else
      match steps with
      | 0 => (.ok (), { page_no := RM_NO_PAGE, slot_no := -1 })
      | steps + 1 => RmScan.next_loop fh steps { page_no := rid_.page_no + 1, slot_no := -1 }

/-- The method `RmScan::next`. -/
def RmScan.next (scan : RmScan) : Except Error Unit × RmScan :=
  ((RmScan.next_loop scan.file_handle_
      (scan.file_handle_.file_hdr_.num_pages - scan.rid_.page_no).toNat scan.rid_).1,
   { scan with
     rid_ := (RmScan.next_loop scan.file_handle_
      (scan.file_handle_.file_hdr_.num_pages - scan.rid_.page_no).toNat scan.rid_).2 })

/-- The constructor `RmScan::RmScan`: the cursor is set before the first record page and
`next()` is called; an exception thrown by `next()` leaves the constructor. -/
def RmScan.new (file_handle : RmFileHandle) : Except Error RmScan :=
  match RmScan.next
      { file_handle_ := file_handle,
        rid_ := { page_no := RM_FIRST_RECORD_PAGE, slot_no := -1 } } with
  | (.error e, _) => .error e
  | (.ok _, scan) => .ok scan

/-- The method `RmScan::is_end`. -/
def RmScan.is_end (scan : RmScan) : Bool :=
  scan.rid_.page_no == RM_NO_PAGE

/-- The method `RmScan::rid`. -/
def RmScan.rid (scan : RmScan) : Rid :=
  scan.rid_

/-- The rids that the caller's loop `for (; !scan.is_end(); scan.next()) use(scan.rid())`
visits, within `steps` turns of the loop; `none` when `steps` turns do not reach the
end. -/
def RmScan.rids (steps : Nat) (scan : RmScan) : Option (Except Error (List Rid)) :=
  match steps with
  | 0 => none
  | steps + 1 =>
    if scan.is_end then some (.ok [])
    else
      match scan.next with
      | (.error e, _) => some (.error e)
      | (.ok _, scan') =>
        match RmScan.rids steps scan' with
        | none => none
        | some (.error e) => some (.error e)
        | some (.ok rest) => some (.ok (scan.rid :: rest))

/-- The order on rids: by page number, then by slot number. -/
def Rid.lt (a b : Rid) : Prop :=
  a.page_no < b.page_no ∨ (a.page_no = b.page_no ∧ a.slot_no < b.slot_no)

instance (a b : Rid) : Decidable (Rid.lt a b) := by
  unfold Rid.lt
  infer_instance

/-- The positions `i, i + 1, ..., max_n - 1` whose bit is set, in increasing order;
`steps` is the number of positions from `i` to `max_n`. -/
def Bitmap.set_bits (bm : List Bool) (max_n : Int) (steps : Nat) (i : Int) : List Int :=
  match steps with
  | 0 => []
  | steps + 1 =>
    if i < max_n then
      if Bitmap.is_set bm i then i :: Bitmap.set_bits bm max_n steps (i + 1)
      else Bitmap.set_bits bm max_n steps (i + 1)
    else []

/-- The positions after `curr` and below `max_n` whose bit is set, in increasing order. -/
def Bitmap.set_bits_after (bm : List Bool) (max_n : Int) (curr : Int) : List Int :=
  Bitmap.set_bits bm max_n (max_n - (curr + 1)).toNat (curr + 1)

/-- The rids of page `page_no` after slot `curr` whose bit is set, in increasing order. -/
def RmFileHandle.occupied_after (fh : RmFileHandle) (page_no : Int) (curr : Int) : List Rid :=
  match fh.pages[page_no.toNat]? with
  | none => []
  | some page =>
    (Bitmap.set_bits_after page.bitmap fh.file_hdr_.num_records_per_page curr).map
      (fun s => { page_no := page_no, slot_no := s })

/-- The occupied rids of the pages `page_no, ..., num_pages - 1`, in increasing order;
`steps` is the number of these pages. -/
def RmFileHandle.occupied_from (fh : RmFileHandle) (steps : Nat) (page_no : Int) : List Rid :=
  match steps with
  | 0 => []
  | steps + 1 =>
    if page_no < fh.file_hdr_.num_pages then
      fh.occupied_after page_no (-1) ++ fh.occupied_from steps (page_no + 1)
    else []

/-- The occupied rids of the data pages, in increasing order. -/
def RmFileHandle.occupied_rids (fh : RmFileHandle) : List Rid :=
  fh.occupied_from (fh.file_hdr_.num_pages - 1).toNat 1

/-! ## Sequential scan operator -/

/-- Modelled from the spec: the column types `{INT, FLOAT, STRING}` (`ColType` of
`defs.h`, which is not among the sources). -/
inductive ColType where
  | TYPE_INT
  | TYPE_FLOAT
  | TYPE_STRING
  deriving DecidableEq, Repr

/-- Modelled from the spec: a column reference (`TabCol` of `common.h`, which is not
among the sources). -/
structure TabCol where
  tab_name : String
  col_name : String
  deriving DecidableEq, Repr

/-- Modelled from the spec: a typed literal (`Value` of `common.h`); `raw` is the record
that holds its bytes. -/
structure Value where
  type : ColType
  raw : RmRecord
  deriving DecidableEq, Repr

/-- Modelled from the spec: the comparison operator of a condition (`CompOp` of
`common.h`). The six relational operators, and `other` for any further value that the
C++ enumeration variable can hold. -/
inductive CompOp where
  | OP_EQ
  | OP_NE
  | OP_LT
  | OP_GT
  | OP_LE
  | OP_GE
  | other (code : Nat)
  deriving DecidableEq, Repr

/-- Modelled from the spec: `Condition` of `common.h`, "`(lhs_col, op, rhs)` where `rhs`
is either a column ref or a typed literal"; the fields are those the executor reads. -/
structure Condition where
  lhs_col : TabCol
  op : CompOp
  is_rhs_val : Bool
  rhs_col : TabCol
  rhs_val : Value
  deriving DecidableEq, Repr

/-- Modelled from the spec: `ColMeta` of `sm_meta.h`, "name, type, len, offset within
tuple". -/
structure ColMeta where
  tab_name : String
  name : String
  type : ColType
  len : Int
  offset : Int
  deriving DecidableEq, Repr

/-- Modelled from the spec: `get_col` of `executor_abstract.h` ("locate `lhs_col` offset
and length"): the first column with the table and column name of `target`;
`ColumnNotFoundError` when there is none. -/
def get_col (rec_cols : List ColMeta) (target : TabCol) : Except Error ColMeta :=
  match rec_cols.find?
      (fun col => col.tab_name == target.tab_name && col.name == target.col_name) with
  | some col => .ok col
  | none => .error .ColumnNotFoundError

/-- The type of `ix_compare(a, b, type, col_len)` of `index/ix_defs.h`, which is not among
the sources: the executor is modelled over an arbitrary comparison function. The pointers
`a` and `b` are the bytes from the pointed position on. -/
abbrev IxCompare := List Byte → List Byte → ColType → Int → Int

/-- The class `SeqScanExecutor`: the fields that `beginTuple` and `nextTuple` use.
`scan_` is `none` while the `unique_ptr` is null. The scan holds the file of `fh_`,
which the executor never writes. -/
structure SeqScanExecutor where
  fh_ : RmFileHandle
  cols_ : List ColMeta
  fed_conds_ : List Condition
  context_ : Option Context
  rid_ : Rid
  scan_ : Option RmScan

/-- The body of the loop `for (auto &cond : fed_conds_)` up to the call of `ix_compare`:
the value `cmp`, or the exception of `get_col`. -/
def SeqScanExecutor.compare (ix_compare : IxCompare) (cols_ : List ColMeta) (record : RmRecord)
    (cond : Condition) : Except Error Int :=
  match get_col cols_ cond.lhs_col with
  | .error e => .error e
  | .ok lhs_col_meta =>
    let lhs_data := record.data.drop lhs_col_meta.offset.toNat
    if cond.is_rhs_val then
      .ok (ix_compare lhs_data cond.rhs_val.raw.data cond.rhs_val.type lhs_col_meta.len)
    else
      match get_col cols_ cond.rhs_col with
      | .error e => .error e
      | .ok rhs_col_meta =>
        .ok (ix_compare lhs_data (record.data.drop rhs_col_meta.offset.toNat) rhs_col_meta.type
          lhs_col_meta.len)

/-- The chain `if (cond.op == OP_EQ) ... else throw InternalError(...)`: `true` when the
branch sets `flag = true`, `false` when it sets `flag = false` and leaves the loop. -/
def SeqScanExecutor.check_op (op : CompOp) (cmp : Int) : Except Error Bool :=
  match op with
  | .OP_EQ => .ok (decide (cmp = 0))
  | .OP_NE => .ok (decide (cmp ≠ 0))
  | .OP_LT => .ok (decide (cmp < 0))
  | .OP_GT => .ok (decide (cmp > 0))
  | .OP_LE => .ok (decide (cmp ≤ 0))
  | .OP_GE => .ok (decide (cmp ≥ 0))
  | .other _ => .error .InternalError

/-- The loop `for (auto &cond : fed_conds_)`, entered with the current value of `flag`;
the result is the value of `flag` after the loop. -/
def SeqScanExecutor.for_conds (ix_compare : IxCompare) (cols_ : List ColMeta) (record : RmRecord)
    (flag : Bool) : List Condition → Except Error Bool
  | [] => .ok flag
  | cond :: rest =>
    match SeqScanExecutor.compare ix_compare cols_ record cond with
    | .error e => .error e
    | .ok cmp =>
      match SeqScanExecutor.check_op cond.op cmp with
      | .error e => .error e
      | .ok true => SeqScanExecutor.for_conds ix_compare cols_ record true rest
      | .ok false => .ok false

/-- The computation of `flag` for one record: `bool flag = false; if (fed_conds_.size()
== 0) flag = true; else for (...)`. -/
def SeqScanExecutor.eval_conds (ix_compare : IxCompare) (cols_ : List ColMeta)
    (fed_conds_ : List Condition) (record : RmRecord) : Except Error Bool :=
  if fed_conds_.length = 0 then .ok true
  else SeqScanExecutor.for_conds ix_compare cols_ record false fed_conds_

/-- The loop `while (!scan_->is_end())` shared by `beginTuple` and `nextTuple`, entered
with the scan `scan`. Each turn that does not leave the loop advances the scan; `none`
when `steps` turns do not leave the loop. -/
def SeqScanExecutor.seek (ix_compare : IxCompare) (steps : Nat) (ex : SeqScanExecutor)
    (scan : RmScan) : Option (Except Error Unit × SeqScanExecutor) :=
  match steps with
  | 0 => none
  | steps + 1 =>
    if scan.is_end then some (.ok (), { ex with scan_ := some scan })
    else
      match (get_record ex.fh_ scan.rid ex.context_).result with
      | .error e =>
        some (.error e,
          { ex with
            rid_ := scan.rid, scan_ := some scan,
            context_ := (get_record ex.fh_ scan.rid ex.context_).context })
      | .ok record =>
        match SeqScanExecutor.eval_conds ix_compare ex.cols_ ex.fed_conds_ record with
        | .error e =>
          some (.error e,
            { ex with
              rid_ := scan.rid, scan_ := some scan,
              context_ := (get_record ex.fh_ scan.rid ex.context_).context })
        | .ok true =>
          some (.ok (),
            { ex with
              rid_ := scan.rid, scan_ := some scan,
              context_ := (get_record ex.fh_ scan.rid ex.context_).context })
        | .ok false =>
          match scan.next with
          | (.error e, scan') =>
            some (.error e,
              { ex with
                rid_ := scan.rid, scan_ := some scan',
                context_ := (get_record ex.fh_ scan.rid ex.context_).context })
          | (.ok _, scan') =>
            SeqScanExecutor.seek ix_compare steps
              { ex with
                rid_ := scan.rid,
                context_ := (get_record ex.fh_ scan.rid ex.context_).context }
              scan'

/-- The method `SeqScanExecutor::beginTuple`. An exception of the `RmScan` constructor
leaves `scan_` as it was. -/
def SeqScanExecutor.beginTuple (ix_compare : IxCompare) (steps : Nat) (ex : SeqScanExecutor) :
    Option (Except Error Unit × SeqScanExecutor) :=
  match RmScan.new ex.fh_ with
  | .error e => some (.error e, ex)
  | .ok scan => SeqScanExecutor.seek ix_compare steps ex scan

/-- The method `SeqScanExecutor::nextTuple`. Calling it while `scan_` is null is
undefined behaviour in the C++ (`MemoryFault`). -/
def SeqScanExecutor.nextTuple (ix_compare : IxCompare) (steps : Nat) (ex : SeqScanExecutor) :
    Option (Except Error Unit × SeqScanExecutor) :=
  match ex.scan_ with
  | none => some (.error .MemoryFault, ex)
  | some scan =>
    match scan.next with
    | (.error e, scan') => some (.error e, { ex with scan_ := some scan' })
    | (.ok _, scan') => SeqScanExecutor.seek ix_compare steps ex scan'

/-- The method `SeqScanExecutor::is_end`; it is called after `beginTuple`, when `scan_`
is not null (for a null `scan_`, undefined behaviour in the C++, the model answers
`true`). -/
def SeqScanExecutor.is_end (ex : SeqScanExecutor) : Bool :=
  match ex.scan_ with
  | some scan => scan.is_end
  | none => true

/-- The method `SeqScanExecutor::rid`. -/
def SeqScanExecutor.rid (ex : SeqScanExecutor) : Rid :=
  ex.rid_

/-- The rids at which the executor stops in the part
`for (; !ex.is_end(); ex.nextTuple()) use(ex.rid())` of the caller's loop, within `steps`
turns; `none` when `steps` turns do not reach the end. -/
def SeqScanExecutor.stops_from (ix_compare : IxCompare) (steps : Nat) (ex : SeqScanExecutor) :
    Option (Except Error (List Rid)) :=
  match steps with
  | 0 => none
  | steps + 1 =>
    if ex.is_end then some (.ok [])
    else
      match SeqScanExecutor.nextTuple ix_compare steps ex with
      | none => none
      | some (.error e, _) => some (.error e)
      | some (.ok _, ex') =>
        match SeqScanExecutor.stops_from ix_compare steps ex' with
        | none => none
        | some (.error e) => some (.error e)
        | some (.ok rest) => some (.ok (ex.rid :: rest))

/-- The rids at which the executor stops in the caller's loop
`for (ex.beginTuple(); !ex.is_end(); ex.nextTuple()) use(ex.rid())`; `none` when `steps`
turns of a loop do not reach its end. -/
def SeqScanExecutor.stops (ix_compare : IxCompare) (steps : Nat) (ex : SeqScanExecutor) :
    Option (Except Error (List Rid)) :=
  match SeqScanExecutor.beginTuple ix_compare steps ex with
  | none => none
  | some (.error e, _) => some (.error e)
  | some (.ok _, ex') => SeqScanExecutor.stops_from ix_compare steps ex'

/-- Whether the operator is one of the six relational operators. -/
def CompOp.is_relational (op : CompOp) : Bool :=
  match op with
  | .other _ => false
  | _ => true

/-- Whether the comparison result `cmp` is the one the relational operator asks for
(spec §4.3.1). -/
def CompOp.holds (op : CompOp) (cmp : Int) : Bool :=
  match op with
  | .OP_EQ => cmp == 0
  | .OP_NE => cmp != 0
  | .OP_LT => cmp < 0
  | .OP_GT => cmp > 0
  | .OP_LE => cmp ≤ 0
  | .OP_GE => cmp ≥ 0
  | .other _ => false

/-- Whether the columns that the condition names are columns of the table. -/
def Condition.resolves (cols : List ColMeta) (cond : Condition) : Bool :=
  (cols.any
    (fun col => col.tab_name == cond.lhs_col.tab_name && col.name == cond.lhs_col.col_name))
  && (cond.is_rhs_val ||
    cols.any
      (fun col => col.tab_name == cond.rhs_col.tab_name && col.name == cond.rhs_col.col_name))

/-- The predicate of spec §4.3.1 for one condition and the tuple `data`: locate the
left column, resolve the right-hand side (a literal or a column of the tuple), compare,
and test the result against the operator. -/
def Condition.holds (ix_compare : IxCompare) (cols : List ColMeta) (data : List Byte)
    (cond : Condition) : Bool :=
  match cols.find?
      (fun col => col.tab_name == cond.lhs_col.tab_name && col.name == cond.lhs_col.col_name) with
  | none => false
  | some lhs =>
    if cond.is_rhs_val then
      cond.op.holds (ix_compare (data.drop lhs.offset.toNat) cond.rhs_val.raw.data
        cond.rhs_val.type lhs.len)
    else
      match cols.find?
          (fun col => col.tab_name == cond.rhs_col.tab_name && col.name == cond.rhs_col.col_name) with
      | none => false
      | some rhs =>
        cond.op.holds (ix_compare (data.drop lhs.offset.toNat) (data.drop rhs.offset.toNat)
          rhs.type lhs.len)

/-- The bytes stored in the slot `rid` of the file (empty when the slot does not
exist). -/
def RmFileHandle.stored (fh : RmFileHandle) (rid : Rid) : List Byte :=
  match fh.pages[rid.page_no.toNat]? with
  | some page => (page.slots.getD rid.slot_no.toNat []).take fh.file_hdr_.record_size
  | none => []

/-- The record stored at `rid` satisfies every condition of the list (logical AND;
an empty list is vacuously true). -/
def RmFileHandle.satisfies (ix_compare : IxCompare) (cols : List ColMeta)
    (conds : List Condition) (fh : RmFileHandle) (rid : Rid) : Bool :=
  conds.all (Condition.holds ix_compare cols (fh.stored rid))

/-- The scan `scan` has exactly the rids `todo` still to visit, its cursor included: the
caller's loop visits them, whatever number of turns (more than their number) it is
given. -/
def RmScan.Visits (scan : RmScan) (todo : List Rid) : Prop :=
  ∀ steps, todo.length < steps → RmScan.rids steps scan = some (.ok todo)

/-! ## Concrete states for the scan and the sequential scan operator -/

/-- The system after one `begin(nullptr)`. -/
def exBegun : TransactionManager :=
  (TransactionManager.init (exSm exFile)).step .begin_new

/-- The transaction with id 0 in `exBegun`. -/
def exFresh : Transaction :=
  { txn_id_ := 0, state_ := .GROWING, start_ts_ := 0, write_set_ := [], lock_set_ := [] }

/-- A table file of 2-byte records `(a, b)`, four slots per page, with one data page:
slots 0, 1 and 2 hold `(1, 5)`, `(2, 6)` and `(3, 6)`, slot 3 is vacant; the page heads
the free list. -/
def exTable : RmFileHandle :=
  { fd_ := 4,
    file_hdr_ :=
      { record_size := 2, num_pages := 2, num_records_per_page := 4, first_free_page_no := 1,
        bitmap_size := 1 },
    pages :=
      [exHeaderPage,
       { page_hdr := { next_free_page_no := RM_NO_PAGE, num_records := 3 },
         bitmap := [true, true, true, false, false, false, false, false],
         slots := [[1, 5], [2, 6], [3, 6], [0, 0]] }] }

/-- The columns `t.a` (byte 0) and `t.b` (byte 1) of `exTable`. -/
def exCols : List ColMeta :=
  [{ tab_name := "t", name := "a", type := .TYPE_STRING, len := 1, offset := 0 },
   { tab_name := "t", name := "b", type := .TYPE_STRING, len := 1, offset := 1 }]

/-- The condition list `t.b = 6 AND t.a <= t.b`. -/
def exConds : List Condition :=
  [{ lhs_col := { tab_name := "t", col_name := "b" }, op := .OP_EQ, is_rhs_val := true,
     rhs_col := { tab_name := "", col_name := "" },
     rhs_val := { type := .TYPE_STRING, raw := { size := 1, data := [6] } } },
   { lhs_col := { tab_name := "t", col_name := "a" }, op := .OP_LE, is_rhs_val := false,
     rhs_col := { tab_name := "t", col_name := "b" },
     rhs_val := { type := .TYPE_STRING, raw := { size := 0, data := [] } } }]

/-- A comparison function for one-byte columns: the difference of the first bytes. -/
def exCompare : IxCompare :=
  fun a b _ _ => (a.headD 0 : Int) - (b.headD 0 : Int)

/-- A sequential scan of `exTable` under `exConds`, before `beginTuple`. -/
def exExecutor : SeqScanExecutor :=
  { fh_ := exTable, cols_ := exCols, fed_conds_ := exConds, context_ := none,
    rid_ := { page_no := 0, slot_no := 0 }, scan_ := none }

/-! ## Commit and abort called twice -/

/-- The write records that `commit` frees, in the loop
`for (auto &write_record : *write_set) delete write_record;` that runs when the write set
is not empty. -/
def commit_frees (txn : Transaction) : List WriteRecord :=
  if txn.write_set_ ≠ [] then txn.write_set_ else []

/-! ## Operators over a child operator: projection and nested-loop join -/

/-- The call `memcpy(dst + dst_off, src + src_off, n)` on two byte buffers, returning the
destination buffer after the copy. A copy that reads or writes outside its buffer
(undefined behaviour in the C++) is reported as `MemoryFault`. -/
def memcpy (dst : List Byte) (dst_off : Int) (src : List Byte) (src_off : Int) (n : Int) :
    Except Error (List Byte) :=
  if 0 ≤ n ∧ 0 ≤ dst_off ∧ dst_off + n ≤ dst.length ∧ 0 ≤ src_off ∧ src_off + n ≤ src.length then
    .ok (dst.take dst_off.toNat ++ (src.drop src_off.toNat).take n.toNat ++
      dst.drop (dst_off + n).toNat)
  else .error .MemoryFault

/-- Modelled from the spec: a child operator behind the interface `AbstractExecutor`
(`executor_abstract.h` is not among the sources), spec §4.3: `begin`, `next`, `current`,
`is_end`, `cols`, `tuple_len`. The child is given by the sequence of tuples it produces
and a cursor into it; `beginTuple` restarts the sequence. -/
structure AbstractExecutor where
  cols_ : List ColMeta
  len_ : Int
  tuples : List RmRecord
  cursor : Nat
  deriving DecidableEq, Repr

/-- Modelled from the spec: `beginTuple()` of a child, "positions the cursor on the first
tuple". -/
def AbstractExecutor.beginTuple (ex : AbstractExecutor) : AbstractExecutor :=
  { ex with cursor := 0 }

/-- Modelled from the spec: `nextTuple()` of a child, "advances past the current
tuple". -/
def AbstractExecutor.nextTuple (ex : AbstractExecutor) : AbstractExecutor :=
  { ex with cursor := ex.cursor + 1 }

/-- Modelled from the spec: `is_end()` of a child. -/
def AbstractExecutor.is_end (ex : AbstractExecutor) : Bool :=
  decide (ex.tuples.length ≤ ex.cursor)

/-- Modelled from the spec: `Next()` of a child, "returns the tuple at the current
cursor". At the end of the sequence there is no such tuple and the call is outside the
interface; the model reports it as `OutOfRange`. -/
def AbstractExecutor.Next (ex : AbstractExecutor) : Except Error RmRecord :=
  match ex.tuples[ex.cursor]? with
  | some record => .ok record
  | none => .error .OutOfRange

/-- The class `ProjectionExecutor`. -/
structure ProjectionExecutor where
  prev_ : AbstractExecutor
  cols_ : List ColMeta
  len_ : Int
  sel_idxs_ : List Nat
  deriving DecidableEq, Repr

/-- The loop `for (auto &sel_col : sel_cols)` of the constructor of `ProjectionExecutor`,
entered with the projected columns, the indexes and the offset accumulated so far;
`pos - prev_cols.begin()` is the position of the first column with the names of
`sel_col`. -/
def ProjectionExecutor.select (prev_cols : List ColMeta) (sel_cols : List TabCol)
    (cols_ : List ColMeta) (sel_idxs_ : List Nat) (curr_offset : Int) :
    Except Error (List ColMeta × List Nat × Int) :=
  match sel_cols with
  | [] => .ok (cols_, sel_idxs_, curr_offset)
  | sel_col :: rest =>
    match get_col prev_cols sel_col with
    | .error e => .error e
    | .ok col =>
      ProjectionExecutor.select prev_cols rest
        (cols_ ++ [{ col with offset := curr_offset }])
        (sel_idxs_ ++
          [prev_cols.findIdx
            (fun c => c.tab_name == sel_col.tab_name && c.name == sel_col.col_name)])
        (curr_offset + col.len)

/-- The constructor `ProjectionExecutor(prev, sel_cols)`. -/
def ProjectionExecutor.new (prev : AbstractExecutor) (sel_cols : List TabCol) :
    Except Error ProjectionExecutor :=
  match ProjectionExecutor.select prev.cols_ sel_cols [] [] 0 with
  | .error e => .error e
  | .ok (cols_, sel_idxs_, curr_offset) =>
    .ok { prev_ := prev, cols_ := cols_, len_ := curr_offset, sel_idxs_ := sel_idxs_ }

/-- The body of the loop of `ProjectionExecutor::Next` for one `project_idx`: the three
`at` calls (which throw `std::out_of_range`) and the `memcpy` into the projected
record. -/
def ProjectionExecutor.copy_col (ex : ProjectionExecutor) (prev_record : RmRecord)
    (project_record : List Byte) (project_idx : Nat) : Except Error (List Byte) :=
  match ex.cols_[project_idx]? with
  | none => .error .OutOfRange
  | some project_col =>
    match ex.sel_idxs_[project_idx]? with
    | none => .error .OutOfRange
    | some sel_idx =>
      match ex.prev_.cols_[sel_idx]? with
      | none => .error .OutOfRange
      | some prev_col =>
        memcpy project_record project_col.offset prev_record.data prev_col.offset prev_col.len

/-- The loop `for (project_idx = 0; project_idx < cols_.size(); project_idx++)` of
`ProjectionExecutor::Next`, entered at `project_idx` with `steps` turns to go. -/
def ProjectionExecutor.copy_loop (ex : ProjectionExecutor) (prev_record : RmRecord)
    (steps : Nat) (project_idx : Nat) (project_record : List Byte) :
    Except Error (List Byte) :=
  match steps with
  | 0 => .ok project_record
  | steps + 1 =>
    match ex.copy_col prev_record project_record project_idx with
    | .error e => .error e
    | .ok project_record =>
      ProjectionExecutor.copy_loop ex prev_record steps (project_idx + 1) project_record

/-- The method `ProjectionExecutor::Next`. The bytes of the record allocated by
`std::make_unique<RmRecord>(len_)` are not initialised in the C++; they are 0 here. -/
def ProjectionExecutor.Next (ex : ProjectionExecutor) : Except Error RmRecord :=
  match ex.prev_.Next with
  | .error e => .error e
  | .ok prev_record =>
    match ex.copy_loop prev_record ex.cols_.length 0 (List.replicate ex.len_.toNat 0) with
    | .error e => .error e
    | .ok data => .ok { size := ex.len_.toNat, data := data }

/-- The methods `beginTuple`, `nextTuple` and `is_end` of `ProjectionExecutor` pass the
call to the child. -/
def ProjectionExecutor.beginTuple (ex : ProjectionExecutor) : ProjectionExecutor :=
  { ex with prev_ := ex.prev_.beginTuple }

/-- See `ProjectionExecutor.beginTuple`. -/
def ProjectionExecutor.nextTuple (ex : ProjectionExecutor) : ProjectionExecutor :=
  { ex with prev_ := ex.prev_.nextTuple }

/-- See `ProjectionExecutor.beginTuple`. -/
def ProjectionExecutor.is_end (ex : ProjectionExecutor) : Bool :=
  ex.prev_.is_end

/-- Whether the child has a column with the names of `target`. -/
def TabCol.found_in (cols : List ColMeta) (target : TabCol) : Bool :=
  cols.any (fun col => col.tab_name == target.tab_name && col.name == target.col_name)

/-- The columns of the child that a list of column references selects, in selection
order. -/
def selected_cols (prev_cols : List ColMeta) (sel_cols : List TabCol) : List ColMeta :=
  sel_cols.filterMap
    (fun target =>
      prev_cols.find? (fun col => col.tab_name == target.tab_name && col.name == target.col_name))

/-- The bytes `[col.offset, col.offset + col.len)` of a tuple. -/
def ColMeta.slice (col : ColMeta) (data : List Byte) : List Byte :=
  (data.drop col.offset.toNat).take col.len.toNat

/-- The bytes of the column lie in a tuple of `size` bytes. -/
def ColMeta.within (col : ColMeta) (size : Nat) : Prop :=
  0 ≤ col.offset ∧ 0 ≤ col.len ∧ col.offset + col.len ≤ size

instance (col : ColMeta) (size : Nat) : Decidable (col.within size) := by
  unfold ColMeta.within
  infer_instance

/-- The columns `cols` laid out one after the other from offset `start`: each keeps its
name, type and length and gets as offset the sum of the lengths before it. -/
def dense_layout (cols : List ColMeta) (start : Int) : List ColMeta :=
  match cols with
  | [] => []
  | col :: rest => { col with offset := start } :: dense_layout rest (start + col.len)

/-! ## Update and delete operators -/

/-- Modelled from the spec: `IndexMeta` of `sm_meta.h`, "ordered list of `ColMeta`,
`col_tot_len`"; `col_num` is the number of columns the executors loop over. -/
structure IndexMeta where
  tab_name : String
  col_tot_len : Int
  col_num : Nat
  cols : List ColMeta
  deriving DecidableEq, Repr

/-- Modelled from the spec: `TabMeta` of `sm_meta.h`: the columns and the indexes of a
table. -/
structure TabMeta where
  name : String
  cols : List ColMeta
  indexes : List IndexMeta
  deriving DecidableEq, Repr

/-- Modelled from the spec: `TabMeta::get_col(col_name)`, the column of the table with
that name; `ColumnNotFoundError` when there is none. -/
def TabMeta.get_col (tab : TabMeta) (col_name : String) : Except Error ColMeta :=
  match tab.cols.find? (fun col => col.name == col_name) with
  | some col => .ok col
  | none => .error .ColumnNotFoundError

/-- Modelled from the spec: `SetClause` of `common.h`, `(col_name, literal)`. -/
structure SetClause where
  lhs : TabCol
  rhs : Value
  deriving DecidableEq, Repr

/-- A call made to an index handle. The index handles (`IxIndexHandle`, reached through
`sm_manager_->ihs_`) are external collaborators: the model keeps the calls made to them,
in order, and takes every index of the catalog to have its handle. -/
inductive IxCall where
  | delete_entry (index : IndexMeta) (key : List Byte)
  | insert_entry (index : IndexMeta) (key : List Byte) (rid : Rid)
  deriving DecidableEq, Repr

/-- The call `txn->append_write_record(write_record)`. -/
def Transaction.append_write_record (txn : Transaction) (write_record : WriteRecord) :
    Transaction :=
  { txn with write_set_ := txn.write_set_ ++ [write_record] }

/-- The loop `for (size_t j = 0; j < index.col_num; ++j)` that fills `key` from the
record, entered at `j` with `steps` turns to go; `index.cols[j]` outside the vector is
undefined behaviour in the C++ (`MemoryFault`). -/
def build_key_loop (index : IndexMeta) (data : List Byte) (steps : Nat) (j : Nat)
    (key : List Byte) (offset : Int) : Except Error (List Byte) :=
  match steps with
  | 0 => .ok key
  | steps + 1 =>
    match index.cols[j]? with
    | none => .error .MemoryFault
    | some col =>
      match memcpy key offset data col.offset col.len with
      | .error e => .error e
      | .ok key => build_key_loop index data steps (j + 1) key (offset + col.len)

/-- The key of a record for an index: `char *key = new char[index.col_tot_len]` (bytes 0
here) filled by the loop over the index columns. -/
def build_key (index : IndexMeta) (data : List Byte) : Except Error (List Byte) :=
  build_key_loop index data index.col_num 0 (List.replicate index.col_tot_len.toNat 0) 0

/-- The class `UpdateExecutor`: the fields that `Next` uses. `fh_` is the state of the
record file of the table, `ix_calls_` the calls made to the index handles so far. -/
structure UpdateExecutor where
  tab_ : TabMeta
  fh_ : RmFileHandle
  rids_ : List Rid
  tab_name_ : String
  set_clauses_ : List SetClause
  context_ : Option Context
  ix_calls_ : List IxCall

/-- The loop `for (auto& set_clause : set_clauses_)` of `UpdateExecutor::Next` on the
bytes of the fetched record. -/
def UpdateExecutor.apply_set_clauses (tab_ : TabMeta) (data : List Byte) :
    List SetClause → Except Error (List Byte)
  | [] => .ok data
  | set_clause :: rest =>
    match tab_.get_col set_clause.lhs.col_name with
    | .error e => .error e
    | .ok lhs_col =>
      match memcpy data lhs_col.offset set_clause.rhs.raw.data 0 lhs_col.len with
      | .error e => .error e
      | .ok data => UpdateExecutor.apply_set_clauses tab_ data rest

/-- The loop over `tab_.indexes` of `UpdateExecutor::Next`: for each index the key is
built from the record as it is after the set clauses, and `delete_entry(key)` then
`insert_entry(key, rid)` are called. `context_->txn_` on a null context is undefined
behaviour in the C++ (`MemoryFault`). -/
def UpdateExecutor.update_indexes (data : List Byte) (rid : Rid) (context : Option Context) :
    List IndexMeta → List IxCall → Except Error Unit × List IxCall
  | [], ix_calls => (.ok (), ix_calls)
  | index :: rest, ix_calls =>
    match build_key index data with
    | .error e => (.error e, ix_calls)
    | .ok key =>
      match context with
      | none => (.error .MemoryFault, ix_calls)
      | some _ =>
        UpdateExecutor.update_indexes data rid context rest
          (ix_calls ++ [.delete_entry index key, .insert_entry index key rid])

/-- The body of the loop `for (auto &rid : rids_)` of `UpdateExecutor::Next`. -/
def UpdateExecutor.update_one (ex : UpdateExecutor) (rid : Rid) :
    Except Error Unit × UpdateExecutor :=
  match (get_record ex.fh_ rid ex.context_).result with
  | .error e => (.error e, { ex with context_ := (get_record ex.fh_ rid ex.context_).context })
  | .ok record =>
    match UpdateExecutor.apply_set_clauses ex.tab_ record.data ex.set_clauses_ with
    | .error e =>
      (.error e, { ex with context_ := (get_record ex.fh_ rid ex.context_).context })
    | .ok data =>
      let updated := update_record ex.fh_ rid data (get_record ex.fh_ rid ex.context_).context
      match updated.result with
      | .error e => (.error e, { ex with fh_ := updated.file, context_ := updated.context })
      | .ok _ =>
        ((UpdateExecutor.update_indexes data rid updated.context ex.tab_.indexes
            ex.ix_calls_).1,
         { ex with
           fh_ := updated.file, context_ := updated.context,
           ix_calls_ := (UpdateExecutor.update_indexes data rid updated.context ex.tab_.indexes
            ex.ix_calls_).2 })

/-- The loop `for (auto &rid : rids_)` of `UpdateExecutor::Next` over the given rids; an
exception leaves the loop. -/
def UpdateExecutor.update_all (rids : List Rid) (ex : UpdateExecutor) :
    Except Error Unit × UpdateExecutor :=
  match rids with
  | [] => (.ok (), ex)
  | rid :: rest =>
    match ex.update_one rid with
    | (.error e, ex) => (.error e, ex)
    | (.ok _, ex) => UpdateExecutor.update_all rest ex

/-- The method `UpdateExecutor::Next`. -/
def UpdateExecutor.Next (ex : UpdateExecutor) : Except Error Unit × UpdateExecutor :=
  UpdateExecutor.update_all ex.rids_ ex

/-- The class `DeleteExecutor`: the fields that `Next` uses. `fh_` is the state of the
record file of the table, `ix_calls_` the calls made to the index handles so far. -/
structure DeleteExecutor where
  tab_ : TabMeta
  fh_ : RmFileHandle
  rids_ : List Rid
  tab_name_ : String
  context_ : Option Context
  ix_calls_ : List IxCall

/-- The constructor of `DeleteExecutor`. `tab` is what the catalog call
`db_.get_table(tab_name)` returns (the catalog is an external collaborator);
`fhs_.at(tab_name)` throws `std::out_of_range` for a table without file. With a context
the constructor takes `IX` on the table, and an exception of the lock manager leaves
it. -/
def DeleteExecutor.new (sm_manager : SmManager) (tab : TabMeta) (tab_name : String)
    (rids : List Rid) (context : Option Context) : Except Error DeleteExecutor :=
  match sm_manager.fhs_ tab_name with
  | none => .error .OutOfRange
  | some fh =>
    match context with
    | none =>
      .ok { tab_ := tab, fh_ := fh, rids_ := rids, tab_name_ := tab_name, context_ := none,
            ix_calls_ := [] }
    | some c =>
      match (lock_IX_on_table c.txn_ fh.fd_ c.lock_mgr_).result with
      | .error e => .error e
      | .ok _ =>
        .ok { tab_ := tab, fh_ := fh, rids_ := rids, tab_name_ := tab_name,
              context_ := some
                { lock_mgr_ := (lock_IX_on_table c.txn_ fh.fd_ c.lock_mgr_).lock_table_,
                  txn_ := (lock_IX_on_table c.txn_ fh.fd_ c.lock_mgr_).txn },
              ix_calls_ := [] }

/-- The loop over `tab_.indexes` of `DeleteExecutor::Next`: for each index the key is
built from the fetched record and `delete_entry(key)` is called. `context_->txn_` on a
null context is undefined behaviour in the C++ (`MemoryFault`). -/
def DeleteExecutor.delete_indexes (data : List Byte) (context : Option Context) :
    List IndexMeta → List IxCall → Except Error Unit × List IxCall
  | [], ix_calls => (.ok (), ix_calls)
  | index :: rest, ix_calls =>
    match build_key index data with
    | .error e => (.error e, ix_calls)
    | .ok key =>
      match context with
      | none => (.error .MemoryFault, ix_calls)
      | some _ =>
        DeleteExecutor.delete_indexes data context rest (ix_calls ++ [.delete_entry index key])

/-- The body of the loop `for (auto &rid : rids_)` of `DeleteExecutor::Next`. The write
record is appended through `context_->txn_`: on a null context this is undefined
behaviour in the C++ (`MemoryFault`), after the record has been deleted. -/
def DeleteExecutor.delete_one (ex : DeleteExecutor) (rid : Rid) :
    Except Error Unit × DeleteExecutor :=
  match (get_record ex.fh_ rid ex.context_).result with
  | .error e => (.error e, { ex with context_ := (get_record ex.fh_ rid ex.context_).context })
  | .ok record =>
    let fetched := (get_record ex.fh_ rid ex.context_).context
    let indexed := DeleteExecutor.delete_indexes record.data fetched ex.tab_.indexes ex.ix_calls_
    match indexed.1 with
    | .error e => (.error e, { ex with context_ := fetched, ix_calls_ := indexed.2 })
    | .ok _ =>
      let deleted := delete_record ex.fh_ rid fetched
      match deleted.result with
      | .error e =>
        (.error e,
         { ex with fh_ := deleted.file, context_ := deleted.context, ix_calls_ := indexed.2 })
      | .ok _ =>
        match deleted.context with
        | none =>
          (.error .MemoryFault,
           { ex with fh_ := deleted.file, context_ := none, ix_calls_ := indexed.2 })
        | some c =>
          (.ok (),
           { ex with
             fh_ := deleted.file,
             context_ := some
               { c with
                 txn_ := c.txn_.append_write_record
                   { wtype_ := .DELETE_TUPLE, tab_name_ := ex.tab_name_, rid_ := rid,
                     record_ := record.data } },
             ix_calls_ := indexed.2 })

/-- The loop `for (auto &rid : rids_)` of `DeleteExecutor::Next` over the given rids; an
exception leaves the loop. -/
def DeleteExecutor.delete_all (rids : List Rid) (ex : DeleteExecutor) :
    Except Error Unit × DeleteExecutor :=
  match rids with
  | [] => (.ok (), ex)
  | rid :: rest =>
    match ex.delete_one rid with
    | (.error e, ex) => (.error e, ex)
    | (.ok _, ex) => DeleteExecutor.delete_all rest ex

/-- The method `DeleteExecutor::Next`. -/
def DeleteExecutor.Next (ex : DeleteExecutor) : Except Error Unit × DeleteExecutor :=
  DeleteExecutor.delete_all ex.rids_ ex

/-- The bytes of `data` with, for the column that the set clause names, the bytes
`[col.offset, col.offset + col.len)` replaced by the first `col.len` bytes of the
literal (unchanged when the table has no such column). -/
def SetClause.replace (tab : TabMeta) (data : List Byte) (set_clause : SetClause) : List Byte :=
  match tab.cols.find? (fun col => col.name == set_clause.lhs.col_name) with
  | none => data
  | some col =>
    data.take col.offset.toNat ++ set_clause.rhs.raw.data.take col.len.toNat ++
      data.drop (col.offset + col.len).toNat

/-- The set clauses applied in order. -/
def replace_all (tab : TabMeta) (set_clauses : List SetClause) (data : List Byte) : List Byte :=
  set_clauses.foldl (SetClause.replace tab) data

/-! ## Nested-loop join -/

/-- The class `NestedLoopJoinExecutor`. -/
structure NestedLoopJoinExecutor where
  left_ : AbstractExecutor
  right_ : AbstractExecutor
  len_ : Int
  cols_ : List ColMeta
  fed_conds_ : List Condition
  isend : Bool
  deriving DecidableEq, Repr

/-- The constructor of `NestedLoopJoinExecutor`: the columns are those of the left child
followed by those of the right child with their offsets shifted by the length of the left
tuple. -/
def NestedLoopJoinExecutor.new (left right : AbstractExecutor) (conds : List Condition) :
    NestedLoopJoinExecutor :=
  { left_ := left, right_ := right, len_ := left.len_ + right.len_,
    cols_ := left.cols_ ++
      right.cols_.map (fun col => { col with offset := col.offset + left.len_ }),
    fed_conds_ := conds, isend := false }

/-- The pointer `record->data + offset` to the bytes of a column of length `len`, as the
bytes from that position on. A column whose bytes `[offset, offset + len)` do not lie in
the record is read outside the record (undefined behaviour in the C++): `MemoryFault`. -/
def RmRecord.column_bytes (record : RmRecord) (offset len : Int) : Except Error (List Byte) :=
  if 0 ≤ offset ∧ 0 ≤ len ∧ offset + len ≤ record.data.length then
    .ok (record.data.drop offset.toNat)
  else .error .MemoryFault

/-- The body of the loop `for (auto &fed_cond : fed_conds_)` of the join up to the call of
`ix_compare`: the left column is read in the left record at its offset, a right-hand
column in the right record at its offset minus the length of the left tuple. -/
def NestedLoopJoinExecutor.compare (ix_compare : IxCompare) (ex : NestedLoopJoinExecutor)
    (left_record right_record : RmRecord) (fed_cond : Condition) : Except Error Int :=
  match get_col ex.cols_ fed_cond.lhs_col with
  | .error e => .error e
  | .ok lhs_col_meta =>
    if fed_cond.is_rhs_val then
      match left_record.column_bytes lhs_col_meta.offset lhs_col_meta.len with
      | .error e => .error e
      | .ok lhs_data =>
        .ok (ix_compare lhs_data fed_cond.rhs_val.raw.data fed_cond.rhs_val.type
          lhs_col_meta.len)
    else
      match get_col ex.cols_ fed_cond.rhs_col with
      | .error e => .error e
      | .ok rhs_col_meta =>
        match left_record.column_bytes lhs_col_meta.offset lhs_col_meta.len with
        | .error e => .error e
        | .ok lhs_data =>
          match right_record.column_bytes (rhs_col_meta.offset - ex.left_.len_)
              rhs_col_meta.len with
          | .error e => .error e
          | .ok rhs_data =>
            .ok (ix_compare lhs_data rhs_data rhs_col_meta.type lhs_col_meta.len)

/-- The chain `if (fed_cond.op == OP_EQ) ... else throw InternalError(...)` of the join:
`true` when the branch sets `flag = true`, `false` when it sets `flag = false` and leaves
the loop. -/
def NestedLoopJoinExecutor.check_op (op : CompOp) (cmp : Int) : Except Error Bool :=
  match op with
  | .OP_EQ => .ok (decide (cmp = 0))
  | .OP_NE => .ok (decide (cmp ≠ 0))
  | .OP_LT => .ok (decide (cmp < 0))
  | .OP_GT => .ok (decide (cmp > 0))
  | .OP_LE => .ok (decide (cmp ≤ 0))
  | .OP_GE => .ok (decide (cmp ≥ 0))
  | .other _ => .error .InternalError

/-- The loop `for (auto &fed_cond : fed_conds_)` of the join, entered with the current
value of `flag`; the result is the value of `flag` after the loop. -/
def NestedLoopJoinExecutor.for_conds (ix_compare : IxCompare) (ex : NestedLoopJoinExecutor)
    (left_record right_record : RmRecord) (flag : Bool) : List Condition → Except Error Bool
  | [] => .ok flag
  | fed_cond :: rest =>
    match ex.compare ix_compare left_record right_record fed_cond with
    | .error e => .error e
    | .ok cmp =>
      match NestedLoopJoinExecutor.check_op fed_cond.op cmp with
      | .error e => .error e
      | .ok true => NestedLoopJoinExecutor.for_conds ix_compare ex left_record right_record true rest
      | .ok false => .ok false

/-- The loop `while (!left_->is_end())` shared by `beginTuple` and `nextTuple` of the
join. Each turn that does not leave the loop advances the right child, or the left child
when the right child is at its end; `none` when `steps` turns do not leave the loop. -/
def NestedLoopJoinExecutor.seek (ix_compare : IxCompare) (steps : Nat)
    (ex : NestedLoopJoinExecutor) : Option (Except Error Unit × NestedLoopJoinExecutor) :=
  match steps with
  | 0 => none
  | steps + 1 =>
    if ex.left_.is_end then some (.ok (), ex)
    else if ex.fed_conds_.isEmpty then some (.ok (), ex)
    else
      match ex.left_.Next with
      | .error e => some (.error e, ex)
      | .ok left_record =>
        match ex.right_.Next with
        | .error e => some (.error e, ex)
        | .ok right_record =>
          match ex.for_conds ix_compare left_record right_record false ex.fed_conds_ with
          | .error e => some (.error e, ex)
          | .ok true => some (.ok (), ex)
          | .ok false =>
            if ex.right_.nextTuple.is_end then
              NestedLoopJoinExecutor.seek ix_compare steps
                { ex with left_ := ex.left_.nextTuple, right_ := ex.right_.nextTuple.beginTuple }
            else
              NestedLoopJoinExecutor.seek ix_compare steps
                { ex with right_ := ex.right_.nextTuple }

/-- The method `NestedLoopJoinExecutor::beginTuple`. -/
def NestedLoopJoinExecutor.beginTuple (ix_compare : IxCompare) (steps : Nat)
    (ex : NestedLoopJoinExecutor) : Option (Except Error Unit × NestedLoopJoinExecutor) :=
  if ex.left_.beginTuple.is_end then some (.ok (), { ex with left_ := ex.left_.beginTuple })
  else
    NestedLoopJoinExecutor.seek ix_compare steps
      { ex with left_ := ex.left_.beginTuple, right_ := ex.right_.beginTuple }

/-- The method `NestedLoopJoinExecutor::nextTuple`. -/
def NestedLoopJoinExecutor.nextTuple (ix_compare : IxCompare) (steps : Nat)
    (ex : NestedLoopJoinExecutor) : Option (Except Error Unit × NestedLoopJoinExecutor) :=
  if ex.right_.nextTuple.is_end then
    NestedLoopJoinExecutor.seek ix_compare steps
      { ex with left_ := ex.left_.nextTuple, right_ := ex.right_.nextTuple.beginTuple }
  else
    NestedLoopJoinExecutor.seek ix_compare steps { ex with right_ := ex.right_.nextTuple }

/-- The method `NestedLoopJoinExecutor::is_end`. -/
def NestedLoopJoinExecutor.is_end (ex : NestedLoopJoinExecutor) : Bool :=
  ex.left_.is_end

/-- The method `NestedLoopJoinExecutor::Next`: a record of `len_` bytes (0 here, not
initialised in the C++) that receives the left tuple and then the right tuple. -/
def NestedLoopJoinExecutor.Next (ex : NestedLoopJoinExecutor) : Except Error RmRecord :=
  match ex.left_.Next with
  | .error e => .error e
  | .ok left_record =>
    match ex.right_.Next with
    | .error e => .error e
    | .ok right_record =>
      match memcpy (List.replicate ex.len_.toNat 0) 0 left_record.data 0 ex.left_.len_ with
      | .error e => .error e
      | .ok data =>
        match memcpy data ex.left_.len_ right_record.data 0 ex.right_.len_ with
        | .error e => .error e
        | .ok data => .ok { size := ex.len_.toNat, data := data }

/-- The records that the join produces in the part
`for (; !ex.is_end(); ex.nextTuple()) use(ex.Next())` of the caller's loop, within `steps`
turns; `none` when `steps` turns do not reach the end. -/
def NestedLoopJoinExecutor.rows_from (ix_compare : IxCompare) (steps : Nat)
    (ex : NestedLoopJoinExecutor) : Option (Except Error (List RmRecord)) :=
  match steps with
  | 0 => none
  | steps + 1 =>
    if ex.is_end then some (.ok [])
    else
      match ex.Next with
      | .error e => some (.error e)
      | .ok record =>
        match ex.nextTuple ix_compare steps with
        | none => none
        | some (.error e, _) => some (.error e)
        | some (.ok _, ex') =>
          match NestedLoopJoinExecutor.rows_from ix_compare steps ex' with
          | none => none
          | some (.error e) => some (.error e)
          | some (.ok rest) => some (.ok (record :: rest))

/-- The records that the join produces in the caller's loop
`for (ex.beginTuple(); !ex.is_end(); ex.nextTuple()) use(ex.Next())`; `none` when `steps`
turns of a loop do not reach its end. -/
def NestedLoopJoinExecutor.rows (ix_compare : IxCompare) (steps : Nat)
    (ex : NestedLoopJoinExecutor) : Option (Except Error (List RmRecord)) :=
  match ex.beginTuple ix_compare steps with
  | none => none
  | some (.error e, _) => some (.error e)
  | some (.ok _, ex') => NestedLoopJoinExecutor.rows_from ix_compare steps ex'

/-- The join with the cursors of its children at `i` (left) and `j` (right). -/
def NestedLoopJoinExecutor.at_cursors (ex : NestedLoopJoinExecutor) (i j : Nat) :
    NestedLoopJoinExecutor :=
  { ex with left_ := { ex.left_ with cursor := i }, right_ := { ex.right_ with cursor := j } }

/-- A child whose columns lie in its tuples: the tuple length is not negative, every
column has its bytes within it, and every tuple has that length. -/
def AbstractExecutor.WellFormed (ex : AbstractExecutor) : Prop :=
  0 ≤ ex.len_ ∧ (∀ col ∈ ex.cols_, col.within ex.len_.toNat) ∧
    ∀ record ∈ ex.tuples, record.data.length = ex.len_.toNat

instance (ex : AbstractExecutor) : Decidable ex.WellFormed := by
  unfold AbstractExecutor.WellFormed
  infer_instance

/-- The pairs of `L × R` in left-major order. -/
def join_pairs (L R : List RmRecord) : List (RmRecord × RmRecord) :=
  L.flatMap (fun l => R.map (fun r => (l, r)))

/-- The byte-concatenation `l ++ r` of a pair, as the record the join returns. -/
def join_record (left right : AbstractExecutor) (p : RmRecord × RmRecord) : RmRecord :=
  { size := (left.len_ + right.len_).toNat, data := p.1.data ++ p.2.data }

/-- The pairs that the walk of the join has still to visit when the cursors of the
children are at `i` and `j`, the pair under the cursors first. -/
def join_remaining (L R : List RmRecord) (i j : Nat) : List (RmRecord × RmRecord) :=
  match L[i]? with
  | none => []
  | some l => (R.drop j).map (fun r => (l, r)) ++ join_pairs (L.drop (i + 1)) R

/-! ## Example children and conditions of the executors -/

/-- A left child with the column `l.a` and the tuples 1, 2, 3. -/
def exJoinLeft : AbstractExecutor :=
  { cols_ := [{ tab_name := "l", name := "a", type := .TYPE_STRING, len := 1, offset := 0 }],
    len_ := 1,
    tuples := [{ size := 1, data := [1] }, { size := 1, data := [2] }, { size := 1, data := [3] }],
    cursor := 0 }

/-- A right child with the column `r.b` and the tuples 2, 3, 4. -/
def exJoinRight : AbstractExecutor :=
  { cols_ := [{ tab_name := "r", name := "b", type := .TYPE_STRING, len := 1, offset := 0 }],
    len_ := 1,
    tuples := [{ size := 1, data := [2] }, { size := 1, data := [3] }, { size := 1, data := [4] }],
    cursor := 0 }

/-- The condition list `l.a = r.b`. -/
def exJoinConds : List Condition :=
  [{ lhs_col := { tab_name := "l", col_name := "a" }, op := .OP_EQ, is_rhs_val := false,
     rhs_col := { tab_name := "r", col_name := "b" },
     rhs_val := { type := .TYPE_STRING, raw := { size := 0, data := [] } } }]

/-- A child with the columns of `exCols`, positioned on the tuple `[1, 5]`. -/
def exProjChild : AbstractExecutor :=
  { cols_ := exCols, len_ := 2,
    tuples := [{ size := 2, data := [1, 5] }, { size := 2, data := [2, 6] }], cursor := 0 }

/-- The selection `t.b, t.a`. -/
def exSelCols : List TabCol :=
  [{ tab_name := "t", col_name := "b" }, { tab_name := "t", col_name := "a" }]

/-- The catalog entry of the table `t` of `exTable`: the columns of `exCols`, no index. -/
def exTab : TabMeta :=
  { name := "t", cols := exCols, indexes := [] }

/-- The lock table that transaction 2 leaves when it has held the exclusive lock on
record `(1, 0)` of `exTable` and has committed: the queue of the record exists. -/
def exUsedLocks : LockTable :=
  (commit
    (lock_exclusive_on_record exT2 { page_no := 1, slot_no := 0 } exTable.fd_
      LockTable.empty).txn
    (lock_exclusive_on_record exT2 { page_no := 1, slot_no := 0 } exTable.fd_
      LockTable.empty).lock_table_).2

/-- The update `SET b = 9` of the record `(1, 0)` of `exTable` by the transaction
`exFresh`, which has written nothing yet. -/
def exUpdater : UpdateExecutor :=
  { tab_ := exTab, fh_ := exTable, rids_ := [{ page_no := 1, slot_no := 0 }], tab_name_ := "t",
    set_clauses_ :=
      [{ lhs := { tab_name := "t", col_name := "b" },
         rhs := { type := .TYPE_STRING, raw := { size := 1, data := [9] } } }],
    context_ := some { lock_mgr_ := exUsedLocks, txn_ := exFresh },
    ix_calls_ := [] }

/-- The context that `exUpdater.Next` leaves. -/
def exUpdated : Context :=
  exUpdater.Next.2.context_.getD { lock_mgr_ := LockTable.empty, txn_ := exFresh }

/-- The abort of the transaction of `exUpdater` directly after `Next`. -/
def exAbortAfterUpdate : AbortOutcome :=
  abort exUpdated.txn_ exUpdated.lock_mgr_ (exSm exUpdater.Next.2.fh_)

/-- A reachable state in which transaction 0 holds the exclusive lock on record `(1, 0)`
of `exTable` (and with it the intention lock on the table). -/
def exDeleteTm : TransactionManager :=
  (TransactionManager.init (exSm exTable)).run
    [.begin_new, .call 0 (.lock (.exclusive_on_record { page_no := 1, slot_no := 0 } 4))]

/-- Transaction 0 of `exDeleteTm`. -/
def exDeleteTxn : Transaction :=
  (exDeleteTm.txn_map 0).getD exFresh

/-- The executor that the constructor of `DeleteExecutor` returns for transaction 0 of
`exDeleteTm` and the record `(1, 0)` of `exTable`. -/
def exDeleteExecutor : DeleteExecutor :=
  match DeleteExecutor.new (exSm exTable) exTab "t" [{ page_no := 1, slot_no := 0 }]
      (some { lock_mgr_ := exDeleteTm.lock_manager_, txn_ := exDeleteTxn }) with
  | .ok ex => ex
  | .error _ =>
    { tab_ := exTab, fh_ := exTable, rids_ := [], tab_name_ := "t", context_ := none,
      ix_calls_ := [] }

/-- The context that `exDeleteExecutor.Next` leaves. -/
def exDeleted : Context :=
  exDeleteExecutor.Next.2.context_.getD { lock_mgr_ := LockTable.empty, txn_ := exFresh }

/-- The insert of `[7, 7]` by the same transaction after `exDeleteExecutor.Next`: it
reuses the slot `(1, 0)` that the delete has vacated. -/
def exReinsert : RmOutcome Rid :=
  insert_record exDeleteExecutor.Next.2.fh_ [7, 7] (some exDeleted)

/-- The transaction after the delete and the insert, the insert recorded as
`WriteRecord(INSERT_TUPLE, (1, 0), [7, 7])`. -/
def exReinserter : Transaction :=
  (exReinsert.context.getD exDeleted).txn_.append_write_record
    { wtype_ := .INSERT_TUPLE, tab_name_ := "t", rid_ := { page_no := 1, slot_no := 0 },
      record_ := [7, 7] }

/-- The abort of `exReinserter`. -/
def exAbortAfterReinsert : AbortOutcome :=
  abort exReinserter (exReinsert.context.getD exDeleted).lock_mgr_ (exSm exReinsert.file)

/-- The insert of `[7, 7]` into `exTable` by the transaction `exFresh`. -/
def exInsert : RmOutcome Rid :=
  insert_record exTable [7, 7] (some { lock_mgr_ := LockTable.empty, txn_ := exFresh })

/-- The transaction after `exInsert`, the insert recorded as
`WriteRecord(INSERT_TUPLE, (1, 3), [7, 7])`. -/
def exInserter : Transaction :=
  { (exInsert.context.getD { lock_mgr_ := LockTable.empty, txn_ := exFresh }).txn_ with
    write_set_ :=
      [{ wtype_ := .INSERT_TUPLE, tab_name_ := "t", rid_ := { page_no := 1, slot_no := 3 },
         record_ := [7, 7] }] }

/-- The abort of `exInserter`. -/
def exAbortAfterInsert : AbortOutcome :=
  abort exInserter
    (exInsert.context.getD { lock_mgr_ := LockTable.empty, txn_ := exFresh }).lock_mgr_
    (exSm exInsert.file)

/-! ## Further lock states -/

/-- Three transactions on table 7: 0 takes `IS`, 1 takes `S`, 2 takes `IS`. -/
def exThreeOnTable : TransactionManager :=
  (TransactionManager.init (exSm exFile)).run
    [.begin_new, .begin_new, .begin_new,
     .call 0 (.lock (.IS_on_table 7)),
     .call 1 (.lock (.shared_on_table 7)),
     .call 2 (.lock (.IS_on_table 7))]

/-- Transaction 2 of `exThreeOnTable`. -/
def exThirdOnTable : Transaction :=
  { txn_id_ := 2, state_ := .GROWING, start_ts_ := 2, write_set_ := [],
    lock_set_ := [LockDataId.table 7] }

/-- Transaction 0 begins and makes the given lock requests, all of which are granted in
the uses below; no other transaction exists. -/
def exSoleHolder (calls : List LockCall) : TransactionManager :=
  (TransactionManager.init (exSm exFile)).run
    (.begin_new :: calls.map (fun call => TmStep.call 0 (.lock call)))

/-- Transaction 0 with the table 7 in its lock set, as in the states `exSoleHolder` used
below. -/
def exSoleTxn : Transaction :=
  { txn_id_ := 0, state_ := .GROWING, start_ts_ := 0, write_set_ := [],
    lock_set_ := [LockDataId.table 7] }

/-- Three transactions: 0 creates the queue of `exRid` (table 7) with an `X` lock and
releases it; 1 is then granted `lock_shared_on_record` on `exRid`; 2 holds no lock. -/
def exReaderOnRecord : TransactionManager :=
  (TransactionManager.init (exSm exFile)).run
    [.begin_new, .begin_new, .begin_new,
     .call 0 (.lock (.exclusive_on_record exRid 7)),
     .call 0 (.unlock (LockDataId.record 7 exRid)),
     .call 0 (.unlock (LockDataId.table 7)),
     .call 1 (.lock (.shared_on_record exRid 7))]

/-- The state `exReaderOnRecord` after transaction 1 has upgraded its lock on `exRid` with
`lock_exclusive_on_record`; 2 holds no lock. -/
def exWriterOnRecord : TransactionManager :=
  exReaderOnRecord.step (.call 1 (.lock (.exclusive_on_record exRid 7)))

/-- Transaction 2 of `exReaderOnRecord` and `exWriterOnRecord`, which holds no lock. -/
def exLockless : Transaction :=
  { txn_id_ := 2, state_ := .GROWING, start_ts_ := 2, write_set_ := [], lock_set_ := [] }

/-- An index of the table `t` on its column `b`. -/
def exIndexOnB : IndexMeta :=
  { tab_name := "t", col_tot_len := 1, col_num := 1,
    cols := [{ tab_name := "t", name := "b", type := .TYPE_STRING, len := 1, offset := 1 }] }

/-- The update of `exUpdater` (`SET b = 9` on the record `(1, 0)`, which holds `[1, 5]`)
on the table `t` with the index `exIndexOnB`. -/
def exIndexedUpdater : UpdateExecutor :=
  { exUpdater with tab_ := { exTab with indexes := [exIndexOnB] } }

/-- The condition list `t.b = 6 AND t.a ? 0`, whose second operator (code 7) is none of
the six relational operators. -/
def exUnknownConds : List Condition :=
  [{ lhs_col := { tab_name := "t", col_name := "b" }, op := .OP_EQ, is_rhs_val := true,
     rhs_col := { tab_name := "", col_name := "" },
     rhs_val := { type := .TYPE_STRING, raw := { size := 1, data := [6] } } },
   { lhs_col := { tab_name := "t", col_name := "a" }, op := .other 7, is_rhs_val := true,
     rhs_col := { tab_name := "", col_name := "" },
     rhs_val := { type := .TYPE_STRING, raw := { size := 1, data := [0] } } }]

/-- A sequential scan of `exTable` under `exUnknownConds`, before `beginTuple`. -/
def exUnknownExecutor : SeqScanExecutor :=
  { exExecutor with fed_conds_ := exUnknownConds }

/-- The scan of `exTable` on its first record. -/
def exScan : RmScan :=
  { file_handle_ := exTable, rid_ := { page_no := 1, slot_no := 0 } }

/-- The condition list `l.a = r.b AND l.a ? r.b`, whose second operator (code 7) is none
of the six relational operators. -/
def exJoinUnknownConds : List Condition :=
  exJoinConds ++
    [{ lhs_col := { tab_name := "l", col_name := "a" }, op := .other 7, is_rhs_val := false,
       rhs_col := { tab_name := "r", col_name := "b" },
       rhs_val := { type := .TYPE_STRING, raw := { size := 0, data := [] } } }]

/-! ## Record files reachable from a freshly created file -/

/-- A freshly created record file (spec §6): the header page only, an empty free list, at
least one slot per page and a bitmap of `bitmap_size` bytes that covers the slots. -/
def RmFileHandle.Fresh (fh : RmFileHandle) : Prop :=
  fh.pages.length = 1 ∧ fh.file_hdr_.num_pages = 1 ∧
  fh.file_hdr_.first_free_page_no = RM_NO_PAGE ∧
  1 ≤ fh.file_hdr_.num_records_per_page ∧
  fh.file_hdr_.num_records_per_page ≤ 8 * (fh.file_hdr_.bitmap_size : Int)

instance (fh : RmFileHandle) : Decidable fh.Fresh := by
  unfold RmFileHandle.Fresh
  infer_instance

/-- The calls that lead from one state of a record file to the next: any `insert_record`,
`delete_record` of an occupied slot, `insert_record(rid, buf)` at a vacant slot of an
existing page, any `update_record`. -/
def RmOp.Admitted (op : RmOp) (fh : RmFileHandle) : Prop :=
  match op with
  | .insert_record _ => True
  | .delete_record rid => fh.Occupied rid
  | .insert_record_at rid _ => fh.Vacant rid
  | .update_record _ _ => True

instance (op : RmOp) (fh : RmFileHandle) : Decidable (op.Admitted fh) := by
  unfold RmOp.Admitted
  cases op <;> infer_instance

/-- The states of a record file reachable from a freshly created file through the
admitted calls, each made with any lock context. -/
inductive RmFileHandle.Reachable : RmFileHandle → Prop where
  | fresh (fh : RmFileHandle) : fh.Fresh → Reachable fh
  | step (fh : RmFileHandle) (op : RmOp) (context : Option Context) :
    Reachable fh → op.Admitted fh → Reachable (op.run fh context)

/-- A data page in the state that the record-file calls keep it in: a bitmap and a slot
array of the sizes of the file header, `num_records` equal to the number of set bits, no
bit set beyond the slots, and no link to a next free page. -/
def RmPage.Sound (num_records_per_page : Int) (bitmap_size : Nat) (page : RmPage) : Prop :=
  page.bitmap.length = 8 * bitmap_size ∧
  page.slots.length = num_records_per_page.toNat ∧
  Bitmap.popcount page.bitmap = page.page_hdr.num_records ∧
  (∀ i : Nat, num_records_per_page ≤ i → page.bitmap.getD i false = false) ∧
  page.page_hdr.next_free_page_no = RM_NO_PAGE

/-- The invariant of the reachable record files: the header counts the pages, every data
page is sound, and the head of the free list is `RM_NO_PAGE` or an existing data page that
holds fewer records than it has slots. -/
def RmFileHandle.FreeListInvariant (fh : RmFileHandle) : Prop :=
  fh.file_hdr_.num_pages = fh.pages.length ∧ 1 ≤ fh.file_hdr_.num_pages ∧
  0 < fh.file_hdr_.num_records_per_page ∧
  fh.file_hdr_.num_records_per_page ≤ 8 * (fh.file_hdr_.bitmap_size : Int) ∧
  (∀ page ∈ fh.pages.tail,
    page.Sound fh.file_hdr_.num_records_per_page fh.file_hdr_.bitmap_size) ∧
  (fh.file_hdr_.first_free_page_no = RM_NO_PAGE ∨
    1 ≤ fh.file_hdr_.first_free_page_no ∧
    ∃ page, fh.pages[fh.file_hdr_.first_free_page_no.toNat]? = some page ∧
      page.page_hdr.num_records < fh.file_hdr_.num_records_per_page)

/-- The loop of `beginTuple`/`nextTuple`, standing on `scan` with the executor state `ex`,
passes `n` tuples and then stands on `scan'` with the state `ex'`: each passed tuple is
read by `get_record`, which returns (whatever the lock context), the condition list
evaluates to false on it, and `scan_->next()` returns. -/
inductive SeqScanExecutor.Skips (ix_compare : IxCompare) :
    SeqScanExecutor → RmScan → Nat → SeqScanExecutor → RmScan → Prop
  | done (ex : SeqScanExecutor) (scan : RmScan) :
      SeqScanExecutor.Skips ix_compare ex scan 0 ex scan
  | skip (ex : SeqScanExecutor) (scan : RmScan) (record : RmRecord) (next : RmScan) (n : Nat)
      (ex' : SeqScanExecutor) (scan' : RmScan) :
      scan.is_end = false →
      (get_record ex.fh_ scan.rid ex.context_).result = .ok record →
      SeqScanExecutor.eval_conds ix_compare ex.cols_ ex.fed_conds_ record = .ok false →
      scan.next = (.ok (), next) →
      SeqScanExecutor.Skips ix_compare
        { ex with
          rid_ := scan.rid,
          context_ := (get_record ex.fh_ scan.rid ex.context_).context }
        next n ex' scan' →
      SeqScanExecutor.Skips ix_compare ex scan (n + 1) ex' scan'

/-- A sequential scan of `exTable` under the single condition `t.a ? 0` by the transaction
`exFresh`, whose lock table already holds the queue of the record `(1, 0)`. -/
def exLockingScan : SeqScanExecutor :=
  { exExecutor with
    fed_conds_ := exUnknownConds.drop 1,
    context_ := some { lock_mgr_ := exUsedLocks, txn_ := exFresh } }

/-! ## Events on a transaction object, re-inserting undos, further examples -/

/-- An event on a transaction object other than `TransactionManager::begin`: one of its
own lock-manager calls (a lock request or `unlock`), the append of a write record by an
executor, `commit` or `abort`, each on the lock table (and the record files) of that
moment. -/
inductive TxnEvent where
  | call (op : LockOp) (lock_table_ : LockTable)
  | append_write_record (write_record : WriteRecord)
  | commit (lock_table_ : LockTable)
  | abort (lock_table_ : LockTable) (sm_manager_ : SmManager)

/-- The transaction object after the event. -/
def TxnEvent.run (event : TxnEvent) (txn : Transaction) : Transaction :=
  match event with
  | .call op lock_table_ => (op.run txn lock_table_).txn
  | .append_write_record write_record => txn.append_write_record write_record
  | .commit lock_table_ => (Rucbase.commit txn lock_table_).1
  | .abort lock_table_ sm_manager_ => (Rucbase.abort txn lock_table_ sm_manager_).txn

/-- The transaction object after a sequence of events. -/
def Transaction.after_events (txn : Transaction) (events : List TxnEvent) : Transaction :=
  match events with
  | [] => txn
  | event :: rest => Transaction.after_events (event.run txn) rest

/-- The places where the undo loop of `abort` puts records back: for each `DELETE_TUPLE`
record that it undoes, the table and the rid that its `insert_record` returns. The write
records are given in the order of the loop. -/
def undo_reinserts (write_records : List WriteRecord) (st : UndoState) : List (String × Rid) :=
  match write_records with
  | [] => []
  | wr :: rest =>
    match undo_write_record wr st with
    | (.error _, _) => []
    | (.ok _, st') =>
      (match wr.wtype_, st.sm_manager_.fhs_ wr.tab_name_ with
        | .DELETE_TUPLE, some file_handle =>
          match (insert_record file_handle wr.record_ (some st.context)).result with
          | .ok rid => [(wr.tab_name_, rid)]
          | .error _ => []
        | _, _ => []) ++ undo_reinserts rest st'

/-- The system in which transaction 0 has taken `S` on table 7 and released it. -/
def exUnlocked : TransactionManager :=
  (TransactionManager.init (exSm exFile)).run
    [.begin_new, .call 0 (.lock (.shared_on_table 7)), .call 0 (.unlock (LockDataId.table 7))]

/-- Transaction 0 of `exUnlocked`, which is `SHRINKING`. -/
def exShrunk : Transaction :=
  (exUnlocked.txn_map 0).getD exFresh

/-- The call `begin(txn)` of `exUnlocked` on its transaction 0. -/
def exBegunAgain : Transaction × TransactionManager :=
  exUnlocked.begin (some exShrunk)

/-- A sequential scan without conditions over the table stored in the header-only file
`exEmptyFile`. -/
def exFreshScan : SeqScanExecutor :=
  { exExecutor with fh_ := exEmptyFile, fed_conds_ := [] }

/-- The insert of `[8, 8]` by the transaction of `exReinsert` after its delete of
`(1, 0)` and its insert of `[7, 7]` at `(1, 0)`: it takes the slot `(1, 3)`. -/
def exSecondInsert : RmOutcome Rid :=
  insert_record exReinsert.file [8, 8] exReinsert.context

/-- The transaction after the delete and the two inserts; its write set is
`[DELETE (1, 0), INSERT (1, 0), INSERT (1, 3)]`. -/
def exSecondInserter : Transaction :=
  ((exSecondInsert.context.getD exDeleted).txn_.append_write_record
    { wtype_ := .INSERT_TUPLE, tab_name_ := "t", rid_ := { page_no := 1, slot_no := 0 },
      record_ := [7, 7] }).append_write_record
    { wtype_ := .INSERT_TUPLE, tab_name_ := "t", rid_ := { page_no := 1, slot_no := 3 },
      record_ := [8, 8] }

/-- The abort of `exSecondInserter`. -/
def exAbortAfterSecondInsert : AbortOutcome :=
  abort exSecondInserter (exSecondInsert.context.getD exDeleted).lock_mgr_
    (exSm exSecondInsert.file)

/-- The insert of `[7, 7]` into the header-only file `exEmptyFile` by the transaction
`exFresh`: it creates page 1 and takes the slot `(1, 0)`. -/
def exFirstOfTwo : RmOutcome Rid :=
  insert_record exEmptyFile [7, 7] (some { lock_mgr_ := LockTable.empty, txn_ := exFresh })

/-- The insert of `[8, 8]` by the same transaction: it takes the slot `(1, 1)`. -/
def exSecondOfTwo : RmOutcome Rid :=
  insert_record exFirstOfTwo.file [8, 8] exFirstOfTwo.context

/-- The transaction after the two inserts, recorded as `INSERT (1, 0)` and
`INSERT (1, 1)`. -/
def exTwoInserter : Transaction :=
  { (exSecondOfTwo.context.getD { lock_mgr_ := LockTable.empty, txn_ := exFresh }).txn_ with
    write_set_ :=
      [{ wtype_ := .INSERT_TUPLE, tab_name_ := "t", rid_ := { page_no := 1, slot_no := 0 },
         record_ := [7, 7] },
       { wtype_ := .INSERT_TUPLE, tab_name_ := "t", rid_ := { page_no := 1, slot_no := 1 },
         record_ := [8, 8] }] }

/-- The abort of `exTwoInserter`. -/
def exAbortAfterTwoInserts : AbortOutcome :=
  abort exTwoInserter
    (exSecondOfTwo.context.getD { lock_mgr_ := LockTable.empty, txn_ := exFresh }).lock_mgr_
    (exSm exSecondOfTwo.file)

/-! # Theorems -/

/-! ## Bitmap scanning -/

theorem Bitmap.scan_spec (bit : Bool) (bm : List Bool) (max_n : Int) :
    ∀ (steps : Nat) (i : Int), steps = (max_n - i).toNat → i ≤ max_n →
      i ≤ Bitmap.scan bit bm max_n steps i ∧ Bitmap.scan bit bm max_n steps i ≤ max_n ∧
      (Bitmap.scan bit bm max_n steps i < max_n →
        Bitmap.is_set bm (Bitmap.scan bit bm max_n steps i) = bit) ∧
      ∀ j, i ≤ j → j < Bitmap.scan bit bm max_n steps i → Bitmap.is_set bm j ≠ bit := by
  intro steps
  induction steps with
  | zero =>
    intro i hs hi
    have : i = max_n := by omega
    subst this
    simp [Bitmap.scan]
    intro j h1 h2; omega
  | succ n ih =>
    intro i hs hi
    have hlt : i < max_n := by omega
    unfold Bitmap.scan
    simp only [hlt, if_true]
    by_cases hb : Bitmap.is_set bm i = bit
    · rw [if_pos hb]
      refine ⟨le_refl _, hi, fun _ => hb, ?_⟩
      intro j h1 h2; omega
    · rw [if_neg hb]
      obtain ⟨h1, h2, h3, h4⟩ := ih (i + 1) (by omega) (by omega)
      refine ⟨by omega, h2, h3, ?_⟩
      intro j hj1 hj2
      by_cases hji : j = i
      · subst hji; exact hb
      · exact h4 j (by omega) hj2

theorem Bitmap.first_bit_spec (bit : Bool) (bm : List Bool) (max_n : Int) (h0 : 0 ≤ max_n) :
    0 ≤ Bitmap.first_bit bit bm max_n ∧ Bitmap.first_bit bit bm max_n ≤ max_n ∧
    (Bitmap.first_bit bit bm max_n < max_n →
      Bitmap.is_set bm (Bitmap.first_bit bit bm max_n) = bit) ∧
    ∀ j, 0 ≤ j → j < Bitmap.first_bit bit bm max_n → Bitmap.is_set bm j ≠ bit := by
  have := Bitmap.scan_spec bit bm max_n (max_n - (-1 + 1)).toNat (-1 + 1) (by simp)
    (by simpa using h0)
  simpa [Bitmap.first_bit, Bitmap.next_bit] using this

theorem Bitmap.first_bit_lt (bit : Bool) (bm : List Bool) (max_n : Int)
    (h : ∃ s : Int, 0 ≤ s ∧ s < max_n ∧ Bitmap.is_set bm s = bit) :
    0 ≤ Bitmap.first_bit bit bm max_n ∧ Bitmap.first_bit bit bm max_n < max_n ∧
      Bitmap.is_set bm (Bitmap.first_bit bit bm max_n) = bit := by
  obtain ⟨s, hs0, hs1, hs2⟩ := h
  obtain ⟨h1, h2, h3, h4⟩ := Bitmap.first_bit_spec bit bm max_n (by omega)
  have hlt : Bitmap.first_bit bit bm max_n < max_n := by
    by_contra hcon
    have : Bitmap.first_bit bit bm max_n = max_n := by omega
    exact h4 s hs0 (by omega) hs2
  exact ⟨h1, hlt, h3 hlt⟩

theorem Bitmap.popcount_init (size : Nat) : Bitmap.popcount (Bitmap.init size) = 0 := by
  simp [Bitmap.popcount, Bitmap.init, List.count_replicate]

theorem Bitmap.popcount_set (bm : List Bool) (pos : Int) (h0 : 0 ≤ pos)
    (hlen : pos.toNat < bm.length) (hclear : Bitmap.is_set bm pos = false) :
    Bitmap.popcount (Bitmap.set bm pos) = Bitmap.popcount bm + 1 := by
  have hb : bm[pos.toNat] = false := by
    simpa [Bitmap.is_set, h0, List.getD_eq_getElem?_getD, List.getElem?_eq_getElem hlen]
      using hclear
  simp [Bitmap.popcount, Bitmap.set, List.count_set _ _ _ _ hlen, hb]

theorem Bitmap.popcount_reset (bm : List Bool) (pos : Int) (h0 : 0 ≤ pos)
    (hlen : pos.toNat < bm.length) (hset : Bitmap.is_set bm pos = true) :
    Bitmap.popcount (Bitmap.reset bm pos) = Bitmap.popcount bm - 1 := by
  have hb : bm[pos.toNat] = true := by
    simpa [Bitmap.is_set, h0, List.getD_eq_getElem?_getD, List.getElem?_eq_getElem hlen]
      using hset
  have hpos : 0 < bm.count true := List.count_pos_iff.mpr (hb ▸ List.getElem_mem hlen)
  simp [Bitmap.popcount, Bitmap.reset, List.count_set _ _ _ _ hlen, hb]
  omega


/-! ## Record file: how each operation changes the file -/

@[simp] theorem RmFileHandle.write_page_file_hdr (fh : RmFileHandle) (p : Int) (page : RmPage) :
    (fh.write_page p page).file_hdr_ = fh.file_hdr_ := rfl

@[simp] theorem RmFileHandle.write_page_pages (fh : RmFileHandle) (p : Int) (page : RmPage) :
    (fh.write_page p page).pages = fh.pages.set p.toNat page := rfl

@[simp] theorem RmFileHandle.write_page_fd (fh : RmFileHandle) (p : Int) (page : RmPage) :
    (fh.write_page p page).fd_ = fh.fd_ := rfl

theorem RmFileHandle.slot_bit_eq_some (fh : RmFileHandle) (rid : Rid) (b : Bool)
    (h : fh.slot_bit rid = some b) :
    1 ≤ rid.page_no ∧ rid.page_no < fh.file_hdr_.num_pages ∧ fh.slot_in_range rid.slot_no ∧
      ∃ page, fh.pages[rid.page_no.toNat]? = some page ∧
        Bitmap.is_set page.bitmap rid.slot_no = b := by
  unfold RmFileHandle.slot_bit at h
  split_ifs at h with hc
  obtain ⟨h1, h2, h3⟩ := hc
  refine ⟨h1, h2, h3, ?_⟩
  cases hp : fh.pages[rid.page_no.toNat]? with
  | none => simp [hp] at h
  | some page => exact ⟨page, rfl, by simpa [hp] using h⟩

theorem mem_tail_of_getElem? {α : Type} (l : List α) (i : Nat) (a : α) (hi : 1 ≤ i)
    (h : l[i]? = some a) : a ∈ l.tail := by
  obtain ⟨j, rfl⟩ : ∃ j, i = j + 1 := ⟨i - 1, by omega⟩
  rw [← List.getElem?_tail] at h
  obtain ⟨hj, rfl⟩ := List.getElem?_eq_some_iff.mp h
  exact List.getElem_mem hj

theorem mem_tail_set {α : Type} (l : List α) (i : Nat) (a x : α)
    (h : x ∈ (l.set i a).tail) : x ∈ l.tail ∨ x = a := by
  cases i with
  | zero => cases l <;> simp_all
  | succ j =>
    rw [← List.set_tail] at h
    exact List.mem_or_eq_of_mem_set h

theorem mem_tail_append_singleton {α : Type} (l : List α) (a x : α)
    (h : x ∈ (l ++ [a]).tail) : x ∈ l.tail ∨ x = a := by
  cases l with
  | nil => simp at h
  | cons b t => simpa using h

theorem fetch_page_handle_ok (fh : RmFileHandle) (p : Int) (page : RmPage)
    (h0 : 0 ≤ p) (h1 : p < fh.file_hdr_.num_pages) (hp : fh.pages[p.toNat]? = some page) :
    fetch_page_handle fh p = .ok { page_no := p, page := page } := by
  have hne : ¬ (p = INVALID_PAGE_ID ∨ p ≥ fh.file_hdr_.num_pages) := by
    simp only [INVALID_PAGE_ID]; omega
  simp [fetch_page_handle, hne, buffer_pool_fetch_page, h0, hp]

theorem fetch_page_handle_eq_ok (fh : RmFileHandle) (p : Int) (ph : RmPageHandle)
    (h : fetch_page_handle fh p = .ok ph) :
    0 ≤ p ∧ p < fh.file_hdr_.num_pages ∧ ph.page_no = p ∧ fh.pages[p.toNat]? = some ph.page := by
  unfold fetch_page_handle buffer_pool_fetch_page at h
  split_ifs at h with h1 h2
  · have hlt : p < fh.file_hdr_.num_pages := by
      by_contra hc; exact h1 (Or.inr (by omega))
    cases hp : fh.pages[p.toNat]? with
    | none => simp [hp] at h
    | some page =>
      simp only [hp, Except.ok.injEq] at h
      subst h
      exact ⟨h2, hlt, rfl, rfl⟩

theorem get_record_none_ok (fh : RmFileHandle) (rid : Rid) (page : RmPage)
    (h0 : 0 ≤ rid.page_no) (h1 : rid.page_no < fh.file_hdr_.num_pages)
    (hp : fh.pages[rid.page_no.toNat]? = some page) (hs : fh.slot_in_range rid.slot_no) :
    (get_record fh rid none).result =
      .ok { size := fh.file_hdr_.record_size,
            data := (page.slots.getD rid.slot_no.toNat []).take fh.file_hdr_.record_size } := by
  simp [get_record, Context.lock_shared, fetch_page_handle_ok fh rid.page_no page h0 h1 hp, hs]

theorem insert_record_none_ok (fh fh1 : RmFileHandle) (ph : RmPageHandle) (buf : List Byte)
    (hc : create_page_handle fh = (.ok ph, fh1))
    (hs : fh1.slot_in_range
      (Bitmap.first_bit false ph.page.bitmap fh1.file_hdr_.num_records_per_page)) :
    (insert_record fh buf none).result =
      .ok { page_no := ph.page_no,
            slot_no := Bitmap.first_bit false ph.page.bitmap fh1.file_hdr_.num_records_per_page } ∧
    (insert_record fh buf none).file = insert_record_file fh1 ph buf := by
  simp only [insert_record, hc, Context.lock_exclusive, hs, if_true, insert_record_file]
  split_ifs <;> simp [RmFileHandle.write_page, *]

/-- Whatever the lock context, `insert_record` leaves either the file that
`create_page_handle` left or that file with the record written. -/
theorem insert_record_file_cases (fh : RmFileHandle) (buf : List Byte) (ctx : Option Context) :
    (insert_record fh buf ctx).file = (create_page_handle fh).2 ∨
    ∃ ph, (create_page_handle fh).1 = .ok ph ∧
      (create_page_handle fh).2.slot_in_range
        (Bitmap.first_bit false ph.page.bitmap
          (create_page_handle fh).2.file_hdr_.num_records_per_page) ∧
      (insert_record fh buf ctx).file = insert_record_file (create_page_handle fh).2 ph buf := by
  unfold insert_record
  rcases hc : create_page_handle fh with ⟨r, fh1⟩
  cases r with
  | error e => left; rfl
  | ok ph =>
    simp only
    rcases hl : Context.lock_exclusive ctx
      { page_no := ph.page_no,
        slot_no := Bitmap.first_bit false ph.page.bitmap fh1.file_hdr_.num_records_per_page }
      fh1.fd_ with ⟨lr, ctx1⟩
    cases lr with
    | error e => left; rfl
    | ok b =>
      simp only
      by_cases hs : fh1.slot_in_range
        (Bitmap.first_bit false ph.page.bitmap fh1.file_hdr_.num_records_per_page)
      · right
        refine ⟨ph, rfl, hs, ?_⟩
        simp only [hs, if_true, insert_record_file]
        split_ifs <;> simp [RmFileHandle.write_page, *]
      · left
        simp only [hs, if_false]


/-- Whatever the lock context, `delete_record` leaves the file as it was or clears the
bit of `rid` and decrements the record count of its page. -/
theorem delete_record_file_cases (fh : RmFileHandle) (rid : Rid) (ctx : Option Context) :
    (delete_record fh rid ctx).file = fh ∨
    ∃ ph page, fetch_page_handle fh rid.page_no = .ok ph ∧ fh.slot_in_range rid.slot_no ∧
      (delete_record fh rid ctx).file.pages = fh.pages.set rid.page_no.toNat page ∧
      page.bitmap = Bitmap.reset ph.page.bitmap rid.slot_no ∧
      page.page_hdr.num_records = ph.page.page_hdr.num_records - 1 ∧
      page.slots = ph.page.slots := by
  unfold delete_record
  rcases hl : Context.lock_exclusive ctx rid fh.fd_ with ⟨lr, ctx1⟩
  cases lr with
  | error e => left; rfl
  | ok b =>
    simp only
    cases hf : fetch_page_handle fh rid.page_no with
    | error e => left; rfl
    | ok ph =>
      simp only
      obtain ⟨-, -, hpn, -⟩ := fetch_page_handle_eq_ok fh rid.page_no ph hf
      by_cases hs : fh.slot_in_range rid.slot_no
      · right
        rw [if_pos hs]
        split_ifs
        · exact ⟨ph,
            { page_hdr :=
                { next_free_page_no := fh.file_hdr_.first_free_page_no,
                  num_records := ph.page.page_hdr.num_records - 1 },
              bitmap := Bitmap.reset ph.page.bitmap rid.slot_no, slots := ph.page.slots },
            rfl, hs, by simp [release_page_handle, hpn], rfl, rfl, rfl⟩
        · exact ⟨ph,
            { page_hdr :=
                { next_free_page_no := ph.page.page_hdr.next_free_page_no,
                  num_records := ph.page.page_hdr.num_records - 1 },
              bitmap := Bitmap.reset ph.page.bitmap rid.slot_no, slots := ph.page.slots },
            rfl, hs, by simp [hpn], rfl, rfl, rfl⟩
      · left
        simp only [hs, if_false]

/-- Whatever the lock context, `update_record` leaves the file as it was or replaces the
bytes of slot `rid`. -/
theorem update_record_file_cases (fh : RmFileHandle) (rid : Rid) (buf : List Byte)
    (ctx : Option Context) :
    (update_record fh rid buf ctx).file = fh ∨
    ∃ ph, fetch_page_handle fh rid.page_no = .ok ph ∧ fh.slot_in_range rid.slot_no ∧
      (update_record fh rid buf ctx).file =
        fh.write_page rid.page_no
          { ph.page with
            slots := ph.page.slots.set rid.slot_no.toNat (buf.take fh.file_hdr_.record_size) } := by
  unfold update_record
  rcases hl : Context.lock_exclusive ctx rid fh.fd_ with ⟨lr, ctx1⟩
  cases lr with
  | error e => left; rfl
  | ok b =>
    simp only
    cases hf : fetch_page_handle fh rid.page_no with
    | error e => left; rfl
    | ok ph =>
      simp only
      obtain ⟨-, -, hpn, -⟩ := fetch_page_handle_eq_ok fh rid.page_no ph hf
      by_cases hs : fh.slot_in_range rid.slot_no
      · right
        exact ⟨ph, rfl, hs, by rw [if_pos hs, hpn]⟩
      · left
        simp only [hs, if_false]

/-- The file on which `insert_record(rid, buf)` fetches the page of `rid`. -/
theorem insert_record_at_file_cases (fh : RmFileHandle) (rid : Rid) (buf : List Byte) :
    ∃ fh1, fh1 = (if rid.page_no < fh.file_hdr_.num_pages then (create_new_page_handle fh).2
        else fh) ∧
    ((insert_record_at fh rid buf).file = fh1 ∨
     ∃ ph page, fetch_page_handle fh1 rid.page_no = .ok ph ∧ fh1.slot_in_range rid.slot_no ∧
      (insert_record_at fh rid buf).file.pages = fh1.pages.set rid.page_no.toNat page ∧
      page.bitmap = Bitmap.set ph.page.bitmap rid.slot_no ∧
      page.page_hdr.num_records = ph.page.page_hdr.num_records + 1 ∧
      page.slots = ph.page.slots.set rid.slot_no.toNat (buf.take fh1.file_hdr_.record_size) ∧
      (insert_record_at fh rid buf).file.file_hdr_.num_pages = fh1.file_hdr_.num_pages) := by
  refine ⟨_, rfl, ?_⟩
  unfold insert_record_at
  simp only
  generalize (if rid.page_no < fh.file_hdr_.num_pages then (create_new_page_handle fh).2
    else fh) = fh1
  cases hf : fetch_page_handle fh1 rid.page_no with
  | error e => left; rfl
  | ok ph =>
    simp only
    obtain ⟨-, -, hpn, -⟩ := fetch_page_handle_eq_ok fh1 rid.page_no ph hf
    by_cases hs : fh1.slot_in_range rid.slot_no
    · right
      rw [if_pos hs]
      refine ⟨ph,
        { page_hdr :=
            { next_free_page_no := ph.page.page_hdr.next_free_page_no,
              num_records := ph.page.page_hdr.num_records + 1 },
          bitmap := Bitmap.set ph.page.bitmap rid.slot_no,
          slots := ph.page.slots.set rid.slot_no.toNat (buf.take fh1.file_hdr_.record_size) },
        rfl, hs, ?_, rfl, rfl, rfl, ?_⟩
      · split_ifs <;> simp [hpn]
      · split_ifs <;> simp
    · left
      simp only [hs, if_false]


theorem RmFileHandle.PageInvariant.set (fh : RmFileHandle) (pages : List RmPage) (i : Nat)
    (page : RmPage) (h : fh.PageInvariant) (hpages : pages = fh.pages.set i page)
    (hp : 1 ≤ i → Bitmap.popcount page.bitmap = page.page_hdr.num_records) :
    ∀ x ∈ pages.tail, Bitmap.popcount x.bitmap = x.page_hdr.num_records := by
  subst hpages
  intro x hx
  cases i with
  | zero =>
    have : (fh.pages.set 0 page).tail = fh.pages.tail := by cases fh.pages <;> rfl
    rw [this] at hx
    exact h x hx
  | succ j =>
    rcases mem_tail_set _ _ _ _ hx with hx | rfl
    · exact h x hx
    · exact hp (by omega)

theorem create_new_page_handle_page_invariant (fh : RmFileHandle) (h : fh.PageInvariant) :
    (create_new_page_handle fh).2.PageInvariant := by
  intro x hx
  rcases mem_tail_append_singleton _ _ _ hx with hx | rfl
  · exact h x hx
  · exact Bitmap.popcount_init _

/-- C1. Round trip for a well-formed record file whose free-list head is `RM_NO_PAGE`
or a page with a free slot: `insert_record(buf)` without a lock context returns a rid,
and `get_record` at that rid on the resulting file returns a record of `record_size`
bytes equal to `buf`. -/
theorem insert_record_get_record (fh : RmFileHandle) (buf : List Byte)
    (hwf : fh.WellFormed)
    (hfree : fh.file_hdr_.first_free_page_no = RM_NO_PAGE ∨
      fh.HasFreeSlot fh.file_hdr_.first_free_page_no)
    (hbuf : buf.length = fh.file_hdr_.record_size) :
    ∃ rid, (insert_record fh buf none).result = .ok rid ∧
      (get_record (insert_record fh buf none).file rid none).result =
        .ok { size := fh.file_hdr_.record_size, data := buf } := by
  obtain ⟨hnp, hn0, hnb, hlay⟩ := hwf
  have key : ∀ (fh1 : RmFileHandle) (ph : RmPageHandle),
      create_page_handle fh = (.ok ph, fh1) →
      fh1.file_hdr_.record_size = fh.file_hdr_.record_size →
      fh1.file_hdr_.num_records_per_page = fh.file_hdr_.num_records_per_page →
      0 ≤ ph.page_no → ph.page_no < fh1.file_hdr_.num_pages →
      ph.page_no.toNat < fh1.pages.length →
      ph.page.slots.length = fh.file_hdr_.num_records_per_page.toNat →
      (∃ s : Int, 0 ≤ s ∧ s < fh.file_hdr_.num_records_per_page ∧
        Bitmap.is_set ph.page.bitmap s = false) →
      ∃ rid, (insert_record fh buf none).result = .ok rid ∧
        (get_record (insert_record fh buf none).file rid none).result =
          .ok { size := fh.file_hdr_.record_size, data := buf } := by
    intro fh1 ph hc hrs hn hp0 hp1 hp2 hsl hclear
    obtain ⟨hb0, hb1, -⟩ := Bitmap.first_bit_lt false ph.page.bitmap _ hclear
    have hs : fh1.slot_in_range
        (Bitmap.first_bit false ph.page.bitmap fh1.file_hdr_.num_records_per_page) := by
      unfold RmFileHandle.slot_in_range
      rw [hn]; exact ⟨hb0, hb1⟩
    obtain ⟨hres, hfile⟩ := insert_record_none_ok fh fh1 ph buf hc hs
    refine ⟨_, hres, ?_⟩
    rw [get_record_none_ok (insert_record fh buf none).file _ _ (by simpa using hp0)
      (by rw [hfile]; simpa [insert_record_file] using hp1)
      (by rw [hfile]; simp only [insert_record_file]; rw [List.getElem?_set_self hp2])
      (by
        unfold RmFileHandle.slot_in_range
        rw [hfile]; exact hs)]
    rw [hfile]
    simp only [insert_record_file, hrs, hn]
    have hlt : (Bitmap.first_bit false ph.page.bitmap fh.file_hdr_.num_records_per_page).toNat
        < ph.page.slots.length := by omega
    simp [List.getD_eq_getElem?_getD, List.getElem?_set_self hlt, ← hbuf]
  rcases hfree with hno | ⟨s, hvac⟩
  · -- a new page is allocated
    refine key (create_new_page_handle fh).2 (create_new_page_handle fh).1 ?_ rfl rfl ?_ ?_ ?_ ?_ ?_
    · simp [create_page_handle, hno]
    · simp [create_new_page_handle]
    · simp [create_new_page_handle, hnp]
    · simp [create_new_page_handle]
    · simp [create_new_page_handle]
    · exact ⟨0, le_refl _, hn0, by simp [create_new_page_handle, Bitmap.is_set, Bitmap.init]⟩
  · -- the head of the free list is used
    obtain ⟨hp1, hp2, hsr, page, hpage, hclear⟩ := fh.slot_bit_eq_some _ _ hvac
    simp only at hp1 hp2 hsr hpage hclear
    have hlen : fh.file_hdr_.first_free_page_no.toNat < fh.pages.length :=
      (List.getElem?_eq_some_iff.mp hpage).1
    have hne : fh.file_hdr_.first_free_page_no ≠ RM_NO_PAGE := by
      simp only [RM_NO_PAGE]; omega
    refine key fh { page_no := fh.file_hdr_.first_free_page_no, page := page } ?_ rfl rfl
      (by simp only; omega) hp2 hlen ?_ ⟨s, hsr.1, hsr.2, hclear⟩
    · simp [create_page_handle, hne,
        fetch_page_handle_ok fh _ page (by omega) hp2 hpage]
    · exact (hlay page (mem_tail_of_getElem? _ _ _ (by omega) hpage)).2


/-- C4. The page invariant `popcount(bitmap) == num_records` is preserved by every
well-formed record-file operation (insertion, deletion of an occupied slot, insertion at
a vacant slot of an existing page, update), whatever the lock context and whether or not
the lock is granted. -/
theorem page_invariant_preserved (fh : RmFileHandle) (op : RmOp) (ctx : Option Context)
    (hwf : fh.WellFormed) (hinv : fh.PageInvariant) (hop : op.WellFormedOn fh) :
    (op.run fh ctx).PageInvariant := by
  obtain ⟨hnp, hn0, hnb, hlay⟩ := hwf
  cases op with
  | insert_record buf =>
    simp only [RmOp.run]
    have hfh1 : (create_page_handle fh).2.PageInvariant := by
      unfold create_page_handle
      split_ifs
      · exact create_new_page_handle_page_invariant fh hinv
      · exact hinv
    rcases insert_record_file_cases fh buf ctx with h | ⟨ph, hph, hs, h⟩
    · rw [h]; exact hfh1
    · rw [h]
      refine RmFileHandle.PageInvariant.set _ _ ph.page_no.toNat _ hfh1 rfl ?_
      intro hge
      simp only
      have hn : (create_page_handle fh).2.file_hdr_.num_records_per_page =
          fh.file_hdr_.num_records_per_page := by
        unfold create_page_handle; split_ifs <;> rfl
      unfold RmFileHandle.slot_in_range at hs
      rw [hn] at hs ⊢
      obtain ⟨hs0, hs1⟩ := hs
      have hclear := (Bitmap.first_bit_spec false ph.page.bitmap
        fh.file_hdr_.num_records_per_page (by omega)).2.2.1 hs1
      have hpage : Bitmap.popcount ph.page.bitmap = ph.page.page_hdr.num_records ∧
          ph.page.bitmap.length = 8 * fh.file_hdr_.bitmap_size := by
        unfold create_page_handle at hph
        split_ifs at hph
        · simp only [create_new_page_handle, Except.ok.injEq] at hph
          subst hph
          exact ⟨Bitmap.popcount_init _, by simp [Bitmap.init]⟩
        · obtain ⟨-, -, hpn, hp⟩ := fetch_page_handle_eq_ok _ _ _ hph
          have hmem := mem_tail_of_getElem? _ _ _ (by rw [← hpn]; exact hge) hp
          exact ⟨hinv _ hmem, (hlay _ hmem).1⟩
      rw [Bitmap.popcount_set _ _ hs0 (by omega) hclear, hpage.1]
  | delete_record rid =>
    simp only [RmOp.run]
    obtain ⟨hp1, hp2, hsr, page, hpage, hset⟩ := fh.slot_bit_eq_some _ _ hop
    rcases delete_record_file_cases fh rid ctx with h | ⟨ph, page', hf, hs, hpages, hb, hnr, -⟩
    · rw [h]; exact hinv
    · refine RmFileHandle.PageInvariant.set _ _ rid.page_no.toNat page' hinv hpages ?_
      intro _
      obtain ⟨-, -, -, hp⟩ := fetch_page_handle_eq_ok _ _ _ hf
      have hpp : ph.page = page := by rw [hpage] at hp; exact (Option.some.inj hp).symm
      have hmem := mem_tail_of_getElem? _ _ _ (by omega) hpage
      rw [hb, hnr, hpp, Bitmap.popcount_reset _ _ hsr.1 (by
        have := (hlay _ hmem).1; have := hsr.2; omega) hset, hinv _ hmem]
  | insert_record_at rid buf =>
    simp only [RmOp.run]
    obtain ⟨hp1, hp2, hsr, page, hpage, hclear⟩ := fh.slot_bit_eq_some _ _ hop
    obtain ⟨fh1, hfh1, h⟩ := insert_record_at_file_cases fh rid buf
    rw [if_pos hp2] at hfh1
    have hinv1 : fh1.PageInvariant := by
      rw [hfh1]; exact create_new_page_handle_page_invariant fh hinv
    rcases h with h | ⟨ph, page', hf, hs, hpages, hb, hnr, -, -⟩
    · rw [h]; exact hinv1
    · refine RmFileHandle.PageInvariant.set _ _ rid.page_no.toNat page' hinv1 hpages ?_
      intro _
      obtain ⟨-, -, -, hp⟩ := fetch_page_handle_eq_ok _ _ _ hf
      have hlen : rid.page_no.toNat < fh.pages.length := (List.getElem?_eq_some_iff.mp hpage).1
      have hpp : ph.page = page := by
        rw [hfh1] at hp
        simp only [create_new_page_handle] at hp
        rw [List.getElem?_append_left hlen, hpage] at hp
        exact (Option.some.inj hp).symm
      have hmem := mem_tail_of_getElem? _ _ _ (by omega) hpage
      rw [hb, hnr, hpp, Bitmap.popcount_set _ _ hsr.1 (by
        have := (hlay _ hmem).1; have := hsr.2; omega) hclear, hinv _ hmem]
  | update_record rid buf =>
    simp only [RmOp.run]
    rcases update_record_file_cases fh rid buf ctx with h | ⟨ph, hf, hs, h⟩
    · rw [h]; exact hinv
    · rw [h]
      refine RmFileHandle.PageInvariant.set _ _ rid.page_no.toNat _ hinv rfl ?_
      intro hge
      obtain ⟨-, -, -, hp⟩ := fetch_page_handle_eq_ok _ _ _ hf
      exact hinv ph.page (mem_tail_of_getElem? _ _ _ hge hp)

/-- C5. `check_lock_conflict` throws `DEADLOCK_PREVENTION` exactly when the
compatibility matrix of the spec marks the requested mode as incompatible with the group
mode, and returns normally otherwise. -/
theorem check_lock_conflict_matches_matrix (txn : Transaction) (G : GroupLockMode)
    (M : LockMode) :
    (check_lock_conflict txn G M =
        .error (.TransactionAbortException txn.txn_id_ .DEADLOCK_PREVENTION) ↔
      spec_compatible M G = false) ∧
    (check_lock_conflict txn G M = .ok () ↔ spec_compatible M G = true) := by
  cases G <;> cases M <;>
    simp [check_lock_conflict, spec_compatible, spec_matrix_row, spec_matrix_column]

theorem ensure_txn_can_lock_shrinking (txn : Transaction) (h : txn.state_ = .SHRINKING) :
    ensure_txn_can_lock txn =
      (.error (.TransactionAbortException txn.txn_id_ .LOCK_ON_SHIRINKING), txn) := by
  simp [ensure_txn_can_lock, h]

theorem LockCall.run_shrinking (call : LockCall) (txn : Transaction) (lock_table_ : LockTable)
    (h : txn.state_ = .SHRINKING) :
    call.run txn lock_table_ =
      { result := .error (.TransactionAbortException txn.txn_id_ .LOCK_ON_SHIRINKING),
        txn := txn, lock_table_ := lock_table_ } := by
  cases call <;>
    simp [LockCall.run, lock_shared_on_record, lock_exclusive_on_record, lock_shared_on_table,
      lock_exclusive_on_table, lock_IS_on_table, lock_IX_on_table,
      ensure_txn_can_lock_shrinking txn h]

theorem unlock_state (txn : Transaction) (id : LockDataId) (lock_table_ : LockTable) :
    (unlock txn id lock_table_).txn =
      if txn.state_ = .GROWING then { txn with state_ := .SHRINKING } else txn := by
  unfold unlock
  split_ifs with h1 h2
  · rcases h1 with h1 | h1 <;> simp [h1] at h2
  · rfl
  · simp only
    split
    · rfl
    · split <;> [rfl; (split_ifs <;> rfl)]
  · simp only
    split
    · rfl
    · split <;> [rfl; (split_ifs <;> rfl)]

theorem Transaction.after_shrinking (history : List (LockOp × LockTable)) :
    ∀ txn : Transaction, txn.state_ = .SHRINKING → txn.after history = txn := by
  induction history with
  | nil => intro txn _; rfl
  | cons step rest ih =>
    intro txn h
    obtain ⟨op, lt⟩ := step
    have hstep : (op.run txn lt).txn = txn := by
      cases op with
      | lock call => simp [LockOp.run, LockCall.run_shrinking call txn lt h]
      | unlock id => simp [LockOp.run, unlock_state, h]
    simp only [Transaction.after, hstep]
    exact ih txn h

/-- With no queue yet for the record, `lock_shared_on_record` by a transaction in
`DEFAULT` or `GROWING` state throws `std::out_of_range` from `lock_table_.at`: nothing is
granted, the lock set and the lock table are unchanged. -/
theorem lock_shared_on_record_missing_queue (txn : Transaction) (rid : Rid) (tab_fd : Int)
    (lock_table_ : LockTable)
    (hstate : txn.state_ = .DEFAULT ∨ txn.state_ = .GROWING)
    (hnone : lock_table_ (LockDataId.record tab_fd rid) = none) :
    (lock_shared_on_record txn rid tab_fd lock_table_).result = .error .OutOfRange ∧
    (lock_shared_on_record txn rid tab_fd lock_table_).txn.lock_set_ = txn.lock_set_ ∧
    (lock_shared_on_record txn rid tab_fd lock_table_).lock_table_ = lock_table_ := by
  rcases hstate with h | h <;>
    simp [lock_shared_on_record, ensure_txn_can_lock, h, hnone]

/-! ## Requests of a transaction in a queue -/

theorem find_request_eq_none_iff (q : List LockRequest) (tid : Nat) :
    find_request q tid = none ↔ requests_of tid q = [] := by
  simp [find_request, requests_of, List.filter_eq_nil_iff]

theorem requests_of_append (t : Nat) (q₁ q₂ : List LockRequest) :
    requests_of t (q₁ ++ q₂) = requests_of t q₁ ++ requests_of t q₂ := by
  simp [requests_of]

theorem requests_of_granted (t tid : Nat) (m : LockMode) :
    requests_of t [granted_request tid m] = if tid = t then [granted_request tid m] else [] := by
  by_cases h : tid = t <;> simp [requests_of, granted_request, h]

theorem requests_of_assign_ne (t tid : Nat) (m : LockMode) (h : t ≠ tid) :
    ∀ q : List LockRequest, requests_of t (assign_lock_mode q tid m) = requests_of t q := by
  intro q
  induction q with
  | nil => rfl
  | cons r rs ih =>
    unfold assign_lock_mode
    by_cases hr : r.txn_id_ = tid
    · have hne : ¬ r.txn_id_ = t := fun h' => h (h'.symm.trans hr)
      simp [hr, requests_of, List.filter_cons, hne, Ne.symm h]
    · simp only [beq_iff_eq, hr, if_false]
      simp only [requests_of, List.filter_cons] at ih ⊢
      rw [ih]

theorem requests_of_assign_length (tid : Nat) (m : LockMode) :
    ∀ q : List LockRequest,
      (requests_of tid (assign_lock_mode q tid m)).length = (requests_of tid q).length := by
  intro q
  induction q with
  | nil => rfl
  | cons r rs ih =>
    unfold assign_lock_mode
    by_cases hr : r.txn_id_ = tid
    · simp [hr, requests_of, List.filter_cons]
    · simp only [beq_iff_eq, hr, if_false]
      simp only [requests_of, List.filter_cons, beq_iff_eq, hr, if_false] at ih ⊢
      exact ih

theorem requests_of_eraseP (t tid : Nat) :
    ∀ q : List LockRequest,
      requests_of t (q.eraseP (fun r => r.txn_id_ == tid)) =
        if t = tid then (requests_of tid q).tail else requests_of t q := by
  intro q
  induction q with
  | nil => simp [requests_of]
  | cons r rs ih =>
    by_cases hr : r.txn_id_ = tid
    · by_cases ht : t = tid
      · subst ht
        simp [List.eraseP_cons, hr, requests_of, List.filter_cons]
      · simp [List.eraseP_cons, hr, requests_of, List.filter_cons, ht, Ne.symm ht]
    · have hr' : (r.txn_id_ == tid) = false := by simpa using hr
      rw [List.eraseP_cons, hr']
      simp only [cond_false]
      by_cases ht : t = tid
      · subst ht
        simp only [if_true] at ih ⊢
        simp only [requests_of, List.filter_cons, hr', Bool.false_eq_true, if_false] at ih ⊢
        exact ih
      · simp only [ht, if_false] at ih ⊢
        simp only [requests_of, List.filter_cons] at ih ⊢
        rw [ih]

/-! ## The lock table -/

theorem LockTable.index_touch (lt : LockTable) (id id' : LockDataId) :
    (lt.touch id).index id' = lt.index id' := by
  unfold LockTable.touch LockTable.index
  cases h : lt id with
  | some q => simp [h]
  | none =>
    by_cases hid : id' = id
    · subst hid; simp [h]
    · simp [Function.update, hid]

theorem LockTable.index_store (lt : LockTable) (id id' : LockDataId) (q : LockRequestQueue) :
    (lt.store id q).index id' = if id' = id then q else lt.index id' := by
  unfold LockTable.store LockTable.index
  by_cases hid : id' = id
  · subst hid; simp
  · simp [Function.update, hid]

theorem LockTable.index_of_some (lt : LockTable) (id : LockDataId) (q : LockRequestQueue)
    (h : lt id = some q) : lt.index id = q := by
  simp [LockTable.index, h]


/-! ## What the lock-manager calls guarantee -/

theorem LockSpec.refl (txn : Transaction) (lt : LockTable) : LockSpec txn lt txn lt :=
  { txn_id := rfl, write_set := rfl, state := Or.inl rfl, lock_set := fun _ h => h,
    others := fun _ _ _ => rfl, own_le := fun _ h => h, own_in := fun _ h => Or.inl h }

theorem LockSpec.trans {txn txn₁ txn₂ : Transaction} {lt lt₁ lt₂ : LockTable}
    (h₁ : LockSpec txn lt txn₁ lt₁) (h₂ : LockSpec txn₁ lt₁ txn₂ lt₂) :
    LockSpec txn lt txn₂ lt₂ := by
  refine
    { txn_id := h₂.txn_id.trans h₁.txn_id, write_set := h₂.write_set.trans h₁.write_set,
      state := ?_, lock_set := fun id h => h₂.lock_set id (h₁.lock_set id h),
      others := ?_, own_le := ?_, own_in := ?_ }
  · rcases h₂.state with h | h | h
    · rw [h]; exact h₁.state
    · exact Or.inr (Or.inl h)
    · exact Or.inr (Or.inr h)
  · intro id t ht
    rw [h₂.others id t (by rw [h₁.txn_id]; exact ht), h₁.others id t ht]
  · intro id h
    have := h₂.own_le id
    rw [h₁.txn_id] at this
    exact this (h₁.own_le id h)
  · intro id h
    have h2 := h₂.own_in id
    rw [h₁.txn_id] at h2
    rcases h2 h with h' | h'
    · rcases h₁.own_in id h' with h'' | h''
      · exact Or.inl h''
      · exact Or.inr (h₂.lock_set id h'')
    · exact Or.inr h'

theorem ensure_txn_can_lock_spec (txn txn₁ : Transaction) (res : Except Error Bool)
    (lt : LockTable) (h : ensure_txn_can_lock txn = (res, txn₁)) : LockSpec txn lt txn₁ lt := by
  unfold ensure_txn_can_lock at h
  split_ifs at h <;> simp only [Prod.mk.injEq] at h <;> obtain ⟨-, rfl⟩ := h
  · exact LockSpec.refl _ _
  · exact LockSpec.refl _ _
  · exact
      { txn_id := rfl, write_set := rfl, state := Or.inr (Or.inl rfl), lock_set := fun _ h => h,
        others := fun _ _ _ => rfl, own_le := fun _ h => h, own_in := fun _ h => Or.inl h }
  · exact LockSpec.refl _ _

theorem LockSpec.touch (txn : Transaction) (lt : LockTable) (id : LockDataId) :
    LockSpec txn lt txn (lt.touch id) :=
  { txn_id := rfl, write_set := rfl, state := Or.inl rfl, lock_set := fun _ h => h,
    others := fun id' _ _ => by rw [LockTable.index_touch],
    own_le := fun id' h => by rw [LockTable.index_touch]; exact h,
    own_in := fun id' h => by rw [LockTable.index_touch] at h; exact Or.inl h }

/-- Storing a queue with the same requests (only the group mode and the counters
change). -/
theorem LockSpec.store_same (txn : Transaction) (lt : LockTable) (id : LockDataId)
    (q : LockRequestQueue) (hq : q.request_queue_ = (lt.index id).request_queue_) :
    LockSpec txn lt txn (lt.store id q) := by
  have key : ∀ id', ((lt.store id q).index id').request_queue_ = (lt.index id').request_queue_ := by
    intro id'
    rw [LockTable.index_store]
    split_ifs with h
    · rw [h, hq]
    · rfl
  exact
    { txn_id := rfl, write_set := rfl, state := Or.inl rfl, lock_set := fun _ h => h,
      others := fun id' _ _ => by rw [key],
      own_le := fun id' h => by rw [key]; exact h,
      own_in := fun id' h => by rw [key] at h; exact Or.inl h }

/-- Storing a queue in which the request of the transaction has a new mode. -/
theorem LockSpec.store_assign (txn : Transaction) (lt : LockTable) (id : LockDataId)
    (q : LockRequestQueue) (m : LockMode)
    (hq : q.request_queue_ = assign_lock_mode (lt.index id).request_queue_ txn.txn_id_ m) :
    LockSpec txn lt txn (lt.store id q) := by
  refine
    { txn_id := rfl, write_set := rfl, state := Or.inl rfl, lock_set := fun _ h => h,
      others := ?_, own_le := ?_, own_in := ?_ }
  · intro id' t ht
    rw [LockTable.index_store]
    split_ifs with h
    · rw [h, hq, requests_of_assign_ne t _ m ht]
    · rfl
  · intro id' hle
    rw [LockTable.index_store]
    split_ifs with h
    · rw [hq, requests_of_assign_length, ← h]; exact hle
    · exact hle
  · intro id' hne
    rw [LockTable.index_store] at hne
    split_ifs at hne with h
    · left
      intro hnil
      apply hne
      apply List.eq_nil_of_length_eq_zero
      rw [hq, requests_of_assign_length, ← h, hnil]; rfl
    · exact Or.inl hne

/-- Appending a first request of the transaction to a queue and recording the queue in
the lock set. -/
theorem LockSpec.store_append (txn : Transaction) (lt : LockTable) (id : LockDataId)
    (q : LockRequestQueue) (m : LockMode)
    (hnone : find_request (lt.index id).request_queue_ txn.txn_id_ = none)
    (hq : q.request_queue_ = (lt.index id).request_queue_ ++ [granted_request txn.txn_id_ m]) :
    LockSpec txn lt (txn.append_lock_set id) (lt.store id q) := by
  have hnil := (find_request_eq_none_iff _ _).mp hnone
  have hmem : id ∈ (txn.append_lock_set id).lock_set_ := by
    unfold Transaction.append_lock_set
    split_ifs with h
    · exact h
    · simp
  refine
    { txn_id := ?_, write_set := ?_, state := Or.inl ?_, lock_set := ?_,
      others := ?_, own_le := ?_, own_in := ?_ }
  · unfold Transaction.append_lock_set; split_ifs <;> rfl
  · unfold Transaction.append_lock_set; split_ifs <;> rfl
  · unfold Transaction.append_lock_set; split_ifs <;> rfl
  · intro id' h
    unfold Transaction.append_lock_set
    split_ifs
    · exact h
    · simp [h]
  · intro id' t ht
    rw [LockTable.index_store]
    split_ifs with h
    · rw [h, hq, requests_of_append, requests_of_granted, if_neg (Ne.symm ht), List.append_nil]
    · rfl
  · intro id' hle
    rw [LockTable.index_store]
    split_ifs with h
    · rw [hq, requests_of_append, requests_of_granted, hnil]; simp
    · exact hle
  · intro id' hne
    rw [LockTable.index_store] at hne
    split_ifs at hne with h
    · right; rw [h]; exact hmem
    · exact Or.inl hne

/-- Erasing the first request of the transaction from a queue. -/
theorem LockSpec.store_erase (txn : Transaction) (lt : LockTable) (id : LockDataId)
    (q : LockRequestQueue)
    (hq : q.request_queue_ =
      (lt.index id).request_queue_.eraseP (fun r => r.txn_id_ == txn.txn_id_)) :
    LockSpec txn lt txn (lt.store id q) := by
  refine
    { txn_id := rfl, write_set := rfl, state := Or.inl rfl, lock_set := fun _ h => h,
      others := ?_, own_le := ?_, own_in := ?_ }
  · intro id' t ht
    rw [LockTable.index_store]
    split_ifs with h
    · rw [h, hq, requests_of_eraseP, if_neg ht]
    · rfl
  · intro id' hle
    rw [LockTable.index_store]
    split_ifs with h
    · rw [hq, requests_of_eraseP, if_pos rfl, List.length_tail, ← h]; omega
    · exact hle
  · intro id' hne
    rw [LockTable.index_store] at hne
    split_ifs at hne with h
    · left
      intro hnil
      apply hne
      rw [hq, requests_of_eraseP, if_pos rfl, ← h, hnil]; rfl
    · exact Or.inl hne

/-- A change of state alone. -/
theorem LockSpec.set_state (txn : Transaction) (lt : LockTable) (s : TransactionState)
    (hs : s = .GROWING ∨ s = .SHRINKING) : LockSpec txn lt { txn with state_ := s } lt :=
  { txn_id := rfl, write_set := rfl, state := Or.inr hs, lock_set := fun _ h => h,
    others := fun _ _ _ => rfl, own_le := fun _ h => h, own_in := fun _ h => Or.inl h }

theorem _lock_IS_on_table_spec (txn : Transaction) (tab_fd : Int) (lt : LockTable) :
    LockSpec txn lt (_lock_IS_on_table txn tab_fd lt).txn
      (_lock_IS_on_table txn tab_fd lt).lock_table_ := by
  unfold _lock_IS_on_table
  split
  · next e txn₁ heq => exact ensure_txn_can_lock_spec _ _ _ _ heq
  · next b txn₁ heq =>
    have h₁ := ensure_txn_can_lock_spec txn txn₁ _ lt heq
    simp only
    split
    · exact h₁.trans (LockSpec.touch _ _ _)
    · next hnone =>
      split
      · exact h₁.trans (LockSpec.touch _ _ _)
      · refine h₁.trans ((LockSpec.touch _ _ _).trans
          (LockSpec.store_append _ _ _ _ .INTENTION_SHARED ?_ ?_))
        · rw [LockTable.index_touch]; exact hnone
        · rw [LockTable.index_touch]


theorem lock_IS_on_table_eq : lock_IS_on_table = _lock_IS_on_table := rfl

theorem lock_IX_on_table_eq : lock_IX_on_table = _lock_IX_on_table := rfl

theorem _lock_IX_on_table_spec (txn : Transaction) (tab_fd : Int) (lt : LockTable) :
    LockSpec txn lt (_lock_IX_on_table txn tab_fd lt).txn
      (_lock_IX_on_table txn tab_fd lt).lock_table_ := by
  unfold _lock_IX_on_table
  split
  · next e txn₁ heq => exact ensure_txn_can_lock_spec _ _ _ _ heq
  · next b txn₁ heq =>
    have h₁ := ensure_txn_can_lock_spec txn txn₁ _ lt heq
    simp only
    split
    · split_ifs
      · exact h₁.trans (LockSpec.touch _ _ _)
      · refine h₁.trans ((LockSpec.touch _ _ _).trans
          (LockSpec.store_assign _ _ _ _ .S_IX ?_))
        rw [LockTable.index_touch]
      · refine h₁.trans ((LockSpec.touch _ _ _).trans
          (LockSpec.store_assign _ _ _ _ .INTENTION_EXCLUSIVE ?_))
        rw [LockTable.index_touch]
      · exact h₁.trans (LockSpec.touch _ _ _)
    · next hnone =>
      split
      · exact h₁.trans (LockSpec.touch _ _ _)
      · refine h₁.trans ((LockSpec.touch _ _ _).trans
          (LockSpec.store_append _ _ _ _ .INTENTION_EXCLUSIVE ?_ ?_))
        · rw [LockTable.index_touch]; exact hnone
        · rw [LockTable.index_touch]

theorem lock_shared_on_table_spec (txn : Transaction) (tab_fd : Int) (lt : LockTable) :
    LockSpec txn lt (lock_shared_on_table txn tab_fd lt).txn
      (lock_shared_on_table txn tab_fd lt).lock_table_ := by
  unfold lock_shared_on_table
  split
  · next e txn₁ heq => exact ensure_txn_can_lock_spec _ _ _ _ heq
  · next b txn₁ heq =>
    have h₁ := ensure_txn_can_lock_spec txn txn₁ _ lt heq
    simp only
    split
    · split_ifs
      · exact h₁.trans (LockSpec.touch _ _ _)
      · refine h₁.trans ((LockSpec.touch _ _ _).trans (LockSpec.store_same _ _ _ _ ?_))
        rw [LockTable.index_touch]
      · refine h₁.trans ((LockSpec.touch _ _ _).trans (LockSpec.store_same _ _ _ _ ?_))
        rw [LockTable.index_touch]
      · exact h₁.trans (LockSpec.touch _ _ _)
    · next hnone =>
      split
      · exact h₁.trans (LockSpec.touch _ _ _)
      · refine h₁.trans ((LockSpec.touch _ _ _).trans
          (LockSpec.store_append _ _ _ _ .SHARED ?_ ?_))
        · rw [LockTable.index_touch]; exact hnone
        · rw [LockTable.index_touch]

theorem lock_exclusive_on_table_spec (txn : Transaction) (tab_fd : Int) (lt : LockTable) :
    LockSpec txn lt (lock_exclusive_on_table txn tab_fd lt).txn
      (lock_exclusive_on_table txn tab_fd lt).lock_table_ := by
  unfold lock_exclusive_on_table
  split
  · next e txn₁ heq => exact ensure_txn_can_lock_spec _ _ _ _ heq
  · next b txn₁ heq =>
    have h₁ := ensure_txn_can_lock_spec txn txn₁ _ lt heq
    simp only
    split
    · split_ifs
      · exact h₁.trans (LockSpec.touch _ _ _)
      · refine h₁.trans ((LockSpec.touch _ _ _).trans (LockSpec.store_same _ _ _ _ ?_))
        rw [LockTable.index_touch]
      · exact h₁.trans (LockSpec.touch _ _ _)
    · next hnone =>
      split
      · exact h₁.trans (LockSpec.touch _ _ _)
      · refine h₁.trans ((LockSpec.touch _ _ _).trans
          (LockSpec.store_append _ _ _ _ .EXCLUSIVE ?_ ?_))
        · rw [LockTable.index_touch]; exact hnone
        · rw [LockTable.index_touch]

theorem lock_shared_on_record_spec (txn : Transaction) (rid : Rid) (tab_fd : Int)
    (lt : LockTable) :
    LockSpec txn lt (lock_shared_on_record txn rid tab_fd lt).txn
      (lock_shared_on_record txn rid tab_fd lt).lock_table_ := by
  unfold lock_shared_on_record
  split
  · next e txn₁ heq => exact ensure_txn_can_lock_spec _ _ _ _ heq
  · next b txn₁ heq =>
    have h₁ := ensure_txn_can_lock_spec txn txn₁ _ lt heq
    simp only
    split
    · exact h₁
    · have h₂ := h₁.trans (_lock_IS_on_table_spec txn₁ tab_fd lt)
      have hid : (_lock_IS_on_table txn₁ tab_fd lt).txn.txn_id_ = txn₁.txn_id_ :=
        (_lock_IS_on_table_spec txn₁ tab_fd lt).txn_id
      split
      · next e txn₂ lt₂ heq₂ =>
        rw [heq₂] at h₂; exact h₂
      · next b₂ txn₂ lt₂ heq₂ =>
        rw [heq₂] at h₂
        simp only at h₂ ⊢
        split
        · exact h₂
        · next hnone =>
          split
          · exact h₂
          · exact h₂.trans (LockSpec.store_append _ _ _ _ .SHARED hnone rfl)

theorem lock_exclusive_on_record_spec (txn : Transaction) (rid : Rid) (tab_fd : Int)
    (lt : LockTable) :
    LockSpec txn lt (lock_exclusive_on_record txn rid tab_fd lt).txn
      (lock_exclusive_on_record txn rid tab_fd lt).lock_table_ := by
  unfold lock_exclusive_on_record
  split
  · next e txn₁ heq => exact ensure_txn_can_lock_spec _ _ _ _ heq
  · next b txn₁ heq =>
    have h₁ := ensure_txn_can_lock_spec txn txn₁ _ lt heq
    simp only
    have h₂ := (h₁.trans (LockSpec.touch txn₁ lt (LockDataId.record tab_fd rid))).trans
      (_lock_IX_on_table_spec txn₁ tab_fd (lt.touch (LockDataId.record tab_fd rid)))
    split
    · next e txn₂ lt₂ heq₂ =>
      rw [heq₂] at h₂; exact h₂
    · next b₂ txn₂ lt₂ heq₂ =>
      rw [heq₂] at h₂
      simp only at h₂ ⊢
      split
      · split_ifs
        · exact h₂
        · exact h₂.trans (LockSpec.store_same _ _ _ _ rfl)
        · exact h₂
      · next hnone =>
        split
        · exact h₂
        · exact h₂.trans (LockSpec.store_append _ _ _ _ .EXCLUSIVE hnone rfl)

theorem unlock_spec (txn : Transaction) (id : LockDataId) (lt : LockTable) :
    LockSpec txn lt (unlock txn id lt).txn (unlock txn id lt).lock_table_ := by
  unfold unlock
  by_cases hfin : txn.state_ = .COMMITTED ∨ txn.state_ = .ABORTED
  · rw [if_pos hfin]; exact LockSpec.refl _ _
  · rw [if_neg hfin]
    simp only
    have h₁ : LockSpec txn lt
        (if txn.state_ = .GROWING then { txn with state_ := .SHRINKING } else txn) lt := by
      split_ifs
      · exact LockSpec.set_state _ _ _ (Or.inr rfl)
      · exact LockSpec.refl _ _
    generalize (if txn.state_ = .GROWING then { txn with state_ := .SHRINKING } else txn) = txn₁
      at h₁ ⊢
    split
    · exact h₁
    · next q hq =>
      split
      · exact h₁
      · split_ifs
        · refine h₁.trans (LockSpec.store_erase _ _ _ _ ?_)
          rw [LockTable.index_of_some _ _ _ hq]
        · refine h₁.trans (LockSpec.store_erase _ _ _ _ ?_)
          rw [LockTable.index_of_some _ _ _ hq]

theorem LockCall.run_lock_spec (call : LockCall) (txn : Transaction) (lt : LockTable) :
    LockSpec txn lt (call.run txn lt).txn (call.run txn lt).lock_table_ := by
  cases call with
  | shared_on_record rid fd => exact lock_shared_on_record_spec txn rid fd lt
  | exclusive_on_record rid fd => exact lock_exclusive_on_record_spec txn rid fd lt
  | shared_on_table fd => exact lock_shared_on_table_spec txn fd lt
  | exclusive_on_table fd => exact lock_exclusive_on_table_spec txn fd lt
  | IS_on_table fd => exact _lock_IS_on_table_spec txn fd lt
  | IX_on_table fd => exact _lock_IX_on_table_spec txn fd lt

theorem LockOp.run_op_spec (op : LockOp) (txn : Transaction) (lt : LockTable) :
    LockSpec txn lt (op.run txn lt).txn (op.run txn lt).lock_table_ := by
  cases op with
  | lock call => exact call.run_lock_spec txn lt
  | unlock id => exact unlock_spec txn id lt

theorem unlock_txn_id (txn : Transaction) (id : LockDataId) (lt : LockTable) :
    (unlock txn id lt).txn.txn_id_ = txn.txn_id_ := (unlock_spec txn id lt).txn_id

theorem unlock_not_finished (txn : Transaction) (id : LockDataId) (lt : LockTable)
    (h : txn.state_ ≠ .COMMITTED ∧ txn.state_ ≠ .ABORTED) :
    (unlock txn id lt).txn.state_ ≠ .COMMITTED ∧ (unlock txn id lt).txn.state_ ≠ .ABORTED := by
  rcases (unlock_spec txn id lt).state with hs | hs | hs
  · rw [hs]; exact h
  · rw [hs]; exact ⟨by decide, by decide⟩
  · rw [hs]; exact ⟨by decide, by decide⟩

theorem unlock_lock_set (txn : Transaction) (id : LockDataId) (lt : LockTable) :
    (unlock txn id lt).txn.lock_set_ = txn.lock_set_ := by
  unfold unlock
  split_ifs <;> (try rfl) <;> simp only <;> split <;> (try rfl) <;> split <;> (try rfl) <;>
    split_ifs <;> rfl

/-- The requests that `unlock` leaves in each queue. -/
theorem unlock_requests (txn : Transaction) (id : LockDataId) (lt : LockTable)
    (h : txn.state_ ≠ .COMMITTED ∧ txn.state_ ≠ .ABORTED) (id' : LockDataId) :
    ((unlock txn id lt).lock_table_.index id').request_queue_ =
      if id' = id then
        (lt.index id).request_queue_.eraseP (fun r => r.txn_id_ == txn.txn_id_)
      else (lt.index id').request_queue_ := by
  have hfin : ¬ (txn.state_ = .COMMITTED ∨ txn.state_ = .ABORTED) := by
    rintro (h' | h')
    · exact h.1 h'
    · exact h.2 h'
  have hid : (if txn.state_ = .GROWING then { txn with state_ := .SHRINKING } else txn).txn_id_
      = txn.txn_id_ := by split_ifs <;> rfl
  unfold unlock
  rw [if_neg hfin]
  simp only
  generalize (if txn.state_ = .GROWING then { txn with state_ := .SHRINKING } else txn) = txn₁
    at hid ⊢
  rw [hid]
  by_cases hi : id' = id
  · subst hi
    rw [if_pos rfl]
    split
    · next hnone => simp [LockTable.index, hnone]
    · next q hq =>
      rw [LockTable.index_of_some _ _ _ hq]
      split
      · next hnone =>
        simp only
        rw [LockTable.index_of_some _ _ _ hq]
        symm
        apply List.eraseP_of_forall_not
        intro r hr
        have := List.find?_eq_none.mp hnone r hr
        simpa using this
      · split_ifs <;> simp [LockTable.index_store]
  · rw [if_neg hi]
    split
    · rfl
    · split
      · rfl
      · split_ifs <;> simp [LockTable.index_store, hi]


theorem unlock_other (txn : Transaction) (id id' : LockDataId) (lt : LockTable)
    (h : id' ≠ id) : (unlock txn id lt).lock_table_ id' = lt id' := by
  unfold unlock
  split_ifs <;> (try rfl) <;> simp only <;> split <;> (try rfl) <;> split <;> (try rfl) <;>
    split_ifs <;> simp [LockTable.store, Function.update, h]

theorem unlock_absent (txn : Transaction) (id : LockDataId) (lt : LockTable)
    (q : LockRequestQueue) (hq : lt id = some q) (hnil : q.request_queue_ = []) :
    (unlock txn id lt).lock_table_ id = some q := by
  unfold unlock
  split_ifs <;> simp [hq, hnil, find_request]

theorem unlock_single (txn : Transaction) (id : LockDataId) (lt : LockTable)
    (q : LockRequestQueue) (r : LockRequest)
    (h : txn.state_ ≠ .COMMITTED ∧ txn.state_ ≠ .ABORTED)
    (hq : lt id = some q) (hr : q.request_queue_ = [r]) (hid : r.txn_id_ = txn.txn_id_) :
    ∃ q', (unlock txn id lt).lock_table_ id = some q' ∧ q'.request_queue_ = [] ∧
      q'.group_lock_mode_ = .NON_LOCK := by
  have hfin : ¬ (txn.state_ = .COMMITTED ∨ txn.state_ = .ABORTED) := by
    rintro (h' | h')
    · exact h.1 h'
    · exact h.2 h'
  unfold unlock
  rw [if_neg hfin]
  split_ifs <;> simp [hq, hr, find_request, hid, LockTable.store]

/-- The loop that releases the locks: what it does to the transaction and to the
requests in every queue. -/
theorem unlock_all_spec (ids : List LockDataId) :
    ∀ (txn : Transaction) (lt : LockTable),
      txn.state_ ≠ .COMMITTED ∧ txn.state_ ≠ .ABORTED →
      (unlock_all txn ids lt).1.txn_id_ = txn.txn_id_ ∧
      (unlock_all txn ids lt).1.lock_set_ = txn.lock_set_ ∧
      (unlock_all txn ids lt).1.write_set_ = txn.write_set_ ∧
      (∀ id t, t ≠ txn.txn_id_ →
        requests_of t ((unlock_all txn ids lt).2.index id).request_queue_ =
          requests_of t (lt.index id).request_queue_) ∧
      (∀ id,
        (requests_of txn.txn_id_ ((unlock_all txn ids lt).2.index id).request_queue_).length ≤
          (requests_of txn.txn_id_ (lt.index id).request_queue_).length -
            (if id ∈ ids then 1 else 0)) := by
  induction ids with
  | nil =>
    intro txn lt _
    simp [unlock_all]
  | cons id rest ih =>
    intro txn lt h
    obtain ⟨h1, h2, h3, h4, h5⟩ := ih (unlock txn id lt).txn (unlock txn id lt).lock_table_
      (unlock_not_finished txn id lt h)
    rw [unlock_txn_id] at h1 h4 h5
    rw [unlock_lock_set] at h2
    rw [(unlock_spec txn id lt).write_set] at h3
    simp only [unlock_all]
    refine ⟨h1, h2, h3, ?_, ?_⟩
    · intro id' t ht
      rw [h4 id' t ht, (unlock_spec txn id lt).others id' t ht]
    · intro id'
      have h5' := h5 id'
      rw [unlock_requests txn id lt h id'] at h5'
      by_cases hi : id' = id
      · subst hi
        rw [if_pos rfl, requests_of_eraseP, if_pos rfl, List.length_tail] at h5'
        simp only [List.mem_cons, true_or, if_true]
        omega
      · rw [if_neg hi] at h5'
        simp only [List.mem_cons, hi, false_or]
        exact h5'

theorem unlock_all_absent (ids : List LockDataId) (id : LockDataId) (q : LockRequestQueue)
    (hnil : q.request_queue_ = []) :
    ∀ (txn : Transaction) (lt : LockTable), lt id = some q →
      (unlock_all txn ids lt).2 id = some q := by
  induction ids with
  | nil => intro txn lt h; exact h
  | cons id₁ rest ih =>
    intro txn lt h
    simp only [unlock_all]
    apply ih
    by_cases hi : id = id₁
    · subst hi; exact unlock_absent txn id lt q h hnil
    · rw [unlock_other txn id₁ id lt hi]; exact h

theorem unlock_all_single (ids : List LockDataId) (id : LockDataId) (q : LockRequestQueue)
    (r : LockRequest) (hr : q.request_queue_ = [r]) :
    ∀ (txn : Transaction) (lt : LockTable),
      txn.state_ ≠ .COMMITTED ∧ txn.state_ ≠ .ABORTED → id ∈ ids → lt id = some q →
      r.txn_id_ = txn.txn_id_ →
      ∃ q', (unlock_all txn ids lt).2 id = some q' ∧ q'.request_queue_ = [] ∧
        q'.group_lock_mode_ = .NON_LOCK := by
  induction ids with
  | nil => intro txn lt _ hmem; simp at hmem
  | cons id₁ rest ih =>
    intro txn lt h hmem hq hid
    simp only [unlock_all]
    by_cases hi : id = id₁
    · subst hi
      obtain ⟨q', hq', hnil, hg⟩ := unlock_single txn id lt q r h hq hr hid
      exact ⟨q', unlock_all_absent rest id q' hnil _ _ hq', hnil, hg⟩
    · have hmem' : id ∈ rest := by
        rcases List.mem_cons.mp hmem with h' | h'
        · exact absurd h' hi
        · exact h'
      exact ih _ _ (unlock_not_finished txn id₁ lt h) hmem'
        (by rw [unlock_other txn id₁ id lt hi]; exact hq)
        (by rw [unlock_txn_id]; exact hid)

theorem TransactionManager.init_consistent (sm : SmManager) :
    (TransactionManager.init sm).Consistent :=
  { registered := fun _ _ h => by simp [TransactionManager.init] at h,
    at_most_one := fun _ _ => by simp [TransactionManager.init, LockTable.empty, LockTable.index, requests_of],
    in_lock_set := fun _ _ h => by
      simp [TransactionManager.init, LockTable.empty, LockTable.index, requests_of] at h }

theorem TransactionManager.begin_consistent (tm : TransactionManager) (h : tm.Consistent) :
    (tm.begin none).2.Consistent := by
  refine { registered := ?_, at_most_one := ?_, in_lock_set := ?_ }
  · intro tid txn htxn
    simp only [TransactionManager.begin, Option.getD_none, Option.isNone_none, if_true,
      Transaction.new, Function.update_apply] at htxn ⊢
    split_ifs at htxn with hk
    · simp only [Option.some.injEq] at htxn
      subst htxn
      subst hk
      simp
    · obtain ⟨h1, h2, h3⟩ := h.registered tid txn htxn
      exact ⟨h1, by omega, h3⟩
  · intro id tid
    exact h.at_most_one id tid
  · intro id tid hne
    obtain ⟨txn, htxn, hmem⟩ := h.in_lock_set id tid hne
    refine ⟨txn, ?_, hmem⟩
    have hlt := (h.registered tid txn htxn).2.1
    simp only [TransactionManager.begin, Option.getD_none, Transaction.new, Function.update_apply]
    rw [if_neg (by omega)]
    exact htxn

theorem TransactionManager.call_consistent (tm : TransactionManager) (tid : Nat) (op : LockOp)
    (h : tm.Consistent) : (tm.step (.call tid op)).Consistent := by
  simp only [TransactionManager.step]
  cases htxn : tm.txn_map tid with
  | none => exact h
  | some txn =>
    simp only
    have spec := op.run_op_spec txn tm.lock_manager_
    obtain ⟨hid, hlt, hc, ha⟩ := h.registered tid txn htxn
    refine { registered := ?_, at_most_one := ?_, in_lock_set := ?_ }
    · intro k txn' hk
      simp only [Function.update_apply] at hk
      split_ifs at hk with hkt
      · simp only [Option.some.injEq] at hk
        subst hk
        subst hkt
        refine ⟨spec.txn_id.trans hid, hlt, ?_⟩
        rcases spec.state with hs | hs | hs
        · rw [hs]; exact ⟨hc, ha⟩
        · rw [hs]; exact ⟨by decide, by decide⟩
        · rw [hs]; exact ⟨by decide, by decide⟩
      · exact h.registered k txn' hk
    · intro id t
      simp only
      by_cases ht : t = tid
      · subst ht
        have := spec.own_le id
        rw [hid] at this
        exact this (h.at_most_one id t)
      · rw [spec.others id t (by rw [hid]; exact ht)]
        exact h.at_most_one id t
    · intro id t hne
      simp only at hne ⊢
      by_cases ht : t = tid
      · subst ht
        refine ⟨(op.run txn tm.lock_manager_).txn, by simp, ?_⟩
        have := spec.own_in id
        rw [hid] at this
        rcases this hne with h' | h'
        · obtain ⟨txn', htxn', hmem⟩ := h.in_lock_set id t h'
          rw [htxn] at htxn'
          simp only [Option.some.injEq] at htxn'
          subst htxn'
          exact spec.lock_set id hmem
        · exact h'
      · rw [spec.others id t (by rw [hid]; exact ht)] at hne
        obtain ⟨txn', htxn', hmem⟩ := h.in_lock_set id t hne
        exact ⟨txn', by simp [Function.update_apply, ht, htxn'], hmem⟩

theorem TransactionManager.Reachable.consistent (tm : TransactionManager) (h : tm.Reachable) :
    tm.Consistent := by
  induction h with
  | init sm => exact TransactionManager.init_consistent sm
  | step tm s _ ih =>
    cases s with
    | begin_new => exact TransactionManager.begin_consistent tm ih
    | call tid op => exact TransactionManager.call_consistent tm tid op ih

theorem commit_eq (txn : Transaction) (lt : LockTable) :
    commit txn lt =
      ({ (unlock_all { txn with write_set_ := [] } txn.lock_set_ lt).1 with
          lock_set_ := [], state_ := .COMMITTED },
       (unlock_all { txn with write_set_ := [] } txn.lock_set_ lt).2) := by
  unfold commit
  by_cases hw : txn.write_set_ = []
  · have : ({ txn with write_set_ := [] } : Transaction) = txn := by
      cases txn; simp only at hw; subst hw; rfl
    rw [this]
    simp only [hw, ne_eq, not_true_eq_false, if_false]
    by_cases hl : txn.lock_set_ = []
    · simp [hl, unlock_all]
    · simp [hl]
  · simp only [ne_eq, hw, not_false_eq_true, if_true]
    by_cases hl : txn.lock_set_ = []
    · simp [hl, unlock_all]
    · simp [hl]

/-- C8. In every state reachable through `begin` and the lock-manager operations, for
every registered transaction: `commit` returns with the transaction `COMMITTED`, its
write set and lock set empty, no request of the transaction left in any queue of the lock
table, and every queue that held only requests of the transaction empty with group mode
`NON_LOCK`. -/
theorem commit_releases_all_locks (tm : TransactionManager) (hreach : tm.Reachable)
    (tid : Nat) (txn : Transaction) (htxn : tm.txn_map tid = some txn) :
    (commit txn tm.lock_manager_).1.state_ = .COMMITTED ∧
    (commit txn tm.lock_manager_).1.write_set_ = [] ∧
    (commit txn tm.lock_manager_).1.lock_set_ = [] ∧
    (∀ id q, (commit txn tm.lock_manager_).2 id = some q →
      ∀ r ∈ q.request_queue_, r.txn_id_ ≠ txn.txn_id_) ∧
    (∀ id q, tm.lock_manager_ id = some q → q.request_queue_ ≠ [] →
      (∀ r ∈ q.request_queue_, r.txn_id_ = txn.txn_id_) →
      ∃ q', (commit txn tm.lock_manager_).2 id = some q' ∧ q'.request_queue_ = [] ∧
        q'.group_lock_mode_ = .NON_LOCK) := by
  have cons := hreach.consistent
  obtain ⟨hid, -, hc, ha⟩ := cons.registered tid txn htxn
  have hstate : ({ txn with write_set_ := [] } : Transaction).state_ ≠ .COMMITTED ∧
      ({ txn with write_set_ := [] } : Transaction).state_ ≠ .ABORTED := ⟨hc, ha⟩
  obtain ⟨-, -, hws, -, hown⟩ :=
    unlock_all_spec txn.lock_set_ { txn with write_set_ := [] } tm.lock_manager_ hstate
  rw [commit_eq]
  refine ⟨rfl, hws, rfl, ?_, ?_⟩
  · intro id q hq r hr hrid
    have hlen := hown id
    simp only at hlen
    rw [LockTable.index_of_some _ _ _ hq] at hlen
    have hmem : r ∈ requests_of txn.txn_id_ q.request_queue_ := by
      simp [requests_of, hr, hrid]
    have hpos : 0 < (requests_of txn.txn_id_ q.request_queue_).length :=
      List.length_pos_of_mem hmem
    have hone := cons.at_most_one id txn.txn_id_
    by_cases hold : requests_of txn.txn_id_ (tm.lock_manager_.index id).request_queue_ = []
    · rw [hold] at hlen
      simp only [List.length_nil, Nat.zero_sub, Nat.le_zero_eq] at hlen
      omega
    · obtain ⟨txn', htxn', hin⟩ := cons.in_lock_set id txn.txn_id_ hold
      rw [hid, htxn] at htxn'
      simp only [Option.some.injEq] at htxn'
      subst htxn'
      rw [if_pos hin] at hlen
      omega
  · intro id q hq hne hall
    have hfilter : requests_of txn.txn_id_ q.request_queue_ = q.request_queue_ := by
      unfold requests_of
      rw [List.filter_eq_self]
      intro r hr
      simpa using hall r hr
    have hone := cons.at_most_one id txn.txn_id_
    rw [LockTable.index_of_some _ _ _ hq, hfilter] at hone
    obtain ⟨r, hr⟩ : ∃ r, q.request_queue_ = [r] := by
      cases hq' : q.request_queue_ with
      | nil => exact absurd hq' hne
      | cons r rest =>
        rw [hq'] at hone
        cases rest with
        | nil => exact ⟨r, rfl⟩
        | cons _ _ => simp at hone
    have hnonempty : requests_of txn.txn_id_ (tm.lock_manager_.index id).request_queue_ ≠ [] := by
      rw [LockTable.index_of_some _ _ _ hq, hfilter]; exact hne
    obtain ⟨txn', htxn', hin⟩ := cons.in_lock_set id txn.txn_id_ hnonempty
    rw [hid, htxn] at htxn'
    simp only [Option.some.injEq] at htxn'
    subst htxn'
    exact unlock_all_single txn.lock_set_ id q r hr _ _ hstate hin hq
      (hall r (by rw [hr]; simp))

/-- Witness for C1 on `exFile`: slot 0 of page 1 is free, the buffer `[5, 6]` is inserted
and read back. -/
theorem insert_record_get_record_witness :
    exFile.WellFormed ∧ exFile.HasFreeSlot exFile.file_hdr_.first_free_page_no ∧
    ∃ rid, (insert_record exFile [5, 6] none).result = .ok rid ∧
      (get_record (insert_record exFile [5, 6] none).file rid none).result =
        .ok { size := 2, data := [5, 6] } :=
  ⟨by decide, ⟨0, by decide⟩,
    insert_record_get_record exFile [5, 6] (by decide) (Or.inr ⟨0, by decide⟩) rfl⟩

/-- Witness for C4 on `exFile`: deleting the occupied slot `exRid` keeps the page
invariant. -/
theorem page_invariant_preserved_witness :
    exFile.WellFormed ∧ exFile.PageInvariant ∧ exFile.Occupied exRid ∧
    ((RmOp.delete_record exRid).run exFile none).PageInvariant :=
  ⟨by decide, by decide, by decide,
    page_invariant_preserved exFile (.delete_record exRid) none (by decide) (by decide)
      (show exFile.Occupied exRid by decide)⟩

/-- Witness for C8 on `exTm`: transaction 0 holds `S` on table 5 and commits. -/
theorem commit_releases_all_locks_witness :
    exTm.txn_map 0 = some exCommitter ∧
    (commit exCommitter exTm.lock_manager_).1.state_ = .COMMITTED ∧
    (commit exCommitter exTm.lock_manager_).1.lock_set_ = [] ∧
    ∀ id q, (commit exCommitter exTm.lock_manager_).2 id = some q →
      ∀ r ∈ q.request_queue_, r.txn_id_ ≠ 0 :=
  ⟨by decide,
    (commit_releases_all_locks exTm
      (.step _ _ (.step _ _ (.init _))) 0 exCommitter (by decide)).1,
    (commit_releases_all_locks exTm
      (.step _ _ (.step _ _ (.init _))) 0 exCommitter (by decide)).2.2.1,
    (commit_releases_all_locks exTm
      (.step _ _ (.step _ _ (.init _))) 0 exCommitter (by decide)).2.2.2.1⟩

/-- C2 (behaviour of the code). From the empty lock table, after transaction 1 has been
granted `X` on a record, `lock_shared_on_record` by transaction 2 on the same record
returns `true`: the record queue then holds the granted `X` of transaction 1 and the
granted `S` of transaction 2, because the first call left the group mode `NON_LOCK`. -/
theorem shared_granted_while_exclusive_held :
    (lock_exclusive_on_record exT1 exRid 0 LockTable.empty).result = .ok true ∧
    ((lock_exclusive_on_record exT1 exRid 0 LockTable.empty).lock_table_
        (LockDataId.record 0 exRid)).map (fun q => q.group_lock_mode_) = some .NON_LOCK ∧
    (lock_shared_on_record exT2 exRid 0
      (lock_exclusive_on_record exT1 exRid 0 LockTable.empty).lock_table_).result = .ok true ∧
    ((lock_shared_on_record exT2 exRid 0
      (lock_exclusive_on_record exT1 exRid 0 LockTable.empty).lock_table_).lock_table_
        (LockDataId.record 0 exRid)).map (fun q => q.request_queue_) =
      some [{ txn_id_ := 1, lock_mode_ := .EXCLUSIVE, granted_ := true },
            { txn_id_ := 2, lock_mode_ := .SHARED, granted_ := true }] := by
  decide

/-- C3 (behaviour of the code). Transaction 1 deletes the record `[7, 8]` at `exRid`
(page 1, slot 1) and aborts: `abort` returns normally, but slot 1 stays vacant; the
before-image has been inserted at the first free slot, `(1, 0)`. -/
theorem abort_reinserts_at_other_rid :
    exFile.Occupied exRid ∧
    (get_record exFile exRid none).result = .ok { size := 2, data := [7, 8] } ∧
    exAfterDelete.result = .ok () ∧
    exAbortAfterDelete.result = .ok () ∧
    (exAbortAfterDelete.sm_manager_.fhs_ "t").map (fun fh => fh.slot_bit exRid) =
      some (some false) ∧
    (exAbortAfterDelete.sm_manager_.fhs_ "t").map
        (fun fh => fh.slot_bit { page_no := 1, slot_no := 0 }) = some (some true) ∧
    (exAbortAfterDelete.sm_manager_.fhs_ "t").map
        (fun fh => (get_record fh { page_no := 1, slot_no := 0 } none).result) =
      some (.ok { size := 2, data := [7, 8] }) := by
  decide

/-- C6 (behaviour of the code). On the empty lock table, `lock_shared_on_record` by a
`GROWING` transaction throws `std::out_of_range`; the transaction gets no lock and no
queue is created. -/
theorem lock_shared_on_record_empty_table :
    (lock_shared_on_record exT1 exRid 0 LockTable.empty).result = .error .OutOfRange ∧
    (lock_shared_on_record exT1 exRid 0 LockTable.empty).txn.lock_set_ = [] ∧
    (lock_shared_on_record exT1 exRid 0 LockTable.empty).lock_table_ = LockTable.empty :=
  lock_shared_on_record_missing_queue exT1 exRid 0 LockTable.empty (Or.inr rfl) rfl

/-- C9 (behaviour of the code). Transaction 1 holds `S` on table 0 and aborts: it ends
`ABORTED`, its request is gone from the queue, and its lock set still holds the table
id. -/
theorem abort_keeps_lock_set :
    exHolder.result = .ok true ∧
    exHolder.txn.lock_set_ = [LockDataId.table 0] ∧
    (abort exHolder.txn exHolder.lock_table_ (exSm exFile)).result = .ok () ∧
    (abort exHolder.txn exHolder.lock_table_ (exSm exFile)).txn.state_ = .ABORTED ∧
    ((abort exHolder.txn exHolder.lock_table_ (exSm exFile)).lock_table_
        (LockDataId.table 0)).map (fun q => q.request_queue_) = some [] ∧
    (abort exHolder.txn exHolder.lock_table_ (exSm exFile)).txn.lock_set_ =
      [LockDataId.table 0] := by
  decide

/-- C10 (behaviour of the code). On `exFullFile` the page of rid `(1, 0)` is full;
`delete_record` clears the slot but leaves `first_free_page_no` at `RM_NO_PAGE`, and the
next `insert_record` allocates page 2 and returns `(2, 0)`. -/
theorem delete_from_full_page_not_relinked :
    exFullFile.WellFormed ∧ exFullFile.PageInvariant ∧
    exFullFile.Occupied { page_no := 1, slot_no := 0 } ∧
    (delete_record exFullFile { page_no := 1, slot_no := 0 } none).result = .ok () ∧
    (delete_record exFullFile { page_no := 1, slot_no := 0 } none).file.Vacant
      { page_no := 1, slot_no := 0 } ∧
    (delete_record exFullFile { page_no := 1, slot_no := 0 } none).file.file_hdr_.first_free_page_no
      = RM_NO_PAGE ∧
    (insert_record (delete_record exFullFile { page_no := 1, slot_no := 0 } none).file [4]
      none).result = .ok { page_no := 2, slot_no := 0 } := by
  decide

/-! ## Lock manager: group mode and granted requests in reachable states -/

theorem GroupLockMode.join_is_lub (a b : GroupLockMode) :
    a.le (a.join b) = true ∧ b.le (a.join b) = true ∧
      ∀ c : GroupLockMode, a.le c = true → b.le c = true → (a.join b).le c = true := by
  refine ⟨?_, ?_, ?_⟩
  · cases a <;> cases b <;> decide
  · cases a <;> cases b <;> decide
  · intro c
    cases a <;> cases b <;> cases c <;> decide

theorem TransactionManager.reachable_run (steps : List TmStep) :
    ∀ tm : TransactionManager, tm.Reachable → (tm.run steps).Reachable := by
  induction steps with
  | nil => intro tm h; exact h
  | cons s rest ih =>
    intro tm h
    exact ih (tm.step s) (.step tm s h)

/-- C12 (behaviour of the code). After `begin` and one granted
`lock_exclusive_on_record`, a reachable state, the queue of the record holds one granted
`X` request while its `group_lock_mode_` is `NON_LOCK`; the least upper bound of the
granted modes is `X`. -/
theorem group_mode_below_granted_lub :
    exExclusiveOnRecord.Reachable ∧
    (exExclusiveOnRecord.lock_manager_ (LockDataId.record 7 exRid)).map
        (fun q => q.request_queue_) =
      some [{ txn_id_ := 0, lock_mode_ := .EXCLUSIVE, granted_ := true }] ∧
    (exExclusiveOnRecord.lock_manager_ (LockDataId.record 7 exRid)).map
        (fun q => q.group_lock_mode_) = some .NON_LOCK ∧
    (exExclusiveOnRecord.lock_manager_ (LockDataId.record 7 exRid)).map
        (fun q => granted_lub q.request_queue_) = some .X :=
  ⟨TransactionManager.reachable_run _ _ (.init _), by decide, by decide, by decide⟩

/-- C13 (behaviour of the code). In the reachable state `exTableRace`, built with table
locks and `unlock` only, the queue of table 7 holds a granted `S` of transaction 1 and a
granted `IX` of transaction 3, which the matrix marks as incompatible: when transaction 2
unlocked, the group mode was recomputed from `[IS, S]` as `IS`. -/
theorem incompatible_table_locks_granted :
    exTableRace.Reachable ∧
    (exTableRace.lock_manager_ (LockDataId.table 7)).map (fun q => q.request_queue_) =
      some [{ txn_id_ := 0, lock_mode_ := .INTENTION_SHARED, granted_ := true },
            { txn_id_ := 1, lock_mode_ := .SHARED, granted_ := true },
            { txn_id_ := 3, lock_mode_ := .INTENTION_EXCLUSIVE, granted_ := true }] ∧
    spec_compatible .INTENTION_EXCLUSIVE LockMode.SHARED.toGroup = false ∧
    spec_compatible .SHARED LockMode.INTENTION_EXCLUSIVE.toGroup = false ∧
    recompute_group_lock_mode
        [{ txn_id_ := 0, lock_mode_ := .INTENTION_SHARED, granted_ := true },
         { txn_id_ := 1, lock_mode_ := .SHARED, granted_ := true }] .NON_LOCK = .IS :=
  ⟨TransactionManager.reachable_run _ _ (.init _), by decide, by decide, by decide, by decide⟩

/-- C14 (behaviour of the code). In the reachable state `exTwoReaders` transactions 1
and 2 both hold a granted `S` on the record; `lock_exclusive_on_record` by transaction 1
returns `true`, and the queue then has group mode `X` with the `S` request of transaction
2 still in it. -/
theorem record_upgrade_ignores_other_holder :
    exTwoReaders.Reachable ∧
    (exTwoReaders.lock_manager_ (LockDataId.record 7 exRid)).map (fun q => q.request_queue_) =
      some [{ txn_id_ := 1, lock_mode_ := .SHARED, granted_ := true },
            { txn_id_ := 2, lock_mode_ := .SHARED, granted_ := true }] ∧
    (exTwoReaders.txn_map 1).map
        (fun txn => (lock_exclusive_on_record txn exRid 7 exTwoReaders.lock_manager_).result) =
      some (.ok true) ∧
    (exUpgrade.lock_manager_ (LockDataId.record 7 exRid)).map
        (fun q => (q.group_lock_mode_, q.request_queue_)) =
      some (.X, [{ txn_id_ := 1, lock_mode_ := .SHARED, granted_ := true },
                 { txn_id_ := 2, lock_mode_ := .SHARED, granted_ := true }]) :=
  ⟨TransactionManager.reachable_run _ _ (.init _), by decide, by decide, by decide⟩

/-! ## How the lock-manager calls change the queues -/

theorem TableEvolves.evolves_refl (tid : Nat) (lt : LockTable) : TableEvolves tid lt lt :=
  fun _ => .refl _

theorem TableEvolves.evolves_trans {tid : Nat} {lt lt₁ lt₂ : LockTable}
    (h₁ : TableEvolves tid lt lt₁) (h₂ : TableEvolves tid lt₁ lt₂) : TableEvolves tid lt lt₂ :=
  fun id => .trans _ _ _ (h₁ id) (h₂ id)

theorem TableEvolves.evolves_touch (tid : Nat) (lt : LockTable) (id : LockDataId) :
    TableEvolves tid lt (lt.touch id) := by
  intro id'
  rw [LockTable.index_touch]
  exact .refl _

theorem TableEvolves.store (tid : Nat) (lt : LockTable) (id : LockDataId)
    (q : LockRequestQueue)
    (h : QueueEvolves tid (lt.index id).request_queue_ q.request_queue_) :
    TableEvolves tid lt (lt.store id q) := by
  intro id'
  rw [LockTable.index_store]
  split_ifs with hi
  · rw [hi]; exact h
  · exact .refl _

theorem TableEvolves.evolves_store_same (tid : Nat) (lt : LockTable) (id : LockDataId)
    (q : LockRequestQueue) (hq : q.request_queue_ = (lt.index id).request_queue_) :
    TableEvolves tid lt (lt.store id q) :=
  TableEvolves.store tid lt id q (by rw [hq]; exact .refl _)

theorem TableEvolves.evolves_store_assign (tid : Nat) (lt : LockTable) (id : LockDataId)
    (q : LockRequestQueue) (m : LockMode)
    (hq : q.request_queue_ = assign_lock_mode (lt.index id).request_queue_ tid m) :
    TableEvolves tid lt (lt.store id q) :=
  TableEvolves.store tid lt id q (by rw [hq]; exact .assign _ _)

theorem TableEvolves.evolves_store_append (tid : Nat) (lt : LockTable) (id : LockDataId)
    (q : LockRequestQueue) (m : LockMode)
    (hnone : find_request (lt.index id).request_queue_ tid = none)
    (hq : q.request_queue_ = (lt.index id).request_queue_ ++ [granted_request tid m]) :
    TableEvolves tid lt (lt.store id q) :=
  TableEvolves.store tid lt id q (by rw [hq]; exact .append _ _ hnone)

theorem TableEvolves.evolves_store_erase (tid : Nat) (lt : LockTable) (id : LockDataId)
    (q : LockRequestQueue)
    (hq : q.request_queue_ = (lt.index id).request_queue_.eraseP (fun r => r.txn_id_ == tid)) :
    TableEvolves tid lt (lt.store id q) :=
  TableEvolves.store tid lt id q (by rw [hq]; exact .erase _)

theorem ensure_txn_can_lock_txn_id (txn txn₁ : Transaction) (res : Except Error Bool)
    (h : ensure_txn_can_lock txn = (res, txn₁)) : txn₁.txn_id_ = txn.txn_id_ :=
  (ensure_txn_can_lock_spec txn txn₁ res LockTable.empty h).txn_id

theorem _lock_IS_on_table_evolves (txn : Transaction) (tab_fd : Int) (lt : LockTable) :
    TableEvolves txn.txn_id_ lt (_lock_IS_on_table txn tab_fd lt).lock_table_ := by
  unfold _lock_IS_on_table
  split
  · exact TableEvolves.evolves_refl _ _
  · next b txn₁ heq =>
    have hid := ensure_txn_can_lock_txn_id txn txn₁ _ heq
    simp only
    split
    · exact TableEvolves.evolves_touch _ _ _
    · next hnone =>
      split
      · exact TableEvolves.evolves_touch _ _ _
      · refine (TableEvolves.evolves_touch _ _ _).evolves_trans
          (TableEvolves.evolves_store_append _ _ _ _ .INTENTION_SHARED ?_ ?_)
        · rw [LockTable.index_touch, ← hid]; exact hnone
        · rw [LockTable.index_touch, hid]

theorem _lock_IX_on_table_evolves (txn : Transaction) (tab_fd : Int) (lt : LockTable) :
    TableEvolves txn.txn_id_ lt (_lock_IX_on_table txn tab_fd lt).lock_table_ := by
  unfold _lock_IX_on_table
  split
  · exact TableEvolves.evolves_refl _ _
  · next b txn₁ heq =>
    have hid := ensure_txn_can_lock_txn_id txn txn₁ _ heq
    simp only
    split
    · split_ifs
      · exact TableEvolves.evolves_touch _ _ _
      · refine (TableEvolves.evolves_touch _ _ _).evolves_trans (TableEvolves.evolves_store_assign _ _ _ _ .S_IX ?_)
        rw [LockTable.index_touch, hid]
      · refine (TableEvolves.evolves_touch _ _ _).evolves_trans
          (TableEvolves.evolves_store_assign _ _ _ _ .INTENTION_EXCLUSIVE ?_)
        rw [LockTable.index_touch, hid]
      · exact TableEvolves.evolves_touch _ _ _
    · next hnone =>
      split
      · exact TableEvolves.evolves_touch _ _ _
      · refine (TableEvolves.evolves_touch _ _ _).evolves_trans
          (TableEvolves.evolves_store_append _ _ _ _ .INTENTION_EXCLUSIVE ?_ ?_)
        · rw [LockTable.index_touch, ← hid]; exact hnone
        · rw [LockTable.index_touch, hid]

theorem lock_shared_on_table_evolves (txn : Transaction) (tab_fd : Int) (lt : LockTable) :
    TableEvolves txn.txn_id_ lt (lock_shared_on_table txn tab_fd lt).lock_table_ := by
  unfold lock_shared_on_table
  split
  · exact TableEvolves.evolves_refl _ _
  · next b txn₁ heq =>
    have hid := ensure_txn_can_lock_txn_id txn txn₁ _ heq
    simp only
    split
    · split_ifs
      · exact TableEvolves.evolves_touch _ _ _
      · refine (TableEvolves.evolves_touch _ _ _).evolves_trans (TableEvolves.evolves_store_same _ _ _ _ ?_)
        rw [LockTable.index_touch]
      · refine (TableEvolves.evolves_touch _ _ _).evolves_trans (TableEvolves.evolves_store_same _ _ _ _ ?_)
        rw [LockTable.index_touch]
      · exact TableEvolves.evolves_touch _ _ _
    · next hnone =>
      split
      · exact TableEvolves.evolves_touch _ _ _
      · refine (TableEvolves.evolves_touch _ _ _).evolves_trans
          (TableEvolves.evolves_store_append _ _ _ _ .SHARED ?_ ?_)
        · rw [LockTable.index_touch, ← hid]; exact hnone
        · rw [LockTable.index_touch, hid]

theorem lock_exclusive_on_table_evolves (txn : Transaction) (tab_fd : Int) (lt : LockTable) :
    TableEvolves txn.txn_id_ lt (lock_exclusive_on_table txn tab_fd lt).lock_table_ := by
  unfold lock_exclusive_on_table
  split
  · exact TableEvolves.evolves_refl _ _
  · next b txn₁ heq =>
    have hid := ensure_txn_can_lock_txn_id txn txn₁ _ heq
    simp only
    split
    · split_ifs
      · exact TableEvolves.evolves_touch _ _ _
      · refine (TableEvolves.evolves_touch _ _ _).evolves_trans (TableEvolves.evolves_store_same _ _ _ _ ?_)
        rw [LockTable.index_touch]
      · exact TableEvolves.evolves_touch _ _ _
    · next hnone =>
      split
      · exact TableEvolves.evolves_touch _ _ _
      · refine (TableEvolves.evolves_touch _ _ _).evolves_trans
          (TableEvolves.evolves_store_append _ _ _ _ .EXCLUSIVE ?_ ?_)
        · rw [LockTable.index_touch, ← hid]; exact hnone
        · rw [LockTable.index_touch, hid]

theorem lock_shared_on_record_evolves (txn : Transaction) (rid : Rid) (tab_fd : Int)
    (lt : LockTable) :
    TableEvolves txn.txn_id_ lt (lock_shared_on_record txn rid tab_fd lt).lock_table_ := by
  unfold lock_shared_on_record
  split
  · exact TableEvolves.evolves_refl _ _
  · next b txn₁ heq =>
    have hid := ensure_txn_can_lock_txn_id txn txn₁ _ heq
    simp only
    split
    · exact TableEvolves.evolves_refl _ _
    · have h₂ := _lock_IS_on_table_evolves txn₁ tab_fd lt
      have hid₂ := (_lock_IS_on_table_spec txn₁ tab_fd lt).txn_id
      rw [hid] at h₂
      split
      · next e txn₂ lt₂ heq₂ =>
        rw [heq₂] at h₂; exact h₂
      · next b₂ txn₂ lt₂ heq₂ =>
        rw [heq₂] at h₂ hid₂
        simp only at h₂ hid₂ ⊢
        split
        · exact h₂
        · next hnone =>
          split
          · exact h₂
          · refine h₂.evolves_trans (TableEvolves.evolves_store_append _ _ _ _ .SHARED ?_ ?_)
            · rw [← hid, ← hid₂]; exact hnone
            · rw [hid₂, hid]

theorem lock_exclusive_on_record_evolves (txn : Transaction) (rid : Rid) (tab_fd : Int)
    (lt : LockTable) :
    TableEvolves txn.txn_id_ lt (lock_exclusive_on_record txn rid tab_fd lt).lock_table_ := by
  unfold lock_exclusive_on_record
  split
  · exact TableEvolves.evolves_refl _ _
  · next b txn₁ heq =>
    have hid := ensure_txn_can_lock_txn_id txn txn₁ _ heq
    simp only
    have h₂ := (TableEvolves.evolves_touch txn₁.txn_id_ lt (LockDataId.record tab_fd rid)).evolves_trans
      (_lock_IX_on_table_evolves txn₁ tab_fd (lt.touch (LockDataId.record tab_fd rid)))
    have hid₂ :=
      (_lock_IX_on_table_spec txn₁ tab_fd (lt.touch (LockDataId.record tab_fd rid))).txn_id
    rw [hid] at h₂
    split
    · next e txn₂ lt₂ heq₂ =>
      rw [heq₂] at h₂; exact h₂
    · next b₂ txn₂ lt₂ heq₂ =>
      rw [heq₂] at h₂ hid₂
      simp only at h₂ hid₂ ⊢
      split
      · split_ifs
        · exact h₂
        · exact h₂.evolves_trans (TableEvolves.evolves_store_same _ _ _ _ rfl)
        · exact h₂
      · next hnone =>
        split
        · exact h₂
        · refine h₂.evolves_trans (TableEvolves.evolves_store_append _ _ _ _ .EXCLUSIVE ?_ ?_)
          · rw [← hid, ← hid₂]; exact hnone
          · rw [hid₂, hid]

theorem unlock_evolves (txn : Transaction) (id : LockDataId) (lt : LockTable) :
    TableEvolves txn.txn_id_ lt (unlock txn id lt).lock_table_ := by
  by_cases hfin : txn.state_ = .COMMITTED ∨ txn.state_ = .ABORTED
  · unfold unlock
    rw [if_pos hfin]; exact TableEvolves.evolves_refl _ _
  · intro id'
    rw [unlock_requests txn id lt ⟨fun h => hfin (Or.inl h), fun h => hfin (Or.inr h)⟩ id']
    split_ifs with hi
    · rw [hi]; exact .erase _
    · exact .refl _

theorem LockOp.run_evolves (op : LockOp) (txn : Transaction) (lt : LockTable) :
    TableEvolves txn.txn_id_ lt (op.run txn lt).lock_table_ := by
  cases op with
  | lock call =>
    cases call with
    | shared_on_record rid fd => exact lock_shared_on_record_evolves txn rid fd lt
    | exclusive_on_record rid fd => exact lock_exclusive_on_record_evolves txn rid fd lt
    | shared_on_table fd => exact lock_shared_on_table_evolves txn fd lt
    | exclusive_on_table fd => exact lock_exclusive_on_table_evolves txn fd lt
    | IS_on_table fd => exact _lock_IS_on_table_evolves txn fd lt
    | IX_on_table fd => exact _lock_IX_on_table_evolves txn fd lt
  | unlock id => exact unlock_evolves txn id lt

/-! ## Every request of a reachable lock table is granted -/

theorem mem_assign_lock_mode (tid : Nat) (m : LockMode) :
    ∀ (q : List LockRequest) (r : LockRequest), r ∈ assign_lock_mode q tid m →
      r ∈ q ∨ ∃ r₀ ∈ q, r = { r₀ with lock_mode_ := m } := by
  intro q
  induction q with
  | nil => intro r h; simp [assign_lock_mode] at h
  | cons a rest ih =>
    intro r h
    unfold assign_lock_mode at h
    split_ifs at h with ha
    · rcases List.mem_cons.mp h with h | h
      · exact Or.inr ⟨a, List.mem_cons_self _ _, h⟩
      · exact Or.inl (List.mem_cons_of_mem _ h)
    · rcases List.mem_cons.mp h with h | h
      · exact Or.inl (h ▸ List.mem_cons_self _ _)
      · rcases ih r h with h' | ⟨r₀, h₀, h'⟩
        · exact Or.inl (List.mem_cons_of_mem _ h')
        · exact Or.inr ⟨r₀, List.mem_cons_of_mem _ h₀, h'⟩

theorem QueueEvolves.granted {tid : Nat} {q q' : List LockRequest} (h : QueueEvolves tid q q') :
    (∀ r ∈ q, r.granted_ = true) → ∀ r ∈ q', r.granted_ = true := by
  induction h with
  | refl q => exact fun h => h
  | append q m _ =>
    intro h r hr
    rcases List.mem_append.mp hr with hr | hr
    · exact h r hr
    · simp only [List.mem_singleton] at hr
      rw [hr]; rfl
  | assign q m =>
    intro h r hr
    rcases mem_assign_lock_mode tid m q r hr with hr | ⟨r₀, h₀, hr⟩
    · exact h r hr
    · rw [hr]; exact h r₀ h₀
  | erase q =>
    intro h r hr
    exact h r (List.mem_of_mem_eraseP hr)
  | trans q₁ q₂ q₃ _ _ ih₁ ih₂ => exact fun h => ih₂ (ih₁ h)

theorem TransactionManager.Reachable.all_granted (tm : TransactionManager) (h : tm.Reachable) :
    tm.lock_manager_.AllGranted := by
  induction h with
  | init sm =>
    intro id r hr
    simp [TransactionManager.init, LockTable.empty, LockTable.index] at hr
  | step tm s _ ih =>
    cases s with
    | begin_new => exact ih
    | call tid op =>
      simp only [TransactionManager.step]
      cases htxn : tm.txn_map tid with
      | none => exact ih
      | some txn =>
        intro id
        exact (op.run_evolves txn tm.lock_manager_ id).granted (ih id)

/-! ## A granted record `X` lock comes with a table lock -/

theorem find_request_some (q : List LockRequest) (tid : Nat) (r : LockRequest)
    (h : find_request q tid = some r) : r ∈ q ∧ r.txn_id_ = tid := by
  unfold find_request at h
  exact ⟨List.mem_of_find?_eq_some h, by simpa using List.find?_some h⟩

theorem assign_lock_mode_mem (tid : Nat) (m : LockMode) :
    ∀ (q : List LockRequest) (r : LockRequest), find_request q tid = some r →
      ∃ r' ∈ assign_lock_mode q tid m, r'.txn_id_ = tid ∧ r'.lock_mode_ = m := by
  intro q
  induction q with
  | nil => intro r h; simp [find_request] at h
  | cons a rest ih =>
    intro r h
    unfold assign_lock_mode
    by_cases ha : a.txn_id_ = tid
    · simp only [beq_iff_eq, ha, if_true]
      exact ⟨{ a with lock_mode_ := m }, by rw [← ha]; exact List.mem_cons_self _ _, ha, rfl⟩
    · simp only [beq_iff_eq, ha, if_false]
      have h' : find_request rest tid = some r := by
        simpa [find_request, List.find?_cons, ha] using h
      obtain ⟨r', hr', h1, h2⟩ := ih r h'
      exact ⟨r', List.mem_cons_of_mem _ hr', h1, h2⟩

theorem LockTable.mem_index (lt : LockTable) (id : LockDataId) (r : LockRequest)
    (h : r ∈ (lt.index id).request_queue_) : ∃ q, lt id = some q ∧ r ∈ q.request_queue_ := by
  unfold LockTable.index at h
  cases hq : lt id with
  | none => simp [hq] at h
  | some q => exact ⟨q, rfl, by simpa [hq] using h⟩

/-- When `_lock_IX_on_table` returns, the table queue holds a request of the transaction
in mode `IX`, `SIX` or `X`. -/
theorem _lock_IX_on_table_ok (txn : Transaction) (tab_fd : Int) (lt : LockTable) (b : Bool)
    (hok : (_lock_IX_on_table txn tab_fd lt).result = .ok b) :
    ∃ r ∈ ((_lock_IX_on_table txn tab_fd lt).lock_table_.index
        (LockDataId.table tab_fd)).request_queue_,
      r.txn_id_ = txn.txn_id_ ∧
        (r.lock_mode_ = .INTENTION_EXCLUSIVE ∨ r.lock_mode_ = .S_IX ∨ r.lock_mode_ = .EXCLUSIVE) := by
  revert hok
  unfold _lock_IX_on_table
  split
  · intro hok; simp at hok
  · next b₁ txn₁ heq =>
    have hid := ensure_txn_can_lock_txn_id txn txn₁ _ heq
    simp only
    split
    · next r hfind =>
      obtain ⟨hmem, hrid⟩ := find_request_some _ _ _ hfind
      split_ifs with h1 h2 h3
      · intro _
        refine ⟨r, ?_, hrid.trans hid, h1⟩
        rw [LockTable.index_touch]; exact hmem
      · intro _
        obtain ⟨r', hr', h1', h2'⟩ := assign_lock_mode_mem txn₁.txn_id_ .S_IX _ r hfind
        refine ⟨r', ?_, h1'.trans hid, Or.inr (Or.inl h2')⟩
        rw [LockTable.index_store, if_pos rfl]; exact hr'
      · intro _
        obtain ⟨r', hr', h1', h2'⟩ :=
          assign_lock_mode_mem txn₁.txn_id_ .INTENTION_EXCLUSIVE _ r hfind
        refine ⟨r', ?_, h1'.trans hid, Or.inl h2'⟩
        rw [LockTable.index_store, if_pos rfl]; exact hr'
      · intro hok; simp at hok
    · next hnone =>
      split
      · intro hok; simp at hok
      · intro _
        refine ⟨granted_request txn₁.txn_id_ .INTENTION_EXCLUSIVE, ?_, hid, Or.inl rfl⟩
        rw [LockTable.index_store, if_pos rfl]
        simp

theorem LockDataId.table_ne_record (fd fd' : Int) (rid : Rid) :
    LockDataId.table fd ≠ LockDataId.record fd' rid := by
  intro h
  have := congrArg LockDataId.type_ h
  simp [LockDataId.table, LockDataId.record] at this

/-- When `lock_exclusive_on_record` returns, the table queue holds a request of the
transaction in mode `IX`, `SIX` or `X` and the record queue holds a request of the
transaction. -/
theorem lock_exclusive_on_record_ok (txn : Transaction) (rid : Rid) (tab_fd : Int)
    (lt : LockTable) (b : Bool)
    (hok : (lock_exclusive_on_record txn rid tab_fd lt).result = .ok b) :
    (∃ r ∈ ((lock_exclusive_on_record txn rid tab_fd lt).lock_table_.index
        (LockDataId.table tab_fd)).request_queue_,
      r.txn_id_ = txn.txn_id_ ∧
        (r.lock_mode_ = .INTENTION_EXCLUSIVE ∨ r.lock_mode_ = .S_IX ∨ r.lock_mode_ = .EXCLUSIVE)) ∧
    ∃ r ∈ ((lock_exclusive_on_record txn rid tab_fd lt).lock_table_.index
        (LockDataId.record tab_fd rid)).request_queue_, r.txn_id_ = txn.txn_id_ := by
  revert hok
  unfold lock_exclusive_on_record
  split
  · intro hok; simp at hok
  · next b₁ txn₁ heq =>
    have hid := ensure_txn_can_lock_txn_id txn txn₁ _ heq
    simp only
    have hid₂ :=
      (_lock_IX_on_table_spec txn₁ tab_fd (lt.touch (LockDataId.record tab_fd rid))).txn_id
    have htab := _lock_IX_on_table_ok txn₁ tab_fd (lt.touch (LockDataId.record tab_fd rid))
    split
    · intro hok; simp at hok
    · next b₂ txn₂ lt₂ heq₂ =>
      rw [heq₂] at htab hid₂
      simp only at htab hid₂ ⊢
      obtain ⟨rt, hrt, hrtid, hrtmode⟩ := htab b₂ rfl
      have hne := LockDataId.table_ne_record tab_fd tab_fd rid
      split
      · next r hfind =>
        obtain ⟨hmem, hrid⟩ := find_request_some _ _ _ hfind
        split_ifs
        · intro _
          exact ⟨⟨rt, hrt, hrtid.trans hid, hrtmode⟩, r, hmem, (hrid.trans hid₂).trans hid⟩
        · intro _
          refine ⟨⟨rt, ?_, hrtid.trans hid, hrtmode⟩, r, ?_, (hrid.trans hid₂).trans hid⟩
          · rw [LockTable.index_store, if_neg hne]; exact hrt
          · rw [LockTable.index_store, if_pos rfl]; exact hmem
        · intro hok; simp at hok
      · split
        · intro hok; simp at hok
        · intro _
          refine ⟨⟨rt, ?_, hrtid.trans hid, hrtmode⟩,
            granted_request txn₂.txn_id_ .EXCLUSIVE, ?_, hid₂.trans hid⟩
          · rw [LockTable.index_store, if_neg hne]; exact hrt
          · rw [LockTable.index_store, if_pos rfl]; simp

/-- C15. In every state reachable through `begin` and the lock-manager operations, when
`lock_exclusive_on_record` by a registered transaction returns, the table queue holds a
granted request of the transaction in mode `IX`, `SIX` or `X`, and the table id and the
record id are both in the lock set of the transaction. -/
theorem exclusive_on_record_holds_table_lock (tm : TransactionManager) (hreach : tm.Reachable)
    (tid : Nat) (txn : Transaction) (htxn : tm.txn_map tid = some txn)
    (rid : Rid) (tab_fd : Int) (b : Bool)
    (hok : (lock_exclusive_on_record txn rid tab_fd tm.lock_manager_).result = .ok b) :
    (∃ q, (lock_exclusive_on_record txn rid tab_fd tm.lock_manager_).lock_table_
          (LockDataId.table tab_fd) = some q ∧
        ∃ r ∈ q.request_queue_, r.txn_id_ = txn.txn_id_ ∧ r.granted_ = true ∧
          (r.lock_mode_ = .INTENTION_EXCLUSIVE ∨ r.lock_mode_ = .S_IX ∨
            r.lock_mode_ = .EXCLUSIVE)) ∧
    LockDataId.table tab_fd ∈
      (lock_exclusive_on_record txn rid tab_fd tm.lock_manager_).txn.lock_set_ ∧
    LockDataId.record tab_fd rid ∈
      (lock_exclusive_on_record txn rid tab_fd tm.lock_manager_).txn.lock_set_ := by
  obtain ⟨⟨rt, hrt, hrtid, hrtmode⟩, rr, hrr, hrrid⟩ :=
    lock_exclusive_on_record_ok txn rid tab_fd tm.lock_manager_ b hok
  have hid := ((TransactionManager.Reachable.consistent tm hreach).registered tid txn htxn).1
  -- the state after the call is reachable as well
  have hnext : (tm.step (.call tid (.lock (.exclusive_on_record rid tab_fd)))).Reachable :=
    .step tm _ hreach
  have hcons := TransactionManager.Reachable.consistent _ hnext
  have hgr := TransactionManager.Reachable.all_granted _ hnext
  simp only [TransactionManager.step, htxn, LockOp.run, LockCall.run] at hcons hgr
  have hin : ∀ id (r : LockRequest),
      r ∈ ((lock_exclusive_on_record txn rid tab_fd tm.lock_manager_).lock_table_.index
        id).request_queue_ → r.txn_id_ = txn.txn_id_ →
      id ∈ (lock_exclusive_on_record txn rid tab_fd tm.lock_manager_).txn.lock_set_ := by
    intro id r hr hrid
    have hne : requests_of tid
        ((lock_exclusive_on_record txn rid tab_fd tm.lock_manager_).lock_table_.index
          id).request_queue_ ≠ [] := by
      apply List.ne_nil_of_mem (a := r)
      simp [requests_of, hr, hrid, hid]
    obtain ⟨txn', htxn', hmem⟩ := hcons.in_lock_set id tid hne
    simp only [Function.update_same, Option.some.injEq] at htxn'
    rw [htxn']; exact hmem
  refine ⟨?_, hin _ rt hrt hrtid, hin _ rr hrr hrrid⟩
  obtain ⟨q, hq, hmem⟩ := LockTable.mem_index _ _ _ hrt
  exact ⟨q, hq, rt, hmem, hrtid, hgr _ rt hrt, hrtmode⟩

/-! ## Record scan -/

theorem Bitmap.scan_set_bits (bm : List Bool) (max_n : Int) :
    ∀ (steps : Nat) (i : Int), steps = (max_n - i).toNat →
      (Bitmap.set_bits bm max_n steps i = [] → Bitmap.scan true bm max_n steps i = max_n) ∧
      ∀ s rest, Bitmap.set_bits bm max_n steps i = s :: rest →
        Bitmap.scan true bm max_n steps i = s ∧ s < max_n ∧ i ≤ s ∧
          Bitmap.set_bits bm max_n (max_n - (s + 1)).toNat (s + 1) = rest := by
  intro steps
  induction steps with
  | zero => intro i _; simp [Bitmap.set_bits, Bitmap.scan]
  | succ k ih =>
    intro i hs
    have hlt : i < max_n := by omega
    have hk : k = (max_n - (i + 1)).toNat := by omega
    obtain ⟨ih1, ih2⟩ := ih (i + 1) hk
    rw [Bitmap.set_bits, Bitmap.scan]
    simp only [hlt, if_true]
    by_cases hb : Bitmap.is_set bm i = true
    · simp only [hb, if_true]
      refine ⟨by simp, ?_⟩
      intro s rest h
      simp only [List.cons.injEq] at h
      obtain ⟨rfl, rfl⟩ := h
      exact ⟨rfl, hlt, le_refl _, by rw [← hk]⟩
    · simp only [hb, Bool.false_eq_true, if_false]
      refine ⟨ih1, ?_⟩
      intro s rest h
      obtain ⟨h1, h2, h3, h4⟩ := ih2 s rest h
      exact ⟨h1, h2, by omega, h4⟩

theorem Bitmap.next_bit_set_bits_after (bm : List Bool) (max_n curr : Int) :
    (Bitmap.set_bits_after bm max_n curr = [] → Bitmap.next_bit true bm max_n curr = max_n) ∧
    ∀ s rest, Bitmap.set_bits_after bm max_n curr = s :: rest →
      Bitmap.next_bit true bm max_n curr = s ∧ s < max_n ∧ curr < s ∧
        Bitmap.set_bits_after bm max_n s = rest := by
  obtain ⟨h1, h2⟩ := Bitmap.scan_set_bits bm max_n (max_n - (curr + 1)).toNat (curr + 1) rfl
  refine ⟨h1, ?_⟩
  intro s rest h
  obtain ⟨h3, h4, h5, h6⟩ := h2 s rest h
  exact ⟨h3, h4, by omega, h6⟩

theorem Bitmap.mem_set_bits (bm : List Bool) (max_n : Int) (s : Int) :
    ∀ (steps : Nat) (i : Int), steps = (max_n - i).toNat →
      (s ∈ Bitmap.set_bits bm max_n steps i ↔ i ≤ s ∧ s < max_n ∧ Bitmap.is_set bm s = true) := by
  intro steps
  induction steps with
  | zero =>
    intro i hs
    simp only [Bitmap.set_bits, List.not_mem_nil, false_iff]
    intro h; omega
  | succ k ih =>
    intro i hs
    have hlt : i < max_n := by omega
    have hk : k = (max_n - (i + 1)).toNat := by omega
    rw [Bitmap.set_bits]
    simp only [hlt, if_true]
    by_cases hb : Bitmap.is_set bm i = true
    · simp only [hb, if_true, List.mem_cons, ih (i + 1) hk]
      constructor
      · rintro (rfl | ⟨h1, h2, h3⟩)
        · exact ⟨le_refl _, hlt, hb⟩
        · exact ⟨by omega, h2, h3⟩
      · rintro ⟨h1, h2, h3⟩
        by_cases he : s = i
        · exact Or.inl he
        · exact Or.inr ⟨by omega, h2, h3⟩
    · simp only [hb, Bool.false_eq_true, if_false, ih (i + 1) hk]
      constructor
      · rintro ⟨h1, h2, h3⟩
        exact ⟨by omega, h2, h3⟩
      · rintro ⟨h1, h2, h3⟩
        have he : s ≠ i := by rintro rfl; exact hb h3
        exact ⟨by omega, h2, h3⟩

theorem Bitmap.set_bits_sorted (bm : List Bool) (max_n : Int) :
    ∀ (steps : Nat) (i : Int),
      (∀ s ∈ Bitmap.set_bits bm max_n steps i, i ≤ s) ∧
      (Bitmap.set_bits bm max_n steps i).Pairwise (· < ·) := by
  intro steps
  induction steps with
  | zero => intro i; simp [Bitmap.set_bits]
  | succ k ih =>
    intro i
    obtain ⟨ih1, ih2⟩ := ih (i + 1)
    rw [Bitmap.set_bits]
    split_ifs with h1 h2
    · refine ⟨?_, ?_⟩
      · intro s hs
        rcases List.mem_cons.mp hs with rfl | hs
        · exact le_refl _
        · have := ih1 s hs; omega
      · rw [List.pairwise_cons]
        exact ⟨fun s hs => by have := ih1 s hs; omega, ih2⟩
    · exact ⟨fun s hs => by have := ih1 s hs; omega, ih2⟩
    · simp

theorem RmFileHandle.mem_occupied_after (fh : RmFileHandle) (p curr : Int) (rid : Rid) :
    rid ∈ fh.occupied_after p curr ↔
      rid.page_no = p ∧ curr < rid.slot_no ∧
        rid.slot_no < fh.file_hdr_.num_records_per_page ∧
        ∃ page, fh.pages[p.toNat]? = some page ∧ Bitmap.is_set page.bitmap rid.slot_no = true := by
  unfold RmFileHandle.occupied_after
  cases hp : fh.pages[p.toNat]? with
  | none => simp
  | some page =>
    simp only [List.mem_map, Bitmap.set_bits_after, Bitmap.mem_set_bits _ _ _ _ _ rfl,
      Option.some.injEq, exists_eq_left']
    constructor
    · rintro ⟨s, ⟨h1, h2, h3⟩, rfl⟩
      exact ⟨rfl, by simp only; omega, h2, h3⟩
    · rintro ⟨h1, h2, h3, h4⟩
      exact ⟨rid.slot_no, ⟨by omega, h3, h4⟩, by cases rid; simp_all⟩

theorem RmFileHandle.occupied_after_sorted (fh : RmFileHandle) (p curr : Int) :
    (fh.occupied_after p curr).Pairwise Rid.lt := by
  unfold RmFileHandle.occupied_after
  cases fh.pages[p.toNat]? with
  | none => simp
  | some page =>
    simp only
    rw [List.pairwise_map]
    exact (Bitmap.set_bits_sorted page.bitmap _ _ _).2.imp (fun h => Or.inr ⟨rfl, h⟩)

theorem RmFileHandle.mem_occupied_from (fh : RmFileHandle) (rid : Rid) :
    ∀ (steps : Nat) (p : Int), steps = (fh.file_hdr_.num_pages - p).toNat → 1 ≤ p →
      (rid ∈ fh.occupied_from steps p ↔ p ≤ rid.page_no ∧ fh.Occupied rid) := by
  have hocc : fh.Occupied rid ↔
      1 ≤ rid.page_no ∧ rid.page_no < fh.file_hdr_.num_pages ∧ 0 ≤ rid.slot_no ∧
        rid.slot_no < fh.file_hdr_.num_records_per_page ∧
        ∃ page, fh.pages[rid.page_no.toNat]? = some page ∧
          Bitmap.is_set page.bitmap rid.slot_no = true := by
    constructor
    · intro h
      obtain ⟨h1, h2, h3, page, h4, h5⟩ := fh.slot_bit_eq_some rid true h
      exact ⟨h1, h2, h3.1, h3.2, page, h4, h5⟩
    · rintro ⟨h1, h2, h3, h4, page, h5, h6⟩
      unfold RmFileHandle.Occupied RmFileHandle.slot_bit
      rw [if_pos ⟨h1, h2, h3, h4⟩, h5]
      simp [h6]
  intro steps
  induction steps with
  | zero =>
    intro p hs hp
    simp only [RmFileHandle.occupied_from, List.not_mem_nil, false_iff, hocc]
    rintro ⟨h1, -, h2, -⟩
    omega
  | succ k ih =>
    intro p hs hp
    have hlt : p < fh.file_hdr_.num_pages := by omega
    rw [RmFileHandle.occupied_from, if_pos hlt, List.mem_append,
      fh.mem_occupied_after p (-1) rid, ih (p + 1) (by omega) (by omega), hocc]
    constructor
    · rintro (⟨h1, h2, h3, page, h4, h5⟩ | ⟨h1, h2⟩)
      · subst h1
        exact ⟨le_refl _, hp, hlt, by omega, h3, page, h4, h5⟩
      · exact ⟨by omega, h2⟩
    · rintro ⟨h1, h2, h3, h4, h5, page, h6, h7⟩
      by_cases he : rid.page_no = p
      · left
        subst he
        exact ⟨rfl, by omega, h5, page, h6, h7⟩
      · right
        exact ⟨by omega, h2, h3, h4, h5, page, h6, h7⟩

theorem RmFileHandle.occupied_from_sorted (fh : RmFileHandle) :
    ∀ (steps : Nat) (p : Int),
      (∀ rid ∈ fh.occupied_from steps p, p ≤ rid.page_no) ∧
      (fh.occupied_from steps p).Pairwise Rid.lt := by
  intro steps
  induction steps with
  | zero => intro p; simp [RmFileHandle.occupied_from]
  | succ k ih =>
    intro p
    obtain ⟨ih1, ih2⟩ := ih (p + 1)
    rw [RmFileHandle.occupied_from]
    split_ifs with hlt
    · have hpage : ∀ rid ∈ fh.occupied_after p (-1), rid.page_no = p := by
        intro rid hr
        exact ((fh.mem_occupied_after p (-1) rid).mp hr).1
      refine ⟨?_, ?_⟩
      · intro rid hr
        rcases List.mem_append.mp hr with hr | hr
        · rw [hpage rid hr]
        · have := ih1 rid hr; omega
      · rw [List.pairwise_append]
        refine ⟨fh.occupied_after_sorted p (-1), ih2, ?_⟩
        intro a ha b hb
        left
        rw [hpage a ha]
        have := ih1 b hb; omega
    · simp

/-- The rids still to be visited by a scan whose cursor is at slot `s` of page `p`. -/
theorem RmScan.next_loop_spec (fh : RmFileHandle)
    (hpages : fh.file_hdr_.num_pages = fh.pages.length) :
    ∀ (steps : Nat) (p s : Int), steps = (fh.file_hdr_.num_pages - p).toNat →
      0 ≤ p → p < fh.file_hdr_.num_pages →
      (fh.occupied_after p s ++ fh.occupied_from (fh.file_hdr_.num_pages - (p + 1)).toNat (p + 1)
          = [] →
        RmScan.next_loop fh steps { page_no := p, slot_no := s } =
          (.ok (), { page_no := RM_NO_PAGE, slot_no := -1 })) ∧
      ∀ r rest,
        fh.occupied_after p s ++
            fh.occupied_from (fh.file_hdr_.num_pages - (p + 1)).toNat (p + 1) = r :: rest →
        RmScan.next_loop fh steps { page_no := p, slot_no := s } = (.ok (), r) ∧
          0 ≤ r.page_no ∧ r.page_no < fh.file_hdr_.num_pages ∧
          fh.occupied_after r.page_no r.slot_no ++
            fh.occupied_from (fh.file_hdr_.num_pages - (r.page_no + 1)).toNat (r.page_no + 1)
              = rest := by
  intro steps
  induction steps with
  | zero => intro p s hs h0 hlt; omega
  | succ k ih =>
    intro p s hs h0 hlt
    have hplen : p.toNat < fh.pages.length := by omega
    obtain ⟨page, hpage⟩ : ∃ page, fh.pages[p.toNat]? = some page :=
      ⟨fh.pages[p.toNat], List.getElem?_eq_getElem hplen⟩
    have hfetch := fetch_page_handle_ok fh p page h0 hlt hpage
    have hafter : fh.occupied_after p s =
        (Bitmap.set_bits_after page.bitmap fh.file_hdr_.num_records_per_page s).map
          (fun s' => ({ page_no := p, slot_no := s' } : Rid)) := by
      simp [RmFileHandle.occupied_after, hpage]
    obtain ⟨hnb1, hnb2⟩ :=
      Bitmap.next_bit_set_bits_after page.bitmap fh.file_hdr_.num_records_per_page s
    rw [RmScan.next_loop, hfetch]
    simp only
    cases hsb : Bitmap.set_bits_after page.bitmap fh.file_hdr_.num_records_per_page s with
    | cons s' rest' =>
      obtain ⟨h1, h2, h3, h4⟩ := hnb2 s' rest' hsb
      rw [h1, if_pos h2, hafter, hsb]
      refine ⟨by simp, ?_⟩
      intro r rest hr
      simp only [List.map_cons, List.cons_append, List.cons.injEq] at hr
      obtain ⟨rfl, rfl⟩ := hr
      refine ⟨rfl, h0, hlt, ?_⟩
      simp only [RmFileHandle.occupied_after, hpage, h4]
    | nil =>
      rw [hnb1 hsb, if_neg (lt_irrefl _), hafter, hsb]
      simp only [List.map_nil, List.nil_append]
      by_cases hend : p + 1 ≥ fh.file_hdr_.num_pages
      · rw [if_pos hend]
        have hz : (fh.file_hdr_.num_pages - (p + 1)).toNat = 0 := by omega
        rw [hz]
        simp [RmFileHandle.occupied_from]
      · rw [if_neg hend]
        obtain ⟨k', rfl⟩ : ∃ k', k = k' + 1 := ⟨k - 1, by omega⟩
        have hk : (fh.file_hdr_.num_pages - (p + 1)).toNat = k' + 1 := by omega
        obtain ⟨ih1, ih2⟩ := ih (p + 1) (-1) (by omega) (by omega) (by omega)
        have hrem : fh.occupied_from (fh.file_hdr_.num_pages - (p + 1)).toNat (p + 1) =
            fh.occupied_after (p + 1) (-1) ++
              fh.occupied_from (fh.file_hdr_.num_pages - (p + 1 + 1)).toNat (p + 1 + 1) := by
          rw [hk, RmFileHandle.occupied_from, if_pos (by omega)]
          congr 2
          omega
        rw [hrem]
        exact ⟨ih1, ih2⟩

/-- A scan whose cursor has the rids `todo` still to visit, the cursor included, visits
exactly these. -/
theorem RmScan.rids_of_position (fh : RmFileHandle)
    (hpages : fh.file_hdr_.num_pages = fh.pages.length) :
    ∀ (todo : List Rid) (scan : RmScan), scan.file_handle_ = fh →
      ((todo = [] ∧ scan.rid_ = { page_no := RM_NO_PAGE, slot_no := -1 }) ∨
        (0 ≤ scan.rid_.page_no ∧ scan.rid_.page_no < fh.file_hdr_.num_pages ∧
          todo = scan.rid_ ::
            (fh.occupied_after scan.rid_.page_no scan.rid_.slot_no ++
              fh.occupied_from (fh.file_hdr_.num_pages - (scan.rid_.page_no + 1)).toNat
                (scan.rid_.page_no + 1)))) →
      ∀ steps, todo.length < steps → RmScan.rids steps scan = some (.ok todo) := by
  intro todo
  induction todo with
  | nil =>
    intro scan _ hpos steps hsteps
    rcases hpos with ⟨-, hrid⟩ | ⟨-, -, h⟩
    · obtain ⟨k, rfl⟩ : ∃ k, steps = k + 1 := ⟨steps - 1, by simp at hsteps; omega⟩
      simp [RmScan.rids, RmScan.is_end, hrid]
    · simp at h
  | cons r rest ih =>
    intro scan hfh hpos steps hsteps
    rcases hpos with ⟨h, -⟩ | ⟨h0, hlt, h⟩
    · simp at h
    · simp only [List.cons.injEq] at h
      obtain ⟨hr, hrest⟩ := h
      obtain ⟨k, rfl⟩ : ∃ k, steps = k + 1 := ⟨steps - 1, by simp at hsteps; omega⟩
      have hnotend : scan.is_end = false := by
        simp only [RmScan.is_end, RM_NO_PAGE, beq_eq_false_iff_ne, ne_eq]
        omega
      obtain ⟨hn1, hn2⟩ := RmScan.next_loop_spec fh hpages
        (fh.file_hdr_.num_pages - scan.rid_.page_no).toNat scan.rid_.page_no scan.rid_.slot_no
        rfl h0 hlt
      have hkl : rest.length < k := by simp at hsteps; omega
      rw [RmScan.rids, hnotend]
      simp only [Bool.false_eq_true, if_false, RmScan.next, hfh, RmScan.rid]
      cases hrem : fh.occupied_after scan.rid_.page_no scan.rid_.slot_no ++
          fh.occupied_from (fh.file_hdr_.num_pages - (scan.rid_.page_no + 1)).toNat
            (scan.rid_.page_no + 1) with
      | nil =>
        rw [hn1 hrem]
        simp only
        rw [ih { file_handle_ := fh, rid_ := { page_no := RM_NO_PAGE, slot_no := -1 } } rfl
          (Or.inl ⟨by rw [hrest, hrem], rfl⟩) k hkl]
        simp only [hr]
      | cons r' rest' =>
        obtain ⟨h1, h2, h3, h4⟩ := hn2 r' rest' hrem
        rw [h1]
        simp only
        rw [ih { file_handle_ := fh, rid_ := r' } rfl
          (Or.inr ⟨h2, h3, by simp only; rw [h4, hrest, hrem]⟩) k hkl]
        simp only [hr]

/-- The constructor of the scan on a file with at least one data page. -/
theorem RmScan.new_spec (fh : RmFileHandle)
    (hpages : fh.file_hdr_.num_pages = fh.pages.length) (hdata : 2 ≤ fh.file_hdr_.num_pages) :
    ∃ scan, RmScan.new fh = .ok scan ∧ scan.file_handle_ = fh ∧
      ∀ steps, fh.occupied_rids.length < steps →
        RmScan.rids steps scan = some (.ok fh.occupied_rids) := by
  obtain ⟨hn1, hn2⟩ := RmScan.next_loop_spec fh hpages
    (fh.file_hdr_.num_pages - 1).toNat 1 (-1) rfl (by omega) (by omega)
  have hocc : fh.occupied_rids =
      fh.occupied_after 1 (-1) ++ fh.occupied_from (fh.file_hdr_.num_pages - (1 + 1)).toNat
        (1 + 1) := by
    obtain ⟨k, hk⟩ : ∃ k, (fh.file_hdr_.num_pages - 1).toNat = k + 1 :=
      ⟨(fh.file_hdr_.num_pages - 1).toNat - 1, by omega⟩
    rw [RmFileHandle.occupied_rids, hk, RmFileHandle.occupied_from, if_pos (by omega)]
    congr 2
    omega
  unfold RmScan.new RmScan.next
  simp only [RM_FIRST_RECORD_PAGE]
  cases hrem : fh.occupied_after 1 (-1) ++
      fh.occupied_from (fh.file_hdr_.num_pages - (1 + 1)).toNat (1 + 1) with
  | nil =>
    rw [hn1 hrem]
    refine ⟨_, rfl, rfl, ?_⟩
    intro steps hsteps
    exact RmScan.rids_of_position fh hpages _ _ rfl (Or.inl ⟨by rw [hocc, hrem], rfl⟩) steps
      hsteps
  | cons r rest =>
    obtain ⟨h1, h2, h3, h4⟩ := hn2 r rest hrem
    rw [h1]
    refine ⟨_, rfl, rfl, ?_⟩
    intro steps hsteps
    exact RmScan.rids_of_position fh hpages _ _ rfl
      (Or.inr ⟨h2, h3, by simp only; rw [h4, hocc, hrem]⟩) steps hsteps

/-- C16. On a record file with at least one data page (and whose header counts its
pages), constructing an `RmScan` succeeds and the rids visited by calling `next()` until
`is_end()` are a list that is strictly increasing in `(page_no, slot_no)` and whose
members are exactly the occupied slots of the data pages; `is_end()` holds exactly when
the cursor's page number is `RM_NO_PAGE`. -/
theorem rm_scan_visits_occupied_slots (fh : RmFileHandle)
    (hpages : fh.file_hdr_.num_pages = fh.pages.length) (hdata : 2 ≤ fh.file_hdr_.num_pages) :
    ∃ scan visited, RmScan.new fh = .ok scan ∧
      (∀ steps, visited.length < steps → RmScan.rids steps scan = some (.ok visited)) ∧
      visited.Pairwise Rid.lt ∧
      (∀ rid, rid ∈ visited ↔ fh.Occupied rid) ∧
      ∀ s : RmScan, s.is_end = true ↔ s.rid_.page_no = RM_NO_PAGE := by
  obtain ⟨scan, hnew, -, hrids⟩ := RmScan.new_spec fh hpages hdata
  refine ⟨scan, fh.occupied_rids, hnew, hrids, ?_, ?_, ?_⟩
  · exact (fh.occupied_from_sorted _ _).2
  · intro rid
    rw [RmFileHandle.occupied_rids, fh.mem_occupied_from rid _ 1 rfl (le_refl _)]
    constructor
    · exact fun h => h.2
    · intro h
      exact ⟨(fh.slot_bit_eq_some rid true h).1, h⟩
  · intro s
    simp [RmScan.is_end]

/-! ## Record file: slot reuse, update and page numbers -/

theorem RmFileHandle.slot_bit_of_page (fh : RmFileHandle) (p s : Int) (page : RmPage)
    (h1 : 1 ≤ p) (h2 : p < fh.file_hdr_.num_pages) (h3 : fh.slot_in_range s)
    (hp : fh.pages[p.toNat]? = some page) :
    fh.slot_bit { page_no := p, slot_no := s } = some (Bitmap.is_set page.bitmap s) := by
  unfold RmFileHandle.slot_bit
  rw [if_pos ⟨h1, h2, h3⟩, hp]
  rfl

theorem Bitmap.is_set_reset_self (bm : List Bool) (s : Int) :
    Bitmap.is_set (Bitmap.reset bm s) s = false := by
  unfold Bitmap.is_set Bitmap.reset
  by_cases h0 : 0 ≤ s
  · by_cases hl : s.toNat < bm.length
    · simp [List.getD_eq_getElem?_getD, List.getElem?_set_self hl]
    · have hl' : bm.length ≤ s.toNat := by omega
      have hs : (bm.set s.toNat false).length ≤ s.toNat := by simpa using hl'
      simp [List.getD_eq_getElem?_getD, List.getElem?_eq_none hs]
  · simp [h0]

theorem Bitmap.is_set_reset_ne (bm : List Bool) (s j : Int) (hs : 0 ≤ s) (hj : 0 ≤ j)
    (hne : j ≠ s) : Bitmap.is_set (Bitmap.reset bm s) j = Bitmap.is_set bm j := by
  unfold Bitmap.is_set Bitmap.reset
  have hne' : s.toNat ≠ j.toNat := by omega
  simp [List.getD_eq_getElem?_getD, List.getElem?_set_ne hne']

theorem delete_record_none_ok (fh : RmFileHandle) (rid : Rid) (ph : RmPageHandle)
    (hf : fetch_page_handle fh rid.page_no = .ok ph) (hs : fh.slot_in_range rid.slot_no) :
    (delete_record fh rid none).result = .ok () ∧
    (delete_record fh rid none).file.file_hdr_ =
      (if ph.page.page_hdr.num_records - 1 = fh.file_hdr_.num_records_per_page then
        { fh.file_hdr_ with first_free_page_no := ph.page_no }
      else fh.file_hdr_) ∧
    ∃ page, (delete_record fh rid none).file.pages = fh.pages.set rid.page_no.toNat page ∧
      page.bitmap = Bitmap.reset ph.page.bitmap rid.slot_no ∧
      page.page_hdr.num_records = ph.page.page_hdr.num_records - 1 ∧
      page.slots = ph.page.slots := by
  obtain ⟨-, -, hpn, -⟩ := fetch_page_handle_eq_ok fh rid.page_no ph hf
  simp only [delete_record, Context.lock_exclusive, hf, hs, if_true]
  split_ifs with h
  · exact ⟨rfl, rfl,
      { page_hdr :=
          { next_free_page_no := fh.file_hdr_.first_free_page_no,
            num_records := ph.page.page_hdr.num_records - 1 },
        bitmap := Bitmap.reset ph.page.bitmap rid.slot_no, slots := ph.page.slots },
      by simp [release_page_handle, hpn], rfl, rfl, rfl⟩
  · exact ⟨rfl, rfl,
      { page_hdr :=
          { next_free_page_no := ph.page.page_hdr.next_free_page_no,
            num_records := ph.page.page_hdr.num_records - 1 },
        bitmap := Bitmap.reset ph.page.bitmap rid.slot_no, slots := ph.page.slots },
      by simp [hpn], rfl, rfl, rfl⟩

/-- C11. When the head of the free list is a page `P` with a clear bit, `insert_record`
returns `(P, s)` with `s` the lowest-numbered clear bit of the page; and when an occupied
rid on the head page has all lower-numbered slots occupied, `delete_record(rid)` followed
by `insert_record` returns the same rid (both without lock context). -/
theorem insert_record_lowest_clear_bit (fh : RmFileHandle) (buf : List Byte) :
    (∀ P, fh.file_hdr_.first_free_page_no = P → fh.HasFreeSlot P →
      ∃ s, (insert_record fh buf none).result = .ok { page_no := P, slot_no := s } ∧
        fh.Vacant { page_no := P, slot_no := s } ∧
        ∀ j, 0 ≤ j → j < s → fh.Occupied { page_no := P, slot_no := j }) ∧
    (∀ rid, rid.page_no = fh.file_hdr_.first_free_page_no → fh.Occupied rid →
      (∀ j, 0 ≤ j → j < rid.slot_no → fh.Occupied { page_no := rid.page_no, slot_no := j }) →
      (insert_record (delete_record fh rid none).file buf none).result = .ok rid) := by
  constructor
  · rintro P hP ⟨s₀, hvac⟩
    subst hP
    obtain ⟨hp1, hp2, hsr, page, hpage, hclear⟩ := fh.slot_bit_eq_some _ _ hvac
    simp only at hp1 hp2 hsr hpage hclear
    have hne : fh.file_hdr_.first_free_page_no ≠ RM_NO_PAGE := by
      simp only [RM_NO_PAGE]; omega
    have hc : create_page_handle fh =
        (.ok { page_no := fh.file_hdr_.first_free_page_no, page := page }, fh) := by
      unfold create_page_handle
      rw [if_neg hne, fetch_page_handle_ok fh _ page (by omega) hp2 hpage]
    obtain ⟨hb0, hb1, hb2⟩ := Bitmap.first_bit_lt false page.bitmap
      fh.file_hdr_.num_records_per_page ⟨s₀, hsr.1, hsr.2, hclear⟩
    obtain ⟨-, -, -, hb3⟩ := Bitmap.first_bit_spec false page.bitmap
      fh.file_hdr_.num_records_per_page (by omega)
    obtain ⟨hres, -⟩ := insert_record_none_ok fh fh _ buf hc ⟨hb0, hb1⟩
    refine ⟨_, hres, ?_, ?_⟩
    · unfold RmFileHandle.Vacant
      rw [fh.slot_bit_of_page _ _ page hp1 hp2 ⟨hb0, hb1⟩ hpage, hb2]
    · intro j hj0 hj1
      unfold RmFileHandle.Occupied
      rw [fh.slot_bit_of_page _ j page hp1 hp2 ⟨hj0, by simp only at hj1; omega⟩ hpage]
      have := hb3 j hj0 hj1
      simpa using this
  · intro rid hhead hocc hlow
    obtain ⟨hp1, hp2, hsr, page, hpage, hset⟩ := fh.slot_bit_eq_some _ _ hocc
    have hfetch := fetch_page_handle_ok fh rid.page_no page (by omega) hp2 hpage
    obtain ⟨-, hhdr, page', hpages, hbm, -, -⟩ := delete_record_none_ok fh rid _ hfetch hsr
    simp only at hhdr hbm
    have hlen : rid.page_no.toNat < fh.pages.length := (List.getElem?_eq_some_iff.mp hpage).1
    have hn : (delete_record fh rid none).file.file_hdr_.num_records_per_page =
        fh.file_hdr_.num_records_per_page := by
      rw [hhdr]; split_ifs <;> rfl
    have hnp : (delete_record fh rid none).file.file_hdr_.num_pages =
        fh.file_hdr_.num_pages := by
      rw [hhdr]; split_ifs <;> rfl
    have hff : (delete_record fh rid none).file.file_hdr_.first_free_page_no = rid.page_no := by
      rw [hhdr]; split_ifs
      · rfl
      · exact hhead.symm
    have hpage' : (delete_record fh rid none).file.pages[rid.page_no.toNat]? = some page' := by
      rw [hpages, List.getElem?_set_self hlen]
    have hne : (delete_record fh rid none).file.file_hdr_.first_free_page_no ≠ RM_NO_PAGE := by
      rw [hff]; simp only [RM_NO_PAGE]; omega
    have hc : create_page_handle (delete_record fh rid none).file =
        (.ok { page_no := rid.page_no, page := page' }, (delete_record fh rid none).file) := by
      unfold create_page_handle
      rw [if_neg hne, hff,
        fetch_page_handle_ok _ rid.page_no page' (by omega) (by rw [hnp]; exact hp2) hpage']
    -- the lowest clear bit of the page is now the slot of `rid`
    have hclear : Bitmap.is_set page'.bitmap rid.slot_no = false := by
      rw [hbm]; exact Bitmap.is_set_reset_self _ _
    obtain ⟨hb0, hb1, hb2⟩ := Bitmap.first_bit_lt false page'.bitmap
      fh.file_hdr_.num_records_per_page ⟨rid.slot_no, hsr.1, hsr.2, hclear⟩
    obtain ⟨-, -, -, hb3⟩ := Bitmap.first_bit_spec false page'.bitmap
      fh.file_hdr_.num_records_per_page (by have := hsr.1; have := hsr.2; omega)
    have hfirst : Bitmap.first_bit false page'.bitmap fh.file_hdr_.num_records_per_page =
        rid.slot_no := by
      rcases lt_trichotomy
        (Bitmap.first_bit false page'.bitmap fh.file_hdr_.num_records_per_page) rid.slot_no
        with hlt | heq | hgt
      · exfalso
        have hoccj := hlow _ hb0 hlt
        obtain ⟨-, -, -, pg, hpg, hsetj⟩ := fh.slot_bit_eq_some _ _ hoccj
        simp only at hpg hsetj
        rw [hpage] at hpg
        obtain rfl := Option.some.inj hpg
        rw [hbm] at hb2 hsetj hb0 hlt
        rw [Bitmap.is_set_reset_ne _ _ _ hsr.1 hb0 (by omega), hsetj] at hb2
        simp at hb2
      · exact heq
      · exact absurd hclear (hb3 rid.slot_no hsr.1 hgt)
    obtain ⟨hres, -⟩ := insert_record_none_ok _ _ _ buf hc
      (by unfold RmFileHandle.slot_in_range; rw [hn]; exact ⟨hb0, hb1⟩)
    rw [hres]
    simp only [hn, hfirst]

theorem update_record_none_ok (fh : RmFileHandle) (rid : Rid) (buf : List Byte)
    (ph : RmPageHandle) (hf : fetch_page_handle fh rid.page_no = .ok ph)
    (hs : fh.slot_in_range rid.slot_no) :
    (update_record fh rid buf none).result = .ok () ∧
    (update_record fh rid buf none).file =
      fh.write_page rid.page_no
        { ph.page with
          slots := ph.page.slots.set rid.slot_no.toNat (buf.take fh.file_hdr_.record_size) } := by
  obtain ⟨-, -, hpn, -⟩ := fetch_page_handle_eq_ok fh rid.page_no ph hf
  simp only [update_record, Context.lock_exclusive, hf, hs, if_true, hpn, and_self]

/-- A granted lock changes nothing in what `update_record` does to the file. -/
theorem update_record_ok_file (fh : RmFileHandle) (rid : Rid) (buf : List Byte)
    (ctx : Option Context) (hok : (update_record fh rid buf ctx).result = .ok ()) :
    (update_record fh rid buf ctx).file = (update_record fh rid buf none).file := by
  revert hok
  unfold update_record
  rcases hl : Context.lock_exclusive ctx rid fh.fd_ with ⟨lr, ctx1⟩
  cases lr with
  | error e => intro hok; simp at hok
  | ok b =>
    simp only [Context.lock_exclusive]
    cases hf : fetch_page_handle fh rid.page_no with
    | error e => intro hok; simp at hok
    | ok ph =>
      simp only
      by_cases hs : fh.slot_in_range rid.slot_no
      · simp only [hs, if_true]
        intro _; trivial
      · simp only [hs, if_false]
        intro hok; simp at hok

/-- C19. `update_record` on a slot of an existing data page of a well-formed file, with
a buffer of `record_size` bytes: it returns; `get_record` at the rid then returns the
buffer; the file header, the number of pages, every other page, the header and the bitmap
of the page and every other slot of the page are unchanged, so every rid is occupied
after the update exactly when it was before. A granted lock context changes nothing in
this. -/
theorem update_record_frame (fh : RmFileHandle) (rid : Rid) (buf : List Byte)
    (hwf : fh.WellFormed) (hp1 : 1 ≤ rid.page_no) (hp2 : rid.page_no < fh.file_hdr_.num_pages)
    (hs : fh.slot_in_range rid.slot_no) (hbuf : buf.length = fh.file_hdr_.record_size) :
    (update_record fh rid buf none).result = .ok () ∧
    (∀ ctx, (update_record fh rid buf ctx).result = .ok () →
      (update_record fh rid buf ctx).file = (update_record fh rid buf none).file) ∧
    (get_record (update_record fh rid buf none).file rid none).result =
      .ok { size := fh.file_hdr_.record_size, data := buf } ∧
    (update_record fh rid buf none).file.file_hdr_ = fh.file_hdr_ ∧
    (update_record fh rid buf none).file.pages.length = fh.pages.length ∧
    (∀ i, i ≠ rid.page_no.toNat →
      (update_record fh rid buf none).file.pages[i]? = fh.pages[i]?) ∧
    (∃ page page', fh.pages[rid.page_no.toNat]? = some page ∧
      (update_record fh rid buf none).file.pages[rid.page_no.toNat]? = some page' ∧
      page'.page_hdr = page.page_hdr ∧ page'.bitmap = page.bitmap ∧
      ∀ j, j ≠ rid.slot_no.toNat → page'.slots[j]? = page.slots[j]?) ∧
    ∀ r, (update_record fh rid buf none).file.slot_bit r = fh.slot_bit r := by
  obtain ⟨hnp, hn0, hnb, hlay⟩ := hwf
  have hlen : rid.page_no.toNat < fh.pages.length := by omega
  obtain ⟨page, hpage⟩ : ∃ page, fh.pages[rid.page_no.toNat]? = some page :=
    ⟨fh.pages[rid.page_no.toNat], List.getElem?_eq_getElem hlen⟩
  have hfetch := fetch_page_handle_ok fh rid.page_no page (by omega) hp2 hpage
  obtain ⟨hres, hfile⟩ := update_record_none_ok fh rid buf _ hfetch hs
  simp only at hfile
  have hslots : page.slots.length = fh.file_hdr_.num_records_per_page.toNat :=
    (hlay page (mem_tail_of_getElem? _ _ _ (by omega) hpage)).2
  have hslot : rid.slot_no.toNat < page.slots.length := by
    have := hs.1; have := hs.2; omega
  have hpage' : (update_record fh rid buf none).file.pages[rid.page_no.toNat]? =
      some { page with
        slots := page.slots.set rid.slot_no.toNat (buf.take fh.file_hdr_.record_size) } := by
    rw [hfile]; simp only [RmFileHandle.write_page_pages]; rw [List.getElem?_set_self hlen]
  refine ⟨hres, fun ctx hok => update_record_ok_file fh rid buf ctx hok, ?_, by rw [hfile]; rfl,
    by rw [hfile]; simp, ?_, ⟨page, _, hpage, hpage', rfl, rfl, ?_⟩, ?_⟩
  · rw [get_record_none_ok _ rid _ (by omega) (by rw [hfile]; exact hp2) hpage'
      (by rw [hfile]; exact hs)]
    rw [hfile]
    simp [List.getD_eq_getElem?_getD, List.getElem?_set_self hslot, ← hbuf]
  · intro i hi
    rw [hfile]
    simp only [RmFileHandle.write_page_pages]
    rw [List.getElem?_set_ne (Ne.symm hi)]
  · intro j hj
    simp only
    rw [List.getElem?_set_ne (Ne.symm hj)]
  · intro r
    unfold RmFileHandle.slot_bit RmFileHandle.slot_in_range
    rw [hfile]
    simp only [RmFileHandle.write_page_file_hdr, RmFileHandle.write_page_pages]
    split_ifs with hc
    · by_cases hr : r.page_no.toNat = rid.page_no.toNat
      · rw [hr, List.getElem?_set_self hlen, hpage]
        rfl
      · rw [List.getElem?_set_ne (Ne.symm hr)]
    · rfl

theorem get_record_page_not_exist (fh : RmFileHandle) (rid : Rid)
    (h : rid.page_no = INVALID_PAGE_ID ∨ rid.page_no ≥ fh.file_hdr_.num_pages) :
    (get_record fh rid none).result = .error (.PageNotExistError rid.page_no) := by
  simp [get_record, Context.lock_shared, fetch_page_handle, h]

/-- C18 (behaviour of the code). For the rid `(-2, 0)` on `exFile`, `fetch_page_handle`
lets the page number through (it is neither `-1` nor at least `num_pages`) and asks the
buffer pool for page `-2`: `get_record` does not fail with `PageNotExistError`. For the
page numbers `-1` and `2` it does. -/
theorem get_record_negative_page_no :
    fetch_page_handle exFile (-2) = buffer_pool_fetch_page exFile (-2) ∧
    (get_record exFile { page_no := -2, slot_no := 0 } none).result = .error .BufferPoolError ∧
    (get_record exFile { page_no := -2, slot_no := 0 } none).result ≠
      .error (.PageNotExistError (-2)) ∧
    (get_record exFile { page_no := -1, slot_no := 0 } none).result =
      .error (.PageNotExistError (-1)) ∧
    (get_record exFile { page_no := 2, slot_no := 0 } none).result =
      .error (.PageNotExistError 2) := by
  decide

/-- C17 (behaviour of the code). On a file that has only its header page
(`num_pages == 1`) the constructor of `RmScan` throws `PageNotExistError(1)`: `next()`
fetches page 1 before comparing the page number with `num_pages`. -/
theorem rm_scan_header_only_file_throws :
    exEmptyFile.WellFormed ∧ exEmptyFile.file_hdr_.num_pages = 1 ∧
    RmScan.new exEmptyFile = .error (.PageNotExistError 1) := by
  decide

/-! ## Sequential scan operator -/

theorem RmScan.Visits.nil (scan : RmScan) (h : scan.Visits []) : scan.is_end = true := by
  have h1 := h 1 (by simp)
  rw [RmScan.rids] at h1
  by_cases he : scan.is_end = true
  · exact he
  · rw [if_neg he] at h1
    rcases hn : scan.next with ⟨res, scan'⟩
    rw [hn] at h1
    cases res with
    | error e => simp at h1
    | ok u => simp [RmScan.rids] at h1

theorem RmScan.Visits.cons (scan : RmScan) (r : Rid) (rest : List Rid)
    (h : scan.Visits (r :: rest)) :
    scan.is_end = false ∧ scan.rid = r ∧
      ∃ scan', scan.next = (.ok (), scan') ∧ scan'.Visits rest := by
  have hstep : ∀ m, rest.length < m →
      scan.is_end = false ∧ scan.rid = r ∧
        ∃ scan', scan.next = (.ok (), scan') ∧ RmScan.rids m scan' = some (.ok rest) := by
    intro m hm
    have h1 := h (m + 1) (by simp; omega)
    rw [RmScan.rids] at h1
    by_cases he : scan.is_end = true
    · rw [if_pos he] at h1; simp at h1
    · rw [if_neg he] at h1
      rcases hn : scan.next with ⟨res, scan'⟩
      rw [hn] at h1
      cases res with
      | error e => simp at h1
      | ok u =>
        simp only at h1
        cases hr : RmScan.rids m scan' with
        | none => rw [hr] at h1; simp at h1
        | some x =>
          rw [hr] at h1
          cases x with
          | error e => simp at h1
          | ok l =>
            simp only [Option.some.injEq, Except.ok.injEq, List.cons.injEq] at h1
            obtain ⟨h2, h3⟩ := h1
            subst h3
            exact ⟨by simpa using he, h2, scan', rfl, hr⟩
  obtain ⟨h1, h2, scan', h3, -⟩ := hstep (rest.length + 1) (by omega)
  refine ⟨h1, h2, scan', h3, ?_⟩
  intro m hm
  obtain ⟨-, -, scan'', h4, h5⟩ := hstep m hm
  rw [h3] at h4
  simp only [Prod.mk.injEq, true_and] at h4
  subst h4
  exact h5

theorem get_record_occupied (fh : RmFileHandle) (rid : Rid) (h : fh.Occupied rid) :
    (get_record fh rid none).result =
      .ok { size := fh.file_hdr_.record_size, data := fh.stored rid } ∧
    (get_record fh rid none).context = none := by
  obtain ⟨h1, h2, h3, page, h4, -⟩ := fh.slot_bit_eq_some rid true h
  refine ⟨?_, ?_⟩
  · rw [get_record_none_ok fh rid page (by omega) h2 h4 h3]
    simp [RmFileHandle.stored, h4]
  · simp [get_record, Context.lock_shared, fetch_page_handle_ok fh rid.page_no page (by omega) h2 h4,
      h3]

/-- With a lock context, `get_record` returns what it returns without one, when it
returns. -/
theorem get_record_ok_context (fh : RmFileHandle) (rid : Rid) (ctx : Option Context)
    (record : RmRecord) (h : (get_record fh rid ctx).result = .ok record) :
    (get_record fh rid none).result = .ok record := by
  revert h
  unfold get_record
  rcases hl : Context.lock_shared ctx rid fh.fd_ with ⟨lr, ctx1⟩
  cases lr with
  | error e => intro h; simp at h
  | ok b =>
    simp only [Context.lock_shared]
    cases hf : fetch_page_handle fh rid.page_no with
    | error e => intro h; simp at h
    | ok ph =>
      simp only
      by_cases hs : fh.slot_in_range rid.slot_no
      · simp only [hs, if_true]
        intro h; exact h
      · simp only [hs, if_false]
        intro h; simp at h

theorem SeqScanExecutor.check_op_holds (op : CompOp) (cmp : Int) (h : op.is_relational = true) :
    SeqScanExecutor.check_op op cmp = .ok (op.holds cmp) := by
  cases op <;>
    simp only [SeqScanExecutor.check_op, CompOp.holds, CompOp.is_relational, Except.ok.injEq,
      bne, decide_not, Bool.false_eq_true] at h ⊢ <;>
    rfl

theorem SeqScanExecutor.cond_holds (ix_compare : IxCompare) (cols : List ColMeta)
    (record : RmRecord) (cond : Condition) (hop : cond.op.is_relational = true)
    (hres : cond.resolves cols = true) :
    ∃ cmp, SeqScanExecutor.compare ix_compare cols record cond = .ok cmp ∧
      SeqScanExecutor.check_op cond.op cmp =
        .ok (Condition.holds ix_compare cols record.data cond) := by
  unfold Condition.resolves at hres
  simp only [Bool.and_eq_true, Bool.or_eq_true] at hres
  obtain ⟨hl, hr⟩ := hres
  obtain ⟨lhs, hlhs⟩ := Option.isSome_iff_exists.mp (List.find?_isSome.mpr (List.any_eq_true.mp hl))
  unfold SeqScanExecutor.compare Condition.holds get_col
  rw [hlhs]
  simp only
  by_cases hv : cond.is_rhs_val = true
  · simp only [hv, if_true]
    exact ⟨_, rfl, SeqScanExecutor.check_op_holds _ _ hop⟩
  · simp only [hv] at hr
    have hr' := hr.resolve_left (by simp)
    obtain ⟨rhs, hrhs⟩ :=
      Option.isSome_iff_exists.mp (List.find?_isSome.mpr (List.any_eq_true.mp hr'))
    rw [hrhs]
    simp only [hv, Bool.false_eq_true, if_false]
    exact ⟨_, rfl, SeqScanExecutor.check_op_holds _ _ hop⟩

theorem SeqScanExecutor.for_conds_all (ix_compare : IxCompare) (cols : List ColMeta)
    (record : RmRecord) :
    ∀ (conds : List Condition) (flag : Bool),
      (∀ c ∈ conds, c.op.is_relational = true) → (∀ c ∈ conds, c.resolves cols = true) →
      SeqScanExecutor.for_conds ix_compare cols record flag conds =
        .ok (if conds = [] then flag
          else conds.all (Condition.holds ix_compare cols record.data)) := by
  intro conds
  induction conds with
  | nil => intro flag _ _; simp [SeqScanExecutor.for_conds]
  | cons c rest ih =>
    intro flag hops hcols
    obtain ⟨cmp, h1, h2⟩ := SeqScanExecutor.cond_holds ix_compare cols record c
      (hops c (List.mem_cons_self _ _)) (hcols c (List.mem_cons_self _ _))
    rw [SeqScanExecutor.for_conds, h1]
    simp only
    rw [h2]
    cases hh : Condition.holds ix_compare cols record.data c with
    | false => simp [hh]
    | true =>
      simp only
      rw [ih true (fun c hc => hops c (List.mem_cons_of_mem _ hc))
        (fun c hc => hcols c (List.mem_cons_of_mem _ hc))]
      cases rest with
      | nil => simp [hh]
      | cons d rest' => simp [hh]

/-- The flag computed by the executor for a record is the conjunction of the
conditions. -/
theorem SeqScanExecutor.eval_conds_all (ix_compare : IxCompare) (cols : List ColMeta)
    (conds : List Condition) (record : RmRecord)
    (hops : ∀ c ∈ conds, c.op.is_relational = true)
    (hcols : ∀ c ∈ conds, c.resolves cols = true) :
    SeqScanExecutor.eval_conds ix_compare cols conds record =
      .ok (conds.all (Condition.holds ix_compare cols record.data)) := by
  unfold SeqScanExecutor.eval_conds
  cases conds with
  | nil => simp
  | cons c rest =>
    rw [if_neg (by simp), SeqScanExecutor.for_conds_all ix_compare cols record _ _ hops hcols]
    simp

theorem get_record_none_context (fh : RmFileHandle) (rid : Rid) :
    (get_record fh rid none).context = none := by
  unfold get_record
  simp only [Context.lock_shared]
  cases fetch_page_handle fh rid.page_no with
  | error e => rfl
  | ok ph =>
    simp only
    split_ifs <;> rfl

/-- One turn of the loop of `seek` on a record that is read and tested without an
exception. -/
theorem SeqScanExecutor.seek_succ (ix_compare : IxCompare) (k : Nat) (ex : SeqScanExecutor)
    (scan scan' : RmScan) (record : RmRecord) (b : Bool) (hend : scan.is_end = false)
    (hget : (get_record ex.fh_ scan.rid ex.context_).result = .ok record)
    (heval : SeqScanExecutor.eval_conds ix_compare ex.cols_ ex.fed_conds_ record = .ok b)
    (hnext : scan.next = (.ok (), scan')) :
    SeqScanExecutor.seek ix_compare (k + 1) ex scan =
      if b = true then
        some (.ok (),
          { ex with
            rid_ := scan.rid, scan_ := some scan,
            context_ := (get_record ex.fh_ scan.rid ex.context_).context })
      else
        SeqScanExecutor.seek ix_compare k
          { ex with
            rid_ := scan.rid,
            context_ := (get_record ex.fh_ scan.rid ex.context_).context }
          scan' := by
  rw [SeqScanExecutor.seek, hend]
  simp only [Bool.false_eq_true, if_false, hget, heval]
  cases b with
  | true => simp
  | false => simp [hnext]

/-- The loop of `seek`, without a lock context, on a scan that has the occupied rids
`todo` still to visit: it stops at the first of them that satisfies the conditions, or at
the end. -/
theorem SeqScanExecutor.seek_spec (ix_compare : IxCompare) :
    ∀ (todo : List Rid) (steps : Nat) (ex : SeqScanExecutor) (scan : RmScan),
      scan.Visits todo → (∀ r ∈ todo, ex.fh_.Occupied r) → ex.context_ = none →
      (∀ c ∈ ex.fed_conds_, c.op.is_relational = true) →
      (∀ c ∈ ex.fed_conds_, c.resolves ex.cols_ = true) →
      (todo.length < steps ∨ (SeqScanExecutor.seek ix_compare steps ex scan).isSome = true) →
      ∃ ex' scan', SeqScanExecutor.seek ix_compare steps ex scan = some (.ok (), ex') ∧
        ex'.fh_ = ex.fh_ ∧ ex'.cols_ = ex.cols_ ∧ ex'.fed_conds_ = ex.fed_conds_ ∧
        ex'.context_ = none ∧ ex'.scan_ = some scan' ∧
        scan'.Visits (todo.dropWhile
          (fun r => !RmFileHandle.satisfies ix_compare ex.cols_ ex.fed_conds_ ex.fh_ r)) ∧
        ∀ r rest, todo.dropWhile
          (fun r => !RmFileHandle.satisfies ix_compare ex.cols_ ex.fed_conds_ ex.fh_ r) =
            r :: rest → ex'.rid_ = r := by
  intro todo
  induction todo with
  | nil =>
    intro steps ex scan hvis _ hctx _ _ hfuel
    have hend := RmScan.Visits.nil scan hvis
    cases steps with
    | zero => simp [SeqScanExecutor.seek] at hfuel
    | succ k =>
      refine ⟨{ ex with scan_ := some scan }, scan, ?_, rfl, rfl, rfl, hctx, rfl, ?_, ?_⟩
      · rw [SeqScanExecutor.seek, if_pos hend]
      · simpa using hvis
      · intro r rest h; simp at h
  | cons r rest ih =>
    intro steps ex scan hvis hocc hctx hops hcols hfuel
    obtain ⟨hend, hrid, scan', hnext, hvis'⟩ := RmScan.Visits.cons scan r rest hvis
    cases steps with
    | zero => simp [SeqScanExecutor.seek] at hfuel
    | succ k =>
      obtain ⟨hget, hgctx⟩ := get_record_occupied ex.fh_ r (hocc r (List.mem_cons_self _ _))
      have heval := SeqScanExecutor.eval_conds_all ix_compare ex.cols_ ex.fed_conds_
        { size := ex.fh_.file_hdr_.record_size, data := ex.fh_.stored r } hops hcols
      have hstep := SeqScanExecutor.seek_succ ix_compare k ex scan scan' _ _ hend
        (by rw [hrid, hctx]; exact hget) heval hnext
      rw [hrid, hctx, hgctx] at hstep
      by_cases hsat : RmFileHandle.satisfies ix_compare ex.cols_ ex.fed_conds_ ex.fh_ r = true
      · have hb : (ex.fed_conds_.all
            (Condition.holds ix_compare ex.cols_ (ex.fh_.stored r))) = true := hsat
        rw [hb, if_pos rfl] at hstep
        have hdw : (r :: rest).dropWhile
            (fun r => !RmFileHandle.satisfies ix_compare ex.cols_ ex.fed_conds_ ex.fh_ r) =
              r :: rest := by
          rw [List.dropWhile_cons, hsat]; rfl
        refine ⟨_, scan, hstep, rfl, rfl, rfl, rfl, rfl, ?_, ?_⟩
        · rw [hdw]; exact hvis
        · intro r' rest' h
          rw [hdw] at h
          simp only [List.cons.injEq] at h
          exact h.1
      · have hsat' : RmFileHandle.satisfies ix_compare ex.cols_ ex.fed_conds_ ex.fh_ r = false := by
          simpa using hsat
        have hb : (ex.fed_conds_.all
            (Condition.holds ix_compare ex.cols_ (ex.fh_.stored r))) = false := hsat'
        rw [hb, if_neg (by simp)] at hstep
        have hdw : (r :: rest).dropWhile
            (fun r => !RmFileHandle.satisfies ix_compare ex.cols_ ex.fed_conds_ ex.fh_ r) =
              rest.dropWhile
                (fun r => !RmFileHandle.satisfies ix_compare ex.cols_ ex.fed_conds_ ex.fh_ r) := by
          rw [List.dropWhile_cons, hsat']; rfl
        have hfuel' : rest.length < k ∨
            (SeqScanExecutor.seek ix_compare k { ex with rid_ := r, context_ := none }
              scan').isSome = true := by
          rcases hfuel with h | h
          · left; simp at h; omega
          · right; rw [hstep] at h; exact h
        obtain ⟨ex', scan'', h1, h2, h3, h4, h5, h6, h7, h8⟩ :=
          ih k { ex with rid_ := r, context_ := none } scan' hvis'
            (fun r' hr' => hocc r' (List.mem_cons_of_mem _ hr')) rfl hops hcols hfuel'
        refine ⟨ex', scan'', by rw [hstep]; exact h1, h2, h3, h4, h5, h6, ?_, ?_⟩
        · rw [hdw]; exact h7
        · rw [hdw]; exact h8

/-- When the loop of `seek` returns with a lock context, it returns the same without
one. -/
theorem SeqScanExecutor.seek_ok_context (ix_compare : IxCompare) :
    ∀ (steps : Nat) (ex ex' : SeqScanExecutor) (scan : RmScan),
      SeqScanExecutor.seek ix_compare steps ex scan = some (.ok (), ex') →
      SeqScanExecutor.seek ix_compare steps { ex with context_ := none } scan =
        some (.ok (), { ex' with context_ := none }) := by
  intro steps
  induction steps with
  | zero => intro ex ex' scan h; simp [SeqScanExecutor.seek] at h
  | succ k ih =>
    intro ex ex' scan h
    by_cases hend : scan.is_end = true
    · rw [SeqScanExecutor.seek, if_pos hend] at h ⊢
      simp only [Option.some.injEq, Prod.mk.injEq, true_and] at h
      subst h
      rfl
    · have hend' : scan.is_end = false := by simpa using hend
      cases hget : (get_record ex.fh_ scan.rid ex.context_).result with
      | error e =>
        rw [SeqScanExecutor.seek, if_neg hend] at h
        simp [hget] at h
      | ok record =>
        cases heval : SeqScanExecutor.eval_conds ix_compare ex.cols_ ex.fed_conds_ record with
        | error e =>
          rw [SeqScanExecutor.seek, if_neg hend] at h
          simp [hget, heval] at h
        | ok b =>
          rcases hnext : scan.next with ⟨res, scan'⟩
          have hget' := get_record_ok_context _ _ _ _ hget
          cases res with
          | error e =>
            cases b with
            | false =>
              rw [SeqScanExecutor.seek, if_neg hend] at h
              simp [hget, heval, hnext] at h
            | true =>
              rw [SeqScanExecutor.seek, if_neg hend] at h ⊢
              simp only [hget, heval, hget', Option.some.injEq, Prod.mk.injEq, true_and] at h ⊢
              subst h
              simp [get_record_none_context]
          | ok u =>
            rw [SeqScanExecutor.seek_succ ix_compare k ex scan scan' record b hend' hget heval
              hnext] at h
            rw [SeqScanExecutor.seek_succ ix_compare k { ex with context_ := none } scan scan'
              record b hend' hget' heval hnext]
            cases b with
            | true =>
              simp only [if_true, Option.some.injEq, Prod.mk.injEq, true_and] at h ⊢
              subst h
              simp [get_record_none_context]
            | false =>
              simp only [Bool.false_eq_true, if_false] at h ⊢
              have := ih _ _ _ h
              simp only [get_record_none_context]
              exact this

theorem filter_dropWhile_not {α : Type} (p : α → Bool) (l : List α) :
    (l.dropWhile (fun x => !p x)).filter p = l.filter p := by
  induction l with
  | nil => rfl
  | cons a t ih =>
    rw [List.dropWhile_cons]
    cases h : p a with
    | true => simp [h]
    | false => simp [h, ih]

theorem dropWhile_not_head {α : Type} (p : α → Bool) (l : List α) (r : α) (rest : List α)
    (h : l.dropWhile (fun x => !p x) = r :: rest) : p r = true := by
  induction l with
  | nil => simp at h
  | cons a t ih =>
    rw [List.dropWhile_cons] at h
    cases hp : p a with
    | true =>
      simp only [hp, Bool.not_true, Bool.false_eq_true, if_false, List.cons.injEq] at h
      rw [← h.1]; exact hp
    | false =>
      simp only [hp, Bool.not_false, if_true] at h
      exact ih h

theorem length_dropWhile_le {α : Type} (p : α → Bool) (l : List α) :
    (l.dropWhile p).length ≤ l.length :=
  (List.dropWhile_suffix p).length_le

theorem SeqScanExecutor.nextTuple_eq (ix_compare : IxCompare) (k : Nat) (ex : SeqScanExecutor)
    (scan scan' : RmScan) (hscan : ex.scan_ = some scan) (hnext : scan.next = (.ok (), scan')) :
    SeqScanExecutor.nextTuple ix_compare k ex = SeqScanExecutor.seek ix_compare k ex scan' := by
  unfold SeqScanExecutor.nextTuple
  rw [hscan]
  simp only [hnext]

/-- The caller's loop over an executor without a lock context, stopped at the head of
`todo` (or at the end when `todo` is empty): it stops exactly at the rids of `todo` that
satisfy the conditions. -/
theorem SeqScanExecutor.stops_from_spec (ix_compare : IxCompare) :
    ∀ (steps : Nat) (todo : List Rid) (ex : SeqScanExecutor) (scan : RmScan),
      ex.scan_ = some scan → scan.Visits todo → (∀ r ∈ todo, ex.fh_.Occupied r) →
      ex.context_ = none →
      (∀ c ∈ ex.fed_conds_, c.op.is_relational = true) →
      (∀ c ∈ ex.fed_conds_, c.resolves ex.cols_ = true) →
      (∀ r rest, todo = r :: rest →
        ex.rid_ = r ∧ RmFileHandle.satisfies ix_compare ex.cols_ ex.fed_conds_ ex.fh_ r = true) →
      (todo.length < steps ∨ (SeqScanExecutor.stops_from ix_compare steps ex).isSome = true) →
      SeqScanExecutor.stops_from ix_compare steps ex =
        some (.ok (todo.filter (RmFileHandle.satisfies ix_compare ex.cols_ ex.fed_conds_ ex.fh_)))
      := by
  intro steps
  induction steps with
  | zero => intro todo ex scan _ _ _ _ _ _ _ hfuel; simp [SeqScanExecutor.stops_from] at hfuel
  | succ k ih =>
    intro todo ex scan hscan hvis hocc hctx hops hcols hhead hfuel
    cases todo with
    | nil =>
      have hend := RmScan.Visits.nil scan hvis
      rw [SeqScanExecutor.stops_from, SeqScanExecutor.is_end, hscan]
      simp [hend]
    | cons r rest =>
      obtain ⟨hend, -, scan', hnext, hvis'⟩ := RmScan.Visits.cons scan r rest hvis
      obtain ⟨hrid, hsat⟩ := hhead r rest rfl
      have hnt := SeqScanExecutor.nextTuple_eq ix_compare k ex scan scan' hscan hnext
      have hunf : SeqScanExecutor.stops_from ix_compare (k + 1) ex =
          match SeqScanExecutor.seek ix_compare k ex scan' with
          | none => none
          | some (.error e, _) => some (.error e)
          | some (.ok _, ex') =>
            match SeqScanExecutor.stops_from ix_compare k ex' with
            | none => none
            | some (.error e) => some (.error e)
            | some (.ok rest) => some (.ok (ex.rid :: rest)) := by
        rw [SeqScanExecutor.stops_from, SeqScanExecutor.is_end, hscan]
        simp only [hend, Bool.false_eq_true, if_false, hnt]
      rw [hunf] at hfuel ⊢
      have hfuel1 : rest.length < k ∨
          (SeqScanExecutor.seek ix_compare k ex scan').isSome = true := by
        rcases hfuel with h | h
        · left; simp at h; omega
        · right
          cases hs : SeqScanExecutor.seek ix_compare k ex scan' with
          | none => rw [hs] at h; simp at h
          | some x => rfl
      obtain ⟨ex', scan'', h1, h2, h3, h4, h5, h6, h7, h8⟩ :=
        SeqScanExecutor.seek_spec ix_compare rest k ex scan' hvis'
          (fun r' hr' => hocc r' (List.mem_cons_of_mem _ hr')) hctx hops hcols hfuel1
      rw [h1] at hfuel ⊢
      simp only at hfuel ⊢
      have hfuel2 : (rest.dropWhile
          (fun r => !RmFileHandle.satisfies ix_compare ex.cols_ ex.fed_conds_ ex.fh_ r)).length < k ∨
          (SeqScanExecutor.stops_from ix_compare k ex').isSome = true := by
        rcases hfuel with h | h
        · left
          have := length_dropWhile_le
            (fun r => !RmFileHandle.satisfies ix_compare ex.cols_ ex.fed_conds_ ex.fh_ r) rest
          simp at h; omega
        · right
          cases hs : SeqScanExecutor.stops_from ix_compare k ex' with
          | none => rw [hs] at h; simp at h
          | some x => rfl
      have hrec := ih _ ex' scan'' h6 h7
        (fun r' hr' => by
          rw [h2]
          exact hocc r' (List.mem_cons_of_mem _ ((List.dropWhile_sublist _).subset hr')))
        h5 (by rw [h4]; exact hops) (by rw [h4, h3]; exact hcols)
        (fun r' rest' hdw => by
          rw [h2, h3, h4]
          exact ⟨h8 r' rest' hdw, dropWhile_not_head _ _ _ _ hdw⟩)
        hfuel2
      rw [hrec, h2, h3, h4, filter_dropWhile_not]
      simp only [SeqScanExecutor.rid, hrid]
      rw [List.filter_cons, hsat, if_pos rfl]

/-- When the caller's loop returns rids with a lock context, it returns the same rids
without one. -/
theorem SeqScanExecutor.stops_from_ok_context (ix_compare : IxCompare) :
    ∀ (steps : Nat) (ex : SeqScanExecutor) (l : List Rid),
      SeqScanExecutor.stops_from ix_compare steps ex = some (.ok l) →
      SeqScanExecutor.stops_from ix_compare steps { ex with context_ := none } = some (.ok l) := by
  intro steps
  induction steps with
  | zero => intro ex l h; simp [SeqScanExecutor.stops_from] at h
  | succ k ih =>
    intro ex l h
    rw [SeqScanExecutor.stops_from] at h ⊢
    by_cases hend : ex.is_end = true
    · have hend' : SeqScanExecutor.is_end { ex with context_ := none } = true := hend
      rw [if_pos hend] at h
      rw [if_pos hend']
      exact h
    · have hend' : ¬ SeqScanExecutor.is_end { ex with context_ := none } = true := hend
      rw [if_neg hend] at h
      rw [if_neg hend']
      rcases Option.eq_none_or_eq_some ex.scan_ with hscan | ⟨scan, hscan⟩
      · simp [SeqScanExecutor.nextTuple, hscan] at h
      · rcases hnext : scan.next with ⟨res, scan'⟩
        cases res with
        | error e => simp [SeqScanExecutor.nextTuple, hscan, hnext] at h
        | ok u =>
          rw [SeqScanExecutor.nextTuple_eq ix_compare k ex scan scan' hscan hnext] at h
          rw [SeqScanExecutor.nextTuple_eq ix_compare k { ex with context_ := none } scan scan'
            hscan hnext]
          cases hs : SeqScanExecutor.seek ix_compare k ex scan' with
          | none => rw [hs] at h; simp at h
          | some x =>
            obtain ⟨res1, ex'⟩ := x
            cases res1 with
            | error e => rw [hs] at h; simp at h
            | ok u1 =>
              rw [hs] at h
              simp only at h
              rw [SeqScanExecutor.seek_ok_context ix_compare k ex ex' scan' hs]
              simp only
              cases hr : SeqScanExecutor.stops_from ix_compare k ex' with
              | none => rw [hr] at h; simp at h
              | some y =>
                cases y with
                | error e => rw [hr] at h; simp at h
                | ok rest =>
                  rw [hr] at h
                  rw [ih ex' rest hr]
                  exact h

/-- A sequential scan over a table whose file has at least one data page (and whose
header counts its pages), with conditions whose operators are among the six relational
operators and whose columns are columns of the table. The `RmScan` of the file visits a
list `visited` of rids. Without a lock context the caller's loop
`for (beginTuple(); !is_end(); nextTuple())` returns, and the rids at which the executor
stops are `visited` filtered by "the record stored there satisfies every condition".
With a lock context the rids are the same whenever the loop returns (no lock request
was refused). With an empty condition list the filtered list is `visited` itself. -/
theorem SeqScanExecutor.stops_on_data_pages (ix_compare : IxCompare) (ex : SeqScanExecutor)
    (hpages : ex.fh_.file_hdr_.num_pages = ex.fh_.pages.length)
    (hdata : 2 ≤ ex.fh_.file_hdr_.num_pages)
    (hops : ∀ c ∈ ex.fed_conds_, c.op.is_relational = true)
    (hcols : ∀ c ∈ ex.fed_conds_, c.resolves ex.cols_ = true) :
    ∃ scan visited, RmScan.new ex.fh_ = .ok scan ∧ scan.Visits visited ∧
      (∀ steps, visited.length < steps →
        SeqScanExecutor.stops ix_compare steps { ex with context_ := none } =
          some (.ok (visited.filter
            (RmFileHandle.satisfies ix_compare ex.cols_ ex.fed_conds_ ex.fh_)))) ∧
      (∀ steps stops, SeqScanExecutor.stops ix_compare steps ex = some (.ok stops) →
        stops = visited.filter
          (RmFileHandle.satisfies ix_compare ex.cols_ ex.fed_conds_ ex.fh_)) ∧
      (ex.fed_conds_ = [] →
        visited.filter (RmFileHandle.satisfies ix_compare ex.cols_ ex.fed_conds_ ex.fh_) =
          visited) := by
  obtain ⟨scan, hnew, -, hrids⟩ := RmScan.new_spec ex.fh_ hpages hdata
  have hocc : ∀ r ∈ ex.fh_.occupied_rids, ex.fh_.Occupied r := by
    intro r hr
    rw [RmFileHandle.occupied_rids, ex.fh_.mem_occupied_from r _ 1 rfl (le_refl _)] at hr
    exact hr.2
  have hnone : ∀ steps,
      (ex.fh_.occupied_rids.length < steps ∨
        (SeqScanExecutor.stops ix_compare steps { ex with context_ := none }).isSome = true) →
      SeqScanExecutor.stops ix_compare steps { ex with context_ := none } =
        some (.ok (ex.fh_.occupied_rids.filter
          (RmFileHandle.satisfies ix_compare ex.cols_ ex.fed_conds_ ex.fh_))) := by
    intro steps hfuel
    have hunf : SeqScanExecutor.stops ix_compare steps { ex with context_ := none } =
        match SeqScanExecutor.seek ix_compare steps { ex with context_ := none } scan with
        | none => none
        | some (.error e, _) => some (.error e)
        | some (.ok _, ex') => SeqScanExecutor.stops_from ix_compare steps ex' := by
      rw [SeqScanExecutor.stops, SeqScanExecutor.beginTuple]
      simp only [hnew]
    rw [hunf] at hfuel ⊢
    have hfuel1 : ex.fh_.occupied_rids.length < steps ∨
        (SeqScanExecutor.seek ix_compare steps { ex with context_ := none } scan).isSome = true := by
      rcases hfuel with h | h
      · exact Or.inl h
      · right
        cases hs : SeqScanExecutor.seek ix_compare steps { ex with context_ := none } scan with
        | none => rw [hs] at h; simp at h
        | some x => rfl
    obtain ⟨ex', scan', h1, h2, h3, h4, h5, h6, h7, h8⟩ :=
      SeqScanExecutor.seek_spec ix_compare _ steps { ex with context_ := none } scan hrids hocc rfl
        hops hcols hfuel1
    rw [h1] at hfuel ⊢
    simp only at hfuel h2 h3 h4 h7 h8 ⊢
    have hfuel2 : (ex.fh_.occupied_rids.dropWhile
        (fun r => !RmFileHandle.satisfies ix_compare ex.cols_ ex.fed_conds_ ex.fh_ r)).length
          < steps ∨ (SeqScanExecutor.stops_from ix_compare steps ex').isSome = true := by
      rcases hfuel with h | h
      · left
        have := length_dropWhile_le
          (fun r => !RmFileHandle.satisfies ix_compare ex.cols_ ex.fed_conds_ ex.fh_ r)
          ex.fh_.occupied_rids
        omega
      · exact Or.inr h
    rw [SeqScanExecutor.stops_from_spec ix_compare steps _ ex' scan' h6 h7
      (fun r' hr' => by
        rw [h2]
        exact hocc r' ((List.dropWhile_sublist _).subset hr'))
      h5 (by rw [h4]; exact hops) (by rw [h4, h3]; exact hcols)
      (fun r' rest' hdw => by
        rw [h2, h3, h4]
        exact ⟨h8 r' rest' hdw, dropWhile_not_head _ _ _ _ hdw⟩)
      hfuel2]
    rw [h2, h3, h4, filter_dropWhile_not]
  refine ⟨scan, ex.fh_.occupied_rids, hnew, hrids, fun steps h => hnone steps (Or.inl h), ?_, ?_⟩
  · intro steps stops hstops
    have hctx : SeqScanExecutor.stops ix_compare steps { ex with context_ := none } =
        some (.ok stops) := by
      rw [SeqScanExecutor.stops, SeqScanExecutor.beginTuple] at hstops ⊢
      simp only [hnew] at hstops ⊢
      cases hs : SeqScanExecutor.seek ix_compare steps ex scan with
      | none => rw [hs] at hstops; simp at hstops
      | some x =>
        obtain ⟨res1, ex'⟩ := x
        cases res1 with
        | error e => rw [hs] at hstops; simp at hstops
        | ok u1 =>
          rw [hs] at hstops
          simp only at hstops
          rw [SeqScanExecutor.seek_ok_context ix_compare steps ex ex' scan hs]
          simp only
          exact SeqScanExecutor.stops_from_ok_context ix_compare steps ex' stops hstops
    have := hnone steps (Or.inr (by rw [hctx]; rfl))
    rw [hctx] at this
    simpa using this
  · intro hempty
    rw [hempty]
    simp [RmFileHandle.satisfies]

/-! ## The theorems at concrete inputs -/

/-- Witness for C11 on `exTable`: slot 3 is the lowest clear bit of page 1, and deleting
the record of slot 2 (slots 0 and 1 occupied) then inserting returns slot 2 again. -/
theorem insert_record_lowest_clear_bit_witness :
    exTable.HasFreeSlot 1 ∧ exTable.Occupied { page_no := 1, slot_no := 2 } ∧
    (∃ s, (insert_record exTable [4, 6] none).result = .ok { page_no := 1, slot_no := s } ∧
      exTable.Vacant { page_no := 1, slot_no := s } ∧
      ∀ j, 0 ≤ j → j < s → exTable.Occupied { page_no := 1, slot_no := j }) ∧
    (insert_record (delete_record exTable { page_no := 1, slot_no := 2 } none).file [4, 6]
      none).result = .ok { page_no := 1, slot_no := 2 } :=
  ⟨⟨3, by decide⟩, by decide,
    (insert_record_lowest_clear_bit exTable [4, 6]).1 1 rfl ⟨3, by decide⟩,
    (insert_record_lowest_clear_bit exTable [4, 6]).2 { page_no := 1, slot_no := 2 } rfl
      (by decide) (by intro j h0 h2; simp only at h2; interval_cases j <;> decide)⟩

/-- Witness for C15 on `exBegun`: transaction 0 is granted `lock_exclusive_on_record` on
`exRid` of table 7. -/
theorem exclusive_on_record_holds_table_lock_witness :
    exBegun.txn_map 0 = some exFresh ∧
    (lock_exclusive_on_record exFresh exRid 7 exBegun.lock_manager_).result = .ok true ∧
    (∃ q, (lock_exclusive_on_record exFresh exRid 7 exBegun.lock_manager_).lock_table_
          (LockDataId.table 7) = some q ∧
        ∃ r ∈ q.request_queue_, r.txn_id_ = exFresh.txn_id_ ∧ r.granted_ = true ∧
          (r.lock_mode_ = .INTENTION_EXCLUSIVE ∨ r.lock_mode_ = .S_IX ∨
            r.lock_mode_ = .EXCLUSIVE)) ∧
    LockDataId.table 7 ∈
      (lock_exclusive_on_record exFresh exRid 7 exBegun.lock_manager_).txn.lock_set_ ∧
    LockDataId.record 7 exRid ∈
      (lock_exclusive_on_record exFresh exRid 7 exBegun.lock_manager_).txn.lock_set_ :=
  ⟨by decide, by decide,
    exclusive_on_record_holds_table_lock exBegun (.step _ _ (.init _)) 0 exFresh (by decide)
      exRid 7 true (by decide)⟩

/-- Witness for C16 on `exTable`, whose data page holds three records. -/
theorem rm_scan_visits_occupied_slots_witness :
    exTable.file_hdr_.num_pages = exTable.pages.length ∧ 2 ≤ exTable.file_hdr_.num_pages ∧
    ∃ scan visited, RmScan.new exTable = .ok scan ∧
      (∀ steps, visited.length < steps → RmScan.rids steps scan = some (.ok visited)) ∧
      visited.Pairwise Rid.lt ∧
      (∀ rid, rid ∈ visited ↔ exTable.Occupied rid) ∧
      ∀ s : RmScan, s.is_end = true ↔ s.rid_.page_no = RM_NO_PAGE :=
  ⟨by decide, by decide, rm_scan_visits_occupied_slots exTable (by decide) (by decide)⟩

/-- Witness for C19 on `exFile`: the record at `exRid` is overwritten with `[9, 9]`. -/
theorem update_record_frame_witness :
    exFile.WellFormed ∧ exFile.slot_in_range exRid.slot_no ∧
    (update_record exFile exRid [9, 9] none).result = .ok () ∧
    (get_record (update_record exFile exRid [9, 9] none).file exRid none).result =
      .ok { size := 2, data := [9, 9] } ∧
    (update_record exFile exRid [9, 9] none).file.file_hdr_ = exFile.file_hdr_ ∧
    ∀ r, (update_record exFile exRid [9, 9] none).file.slot_bit r = exFile.slot_bit r :=
  ⟨by decide, by decide,
    (update_record_frame exFile exRid [9, 9] (by decide) (by decide) (by decide) (by decide)
      rfl).1,
    (update_record_frame exFile exRid [9, 9] (by decide) (by decide) (by decide) (by decide)
      rfl).2.2.1,
    (update_record_frame exFile exRid [9, 9] (by decide) (by decide) (by decide) (by decide)
      rfl).2.2.2.1,
    (update_record_frame exFile exRid [9, 9] (by decide) (by decide) (by decide) (by decide)
      rfl).2.2.2.2.2.2.2⟩

/-! ## Transaction manager: begin, and commit or abort called twice -/

theorem TransactionManager.step_counters (tm : TransactionManager) (s : TmStep) :
    tm.next_txn_id_ ≤ (tm.step s).next_txn_id_ ∧
      tm.next_timestamp_ ≤ (tm.step s).next_timestamp_ := by
  cases s with
  | begin_new => simp [TransactionManager.step, TransactionManager.begin]
  | call tid op =>
    simp only [TransactionManager.step]
    cases tm.txn_map tid <;> simp

theorem TransactionManager.run_counters (steps : List TmStep) :
    ∀ tm : TransactionManager,
      tm.next_txn_id_ ≤ (tm.run steps).next_txn_id_ ∧
        tm.next_timestamp_ ≤ (tm.run steps).next_timestamp_ := by
  induction steps with
  | nil => intro tm; exact ⟨le_refl _, le_refl _⟩
  | cons s rest ih =>
    intro tm
    obtain ⟨h1, h2⟩ := tm.step_counters s
    obtain ⟨h3, h4⟩ := ih (tm.step s)
    exact ⟨le_trans h1 h3, le_trans h2 h4⟩

/-- C29. In every state of the transaction manager, `begin(nullptr)` returns a transaction
whose id is the previous `next_txn_id_`, whose state is `GROWING` and which `txn_map`
holds under its id; a later `begin(nullptr)`, directly or after any number of further
`begin` and lock-manager steps, returns a strictly greater id and a strictly greater
start timestamp. -/
theorem begin_registers_fresh_transaction (tm : TransactionManager) :
    (tm.begin none).1.txn_id_ = tm.next_txn_id_ ∧
    (tm.begin none).1.state_ = .GROWING ∧
    (tm.begin none).2.txn_map (tm.begin none).1.txn_id_ = some (tm.begin none).1 ∧
    ∀ steps : List TmStep,
      (tm.begin none).1.txn_id_ < (((tm.begin none).2.run steps).begin none).1.txn_id_ ∧
      (tm.begin none).1.start_ts_ < (((tm.begin none).2.run steps).begin none).1.start_ts_ := by
  refine ⟨rfl, rfl, by simp [TransactionManager.begin], ?_⟩
  intro steps
  obtain ⟨h1, h2⟩ := TransactionManager.run_counters steps (tm.begin none).2
  simp only [TransactionManager.begin, Option.isNone_none, if_true, Option.getD_none,
    Transaction.new] at h1 h2 ⊢
  constructor <;> omega

theorem unlock_all_write_set (ids : List LockDataId) :
    ∀ (txn : Transaction) (lt : LockTable),
      (unlock_all txn ids lt).1.write_set_ = txn.write_set_ := by
  induction ids with
  | nil => intro txn lt; rfl
  | cons id rest ih =>
    intro txn lt
    rw [unlock_all, ih, unlock_state]
    split_ifs <;> rfl

theorem unlock_finished (txn : Transaction) (id : LockDataId) (lt : LockTable)
    (h : txn.state_ = .COMMITTED ∨ txn.state_ = .ABORTED) :
    unlock txn id lt = { result := .ok false, txn := txn, lock_table_ := lt } := by
  unfold unlock
  rw [if_pos h]

theorem unlock_all_finished (ids : List LockDataId) :
    ∀ (txn : Transaction) (lt : LockTable),
      txn.state_ = .COMMITTED ∨ txn.state_ = .ABORTED → unlock_all txn ids lt = (txn, lt) := by
  induction ids with
  | nil => intro txn lt _; rfl
  | cons id rest ih =>
    intro txn lt h
    rw [unlock_all, unlock_finished txn id lt h]
    exact ih txn lt h

/-- C27. A second `commit` directly after a first one changes nothing: the transaction
(state `COMMITTED`, empty write set, empty lock set) and the lock table are as the first
call left them, and the second call has no write record to free. -/
theorem commit_twice (txn : Transaction) (lock_table_ : LockTable) :
    commit (commit txn lock_table_).1 (commit txn lock_table_).2 = commit txn lock_table_ ∧
    (commit txn lock_table_).1.state_ = .COMMITTED ∧
    (commit txn lock_table_).1.write_set_ = [] ∧
    (commit txn lock_table_).1.lock_set_ = [] ∧
    commit_frees (commit txn lock_table_).1 = [] := by
  have hw : (commit txn lock_table_).1.write_set_ = [] := by
    rw [commit_eq]
    simp only
    rw [unlock_all_write_set]
  have hl : (commit txn lock_table_).1.lock_set_ = [] := by rw [commit_eq]
  have hs : (commit txn lock_table_).1.state_ = .COMMITTED := by rw [commit_eq]
  refine ⟨?_, hs, hw, hl, by simp [commit_frees, hw]⟩
  generalize commit txn lock_table_ = c at hw hl hs
  obtain ⟨t, l⟩ := c
  simp only at hw hl hs
  rw [commit_eq, hl]
  simp only [unlock_all]
  cases t
  simp only at hw hl hs
  subst hw hl hs
  rfl

/-- C28. When `abort` has returned, a second `abort` directly after it finds an empty
write set, so its undo loop applies no inverse operation, and a transaction in state
`ABORTED`, for which every `unlock` returns at once: the record files, the lock table and
the transaction are exactly as the first call left them. -/
theorem abort_twice (txn : Transaction) (lock_table_ : LockTable) (sm_manager_ : SmManager)
    (hok : (abort txn lock_table_ sm_manager_).result = .ok ()) :
    (abort txn lock_table_ sm_manager_).txn.write_set_ = [] ∧
    (abort txn lock_table_ sm_manager_).txn.state_ = .ABORTED ∧
    (abort (abort txn lock_table_ sm_manager_).txn (abort txn lock_table_ sm_manager_).lock_table_
        (abort txn lock_table_ sm_manager_).sm_manager_).result = .ok () ∧
    (abort (abort txn lock_table_ sm_manager_).txn (abort txn lock_table_ sm_manager_).lock_table_
        (abort txn lock_table_ sm_manager_).sm_manager_).txn =
      (abort txn lock_table_ sm_manager_).txn ∧
    (abort (abort txn lock_table_ sm_manager_).txn (abort txn lock_table_ sm_manager_).lock_table_
        (abort txn lock_table_ sm_manager_).sm_manager_).lock_table_ =
      (abort txn lock_table_ sm_manager_).lock_table_ ∧
    (abort (abort txn lock_table_ sm_manager_).txn (abort txn lock_table_ sm_manager_).lock_table_
        (abort txn lock_table_ sm_manager_).sm_manager_).sm_manager_ =
      (abort txn lock_table_ sm_manager_).sm_manager_ := by
  have hfirst : (abort txn lock_table_ sm_manager_).txn.write_set_ = [] ∧
      (abort txn lock_table_ sm_manager_).txn.state_ = .ABORTED := by
    revert hok
    unfold abort
    split
    · intro hok; simp at hok
    · intro _; exact ⟨rfl, rfl⟩
  obtain ⟨hw, hs⟩ := hfirst
  generalize abort txn lock_table_ sm_manager_ = r at hw hs
  obtain ⟨res, t, l, sm⟩ := r
  simp only at hw hs
  refine ⟨hw, hs, ?_⟩
  unfold abort
  simp only [hw, List.reverse_nil, undo_all, unlock_all_finished _ t l (Or.inr hs)]
  cases t
  simp only at hw hs
  subst hw hs
  exact ⟨trivial, rfl, trivial, trivial⟩

/-- C30 (counterexample). Slot 0 of page 1 of `exFile` is an in-range slot of an existing
page whose bitmap bit is clear; `get_record` does not fail there: it returns the bytes
`[0, 0]` that lie in the slot. -/
theorem get_record_vacant_slot_returns :
    exFile.Vacant { page_no := 1, slot_no := 0 } ∧
    (get_record exFile { page_no := 1, slot_no := 0 } none).result =
      .ok { size := 2, data := [0, 0] } := by
  decide

/-- C30 (amended). For every rid that names an in-range slot of an existing data page,
`get_record` without lock context returns the bytes that lie in the slot, whether the
bitmap bit of the slot is set or clear. -/
theorem get_record_ignores_bitmap (fh : RmFileHandle) (rid : Rid) (b : Bool)
    (h : fh.slot_bit rid = some b) :
    (get_record fh rid none).result =
      .ok { size := fh.file_hdr_.record_size, data := fh.stored rid } := by
  obtain ⟨h1, h2, h3, page, h4, -⟩ := fh.slot_bit_eq_some rid b h
  rw [get_record_none_ok fh rid page (by omega) h2 h4 h3]
  simp [RmFileHandle.stored, h4]

/-! ## Projection -/

theorem getElem?_findIdx_of_find? {α : Type} (p : α → Bool) (l : List α) (a : α)
    (h : l.find? p = some a) : l[l.findIdx p]? = some a := by
  induction l with
  | nil => simp at h
  | cons x t ih =>
    rw [List.find?_cons] at h
    rw [List.findIdx_cons]
    cases hp : p x with
    | true =>
      simp only [hp, Option.some.injEq] at h
      simp [h]
    | false =>
      simp only [hp] at h
      simp only [cond_false, List.getElem?_cons_succ]
      exact ih h

theorem get_col_of_found (cols : List ColMeta) (target : TabCol)
    (h : target.found_in cols = true) :
    ∃ col, cols.find?
        (fun c => c.tab_name == target.tab_name && c.name == target.col_name) = some col ∧
      get_col cols target = .ok col := by
  obtain ⟨col, hcol⟩ :=
    Option.isSome_iff_exists.mp (List.find?_isSome.mpr (List.any_eq_true.mp h))
  exact ⟨col, hcol, by simp [get_col, hcol]⟩

theorem dense_layout_length (cols : List ColMeta) :
    ∀ start, (dense_layout cols start).length = cols.length := by
  induction cols with
  | nil => intro _; rfl
  | cons c rest ih => intro start; simp [dense_layout, ih]

theorem dense_layout_getElem? (cols : List ColMeta) :
    ∀ (start : Int) (i : Nat),
      (dense_layout cols start)[i]? =
        (cols[i]?).map
          (fun col => { col with offset := start + ((cols.take i).map (fun c => c.len)).sum }) := by
  induction cols with
  | nil => intro _ _; simp [dense_layout]
  | cons c rest ih =>
    intro start i
    cases i with
    | zero => simp [dense_layout]
    | succ k =>
      simp only [dense_layout, List.getElem?_cons_succ, ih, List.take_succ_cons, List.map_cons,
        List.sum_cons]
      cases rest[k]? with
      | none => rfl
      | some col => simp only [Option.map_some']; congr 2; omega

/-- The loop of the constructor of `ProjectionExecutor`, when every selected column is a
column of the child. -/
theorem ProjectionExecutor.select_spec (prev_cols : List ColMeta) :
    ∀ (sel_cols : List TabCol) (cols_ : List ColMeta) (sel_idxs_ : List Nat) (curr_offset : Int),
      (∀ c ∈ sel_cols, c.found_in prev_cols = true) →
      ∃ idxs : List Nat,
        ProjectionExecutor.select prev_cols sel_cols cols_ sel_idxs_ curr_offset =
          .ok (cols_ ++ dense_layout (selected_cols prev_cols sel_cols) curr_offset,
            sel_idxs_ ++ idxs,
            curr_offset + ((selected_cols prev_cols sel_cols).map (fun c => c.len)).sum) ∧
        idxs.length = (selected_cols prev_cols sel_cols).length ∧
        (selected_cols prev_cols sel_cols).length = sel_cols.length ∧
        ∀ k : Nat, (idxs[k]?).bind (fun j : Nat => prev_cols[j]?) =
          (selected_cols prev_cols sel_cols)[k]? := by
  intro sel_cols
  induction sel_cols with
  | nil =>
    intro cols_ sel_idxs_ curr_offset _
    exact ⟨[], by simp [ProjectionExecutor.select, selected_cols, dense_layout], rfl, rfl,
      by simp [selected_cols]⟩
  | cons c rest ih =>
    intro cols_ sel_idxs_ curr_offset hfound
    obtain ⟨col, hfind, hget⟩ := get_col_of_found prev_cols c (hfound c (List.mem_cons_self _ _))
    have hsel : selected_cols prev_cols (c :: rest) = col :: selected_cols prev_cols rest := by
      simp [selected_cols, hfind]
    obtain ⟨idxs, h1, h2, h3, h4⟩ := ih (cols_ ++ [{ col with offset := curr_offset }])
      (sel_idxs_ ++
        [prev_cols.findIdx (fun x => x.tab_name == c.tab_name && x.name == c.col_name)])
      (curr_offset + col.len) (fun c' hc' => hfound c' (List.mem_cons_of_mem _ hc'))
    refine ⟨prev_cols.findIdx (fun x => x.tab_name == c.tab_name && x.name == c.col_name) :: idxs,
      ?_, ?_, ?_, ?_⟩
    · rw [ProjectionExecutor.select, hget]
      simp only
      rw [h1, hsel]
      simp only [dense_layout, List.append_assoc, List.singleton_append, List.map_cons,
        List.sum_cons, add_assoc]
    · rw [hsel]; simp [h2]
    · rw [hsel]; simp [h3]
    · intro k
      rw [hsel]
      cases k with
      | zero =>
        simp only [List.getElem?_cons_zero, Option.some_bind]
        exact getElem?_findIdx_of_find? _ _ _ hfind
      | succ k => simpa using h4 k

theorem ColMeta.slice_length (col : ColMeta) (data : List Byte) (h : col.within data.length) :
    ((col.slice data).length : Int) = col.len := by
  obtain ⟨h1, h2, h3⟩ := h
  simp only [ColMeta.slice, List.length_take, List.length_drop]
  omega

theorem sum_len_nonneg (cols : List ColMeta) (size : Nat) (h : ∀ c ∈ cols, c.within size) :
    0 ≤ (cols.map (fun c => c.len)).sum := by
  induction cols with
  | nil => simp
  | cons c rest ih =>
    simp only [List.map_cons, List.sum_cons]
    have := (h c (List.mem_cons_self _ _)).2.1
    have := ih (fun c' hc' => h c' (List.mem_cons_of_mem _ hc'))
    omega

theorem memcpy_append (done pad src : List Byte) (off n : Int)
    (h0 : 0 ≤ n) (hpad : n ≤ pad.length) (hoff : 0 ≤ off) (hsrc : off + n ≤ src.length) :
    memcpy (done ++ pad) done.length src off n =
      .ok (done ++ (src.drop off.toNat).take n.toNat ++ pad.drop n.toNat) := by
  unfold memcpy
  rw [if_pos ⟨h0, by omega, by simp only [List.length_append]; push_cast; omega, hoff, hsrc⟩]
  congr 2
  · simp
  · have : (↑done.length + n).toNat = done.length + n.toNat := by omega
    rw [this, List.drop_append]

/-- The copy loop of `ProjectionExecutor::Next`: entered at index `i` with the bytes of the
first `i` selected columns written (`done`), it writes the bytes of the others after
them. -/
theorem ProjectionExecutor.copy_loop_spec (ex : ProjectionExecutor) (prev_record : RmRecord)
    (sel : List ColMeta) (hcols : ex.cols_ = dense_layout sel 0)
    (hidx : ∀ k : Nat, (ex.sel_idxs_[k]?).bind (fun j : Nat => ex.prev_.cols_[j]?) = sel[k]?) :
    ∀ (rem : List ColMeta) (i : Nat) (done pad : List Byte),
      sel.drop i = rem →
      (done.length : Int) = ((sel.take i).map (fun c => c.len)).sum →
      (pad.length : Int) = (rem.map (fun c => c.len)).sum →
      (∀ c ∈ rem, c.within prev_record.data.length) →
      ex.copy_loop prev_record rem.length i (done ++ pad) =
        .ok (done ++ rem.flatMap (fun c => c.slice prev_record.data)) := by
  intro rem
  induction rem with
  | nil =>
    intro i done pad _ _ hpad _
    have : pad = [] := by
      apply List.eq_nil_of_length_eq_zero
      simpa using hpad
    simp [ProjectionExecutor.copy_loop, this]
  | cons c rest ih =>
    intro i done pad hdrop hdone hpad hwithin
    have hc := hwithin c (List.mem_cons_self _ _)
    have hrest_nonneg := sum_len_nonneg rest _ (fun c' hc' => hwithin c' (List.mem_cons_of_mem _ hc'))
    simp only [List.map_cons, List.sum_cons] at hpad
    have hi : sel[i]? = some c := by
      have := congrArg List.head? hdrop
      simpa [List.head?_drop] using this
    have hcol : ex.cols_[i]? = some { c with offset := (done.length : Int) } := by
      rw [hcols, dense_layout_getElem?, hi, hdone]
      simp
    obtain ⟨j, hj1, hj2⟩ : ∃ j : Nat, ex.sel_idxs_[i]? = some j ∧ ex.prev_.cols_[j]? = some c := by
      have := hidx i
      rw [hi] at this
      cases hs : ex.sel_idxs_[i]? with
      | none => rw [hs] at this; simp at this
      | some j => rw [hs] at this; exact ⟨j, rfl, by simpa using this⟩
    rw [List.length_cons, ProjectionExecutor.copy_loop, ProjectionExecutor.copy_col, hcol]
    simp only [hj1, hj2]
    rw [memcpy_append done pad prev_record.data c.offset c.len hc.2.1 (by omega) hc.1 hc.2.2]
    simp only
    have hslice := c.slice_length prev_record.data hc
    rw [show (List.drop c.offset.toNat prev_record.data).take c.len.toNat =
      c.slice prev_record.data from rfl]
    rw [ih (i + 1) (done ++ c.slice prev_record.data) (pad.drop c.len.toNat)
      (by
        have h1 : sel.drop (i + 1) = (sel.drop i).drop 1 := by
          simp [List.drop_drop, add_comm]
        rw [h1, hdrop]
        rfl)
      (by
        rw [List.take_succ, hi]
        simp only [Option.toList_some, List.map_append, List.map_cons, List.map_nil,
          List.sum_append, List.sum_cons, List.sum_nil, List.length_append]
        push_cast
        omega)
      (by simp only [List.length_drop]; omega)
      (fun c' hc' => hwithin c' (List.mem_cons_of_mem _ hc'))]
    simp [List.flatMap_cons]

theorem flatMap_slice_length (cols : List ColMeta) (data : List Byte)
    (h : ∀ c ∈ cols, c.within data.length) :
    (((cols.flatMap (fun c => c.slice data)).length : Nat) : Int) =
      (cols.map (fun c => c.len)).sum := by
  induction cols with
  | nil => simp
  | cons c rest ih =>
    simp only [List.flatMap_cons, List.length_append, List.map_cons, List.sum_cons]
    push_cast
    rw [ih (fun c' hc' => h c' (List.mem_cons_of_mem _ hc')),
      c.slice_length data (h c (List.mem_cons_self _ _))]

/-- C22. A projection over a child, for selected columns that are columns of the child:
the constructor returns; output column `i` is the `i`-th selected column of the child with
its offset replaced by the sum of the lengths of the selected columns before it; `len_` is
the sum of all selected lengths; and when the child's current tuple holds the bytes of
every selected column, `Next()` returns a record of that length whose bytes are the
concatenation, in selection order, of the bytes `[col.offset, col.offset + col.len)` of
the child's tuple. -/
theorem projection_next_concatenates (prev : AbstractExecutor) (sel_cols : List TabCol)
    (prev_record : RmRecord)
    (hfound : ∀ c ∈ sel_cols, c.found_in prev.cols_ = true)
    (hnext : prev.Next = .ok prev_record)
    (hwithin : ∀ col ∈ selected_cols prev.cols_ sel_cols, col.within prev_record.data.length) :
    ∃ ex, ProjectionExecutor.new prev sel_cols = .ok ex ∧
      ex.prev_ = prev ∧
      ex.cols_.length = sel_cols.length ∧
      (∀ i : Nat, ex.cols_[i]? =
        ((selected_cols prev.cols_ sel_cols)[i]?).map
          (fun col =>
            { col with
              offset := (((selected_cols prev.cols_ sel_cols).take i).map (fun c : ColMeta => c.len)).sum })) ∧
      ex.len_ = ((selected_cols prev.cols_ sel_cols).map (fun c : ColMeta => c.len)).sum ∧
      ex.Next =
        .ok { size := ((selected_cols prev.cols_ sel_cols).map (fun c : ColMeta => c.len)).sum.toNat,
              data := (selected_cols prev.cols_ sel_cols).flatMap
                (fun col => col.slice prev_record.data) } ∧
      ((((selected_cols prev.cols_ sel_cols).flatMap
          (fun col => col.slice prev_record.data)).length : Nat) : Int) =
        ((selected_cols prev.cols_ sel_cols).map (fun c : ColMeta => c.len)).sum := by
  obtain ⟨idxs, h1, h2, h3, h4⟩ := ProjectionExecutor.select_spec prev.cols_ sel_cols [] [] 0 hfound
  simp only [List.nil_append, zero_add] at h1
  have hnew : ProjectionExecutor.new prev sel_cols =
      .ok { prev_ := prev, cols_ := dense_layout (selected_cols prev.cols_ sel_cols) 0,
            len_ := ((selected_cols prev.cols_ sel_cols).map (fun c : ColMeta => c.len)).sum,
            sel_idxs_ := idxs } := by
    rw [ProjectionExecutor.new, h1]
  refine ⟨_, hnew, rfl, by simp [dense_layout_length, h3], ?_, rfl, ?_,
    flatMap_slice_length _ _ hwithin⟩
  · intro i
    simp only [dense_layout_getElem?, zero_add]
  · have hnn := sum_len_nonneg _ _ hwithin
    have hloop := ProjectionExecutor.copy_loop_spec
      { prev_ := prev, cols_ := dense_layout (selected_cols prev.cols_ sel_cols) 0,
        len_ := ((selected_cols prev.cols_ sel_cols).map (fun c : ColMeta => c.len)).sum,
        sel_idxs_ := idxs } prev_record (selected_cols prev.cols_ sel_cols) rfl h4
      (selected_cols prev.cols_ sel_cols) 0 []
      (List.replicate ((selected_cols prev.cols_ sel_cols).map (fun c : ColMeta => c.len)).sum.toNat 0)
      rfl (by simp) (by simp only [List.length_replicate]; omega) hwithin
    simp only [List.nil_append] at hloop
    simp only [ProjectionExecutor.Next, hnext, dense_layout_length, hloop]

/-! ## Record file: what a returned call did -/

theorem get_record_ok_inv (fh : RmFileHandle) (rid : Rid) (ctx : Option Context)
    (record : RmRecord) (h : (get_record fh rid ctx).result = .ok record) :
    (∃ ph, fetch_page_handle fh rid.page_no = .ok ph) ∧ fh.slot_in_range rid.slot_no ∧
      record = { size := fh.file_hdr_.record_size, data := fh.stored rid } ∧
      (get_record fh rid ctx).context = (Context.lock_shared ctx rid fh.fd_).2 ∧
      (get_record fh rid ctx).file = fh := by
  revert h
  unfold get_record
  rcases hl : Context.lock_shared ctx rid fh.fd_ with ⟨lr, ctx1⟩
  cases lr with
  | error e => intro h; simp at h
  | ok b =>
    simp only
    cases hf : fetch_page_handle fh rid.page_no with
    | error e => intro h; simp at h
    | ok ph =>
      simp only
      obtain ⟨-, -, -, hpage⟩ := fetch_page_handle_eq_ok fh rid.page_no ph hf
      by_cases hs : fh.slot_in_range rid.slot_no
      · simp only [hs, if_true, Except.ok.injEq]
        intro h
        exact ⟨⟨ph, rfl⟩, trivial, by rw [← h]; simp [RmFileHandle.stored, hpage],
          trivial, trivial⟩
      · simp only [hs, if_false]
        intro h; simp at h

theorem update_record_ok_inv (fh : RmFileHandle) (rid : Rid) (buf : List Byte)
    (ctx : Option Context) (h : (update_record fh rid buf ctx).result = .ok ()) :
    ∃ page, 0 ≤ rid.page_no ∧ rid.page_no < fh.file_hdr_.num_pages ∧
      fh.pages[rid.page_no.toNat]? = some page ∧ fh.slot_in_range rid.slot_no ∧
      (update_record fh rid buf ctx).file =
        fh.write_page rid.page_no
          { page with
            slots := page.slots.set rid.slot_no.toNat (buf.take fh.file_hdr_.record_size) } ∧
      (update_record fh rid buf ctx).context = (Context.lock_exclusive ctx rid fh.fd_).2 := by
  revert h
  unfold update_record
  rcases hl : Context.lock_exclusive ctx rid fh.fd_ with ⟨lr, ctx1⟩
  cases lr with
  | error e => intro h; simp at h
  | ok b =>
    simp only
    cases hf : fetch_page_handle fh rid.page_no with
    | error e => intro h; simp at h
    | ok ph =>
      simp only
      obtain ⟨h0, h1, hpn, hpage⟩ := fetch_page_handle_eq_ok fh rid.page_no ph hf
      by_cases hs : fh.slot_in_range rid.slot_no
      · simp only [hs, if_true]
        intro _
        exact ⟨ph.page, h0, h1, hpage, trivial, by rw [hpn], trivial⟩
      · simp only [hs, if_false]
        intro h; simp at h

theorem delete_record_ok_inv (fh : RmFileHandle) (rid : Rid) (ctx : Option Context)
    (h : (delete_record fh rid ctx).result = .ok ()) :
    ∃ page page', 0 ≤ rid.page_no ∧ rid.page_no < fh.file_hdr_.num_pages ∧
      fh.pages[rid.page_no.toNat]? = some page ∧ fh.slot_in_range rid.slot_no ∧
      (delete_record fh rid ctx).file.pages = fh.pages.set rid.page_no.toNat page' ∧
      page'.bitmap = Bitmap.reset page.bitmap rid.slot_no ∧
      page'.page_hdr.num_records = page.page_hdr.num_records - 1 ∧
      page'.slots = page.slots ∧
      (delete_record fh rid ctx).file.fd_ = fh.fd_ ∧
      (delete_record fh rid ctx).file.file_hdr_.num_pages = fh.file_hdr_.num_pages ∧
      (delete_record fh rid ctx).file.file_hdr_.num_records_per_page =
        fh.file_hdr_.num_records_per_page ∧
      (delete_record fh rid ctx).file.file_hdr_.record_size = fh.file_hdr_.record_size ∧
      (delete_record fh rid ctx).file.file_hdr_.bitmap_size = fh.file_hdr_.bitmap_size ∧
      (delete_record fh rid ctx).context = (Context.lock_exclusive ctx rid fh.fd_).2 := by
  revert h
  unfold delete_record
  rcases hl : Context.lock_exclusive ctx rid fh.fd_ with ⟨lr, ctx1⟩
  cases lr with
  | error e => intro h; simp at h
  | ok b =>
    simp only
    cases hf : fetch_page_handle fh rid.page_no with
    | error e => intro h; simp at h
    | ok ph =>
      simp only
      obtain ⟨h0, h1, hpn, hpage⟩ := fetch_page_handle_eq_ok fh rid.page_no ph hf
      by_cases hs : fh.slot_in_range rid.slot_no
      · rw [if_pos hs]
        intro _
        split_ifs
        · exact ⟨ph.page,
            { page_hdr :=
                { next_free_page_no := fh.file_hdr_.first_free_page_no,
                  num_records := ph.page.page_hdr.num_records - 1 },
              bitmap := Bitmap.reset ph.page.bitmap rid.slot_no, slots := ph.page.slots },
            h0, h1, hpage, hs, by simp [release_page_handle, hpn], rfl, rfl, rfl, rfl, rfl, rfl,
            rfl, rfl, rfl⟩
        · exact ⟨ph.page,
            { page_hdr :=
                { next_free_page_no := ph.page.page_hdr.next_free_page_no,
                  num_records := ph.page.page_hdr.num_records - 1 },
              bitmap := Bitmap.reset ph.page.bitmap rid.slot_no, slots := ph.page.slots },
            h0, h1, hpage, hs, by simp [hpn], rfl, rfl, rfl, rfl, rfl, rfl, rfl, rfl, rfl⟩
      · simp only [hs, if_false]
        intro h; simp at h

/-- Two files that agree on the layout fields of the header, the second having one page
replaced by a page with a bitmap and a slot array of the same lengths. -/
theorem RmFileHandle.WellFormed.set_page (fh fh' : RmFileHandle) (p : Nat) (page page' : RmPage)
    (hwf : fh.WellFormed) (hp : fh.pages[p]? = some page)
    (hnp : fh'.file_hdr_.num_pages = fh.file_hdr_.num_pages)
    (hn : fh'.file_hdr_.num_records_per_page = fh.file_hdr_.num_records_per_page)
    (hb : fh'.file_hdr_.bitmap_size = fh.file_hdr_.bitmap_size)
    (hpages : fh'.pages = fh.pages.set p page')
    (hbm : page'.bitmap.length = page.bitmap.length)
    (hsl : page'.slots.length = page.slots.length) (hp1 : 1 ≤ p) : fh'.WellFormed := by
  obtain ⟨h1, h2, h3, h4⟩ := hwf
  refine ⟨by rw [hnp, hpages, h1]; simp, by rw [hn]; exact h2, by rw [hn, hb]; exact h3, ?_⟩
  intro x hx
  rw [hpages] at hx
  rw [hn, hb]
  rcases mem_tail_set _ _ _ _ hx with hx | rfl
  · exact h4 x hx
  · have := h4 page (mem_tail_of_getElem? _ _ _ hp1 hp)
    rw [hbm, hsl]
    exact this

theorem RmFileHandle.slot_bit_set_page (fh fh' : RmFileHandle) (p : Int) (page page' : RmPage)
    (hp0 : 0 ≤ p) (hp : fh.pages[p.toNat]? = some page)
    (hnp : fh'.file_hdr_.num_pages = fh.file_hdr_.num_pages)
    (hn : fh'.file_hdr_.num_records_per_page = fh.file_hdr_.num_records_per_page)
    (hpages : fh'.pages = fh.pages.set p.toNat page') (r : Rid) :
    fh'.slot_bit r =
      if r.page_no = p then (fh.slot_bit r).map (fun _ => Bitmap.is_set page'.bitmap r.slot_no)
      else fh.slot_bit r := by
  have hlen : p.toNat < fh.pages.length := (List.getElem?_eq_some_iff.mp hp).1
  obtain ⟨fd', hdr', pages'⟩ := fh'
  simp only at hnp hn hpages
  subst hpages
  unfold RmFileHandle.slot_bit RmFileHandle.slot_in_range
  simp only [hnp, hn]
  by_cases hc : 1 ≤ r.page_no ∧ r.page_no < fh.file_hdr_.num_pages ∧
      0 ≤ r.slot_no ∧ r.slot_no < fh.file_hdr_.num_records_per_page
  · rw [if_pos hc, if_pos hc]
    by_cases hr : r.page_no = p
    · rw [if_pos hr, hr, List.getElem?_set_self hlen, hp]
      rfl
    · rw [if_neg hr, List.getElem?_set_ne (by omega)]
  · rw [if_neg hc, if_neg hc]
    split_ifs <;> rfl

theorem RmFileHandle.stored_set_page (fh fh' : RmFileHandle) (p : Int) (page page' : RmPage)
    (hp0 : 0 ≤ p) (hp : fh.pages[p.toNat]? = some page)
    (hrs : fh'.file_hdr_.record_size = fh.file_hdr_.record_size)
    (hpages : fh'.pages = fh.pages.set p.toNat page') (r : Rid) (hr0 : 0 ≤ r.page_no) :
    fh'.stored r =
      if r.page_no = p then
        (page'.slots.getD r.slot_no.toNat []).take fh.file_hdr_.record_size
      else fh.stored r := by
  have hlen : p.toNat < fh.pages.length := (List.getElem?_eq_some_iff.mp hp).1
  obtain ⟨fd', hdr', pages'⟩ := fh'
  simp only at hrs hpages
  subst hpages
  unfold RmFileHandle.stored
  simp only [hrs]
  by_cases hr : r.page_no = p
  · rw [if_pos hr, hr, List.getElem?_set_self hlen]
  · rw [if_neg hr, List.getElem?_set_ne (by omega)]

/-- What a returned `update_record` on a slot of a data page of a well-formed file did:
the bytes of the slot are the buffer, nothing else changed. -/
theorem update_record_ok_effect (fh : RmFileHandle) (rid : Rid) (buf : List Byte)
    (ctx : Option Context) (hwf : fh.WellFormed) (b : Bool) (hbit : fh.slot_bit rid = some b)
    (hlen : buf.length ≤ fh.file_hdr_.record_size)
    (hok : (update_record fh rid buf ctx).result = .ok ()) :
    (update_record fh rid buf ctx).file.WellFormed ∧
    (update_record fh rid buf ctx).file.file_hdr_ = fh.file_hdr_ ∧
    (update_record fh rid buf ctx).file.fd_ = fh.fd_ ∧
    (∀ r, (update_record fh rid buf ctx).file.slot_bit r = fh.slot_bit r) ∧
    (update_record fh rid buf ctx).file.stored rid = buf ∧
    (∀ r b', fh.slot_bit r = some b' → r ≠ rid →
      (update_record fh rid buf ctx).file.stored r = fh.stored r) ∧
    (update_record fh rid buf ctx).context = (Context.lock_exclusive ctx rid fh.fd_).2 := by
  obtain ⟨page, h0, h1, hpage, hs, hfile, hctx⟩ := update_record_ok_inv fh rid buf ctx hok
  obtain ⟨hp1, -, -, -⟩ := fh.slot_bit_eq_some rid b hbit
  have hslots : page.slots.length = fh.file_hdr_.num_records_per_page.toNat :=
    (hwf.2.2.2 page (mem_tail_of_getElem? _ _ _ (by omega) hpage)).2
  have hslot : rid.slot_no.toNat < page.slots.length := by
    have := hs.1; have := hs.2; omega
  have hhdr : (update_record fh rid buf ctx).file.file_hdr_ = fh.file_hdr_ := by rw [hfile]; rfl
  have hfd : (update_record fh rid buf ctx).file.fd_ = fh.fd_ := by rw [hfile]; rfl
  have hpages : (update_record fh rid buf ctx).file.pages =
      fh.pages.set rid.page_no.toNat
        { page with
          slots := page.slots.set rid.slot_no.toNat (buf.take fh.file_hdr_.record_size) } := by
    rw [hfile]; rfl
  refine ⟨?_, hhdr, hfd, ?_, ?_, ?_, hctx⟩
  · exact RmFileHandle.WellFormed.set_page fh _ rid.page_no.toNat page _ hwf hpage
      (by rw [hhdr]) (by rw [hhdr]) (by rw [hhdr]) hpages rfl (by simp) (by omega)
  · intro r
    rw [RmFileHandle.slot_bit_set_page fh _ rid.page_no page _ h0 hpage (by rw [hhdr])
      (by rw [hhdr]) hpages r]
    split_ifs with hr
    · cases hsb : fh.slot_bit r with
      | none => rfl
      | some b' =>
        obtain ⟨-, -, -, page₂, hp2, hb2⟩ := fh.slot_bit_eq_some r b' hsb
        rw [hr, hpage] at hp2
        simp only [Option.some.injEq] at hp2
        subst hp2
        simp [hb2]
    · rfl
  · rw [RmFileHandle.stored_set_page fh _ rid.page_no page _ h0 hpage (by rw [hhdr]) hpages rid h0,
      if_pos rfl]
    simp only [List.getD_eq_getElem?_getD, List.getElem?_set_self hslot, Option.getD_some,
      List.take_take, min_self]
    exact List.take_of_length_le hlen
  · intro r b' hr hne
    obtain ⟨hr1, -, hr3, -⟩ := fh.slot_bit_eq_some r b' hr
    rw [RmFileHandle.stored_set_page fh _ rid.page_no page _ h0 hpage (by rw [hhdr]) hpages r
      (by omega)]
    split_ifs with hp
    · have hsne : r.slot_no.toNat ≠ rid.slot_no.toNat := by
        intro heq
        apply hne
        have hse : r.slot_no = rid.slot_no := by
          have := hr3.1; have := hs.1; omega
        cases r; cases rid
        simp only at hp hse
        simp only [Rid.mk.injEq]
        exact ⟨hp, hse⟩
      simp only [List.getD_eq_getElem?_getD, List.getElem?_set_ne (Ne.symm hsne)]
      simp [RmFileHandle.stored, hp, hpage, List.getD_eq_getElem?_getD]
    · rfl

/-- What a returned `delete_record` on a slot of a data page of a well-formed file did:
the bit of the slot is clear, the record count of its page is one lower, nothing else
that the scans and `get_record` read changed. -/
theorem delete_record_ok_effect (fh : RmFileHandle) (rid : Rid) (ctx : Option Context)
    (hwf : fh.WellFormed) (b : Bool) (hbit : fh.slot_bit rid = some b)
    (hok : (delete_record fh rid ctx).result = .ok ()) :
    (delete_record fh rid ctx).file.WellFormed ∧
    (delete_record fh rid ctx).file.fd_ = fh.fd_ ∧
    (delete_record fh rid ctx).file.file_hdr_.record_size = fh.file_hdr_.record_size ∧
    (delete_record fh rid ctx).file.slot_bit rid = some false ∧
    (∀ r, r ≠ rid → (delete_record fh rid ctx).file.slot_bit r = fh.slot_bit r) ∧
    (∀ r, 0 ≤ r.page_no → (delete_record fh rid ctx).file.stored r = fh.stored r) ∧
    (∀ (p : Nat) page, fh.pages[p]? = some page →
      ∃ page', (delete_record fh rid ctx).file.pages[p]? = some page' ∧
        page'.page_hdr.num_records =
          page.page_hdr.num_records - (if p = rid.page_no.toNat then 1 else 0)) ∧
    (delete_record fh rid ctx).context = (Context.lock_exclusive ctx rid fh.fd_).2 := by
  obtain ⟨page, page', h0, h1, hpage, hs, hpages, hbm, hnr, hsl, hfd, hnp, hn, hrs, hbs, hctx⟩ :=
    delete_record_ok_inv fh rid ctx hok
  obtain ⟨hp1, -, -, -⟩ := fh.slot_bit_eq_some rid b hbit
  have hlen : rid.page_no.toNat < fh.pages.length := (List.getElem?_eq_some_iff.mp hpage).1
  refine ⟨?_, hfd, hrs, ?_, ?_, ?_, ?_, hctx⟩
  · exact RmFileHandle.WellFormed.set_page fh _ rid.page_no.toNat page page' hwf hpage hnp hn hbs
      hpages (by rw [hbm]; simp [Bitmap.reset]) (by rw [hsl]) (by omega)
  · rw [RmFileHandle.slot_bit_set_page fh _ rid.page_no page page' h0 hpage hnp hn hpages rid,
      if_pos rfl, hbit, hbm, Bitmap.is_set_reset_self]
    rfl
  · intro r hne
    rw [RmFileHandle.slot_bit_set_page fh _ rid.page_no page page' h0 hpage hnp hn hpages r]
    split_ifs with hr
    · cases hsb : fh.slot_bit r with
      | none => rfl
      | some b' =>
        obtain ⟨-, -, hr3, page₂, hp2, hb2⟩ := fh.slot_bit_eq_some r b' hsb
        rw [hr, hpage] at hp2
        simp only [Option.some.injEq] at hp2
        subst hp2
        have hsne : r.slot_no ≠ rid.slot_no := by
          intro heq
          apply hne
          cases r; cases rid
          simp only at hr heq
          simp only [Rid.mk.injEq]
          exact ⟨hr, heq⟩
        simp only [Option.map_some', Option.some.injEq]
        rw [hbm, Bitmap.is_set_reset_ne _ _ _ hs.1 hr3.1 hsne, hb2]
    · rfl
  · intro r hr0
    rw [RmFileHandle.stored_set_page fh _ rid.page_no page page' h0 hpage hrs hpages r hr0]
    split_ifs with hp
    · simp [RmFileHandle.stored, hp, hpage, hsl]
    · rfl
  · intro p pg hpg
    rw [hpages]
    by_cases hp : p = rid.page_no.toNat
    · subst hp
      rw [hpage] at hpg
      simp only [Option.some.injEq] at hpg
      subst hpg
      exact ⟨page', List.getElem?_set_self hlen, by rw [hnr]; simp⟩
    · exact ⟨pg, by rw [List.getElem?_set_ne (Ne.symm hp)]; exact hpg, by simp [hp]⟩

/-! ## Update operator -/

theorem memcpy_ok (dst : List Byte) (dst_off : Int) (src : List Byte) (src_off n : Int)
    (result : List Byte) (h : memcpy dst dst_off src src_off n = .ok result) :
    result = dst.take dst_off.toNat ++ (src.drop src_off.toNat).take n.toNat ++
      dst.drop (dst_off + n).toNat ∧ result.length = dst.length := by
  unfold memcpy at h
  split_ifs at h with hc
  simp only [Except.ok.injEq] at h
  subst h
  refine ⟨rfl, ?_⟩
  obtain ⟨h1, h2, h3, h4, h5⟩ := hc
  simp only [List.length_append, List.length_take, List.length_drop]
  omega

theorem Context.lock_shared_write_set (ctx : Option Context) (rid : Rid) (fd : Int) :
    (Context.lock_shared ctx rid fd).2.map (fun c => c.txn_.write_set_) =
      ctx.map (fun c => c.txn_.write_set_) := by
  cases ctx with
  | none => rfl
  | some c =>
    simp only [Context.lock_shared, Option.map_some', Option.some.injEq]
    exact (lock_shared_on_record_spec c.txn_ rid fd c.lock_mgr_).write_set

theorem Context.lock_exclusive_write_set (ctx : Option Context) (rid : Rid) (fd : Int) :
    (Context.lock_exclusive ctx rid fd).2.map (fun c => c.txn_.write_set_) =
      ctx.map (fun c => c.txn_.write_set_) := by
  cases ctx with
  | none => rfl
  | some c =>
    simp only [Context.lock_exclusive, Option.map_some', Option.some.injEq]
    exact (lock_exclusive_on_record_spec c.txn_ rid fd c.lock_mgr_).write_set

theorem get_record_write_set (fh : RmFileHandle) (rid : Rid) (ctx : Option Context) :
    (get_record fh rid ctx).context.map (fun c => c.txn_.write_set_) =
      ctx.map (fun c => c.txn_.write_set_) := by
  rw [← Context.lock_shared_write_set ctx rid fh.fd_]
  unfold get_record
  rcases Context.lock_shared ctx rid fh.fd_ with ⟨lr, ctx1⟩
  cases lr with
  | error e => rfl
  | ok b =>
    simp only
    cases fetch_page_handle fh rid.page_no with
    | error e => rfl
    | ok ph => simp only; split_ifs <;> rfl

theorem update_record_write_set (fh : RmFileHandle) (rid : Rid) (buf : List Byte)
    (ctx : Option Context) :
    (update_record fh rid buf ctx).context.map (fun c => c.txn_.write_set_) =
      ctx.map (fun c => c.txn_.write_set_) := by
  rw [← Context.lock_exclusive_write_set ctx rid fh.fd_]
  unfold update_record
  rcases Context.lock_exclusive ctx rid fh.fd_ with ⟨lr, ctx1⟩
  cases lr with
  | error e => rfl
  | ok b =>
    simp only
    cases fetch_page_handle fh rid.page_no with
    | error e => rfl
    | ok ph => simp only; split_ifs <;> rfl

/-- The loop over the set clauses, when it returns, has replaced the bytes of each named
column by the literal, in order. -/
theorem UpdateExecutor.apply_set_clauses_ok (tab : TabMeta) :
    ∀ (set_clauses : List SetClause) (data data' : List Byte),
      UpdateExecutor.apply_set_clauses tab data set_clauses = .ok data' →
      data' = replace_all tab set_clauses data ∧ data'.length = data.length := by
  intro set_clauses
  induction set_clauses with
  | nil =>
    intro data data' h
    simp only [UpdateExecutor.apply_set_clauses, Except.ok.injEq] at h
    subst h
    exact ⟨rfl, rfl⟩
  | cons sc rest ih =>
    intro data data' h
    rw [UpdateExecutor.apply_set_clauses] at h
    unfold TabMeta.get_col at h
    cases hf : tab.cols.find? (fun col => col.name == sc.lhs.col_name) with
    | none => rw [hf] at h; simp at h
    | some col =>
      rw [hf] at h
      simp only at h
      cases hm : memcpy data col.offset sc.rhs.raw.data 0 col.len with
      | error e => rw [hm] at h; simp at h
      | ok data₁ =>
        rw [hm] at h
        simp only at h
        obtain ⟨h1, h2⟩ := memcpy_ok _ _ _ _ _ _ hm
        obtain ⟨h3, h4⟩ := ih data₁ data' h
        refine ⟨?_, by rw [h4, h2]⟩
        rw [h3, replace_all, replace_all, List.foldl_cons]
        congr 1
        rw [h1]
        simp [SetClause.replace, hf]

theorem RmFileHandle.stored_length (fh : RmFileHandle) (rid : Rid) :
    (fh.stored rid).length ≤ fh.file_hdr_.record_size := by
  unfold RmFileHandle.stored
  cases fh.pages[rid.page_no.toNat]? with
  | none => simp
  | some page => simp only [List.length_take]; omega

/-- One turn of the loop of `UpdateExecutor::Next` that returns, on a slot of a data page
of a well-formed file. -/
theorem UpdateExecutor.update_one_ok (ex ex₁ : UpdateExecutor) (rid : Rid)
    (hwf : ex.fh_.WellFormed) (b : Bool) (hbit : ex.fh_.slot_bit rid = some b)
    (h : ex.update_one rid = (.ok (), ex₁)) :
    ex₁.tab_ = ex.tab_ ∧ ex₁.set_clauses_ = ex.set_clauses_ ∧ ex₁.fh_.WellFormed ∧
    ex₁.fh_.file_hdr_ = ex.fh_.file_hdr_ ∧
    (∀ r, ex₁.fh_.slot_bit r = ex.fh_.slot_bit r) ∧
    ex₁.fh_.stored rid = replace_all ex.tab_ ex.set_clauses_ (ex.fh_.stored rid) ∧
    (∀ r b', ex.fh_.slot_bit r = some b' → r ≠ rid → ex₁.fh_.stored r = ex.fh_.stored r) := by
  unfold UpdateExecutor.update_one at h
  cases hg : (get_record ex.fh_ rid ex.context_).result with
  | error e => rw [hg] at h; simp at h
  | ok record =>
    rw [hg] at h
    simp only at h
    obtain ⟨-, -, hrec, -, -⟩ := get_record_ok_inv _ _ _ _ hg
    cases ha : UpdateExecutor.apply_set_clauses ex.tab_ record.data ex.set_clauses_ with
    | error e => rw [ha] at h; simp at h
    | ok data =>
      rw [ha] at h
      simp only at h
      cases hu : (update_record ex.fh_ rid data (get_record ex.fh_ rid ex.context_).context).result with
      | error e => rw [hu] at h; simp at h
      | ok u =>
        rw [hu] at h
        simp only [Prod.mk.injEq] at h
        obtain ⟨-, h⟩ := h
        subst h
        obtain ⟨hd1, hd2⟩ := UpdateExecutor.apply_set_clauses_ok _ _ _ _ ha
        have hdata : record.data = ex.fh_.stored rid := by rw [hrec]
        have hlen : data.length ≤ ex.fh_.file_hdr_.record_size := by
          rw [hd2, hdata]; exact ex.fh_.stored_length rid
        obtain ⟨e1, e2, -, e4, e5, e6, -⟩ := update_record_ok_effect ex.fh_ rid data
          (get_record ex.fh_ rid ex.context_).context hwf b hbit hlen hu
        refine ⟨rfl, rfl, e1, e2, e4, ?_, e6⟩
        simp only
        rw [e5, hd1, hdata]

/-- The loop of `UpdateExecutor::Next` over distinct slots of data pages of a well-formed
file, when it returns. -/
theorem UpdateExecutor.update_all_ok :
    ∀ (rids : List Rid) (ex : UpdateExecutor),
      ex.fh_.WellFormed → rids.Nodup → (∀ rid ∈ rids, ex.fh_.Occupied rid) →
      (UpdateExecutor.update_all rids ex).1 = .ok () →
      (UpdateExecutor.update_all rids ex).2.fh_.WellFormed ∧
      (UpdateExecutor.update_all rids ex).2.fh_.file_hdr_ = ex.fh_.file_hdr_ ∧
      (∀ r, (UpdateExecutor.update_all rids ex).2.fh_.slot_bit r = ex.fh_.slot_bit r) ∧
      (∀ rid ∈ rids, (UpdateExecutor.update_all rids ex).2.fh_.stored rid =
        replace_all ex.tab_ ex.set_clauses_ (ex.fh_.stored rid)) ∧
      (∀ r b', ex.fh_.slot_bit r = some b' → r ∉ rids →
        (UpdateExecutor.update_all rids ex).2.fh_.stored r = ex.fh_.stored r) := by
  intro rids
  induction rids with
  | nil =>
    intro ex hwf _ _ _
    exact ⟨hwf, rfl, fun _ => rfl, fun _ h => by simp at h, fun _ _ _ _ => rfl⟩
  | cons rid rest ih =>
    intro ex hwf hnd hocc hok
    rw [UpdateExecutor.update_all] at hok ⊢
    rcases h1 : ex.update_one rid with ⟨res, ex₁⟩
    rw [h1] at hok
    cases res with
    | error e => simp at hok
    | ok u =>
      simp only at hok ⊢
      obtain ⟨a1, a2, a3, a4, a5, a6, a7⟩ := UpdateExecutor.update_one_ok ex ex₁ rid hwf true
        (hocc rid (List.mem_cons_self _ _)) h1
      obtain ⟨hnotin, hnd'⟩ := List.nodup_cons.mp hnd
      obtain ⟨b1, b2, b3, b4, b5⟩ := ih ex₁ a3 hnd'
        (fun r hr => by
          unfold RmFileHandle.Occupied
          rw [a5]
          exact hocc r (List.mem_cons_of_mem _ hr))
        hok
      refine ⟨b1, b2.trans a4, fun r => (b3 r).trans (a5 r), ?_, ?_⟩
      · intro r hr
        rcases List.mem_cons.mp hr with rfl | hr
        · rw [b5 r true (by rw [a5]; exact hocc r (List.mem_cons_self _ _)) hnotin, a6]
        · have hne : r ≠ rid := fun h => hnotin (h ▸ hr)
          rw [b4 r hr, a1, a2, a7 r true (hocc r (List.mem_cons_of_mem _ hr)) hne]
      · intro r b' hr hnot
        have hne : r ≠ rid := fun h => hnot (h ▸ List.mem_cons_self _ _)
        rw [b5 r b' (by rw [a5]; exact hr) (fun h => hnot (List.mem_cons_of_mem _ h)),
          a7 r b' hr hne]

/-- C23. `UpdateExecutor::Next` over a list of distinct occupied rids of a well-formed
file, when it returns (no lock request was refused and every set clause could be
applied): the record stored at each listed rid is its previous bytes with, for each set
clause in order, the bytes `[col.offset, col.offset + col.len)` replaced by the literal;
every rid has the bitmap bit it had (a listed rid is still occupied at the same rid); and
every record that is not listed is unchanged. -/
theorem update_executor_next_replaces_bytes (ex : UpdateExecutor) (hwf : ex.fh_.WellFormed)
    (hnodup : ex.rids_.Nodup) (hocc : ∀ rid ∈ ex.rids_, ex.fh_.Occupied rid)
    (hok : ex.Next.1 = .ok ()) :
    (∀ rid ∈ ex.rids_,
      ex.Next.2.fh_.stored rid = replace_all ex.tab_ ex.set_clauses_ (ex.fh_.stored rid) ∧
      ex.Next.2.fh_.Occupied rid) ∧
    (∀ r, ex.Next.2.fh_.slot_bit r = ex.fh_.slot_bit r) ∧
    (∀ r, ex.fh_.Occupied r → r ∉ ex.rids_ → ex.Next.2.fh_.stored r = ex.fh_.stored r) ∧
    ex.Next.2.fh_.file_hdr_ = ex.fh_.file_hdr_ := by
  obtain ⟨-, h2, h3, h4, h5⟩ := UpdateExecutor.update_all_ok ex.rids_ ex hwf hnodup hocc hok
  refine ⟨fun rid hr => ⟨h4 rid hr, ?_⟩, h3, fun r hr hnot => h5 r true hr hnot, h2⟩
  unfold RmFileHandle.Occupied
  rw [UpdateExecutor.Next, h3]
  exact hocc rid hr

theorem UpdateExecutor.update_one_write_set (ex : UpdateExecutor) (rid : Rid) :
    (ex.update_one rid).2.context_.map (fun c => c.txn_.write_set_) =
      ex.context_.map (fun c => c.txn_.write_set_) := by
  unfold UpdateExecutor.update_one
  split
  · exact get_record_write_set _ _ _
  · split
    · exact get_record_write_set _ _ _
    · simp only
      split
      · exact (update_record_write_set _ _ _ _).trans (get_record_write_set _ _ _)
      · exact (update_record_write_set _ _ _ _).trans (get_record_write_set _ _ _)

/-- Whatever the rids, the set clauses and the lock context, `UpdateExecutor::Next` leaves
the write set of the transaction as it found it. -/
theorem UpdateExecutor.update_all_write_set :
    ∀ (rids : List Rid) (ex : UpdateExecutor),
      (UpdateExecutor.update_all rids ex).2.context_.map (fun c => c.txn_.write_set_) =
        ex.context_.map (fun c => c.txn_.write_set_) := by
  intro rids
  induction rids with
  | nil => intro ex; rfl
  | cons rid rest ih =>
    intro ex
    rw [UpdateExecutor.update_all]
    have h1 := UpdateExecutor.update_one_write_set ex rid
    rcases h2 : ex.update_one rid with ⟨res, ex₁⟩
    rw [h2] at h1
    cases res with
    | error e => exact h1
    | ok u => exact (ih ex₁).trans h1

/-! ## Delete operator -/

theorem delete_record_write_set (fh : RmFileHandle) (rid : Rid) (ctx : Option Context) :
    (delete_record fh rid ctx).context.map (fun c => c.txn_.write_set_) =
      ctx.map (fun c => c.txn_.write_set_) := by
  rw [← Context.lock_exclusive_write_set ctx rid fh.fd_]
  unfold delete_record
  rcases Context.lock_exclusive ctx rid fh.fd_ with ⟨lr, ctx1⟩
  cases lr with
  | error e => rfl
  | ok b =>
    simp only
    cases fetch_page_handle fh rid.page_no with
    | error e => rfl
    | ok ph => simp only; split_ifs <;> rfl

/-- One turn of the loop of `DeleteExecutor::Next` that returns, on a slot of a data page
of a well-formed file. -/
theorem DeleteExecutor.delete_one_ok (ex ex₁ : DeleteExecutor) (rid : Rid)
    (hwf : ex.fh_.WellFormed) (b : Bool) (hbit : ex.fh_.slot_bit rid = some b)
    (h : ex.delete_one rid = (.ok (), ex₁)) :
    ex₁.tab_name_ = ex.tab_name_ ∧ ex₁.fh_.WellFormed ∧
    ex₁.fh_.slot_bit rid = some false ∧
    (∀ r, r ≠ rid → ex₁.fh_.slot_bit r = ex.fh_.slot_bit r) ∧
    (∀ r, 0 ≤ r.page_no → ex₁.fh_.stored r = ex.fh_.stored r) ∧
    (∀ (p : Nat) page, ex.fh_.pages[p]? = some page →
      ∃ page', ex₁.fh_.pages[p]? = some page' ∧
        page'.page_hdr.num_records =
          page.page_hdr.num_records - (if p = rid.page_no.toNat then 1 else 0)) ∧
    ∃ c c₁, ex.context_ = some c ∧ ex₁.context_ = some c₁ ∧
      c₁.txn_.write_set_ = c.txn_.write_set_ ++
        [{ wtype_ := .DELETE_TUPLE, tab_name_ := ex.tab_name_, rid_ := rid,
           record_ := ex.fh_.stored rid }] := by
  unfold DeleteExecutor.delete_one at h
  cases hg : (get_record ex.fh_ rid ex.context_).result with
  | error e => rw [hg] at h; simp at h
  | ok record =>
    rw [hg] at h
    simp only at h
    obtain ⟨-, -, hrec, -, -⟩ := get_record_ok_inv _ _ _ _ hg
    have hdata : record.data = ex.fh_.stored rid := by rw [hrec]
    cases hi : (DeleteExecutor.delete_indexes record.data
        (get_record ex.fh_ rid ex.context_).context ex.tab_.indexes ex.ix_calls_).1 with
    | error e => rw [hi] at h; simp at h
    | ok u =>
      rw [hi] at h
      simp only at h
      cases hd : (delete_record ex.fh_ rid (get_record ex.fh_ rid ex.context_).context).result with
      | error e => rw [hd] at h; simp at h
      | ok u' =>
        rw [hd] at h
        simp only at h
        have hws := (delete_record_write_set ex.fh_ rid
          (get_record ex.fh_ rid ex.context_).context).trans (get_record_write_set _ _ _)
        cases hc : (delete_record ex.fh_ rid (get_record ex.fh_ rid ex.context_).context).context with
        | none => rw [hc] at h; simp at h
        | some c₁ =>
          rw [hc] at h hws
          simp only [Prod.mk.injEq, true_and] at h
          subst h
          obtain ⟨e1, -, -, e4, e5, e6, e7, -⟩ := delete_record_ok_effect ex.fh_ rid
            (get_record ex.fh_ rid ex.context_).context hwf b hbit hd
          refine ⟨rfl, e1, e4, e5, e6, e7, ?_⟩
          cases hctx : ex.context_ with
          | none => rw [hctx] at hws; simp at hws
          | some c =>
            rw [hctx] at hws
            simp only [Option.map_some', Option.some.injEq] at hws
            exact ⟨c, _, rfl, rfl, by simp [Transaction.append_write_record, hws, hdata]⟩

/-- The loop of `DeleteExecutor::Next` over distinct slots of data pages of a well-formed
file, when it returns. -/
theorem DeleteExecutor.delete_all_ok :
    ∀ (rids : List Rid) (ex : DeleteExecutor),
      ex.fh_.WellFormed → rids.Nodup → (∀ rid ∈ rids, ex.fh_.Occupied rid) →
      (DeleteExecutor.delete_all rids ex).1 = .ok () →
      (∀ rid ∈ rids, (DeleteExecutor.delete_all rids ex).2.fh_.slot_bit rid = some false) ∧
      (∀ r, r ∉ rids → (DeleteExecutor.delete_all rids ex).2.fh_.slot_bit r = ex.fh_.slot_bit r) ∧
      (∀ r, 0 ≤ r.page_no → (DeleteExecutor.delete_all rids ex).2.fh_.stored r = ex.fh_.stored r) ∧
      (∀ (p : Nat) page, ex.fh_.pages[p]? = some page →
        ∃ page', (DeleteExecutor.delete_all rids ex).2.fh_.pages[p]? = some page' ∧
          page'.page_hdr.num_records =
            page.page_hdr.num_records -
              ((rids.filter (fun r => decide (r.page_no.toNat = p))).length : Int)) ∧
      (rids ≠ [] → ∃ c, ex.context_ = some c) ∧
      ∀ c, ex.context_ = some c →
        ∃ c', (DeleteExecutor.delete_all rids ex).2.context_ = some c' ∧
          c'.txn_.write_set_ = c.txn_.write_set_ ++
            rids.map (fun rid =>
              { wtype_ := .DELETE_TUPLE, tab_name_ := ex.tab_name_, rid_ := rid,
                record_ := ex.fh_.stored rid }) := by
  intro rids
  induction rids with
  | nil =>
    intro ex hwf _ _ _
    refine ⟨fun _ h => by simp at h, fun _ _ => rfl, fun _ _ => rfl, ?_, fun h => absurd rfl h, ?_⟩
    · intro p page hp
      exact ⟨page, hp, by simp⟩
    · intro c hc
      exact ⟨c, hc, by simp⟩
  | cons rid rest ih =>
    intro ex hwf hnd hocc hok
    rw [DeleteExecutor.delete_all] at hok ⊢
    rcases h1 : ex.delete_one rid with ⟨res, ex₁⟩
    rw [h1] at hok
    cases res with
    | error e => simp at hok
    | ok u =>
      simp only at hok ⊢
      have hrid := hocc rid (List.mem_cons_self _ _)
      obtain ⟨a1, a2, a3, a4, a5, a6, c₀, c₁, a7, a8, a9⟩ :=
        DeleteExecutor.delete_one_ok ex ex₁ rid hwf true hrid h1
      obtain ⟨hnotin, hnd'⟩ := List.nodup_cons.mp hnd
      obtain ⟨b1, b2, b3, b4, -, b6⟩ := ih ex₁ a2 hnd'
        (fun r hr => by
          unfold RmFileHandle.Occupied
          rw [a4 r (fun h => hnotin (h ▸ hr))]
          exact hocc r (List.mem_cons_of_mem _ hr))
        hok
      refine ⟨?_, ?_, ?_, ?_, fun _ => ⟨c₀, a7⟩, ?_⟩
      · intro r hr
        rcases List.mem_cons.mp hr with rfl | hr
        · rw [b2 r hnotin, a3]
        · exact b1 r hr
      · intro r hnot
        rw [b2 r (fun h => hnot (List.mem_cons_of_mem _ h)),
          a4 r (fun h => hnot (h ▸ List.mem_cons_self _ _))]
      · intro r hr0
        rw [b3 r hr0, a5 r hr0]
      · intro p page hp
        obtain ⟨page₁, hp1, hn1⟩ := a6 p page hp
        obtain ⟨page', hp', hn'⟩ := b4 p page₁ hp1
        refine ⟨page', hp', ?_⟩
        rw [hn', hn1, List.filter_cons]
        by_cases hpp : p = rid.page_no.toNat
        · simp [hpp]; omega
        · have : ¬ rid.page_no.toNat = p := fun h => hpp h.symm
          simp [hpp, this]
      · intro c hc
        rw [a7] at hc
        simp only [Option.some.injEq] at hc
        subst hc
        obtain ⟨c', hc', hw'⟩ := b6 c₁ a8
        refine ⟨c', hc', ?_⟩
        have hp0 : ∀ r ∈ rest, 0 ≤ r.page_no := by
          intro r hr
          have := (ex.fh_.slot_bit_eq_some r true (hocc r (List.mem_cons_of_mem _ hr))).1
          omega
        rw [hw', a9, a1, List.map_cons, List.append_assoc, List.singleton_append]
        congr 2
        apply List.map_congr_left
        intro r hr
        rw [a5 r (hp0 r hr)]

/-- In a reachable state, a returned `lock_IX_on_table` of a registered transaction leaves
a granted request of the transaction in mode `IX`, `SIX` or `X` in the table queue, the
table id in its lock set, and its write set as it was. -/
theorem lock_IX_on_table_granted (tm : TransactionManager) (hreach : tm.Reachable)
    (tid : Nat) (txn : Transaction) (htxn : tm.txn_map tid = some txn) (tab_fd : Int) (b : Bool)
    (hok : (lock_IX_on_table txn tab_fd tm.lock_manager_).result = .ok b) :
    (∃ q, (lock_IX_on_table txn tab_fd tm.lock_manager_).lock_table_ (LockDataId.table tab_fd) =
          some q ∧
        ∃ r ∈ q.request_queue_, r.txn_id_ = txn.txn_id_ ∧ r.granted_ = true ∧
          (r.lock_mode_ = .INTENTION_EXCLUSIVE ∨ r.lock_mode_ = .S_IX ∨
            r.lock_mode_ = .EXCLUSIVE)) ∧
    LockDataId.table tab_fd ∈ (lock_IX_on_table txn tab_fd tm.lock_manager_).txn.lock_set_ ∧
    (lock_IX_on_table txn tab_fd tm.lock_manager_).txn.write_set_ = txn.write_set_ := by
  rw [lock_IX_on_table_eq] at hok ⊢
  obtain ⟨rt, hrt, hrtid, hrtmode⟩ := _lock_IX_on_table_ok txn tab_fd tm.lock_manager_ b hok
  have hid := ((TransactionManager.Reachable.consistent tm hreach).registered tid txn htxn).1
  have hnext : (tm.step (.call tid (.lock (.IX_on_table tab_fd)))).Reachable :=
    .step tm _ hreach
  have hcons := TransactionManager.Reachable.consistent _ hnext
  have hgr := TransactionManager.Reachable.all_granted _ hnext
  simp only [TransactionManager.step, htxn, LockOp.run, LockCall.run, lock_IX_on_table_eq]
    at hcons hgr
  refine ⟨?_, ?_, (_lock_IX_on_table_spec txn tab_fd tm.lock_manager_).write_set⟩
  · obtain ⟨q, hq, hmem⟩ := LockTable.mem_index _ _ _ hrt
    exact ⟨q, hq, rt, hmem, hrtid, hgr _ rt hrt, hrtmode⟩
  · have hne : requests_of tid
        ((_lock_IX_on_table txn tab_fd tm.lock_manager_).lock_table_.index
          (LockDataId.table tab_fd)).request_queue_ ≠ [] := by
      apply List.ne_nil_of_mem (a := rt)
      simp [requests_of, hrt, hrtid, hid]
    obtain ⟨txn', htxn', hmem⟩ := hcons.in_lock_set _ tid hne
    simp only [Function.update_same, Option.some.injEq] at htxn'
    rw [htxn']; exact hmem

/-- C25. A `DeleteExecutor` constructed for a registered transaction in a reachable state,
on a table with a well-formed file and a list of distinct occupied rids. When the
constructor returns, the transaction holds a granted `IX` (or stronger: `SIX`, `X`) on
the table, with the table id in its lock set. When `Next` then returns (no lock request
was refused): every listed rid is vacant and every other slot has the bit it had; the
record count of every page is lower by the number of listed rids on that page; and the
write set has been extended, in the order of the rids, by one
`WriteRecord(DELETE_TUPLE, table name, rid, before_image)` per rid, the before-image being
the bytes stored at the rid before the call. -/
theorem delete_executor_next_deletes (tm : TransactionManager) (hreach : tm.Reachable)
    (tid : Nat) (txn : Transaction) (htxn : tm.txn_map tid = some txn)
    (sm : SmManager) (tab : TabMeta) (tab_name : String) (rids : List Rid) (ex : DeleteExecutor)
    (hnew : DeleteExecutor.new sm tab tab_name rids
      (some { lock_mgr_ := tm.lock_manager_, txn_ := txn }) = .ok ex)
    (hwf : ex.fh_.WellFormed) (hnodup : rids.Nodup) (hocc : ∀ rid ∈ rids, ex.fh_.Occupied rid)
    (hok : ex.Next.1 = .ok ()) :
    sm.fhs_ tab_name = some ex.fh_ ∧
    (∃ c, ex.context_ = some c ∧
      (∃ q, c.lock_mgr_ (LockDataId.table ex.fh_.fd_) = some q ∧
        ∃ r ∈ q.request_queue_, r.txn_id_ = txn.txn_id_ ∧ r.granted_ = true ∧
          (r.lock_mode_ = .INTENTION_EXCLUSIVE ∨ r.lock_mode_ = .S_IX ∨
            r.lock_mode_ = .EXCLUSIVE)) ∧
      LockDataId.table ex.fh_.fd_ ∈ c.txn_.lock_set_) ∧
    (∀ rid ∈ rids, ex.Next.2.fh_.Vacant rid) ∧
    (∀ r, r ∉ rids → ex.Next.2.fh_.slot_bit r = ex.fh_.slot_bit r) ∧
    (∀ (p : Int) page, 1 ≤ p → ex.fh_.pages[p.toNat]? = some page →
      ∃ page', ex.Next.2.fh_.pages[p.toNat]? = some page' ∧
        page'.page_hdr.num_records =
          page.page_hdr.num_records -
            ((rids.filter (fun r => decide (r.page_no = p))).length : Int)) ∧
    ∃ c', ex.Next.2.context_ = some c' ∧
      c'.txn_.write_set_ = txn.write_set_ ++
        rids.map (fun rid =>
          { wtype_ := .DELETE_TUPLE, tab_name_ := tab_name, rid_ := rid,
            record_ := ex.fh_.stored rid }) := by
  unfold DeleteExecutor.new at hnew
  cases hfh : sm.fhs_ tab_name with
  | none => rw [hfh] at hnew; simp at hnew
  | some fh =>
    rw [hfh] at hnew
    simp only at hnew
    cases hl : (lock_IX_on_table txn fh.fd_ tm.lock_manager_).result with
    | error e => rw [hl] at hnew; simp at hnew
    | ok b =>
      rw [hl] at hnew
      simp only [Except.ok.injEq] at hnew
      subst hnew
      obtain ⟨g1, g2, g3⟩ := lock_IX_on_table_granted tm hreach tid txn htxn fh.fd_ b hl
      simp only at hwf hocc hok ⊢
      simp only [DeleteExecutor.Next] at hok ⊢
      obtain ⟨d1, d2, -, d4, -, d6⟩ := DeleteExecutor.delete_all_ok rids _ hwf hnodup hocc hok
      refine ⟨trivial, ⟨_, rfl, g1, g2⟩, d1, d2, ?_, ?_⟩
      · intro p page hp1 hp
        obtain ⟨page', hp', hn'⟩ := d4 p.toNat page hp
        refine ⟨page', hp', ?_⟩
        rw [hn']
        congr 3
        apply List.filter_congr
        intro r hr
        have := (fh.slot_bit_eq_some r true (hocc r hr)).1
        simp only [decide_eq_decide]
        constructor
        · intro h; omega
        · intro h; rw [h]
      · obtain ⟨c', hc', hw'⟩ := d6 _ rfl
        exact ⟨c', hc', by rw [hw', g3]⟩

/-! ## Abort after an insert -/

theorem Bitmap.is_set_set_self (bm : List Bool) (s : Int) (h0 : 0 ≤ s)
    (hlen : s.toNat < bm.length) : Bitmap.is_set (Bitmap.set bm s) s = true := by
  unfold Bitmap.is_set Bitmap.set
  simp [h0, List.getD_eq_getElem?_getD, List.getElem?_set_self hlen]

theorem insert_record_ok_inv (fh : RmFileHandle) (buf : List Byte) (ctx : Option Context)
    (rid : Rid) (h : (insert_record fh buf ctx).result = .ok rid) :
    ∃ ph, (create_page_handle fh).1 = .ok ph ∧
      (create_page_handle fh).2.slot_in_range rid.slot_no ∧
      rid = { page_no := ph.page_no,
              slot_no := Bitmap.first_bit false ph.page.bitmap
                (create_page_handle fh).2.file_hdr_.num_records_per_page } ∧
      (insert_record fh buf ctx).file = insert_record_file (create_page_handle fh).2 ph buf := by
  revert h
  unfold insert_record
  rcases hc : create_page_handle fh with ⟨r, fh1⟩
  cases r with
  | error e => intro h; simp at h
  | ok ph =>
    simp only
    rcases hl : Context.lock_exclusive ctx
      { page_no := ph.page_no,
        slot_no := Bitmap.first_bit false ph.page.bitmap fh1.file_hdr_.num_records_per_page }
      fh1.fd_ with ⟨lr, ctx1⟩
    cases lr with
    | error e => intro h; simp at h
    | ok b =>
      simp only
      by_cases hs : fh1.slot_in_range
        (Bitmap.first_bit false ph.page.bitmap fh1.file_hdr_.num_records_per_page)
      · simp only [hs, if_true, Except.ok.injEq]
        intro h
        subst h
        refine ⟨ph, rfl, hs, rfl, ?_⟩
        simp only [insert_record_file]
        split_ifs <;> simp [RmFileHandle.write_page, *]
      · simp only [hs, if_false]
        intro h; simp at h

/-- What a returned `insert_record` did, on a well-formed file that has its header page
and whose free-list head is `RM_NO_PAGE` or a data page: the rid it returns is occupied
in the file it leaves, the record count of the page of the rid is one higher than it was
(it is 1 on a new page), and the file is well-formed. -/
theorem insert_record_ok_effect (fh : RmFileHandle) (buf : List Byte) (ctx : Option Context)
    (rid : Rid) (hwf : fh.WellFormed) (hhdr : 1 ≤ fh.file_hdr_.num_pages)
    (hhead : fh.file_hdr_.first_free_page_no = RM_NO_PAGE ∨ 1 ≤ fh.file_hdr_.first_free_page_no)
    (h : (insert_record fh buf ctx).result = .ok rid) :
    (insert_record fh buf ctx).file.WellFormed ∧
    (insert_record fh buf ctx).file.slot_bit rid = some true ∧
    ((insert_record fh buf ctx).file.pages[rid.page_no.toNat]?).map
        (fun page => page.page_hdr.num_records) =
      some (((fh.pages[rid.page_no.toNat]?).map
        (fun page => page.page_hdr.num_records)).getD 0 + 1) := by
  obtain ⟨ph, hc, hs, hrid, hfile⟩ := insert_record_ok_inv fh buf ctx rid h
  obtain ⟨hnp, hn0, hnb, hlay⟩ := hwf
  have key : ∀ (fh1 : RmFileHandle), (create_page_handle fh).2 = fh1 → fh1.WellFormed →
      1 ≤ ph.page_no → ph.page_no < fh1.file_hdr_.num_pages →
      fh1.pages[ph.page_no.toNat]? = some ph.page →
      fh1.file_hdr_.num_records_per_page = fh.file_hdr_.num_records_per_page →
      ph.page.page_hdr.num_records =
        ((fh.pages[ph.page_no.toNat]?).map (fun page => page.page_hdr.num_records)).getD 0 →
      (insert_record fh buf ctx).file.WellFormed ∧
      (insert_record fh buf ctx).file.slot_bit rid = some true ∧
      ((insert_record fh buf ctx).file.pages[rid.page_no.toNat]?).map
          (fun page => page.page_hdr.num_records) =
        some (((fh.pages[rid.page_no.toNat]?).map
          (fun page => page.page_hdr.num_records)).getD 0 + 1) := by
    intro fh1 hfh1 hwf1 hp1 hp2 hpage hn hnr
    rw [hfh1] at hs hrid hfile
    have hlen : ph.page_no.toNat < fh1.pages.length := (List.getElem?_eq_some_iff.mp hpage).1
    have hbm : ph.page.bitmap.length = 8 * fh1.file_hdr_.bitmap_size :=
      (hwf1.2.2.2 _ (mem_tail_of_getElem? _ _ _ (by omega) hpage)).1
    have hpages : (insert_record fh buf ctx).file.pages = fh1.pages.set ph.page_no.toNat
        { page_hdr := { ph.page.page_hdr with num_records := ph.page.page_hdr.num_records + 1 },
          bitmap := Bitmap.set ph.page.bitmap
            (Bitmap.first_bit false ph.page.bitmap fh1.file_hdr_.num_records_per_page),
          slots := ph.page.slots.set
            (Bitmap.first_bit false ph.page.bitmap fh1.file_hdr_.num_records_per_page).toNat
            (buf.take fh1.file_hdr_.record_size) } := by
      rw [hfile]; rfl
    have hrp : rid.page_no = ph.page_no := by rw [hrid]
    have hrs : rid.slot_no =
        Bitmap.first_bit false ph.page.bitmap fh1.file_hdr_.num_records_per_page := by rw [hrid]
    have hsb : fh1.slot_bit rid = some (Bitmap.is_set ph.page.bitmap rid.slot_no) := by
      have := fh1.slot_bit_of_page ph.page_no rid.slot_no ph.page hp1 hp2 hs hpage
      rw [← hrp] at this
      exact this
    refine ⟨?_, ?_, ?_⟩
    · exact RmFileHandle.WellFormed.set_page fh1 _ ph.page_no.toNat ph.page _ hwf1 hpage
        (by rw [hfile]; rfl) (by rw [hfile]; rfl) (by rw [hfile]; rfl) hpages
        (by simp [Bitmap.set]) (by simp) (by omega)
    · rw [RmFileHandle.slot_bit_set_page fh1 _ ph.page_no ph.page _ (by omega) hpage
        (by rw [hfile]; rfl) (by rw [hfile]; rfl) hpages rid, if_pos hrp, hsb]
      simp only [Option.map_some', Option.some.injEq]
      rw [← hrs]
      apply Bitmap.is_set_set_self _ _ hs.1
      have := hs.2
      have := hwf1.2.2.1
      omega
    · rw [hpages, hrp, List.getElem?_set_self hlen]
      simp only [Option.map_some', hnr]
  unfold create_page_handle at hc key
  by_cases hno : fh.file_hdr_.first_free_page_no = RM_NO_PAGE
  · rw [if_pos hno] at hc key
    simp only [Except.ok.injEq] at hc
    subst hc
    refine key _ rfl ?_ ?_ ?_ ?_ rfl ?_
    · refine ⟨by simp [create_new_page_handle, hnp], hn0, hnb, ?_⟩
      intro x hx
      rcases mem_tail_append_singleton _ _ _ hx with hx | rfl
      · exact hlay x hx
      · simp [create_new_page_handle, Bitmap.init]
    · simp only [create_new_page_handle]; omega
    · simp only [create_new_page_handle]; omega
    · simp [create_new_page_handle]
    · simp [create_new_page_handle]
  · rw [if_neg hno] at hc key
    simp only at hc
    obtain ⟨h0, h1, hpn, hpage⟩ := fetch_page_handle_eq_ok _ _ _ hc
    have hge : 1 ≤ fh.file_hdr_.first_free_page_no := hhead.resolve_left hno
    refine key fh rfl ⟨hnp, hn0, hnb, hlay⟩ (by omega) (by omega) (by rw [hpn]; exact hpage) rfl ?_
    rw [hpn, hpage]
    rfl

/-- The undo of a write set that holds one `INSERT_TUPLE` record: `abort` returns exactly
when its `delete_record` returns, and leaves the file that `delete_record` leaves. -/
theorem abort_single_insert (txn : Transaction) (lock_table_ : LockTable) (sm : SmManager)
    (tab_name : String) (rid : Rid) (record : List Byte) (fh : RmFileHandle)
    (hfile : sm.fhs_ tab_name = some fh)
    (hws : txn.write_set_ =
      [{ wtype_ := .INSERT_TUPLE, tab_name_ := tab_name, rid_ := rid, record_ := record }])
    (hab : (abort txn lock_table_ sm).result = .ok ()) :
    (delete_record fh rid (some { lock_mgr_ := lock_table_, txn_ := txn })).result = .ok () ∧
    (abort txn lock_table_ sm).sm_manager_.fhs_ tab_name =
      some (delete_record fh rid (some { lock_mgr_ := lock_table_, txn_ := txn })).file := by
  revert hab
  unfold abort
  rw [hws]
  simp only [List.reverse_cons, List.reverse_nil, List.nil_append, undo_all, undo_write_record,
    hfile]
  cases hd : (delete_record fh rid (some { lock_mgr_ := lock_table_, txn_ := txn })).result with
  | error e => intro hab; simp at hab
  | ok u =>
    intro _
    simp [SmManager.put]

/-- A transaction whose write set holds one record,
`WriteRecord(INSERT_TUPLE, rid, record)`, for the rid that `insert_record` returned on a
well-formed file (with its header page, the free-list head being `RM_NO_PAGE` or a data
page). When `abort` returns: in the file that it leaves, slot `rid` is vacant, every other
slot has the bit it had after the insert, the record count of the page of `rid` is the
one before the insert (0 when the insert created the page), and a fresh `RmScan` visits
a list of rids that does not contain `rid`. -/
theorem abort_single_insert_effect (fh : RmFileHandle) (buf : List Byte) (ctx : Option Context)
    (txn : Transaction) (lock_table_ : LockTable) (sm : SmManager) (tab_name : String)
    (rid : Rid) (hwf : fh.WellFormed) (hhdr : 1 ≤ fh.file_hdr_.num_pages)
    (hhead : fh.file_hdr_.first_free_page_no = RM_NO_PAGE ∨ 1 ≤ fh.file_hdr_.first_free_page_no)
    (hins : (insert_record fh buf ctx).result = .ok rid)
    (hfile : sm.fhs_ tab_name = some (insert_record fh buf ctx).file)
    (hws : txn.write_set_ =
      [{ wtype_ := .INSERT_TUPLE, tab_name_ := tab_name, rid_ := rid, record_ := buf }])
    (hab : (abort txn lock_table_ sm).result = .ok ()) :
    (insert_record fh buf ctx).file.Occupied rid ∧
    ∃ fh', (abort txn lock_table_ sm).sm_manager_.fhs_ tab_name = some fh' ∧
      fh'.Vacant rid ∧
      (∀ r, r ≠ rid → fh'.slot_bit r = (insert_record fh buf ctx).file.slot_bit r) ∧
      (fh'.pages[rid.page_no.toNat]?).map (fun page => page.page_hdr.num_records) =
        some (((fh.pages[rid.page_no.toNat]?).map
          (fun page => page.page_hdr.num_records)).getD 0) ∧
      ∃ scan visited, RmScan.new fh' = .ok scan ∧ scan.Visits visited ∧ rid ∉ visited := by
  obtain ⟨i1, i2, i3⟩ := insert_record_ok_effect fh buf ctx rid hwf hhdr hhead hins
  obtain ⟨hd, hfinal⟩ := abort_single_insert txn lock_table_ sm tab_name rid buf _ hfile hws hab
  obtain ⟨d1, -, -, d4, d5, -, d7, -⟩ := delete_record_ok_effect _ rid _ i1 true i2 hd
  refine ⟨i2, _, hfinal, d4, d5, ?_, ?_⟩
  · cases hp : (insert_record fh buf ctx).file.pages[rid.page_no.toNat]? with
    | none => rw [hp] at i3; simp at i3
    | some page =>
      rw [hp] at i3
      simp only [Option.map_some', Option.some.injEq] at i3
      obtain ⟨page', hp', hn'⟩ := d7 _ page hp
      rw [hp']
      simp only [Option.map_some', Option.some.injEq, hn', if_true, i3]
      omega
  · obtain ⟨hr1, hr2, -, -⟩ := RmFileHandle.slot_bit_eq_some _ rid false d4
    obtain ⟨scan, hnew, -, hrids⟩ := RmScan.new_spec _ d1.1 (by omega)
    refine ⟨scan, _, hnew, hrids, ?_⟩
    intro hmem
    rw [RmFileHandle.occupied_rids, RmFileHandle.mem_occupied_from _ rid _ 1 rfl (le_refl _)] at hmem
    have := hmem.2
    unfold RmFileHandle.Occupied at this
    rw [d4] at this
    simp at this

/-! ## Nested-loop join -/

theorem join_remaining_end (L R : List RmRecord) (i j : Nat) (h : L.length ≤ i) :
    join_remaining L R i j = [] := by
  unfold join_remaining
  rw [List.getElem?_eq_none h]

theorem join_pairs_drop (L R : List RmRecord) (i : Nat) :
    join_pairs (L.drop i) R = join_remaining L R i 0 := by
  unfold join_remaining
  by_cases h : i < L.length
  · rw [List.getElem?_eq_getElem h, List.drop_eq_getElem_cons h]
    simp only [join_pairs, List.flatMap_cons, List.drop_zero]
  · rw [List.getElem?_eq_none (by omega), List.drop_eq_nil_of_le (by omega)]
    rfl

theorem join_remaining_cons (L R : List RmRecord) (i j : Nat) (hi : i < L.length)
    (hj : j < R.length) :
    join_remaining L R i j =
      (L[i], R[j]) ::
        (if R.length ≤ j + 1 then join_remaining L R (i + 1) 0
         else join_remaining L R i (j + 1)) := by
  split_ifs with h
  · rw [← join_pairs_drop]
    unfold join_remaining
    rw [List.getElem?_eq_getElem hi, List.drop_eq_getElem_cons hj,
      List.drop_eq_nil_of_le (by omega)]
    rfl
  · unfold join_remaining
    rw [List.getElem?_eq_getElem hi]
    simp only
    rw [List.drop_eq_getElem_cons hj]
    rfl

theorem memcpy_pair (l r : List Byte) (ll rl : Int) (hl0 : 0 ≤ ll) (hr0 : 0 ≤ rl)
    (hl : l.length = ll.toNat) (hr : r.length = rl.toNat) :
    ∃ data, memcpy (List.replicate (ll + rl).toNat 0) 0 l 0 ll = .ok data ∧
      memcpy data ll r 0 rl = .ok (l ++ r) := by
  have hll : (l.length : Int) = ll := by omega
  have hrl : (r.length : Int) = rl := by omega
  have hsplit : List.replicate (ll + rl).toNat (0 : Byte) =
      [] ++ (List.replicate ll.toNat 0 ++ List.replicate rl.toNat 0) := by
    rw [List.nil_append, ← List.replicate_add]
    congr 1
    omega
  refine ⟨l ++ List.replicate rl.toNat 0, ?_, ?_⟩
  · have h := memcpy_append [] (List.replicate ll.toNat 0 ++ List.replicate rl.toNat 0) l 0 ll
      hl0 (by simp only [List.length_append, List.length_replicate]; push_cast; omega)
      (le_refl _) (by omega)
    rw [hsplit]
    simp only [List.length_nil, Nat.cast_zero] at h
    rw [h]
    simp only [List.nil_append, Int.toNat_zero, List.drop_zero]
    rw [← hl, List.take_length, List.drop_left' (by simp)]
  · have h := memcpy_append l (List.replicate rl.toNat 0) r 0 rl hr0
      (by simp only [List.length_replicate]; omega) (le_refl _) (by omega)
    rw [hll] at h
    rw [h]
    simp only [Int.toNat_zero, List.drop_zero]
    rw [← hr, List.take_length]
    have : List.drop r.length (List.replicate r.length (0 : Byte)) = [] :=
      List.drop_eq_nil_of_le (by simp)
    rw [this, List.append_nil]

theorem NestedLoopJoinExecutor.Next_spec (left right : AbstractExecutor)
    (conds : List Condition) (hleft : left.WellFormed) (hright : right.WellFormed)
    (i j : Nat) (hi : i < left.tuples.length) (hj : j < right.tuples.length) :
    ((NestedLoopJoinExecutor.new left right conds).at_cursors i j).Next =
      .ok (join_record left right (left.tuples[i], right.tuples[j])) := by
  obtain ⟨hl0, _, hltup⟩ := hleft
  obtain ⟨hr0, _, hrtup⟩ := hright
  obtain ⟨data, h1, h2⟩ := memcpy_pair left.tuples[i].data right.tuples[j].data left.len_
    right.len_ hl0 hr0 (hltup _ (List.getElem_mem _)) (hrtup _ (List.getElem_mem _))
  unfold NestedLoopJoinExecutor.Next
  simp only [NestedLoopJoinExecutor.at_cursors, NestedLoopJoinExecutor.new,
    AbstractExecutor.Next, List.getElem?_eq_getElem hi, List.getElem?_eq_getElem hj]
  rw [h1]
  simp only
  rw [h2]
  rfl

theorem join_pairs_length (L R : List RmRecord) :
    (join_pairs L R).length = L.length * R.length := by
  induction L with
  | nil => simp [join_pairs]
  | cons l rest ih =>
    simp only [join_pairs, List.flatMap_cons, List.length_append, List.length_map,
      List.length_cons] at ih ⊢
    rw [ih]
    ring

/-- C24 (behaviour of the code). `UpdateExecutor::Next` never appends a write record: for
every executor the write set of the transaction of its context is after `Next` what it
was before. On `exUpdater`, whose transaction has written nothing: `Next` returns and
changes the record `(1, 0)` of `exTable` from `[1, 5]` to `[1, 9]`, the write set is still
empty, and the abort that follows returns and leaves `[1, 9]` in the slot. -/
theorem update_executor_appends_no_write_record :
    (∀ ex : UpdateExecutor,
      ex.Next.2.context_.map (fun c => c.txn_.write_set_) =
        ex.context_.map (fun c => c.txn_.write_set_)) ∧
    exUpdater.fh_.stored { page_no := 1, slot_no := 0 } = [1, 5] ∧
    exUpdater.Next.1 = .ok () ∧
    exUpdater.Next.2.fh_.stored { page_no := 1, slot_no := 0 } = [1, 9] ∧
    exUpdater.Next.2.context_.map (fun c => c.txn_.write_set_) = some [] ∧
    exAbortAfterUpdate.result = .ok () ∧
    (exAbortAfterUpdate.sm_manager_.fhs_ "t").map
      (fun fh => fh.stored { page_no := 1, slot_no := 0 }) = some [1, 9] :=
  ⟨fun ex => UpdateExecutor.update_all_write_set ex.rids_ ex,
    by decide, by decide, by decide, by decide, by decide, by decide⟩

/-- C26 (counterexample). Transaction 0 deletes the record `(1, 0)` of `exTable` and then
inserts `[7, 7]`: the insert returns the rid `(1, 0)` and is recorded as
`WriteRecord(INSERT_TUPLE, (1, 0), [7, 7])`. After the abort, which returns, the slot
`(1, 0)` is occupied (by the restored record `[1, 5]`) and a fresh scan yields it.
And the transaction `exFresh` inserts `[7, 7]` and `[8, 8]` into the header-only file
`exEmptyFile`, at `(1, 0)` and `(1, 1)`: page 1 holds one record before the second insert
and two after it; after the abort, which returns, the slot `(1, 1)` is vacant and the
record count of its page is 0, not the 1 from before that insert. -/
theorem abort_reoccupies_reused_slot :
    exDeleteExecutor.Next.1 = .ok () ∧
    exReinsert.result = .ok { page_no := 1, slot_no := 0 } ∧
    exReinserter.write_set_ =
      [{ wtype_ := .DELETE_TUPLE, tab_name_ := "t", rid_ := { page_no := 1, slot_no := 0 },
         record_ := [1, 5] },
       { wtype_ := .INSERT_TUPLE, tab_name_ := "t", rid_ := { page_no := 1, slot_no := 0 },
         record_ := [7, 7] }] ∧
    exAbortAfterReinsert.result = .ok () ∧
    (exAbortAfterReinsert.sm_manager_.fhs_ "t").map
      (fun fh => (fh.slot_bit { page_no := 1, slot_no := 0 },
        fh.stored { page_no := 1, slot_no := 0 })) = some (some true, [1, 5]) ∧
    (exAbortAfterReinsert.sm_manager_.fhs_ "t").map
      (fun fh =>
        match RmScan.new fh with
        | .ok scan => RmScan.rids 5 scan
        | .error e => some (.error e)) =
      some (some (.ok [{ page_no := 1, slot_no := 0 }, { page_no := 1, slot_no := 1 },
        { page_no := 1, slot_no := 2 }])) ∧
    exFirstOfTwo.result = .ok { page_no := 1, slot_no := 0 } ∧
    exSecondOfTwo.result = .ok { page_no := 1, slot_no := 1 } ∧
    (exFirstOfTwo.file.pages[1]?).map (fun page => page.page_hdr.num_records) = some 1 ∧
    (exSecondOfTwo.file.pages[1]?).map (fun page => page.page_hdr.num_records) = some 2 ∧
    exAbortAfterTwoInserts.result = .ok () ∧
    (exAbortAfterTwoInserts.sm_manager_.fhs_ "t").map
      (fun fh => (fh.slot_bit { page_no := 1, slot_no := 1 },
        (fh.pages[1]?).map (fun page => page.page_hdr.num_records))) =
      some (some false, some 0) := by
  decide

/-! ## Witnesses -/

/-- Witness for C22 on `exProjChild`, positioned on the tuple `[1, 5]`, with the
selection `t.b, t.a`: `Next` returns the record `[5, 1]`. -/
theorem projection_next_concatenates_witness :
    (∀ c ∈ exSelCols, c.found_in exProjChild.cols_ = true) ∧
    exProjChild.Next = .ok { size := 2, data := [1, 5] } ∧
    (∀ col ∈ selected_cols exProjChild.cols_ exSelCols, col.within 2) ∧
    ∃ ex, ProjectionExecutor.new exProjChild exSelCols = .ok ex ∧
      ex.cols_.length = exSelCols.length ∧
      ex.len_ = 2 ∧
      ex.Next = .ok { size := 2, data := [5, 1] } :=
  ⟨by decide, by decide, by decide,
    (projection_next_concatenates exProjChild exSelCols { size := 2, data := [1, 5] }
      (by decide) (by decide) (by decide)).imp
      (fun _ h => ⟨h.1, h.2.2.1, h.2.2.2.2.1, h.2.2.2.2.2.1⟩)⟩

/-- Witness for C23 on `exUpdater`: the record `(1, 0)` of `exTable` becomes `[1, 9]`. -/
theorem update_executor_next_replaces_bytes_witness :
    exUpdater.fh_.WellFormed ∧ exUpdater.rids_.Nodup ∧
    (∀ rid ∈ exUpdater.rids_, exUpdater.fh_.Occupied rid) ∧
    exUpdater.Next.1 = .ok () ∧
    replace_all exUpdater.tab_ exUpdater.set_clauses_
      (exUpdater.fh_.stored { page_no := 1, slot_no := 0 }) = [1, 9] ∧
    (∀ rid ∈ exUpdater.rids_,
      exUpdater.Next.2.fh_.stored rid =
        replace_all exUpdater.tab_ exUpdater.set_clauses_ (exUpdater.fh_.stored rid) ∧
      exUpdater.Next.2.fh_.Occupied rid) ∧
    (∀ r, exUpdater.Next.2.fh_.slot_bit r = exUpdater.fh_.slot_bit r) ∧
    (∀ r, exUpdater.fh_.Occupied r → r ∉ exUpdater.rids_ →
      exUpdater.Next.2.fh_.stored r = exUpdater.fh_.stored r) ∧
    exUpdater.Next.2.fh_.file_hdr_ = exUpdater.fh_.file_hdr_ :=
  ⟨by decide, by decide, by decide, by decide, by decide,
    update_executor_next_replaces_bytes exUpdater (by decide) (by decide) (by decide)
      (by decide)⟩

/-- Witness for C25 on `exDeleteExecutor`: transaction 0 of `exDeleteTm` deletes the
record `(1, 0)` of `exTable`. -/
theorem delete_executor_next_deletes_witness :
    exDeleteTm.txn_map 0 = some exDeleteTxn ∧
    exDeleteExecutor.fh_.WellFormed ∧
    (∀ rid ∈ [({ page_no := 1, slot_no := 0 } : Rid)], exDeleteExecutor.fh_.Occupied rid) ∧
    exDeleteExecutor.Next.1 = .ok () ∧
    (∀ rid ∈ [({ page_no := 1, slot_no := 0 } : Rid)], exDeleteExecutor.Next.2.fh_.Vacant rid) ∧
    ∃ c', exDeleteExecutor.Next.2.context_ = some c' ∧
      c'.txn_.write_set_ = exDeleteTxn.write_set_ ++
        [({ page_no := 1, slot_no := 0 } : Rid)].map (fun rid =>
          { wtype_ := .DELETE_TUPLE, tab_name_ := "t", rid_ := rid,
            record_ := exDeleteExecutor.fh_.stored rid }) :=
  ⟨by decide, by decide, by decide, by decide,
    (delete_executor_next_deletes exDeleteTm
      (TransactionManager.reachable_run _ _ (.init _)) 0 exDeleteTxn (by decide)
      (exSm exTable) exTab "t" [{ page_no := 1, slot_no := 0 }] exDeleteExecutor rfl
      (by decide) (by decide) (by decide) (by decide)).2.2.1,
    (delete_executor_next_deletes exDeleteTm
      (TransactionManager.reachable_run _ _ (.init _)) 0 exDeleteTxn (by decide)
      (exSm exTable) exTab "t" [{ page_no := 1, slot_no := 0 }] exDeleteExecutor rfl
      (by decide) (by decide) (by decide) (by decide)).2.2.2.2.2⟩

/-- Witness for C28 on `exDeleter`, whose write set holds one deleted record. -/
theorem abort_twice_witness :
    exAbortAfterDelete.result = .ok () ∧
    exAbortAfterDelete.txn.write_set_ = [] ∧
    exAbortAfterDelete.txn.state_ = .ABORTED ∧
    (abort exAbortAfterDelete.txn exAbortAfterDelete.lock_table_
        exAbortAfterDelete.sm_manager_).result = .ok () ∧
    (abort exAbortAfterDelete.txn exAbortAfterDelete.lock_table_
        exAbortAfterDelete.sm_manager_).txn = exAbortAfterDelete.txn ∧
    (abort exAbortAfterDelete.txn exAbortAfterDelete.lock_table_
        exAbortAfterDelete.sm_manager_).lock_table_ = exAbortAfterDelete.lock_table_ ∧
    (abort exAbortAfterDelete.txn exAbortAfterDelete.lock_table_
        exAbortAfterDelete.sm_manager_).sm_manager_ = exAbortAfterDelete.sm_manager_ :=
  ⟨by decide,
    abort_twice exDeleter
      (exAfterDelete.context.getD { lock_mgr_ := LockTable.empty, txn_ := exT1 }).lock_mgr_
      (exSm exAfterDelete.file) (by decide)⟩

/-- Witness for C30 (amended) on the occupied slot `exRid` of `exFile`. -/
theorem get_record_ignores_bitmap_witness :
    exFile.slot_bit exRid = some true ∧
    (get_record exFile exRid none).result =
      .ok { size := exFile.file_hdr_.record_size, data := exFile.stored exRid } :=
  ⟨by decide, get_record_ignores_bitmap exFile exRid true (by decide)⟩

/-! ## Lock manager: unlock and the upgrades of the table locks -/

/-- C32 (behaviour of the code). In `exThreeOnTable` the queue of table 7 holds the
granted requests `IS` (transaction 0), `S` (1), `IS` (2), one per transaction. `unlock` by
transaction 2 removes its request and keeps the two others in their order, but the loop
that recomputes the group mode yields `IS` for the remaining `[IS, S]`, whose lattice
join is `S`; for the same two requests in the order `[S, IS]` the loop yields `S`. -/
theorem unlock_recomputes_group_mode_by_order :
    exThreeOnTable.txn_map 2 = some exThirdOnTable ∧
    ((exThreeOnTable.lock_manager_.index (LockDataId.table 7)).request_queue_ =
      [granted_request 0 .INTENTION_SHARED, granted_request 1 .SHARED,
       granted_request 2 .INTENTION_SHARED]) ∧
    (unlock exThirdOnTable (LockDataId.table 7) exThreeOnTable.lock_manager_).result = .ok true ∧
    ((unlock exThirdOnTable (LockDataId.table 7) exThreeOnTable.lock_manager_).lock_table_.index
        (LockDataId.table 7)).request_queue_ =
      [granted_request 0 .INTENTION_SHARED, granted_request 1 .SHARED] ∧
    ((unlock exThirdOnTable (LockDataId.table 7) exThreeOnTable.lock_manager_).lock_table_.index
        (LockDataId.table 7)).group_lock_mode_ = .IS ∧
    granted_lub [granted_request 0 .INTENTION_SHARED, granted_request 1 .SHARED] = .S ∧
    recompute_group_lock_mode
      [granted_request 1 .SHARED, granted_request 0 .INTENTION_SHARED] .NON_LOCK = .S := by
  decide

/-- C33 (behaviour of the code). Transaction 0 holds the only request of the queue of
table 7, a granted `IS`, and the counters of `IX` and `SIX` are 0. `lock_shared_on_table`
returns true, lowers the `IS` counter, raises the `S` counter and sets the group mode to
`S`, but the request in the queue keeps the mode `INTENTION_SHARED`. -/
theorem shared_on_table_upgrade_keeps_request_mode :
    (exSoleHolder [.IS_on_table 7]).txn_map 0 = some exSoleTxn ∧
    (exSoleHolder [.IS_on_table 7]).lock_manager_ (LockDataId.table 7) =
      some { request_queue_ := [granted_request 0 .INTENTION_SHARED],
             group_lock_mode_ := .IS,
             lock_mode_count_ := { IS := 1 } } ∧
    (lock_shared_on_table exSoleTxn 7 (exSoleHolder [.IS_on_table 7]).lock_manager_).result =
      .ok true ∧
    (lock_shared_on_table exSoleTxn 7 (exSoleHolder [.IS_on_table 7]).lock_manager_).lock_table_
        (LockDataId.table 7) =
      some { request_queue_ := [granted_request 0 .INTENTION_SHARED],
             group_lock_mode_ := .S,
             lock_mode_count_ := { IS := 0, S := 1 } } := by
  decide

/-- C34 (behaviour of the code). Transaction 0 holds the only request of the queue of
table 7, with mode `IS`, `IX`, `S` or `SIX`. In each of the four states
`lock_exclusive_on_table` throws `TransactionAbortException(DEADLOCK_PREVENTION)` and
leaves the queue as it was: the upgrade is made only when the group mode is `NON_LOCK`,
which the request of the transaction itself excludes. -/
theorem exclusive_on_table_upgrade_refused :
    (∀ calls ∈ [[LockCall.IS_on_table 7], [.IX_on_table 7], [.shared_on_table 7],
        [.shared_on_table 7, .IX_on_table 7]],
      (exSoleHolder calls).txn_map 0 = some exSoleTxn ∧
      (lock_exclusive_on_table exSoleTxn 7 (exSoleHolder calls).lock_manager_).result =
        .error (.TransactionAbortException 0 .DEADLOCK_PREVENTION) ∧
      (lock_exclusive_on_table exSoleTxn 7 (exSoleHolder calls).lock_manager_).lock_table_
          (LockDataId.table 7) =
        (exSoleHolder calls).lock_manager_ (LockDataId.table 7)) ∧
    ((exSoleHolder [.IS_on_table 7]).lock_manager_.index (LockDataId.table 7)).request_queue_ =
      [granted_request 0 .INTENTION_SHARED] ∧
    ((exSoleHolder [.IX_on_table 7]).lock_manager_.index (LockDataId.table 7)).request_queue_ =
      [granted_request 0 .INTENTION_EXCLUSIVE] ∧
    ((exSoleHolder [.shared_on_table 7]).lock_manager_.index (LockDataId.table 7)).request_queue_ =
      [granted_request 0 .SHARED] ∧
    ((exSoleHolder [.shared_on_table 7, .IX_on_table 7]).lock_manager_.index
        (LockDataId.table 7)).request_queue_ =
      [granted_request 0 .S_IX] := by
  decide

/-! ## Record locks that fail on the record queue -/

theorem ensure_txn_can_lock_ok (txn txn₁ : Transaction) (b : Bool)
    (h : ensure_txn_can_lock txn = (.ok b, txn₁)) :
    txn₁.txn_id_ = txn.txn_id_ ∧ txn₁.lock_set_ = txn.lock_set_ ∧
      ensure_txn_can_lock txn₁ = (.ok true, txn₁) := by
  unfold ensure_txn_can_lock at h
  split_ifs at h with h1 h2 h3 <;>
    simp only [Prod.mk.injEq, Except.ok.injEq, reduceCtorEq, false_and] at h
  · obtain ⟨-, rfl⟩ := h
    refine ⟨rfl, rfl, ?_⟩
    simp [ensure_txn_can_lock]
  · obtain ⟨-, rfl⟩ := h
    refine ⟨rfl, rfl, ?_⟩
    unfold ensure_txn_can_lock
    rw [if_neg h1, if_neg h2, if_neg h3]

theorem ensure_txn_can_lock_error (txn txn₁ : Transaction) (e : Error)
    (h : ensure_txn_can_lock txn = (.error e, txn₁)) :
    e = .TransactionAbortException txn.txn_id_ .LOCK_ON_SHIRINKING := by
  unfold ensure_txn_can_lock at h
  split_ifs at h <;> simp only [Prod.mk.injEq, Except.error.injEq, reduceCtorEq, false_and] at h <;>
    exact h.1.symm

theorem check_lock_conflict_error (txn : Transaction) (g : GroupLockMode) (m : LockMode)
    (e : Error) (h : check_lock_conflict txn g m = .error e) :
    e = .TransactionAbortException txn.txn_id_ .DEADLOCK_PREVENTION := by
  unfold check_lock_conflict at h
  cases m <;> simp only at h <;> split_ifs at h <;> simp only [Except.error.injEq] at h <;>
    exact h.symm

theorem check_lock_conflict_ok_txn (txn txn' : Transaction) (g : GroupLockMode) (m : LockMode)
    (h : check_lock_conflict txn g m = .ok ()) : check_lock_conflict txn' g m = .ok () := by
  unfold check_lock_conflict at h ⊢
  cases m <;> simp only at h ⊢ <;> split_ifs at h ⊢ <;> rfl

/-- The first request of a transaction for the table: `_lock_IS_on_table` appends a granted
`IS` request when the group mode allows it. -/
theorem _lock_IS_on_table_first (txn : Transaction) (tab_fd : Int) (lt : LockTable)
    (hens : ensure_txn_can_lock txn = (.ok true, txn))
    (hfind : find_request (lt.index (LockDataId.table tab_fd)).request_queue_ txn.txn_id_ = none)
    (hcheck : check_lock_conflict txn (lt.index (LockDataId.table tab_fd)).group_lock_mode_
      .INTENTION_SHARED = .ok ()) :
    (_lock_IS_on_table txn tab_fd lt).result = .ok true ∧
    (_lock_IS_on_table txn tab_fd lt).txn = txn.append_lock_set (LockDataId.table tab_fd) ∧
    (∀ id, ((_lock_IS_on_table txn tab_fd lt).lock_table_.index id).request_queue_ =
      if id = LockDataId.table tab_fd then
        (lt.index id).request_queue_ ++ [granted_request txn.txn_id_ .INTENTION_SHARED]
      else (lt.index id).request_queue_) ∧
    (∀ id, id ≠ LockDataId.table tab_fd →
      (_lock_IS_on_table txn tab_fd lt).lock_table_.index id = lt.index id) ∧
    (∀ id, lt id ≠ none → (_lock_IS_on_table txn tab_fd lt).lock_table_ id ≠ none) := by
  unfold _lock_IS_on_table
  rw [hens]
  simp only [hfind, hcheck]
  refine ⟨trivial, trivial, ?_, ?_, ?_⟩
  · intro id
    rw [LockTable.index_store]
    by_cases h : id = LockDataId.table tab_fd
    · rw [if_pos h, if_pos h, h]
    · rw [if_neg h, if_neg h, LockTable.index_touch]
  · intro id h
    rw [LockTable.index_store, if_neg h, LockTable.index_touch]
  · intro id h
    unfold LockTable.store
    by_cases hid : id = LockDataId.table tab_fd
    · subst hid; simp
    · rw [Function.update_noteq hid]
      unfold LockTable.touch
      cases lt (LockDataId.table tab_fd) with
      | some q => exact h
      | none => simp only; rw [Function.update_noteq hid]; exact h

/-- The first request of a transaction for the table: `_lock_IX_on_table` appends a granted
`IX` request when the group mode allows it. -/
theorem _lock_IX_on_table_first (txn : Transaction) (tab_fd : Int) (lt : LockTable)
    (hens : ensure_txn_can_lock txn = (.ok true, txn))
    (hfind : find_request (lt.index (LockDataId.table tab_fd)).request_queue_ txn.txn_id_ = none)
    (hcheck : check_lock_conflict txn (lt.index (LockDataId.table tab_fd)).group_lock_mode_
      .INTENTION_EXCLUSIVE = .ok ()) :
    (_lock_IX_on_table txn tab_fd lt).result = .ok true ∧
    (_lock_IX_on_table txn tab_fd lt).txn = txn.append_lock_set (LockDataId.table tab_fd) ∧
    (∀ id, ((_lock_IX_on_table txn tab_fd lt).lock_table_.index id).request_queue_ =
      if id = LockDataId.table tab_fd then
        (lt.index id).request_queue_ ++ [granted_request txn.txn_id_ .INTENTION_EXCLUSIVE]
      else (lt.index id).request_queue_) ∧
    (∀ id, id ≠ LockDataId.table tab_fd →
      (_lock_IX_on_table txn tab_fd lt).lock_table_.index id = lt.index id) := by
  unfold _lock_IX_on_table
  rw [hens]
  simp only [hfind, hcheck]
  refine ⟨trivial, trivial, ?_, ?_⟩
  · intro id
    rw [LockTable.index_store]
    by_cases h : id = LockDataId.table tab_fd
    · rw [if_pos h, if_pos h, h]
    · rw [if_neg h, if_neg h, LockTable.index_touch]
  · intro id h
    rw [LockTable.index_store, if_neg h, LockTable.index_touch]

theorem requests_of_idle (tm : TransactionManager) (hreach : tm.Reachable) (tid : Nat)
    (txn : Transaction) (htxn : tm.txn_map tid = some txn) (hset : txn.lock_set_ = []) :
    ∀ id, requests_of tid (tm.lock_manager_.index id).request_queue_ = [] := by
  intro id
  by_contra h
  obtain ⟨txn', htxn', hmem⟩ :=
    (TransactionManager.Reachable.consistent tm hreach).in_lock_set id tid h
  rw [htxn] at htxn'
  simp only [Option.some.injEq] at htxn'
  subst htxn'
  rw [hset] at hmem
  cases hmem

/-- C35 (counterexample). In `exReaderOnRecord` transaction 1 holds `S` on `exRid` and
transaction 2 holds no lock. `lock_exclusive_on_record` by transaction 2 fails with
`DEADLOCK_PREVENTION` on the record queue; afterwards the lock set of transaction 2 holds
the table and the table queue holds its granted `IX` request. -/
theorem record_lock_failure_leaves_table_lock :
    exReaderOnRecord.txn_map 2 = some exLockless ∧
    exLockless.lock_set_ = [] ∧
    requests_of 2 (exReaderOnRecord.lock_manager_.index (LockDataId.table 7)).request_queue_ = [] ∧
    requests_of 2 (exReaderOnRecord.lock_manager_.index
      (LockDataId.record 7 exRid)).request_queue_ = [] ∧
    (lock_exclusive_on_record exLockless exRid 7 exReaderOnRecord.lock_manager_).result =
      .error (.TransactionAbortException 2 .DEADLOCK_PREVENTION) ∧
    (lock_exclusive_on_record exLockless exRid 7 exReaderOnRecord.lock_manager_).txn.lock_set_ =
      [LockDataId.table 7] ∧
    requests_of 2
      ((lock_exclusive_on_record exLockless exRid 7 exReaderOnRecord.lock_manager_).lock_table_.index
        (LockDataId.table 7)).request_queue_ = [granted_request 2 .INTENTION_EXCLUSIVE] := by
  decide

/-- C35 (amended). A transaction with an empty lock set and no request in any queue calls
`lock_shared_on_record` or `lock_exclusive_on_record`, the group mode of the table queue
admits the intention lock (`IS`, respectively `IX`), and the call fails with
`DEADLOCK_PREVENTION`, that is, on the record queue. Afterwards the lock set holds the
table id and nothing else, the only request of the transaction is the granted intention
request in the table queue, and the requests of the other transactions are untouched. -/
theorem record_lock_failure_keeps_intention_lock (txn : Transaction) (rid : Rid)
    (tab_fd : Int) (lt : LockTable) (hset : txn.lock_set_ = [])
    (hnone : ∀ id, requests_of txn.txn_id_ (lt.index id).request_queue_ = []) :
    ((lock_shared_on_record txn rid tab_fd lt).result =
        .error (.TransactionAbortException txn.txn_id_ .DEADLOCK_PREVENTION) →
      check_lock_conflict txn (lt.index (LockDataId.table tab_fd)).group_lock_mode_
        .INTENTION_SHARED = .ok () →
      (lock_shared_on_record txn rid tab_fd lt).txn.lock_set_ = [LockDataId.table tab_fd] ∧
      (∀ id, requests_of txn.txn_id_
          ((lock_shared_on_record txn rid tab_fd lt).lock_table_.index id).request_queue_ =
        if id = LockDataId.table tab_fd then [granted_request txn.txn_id_ .INTENTION_SHARED]
        else []) ∧
      ∀ id t, t ≠ txn.txn_id_ →
        requests_of t
            ((lock_shared_on_record txn rid tab_fd lt).lock_table_.index id).request_queue_ =
          requests_of t (lt.index id).request_queue_) ∧
    ((lock_exclusive_on_record txn rid tab_fd lt).result =
        .error (.TransactionAbortException txn.txn_id_ .DEADLOCK_PREVENTION) →
      check_lock_conflict txn (lt.index (LockDataId.table tab_fd)).group_lock_mode_
        .INTENTION_EXCLUSIVE = .ok () →
      (lock_exclusive_on_record txn rid tab_fd lt).txn.lock_set_ = [LockDataId.table tab_fd] ∧
      (∀ id, requests_of txn.txn_id_
          ((lock_exclusive_on_record txn rid tab_fd lt).lock_table_.index id).request_queue_ =
        if id = LockDataId.table tab_fd then [granted_request txn.txn_id_ .INTENTION_EXCLUSIVE]
        else []) ∧
      ∀ id t, t ≠ txn.txn_id_ →
        requests_of t
            ((lock_exclusive_on_record txn rid tab_fd lt).lock_table_.index id).request_queue_ =
          requests_of t (lt.index id).request_queue_) := by
  have hne := LockDataId.table_ne_record tab_fd tab_fd rid
  constructor
  · intro hfail hcheck
    refine ⟨?_, ?_, (lock_shared_on_record_spec txn rid tab_fd lt).others⟩
    all_goals
      revert hfail
      unfold lock_shared_on_record
      split
      · next e txn₁ heq =>
        intro hfail
        rw [ensure_txn_can_lock_error txn txn₁ e heq] at hfail
        simp at hfail
      · next b txn₁ heq =>
        obtain ⟨hid, hls, hens⟩ := ensure_txn_can_lock_ok txn txn₁ b heq
        simp only
        split
        · intro hfail; simp at hfail
        · next q hq =>
          have hfind : find_request (lt.index (LockDataId.table tab_fd)).request_queue_
              txn₁.txn_id_ = none := by
            rw [find_request_eq_none_iff, hid]; exact hnone _
          obtain ⟨t1, t2, t3, t4, t5⟩ := _lock_IS_on_table_first txn₁ tab_fd lt hens hfind
            (check_lock_conflict_ok_txn txn txn₁ _ _ hcheck)
          rcases hres : _lock_IS_on_table txn₁ tab_fd lt with ⟨res, txn₂, lt₂⟩
          rw [hres] at t1 t2 t3 t4 t5
          simp only at t1 t2 t3 t4 t5
          subst t1
          simp only
          have hrec : lt₂.index (LockDataId.record tab_fd rid) =
              lt.index (LockDataId.record tab_fd rid) := t4 _ (Ne.symm hne)
          have hid₂ : txn₂.txn_id_ = txn.txn_id_ := by
            rw [t2]; unfold Transaction.append_lock_set; split_ifs <;> exact hid
          have hfind₂ : find_request (lt₂.index (LockDataId.record tab_fd rid)).request_queue_
              txn₂.txn_id_ = none := by
            rw [hrec, find_request_eq_none_iff, hid₂]; exact hnone _
          rw [hfind₂]
          simp only
          split
          · intro _
            simp only
            first
            | rw [t2]
              unfold Transaction.append_lock_set
              rw [hls, hset]
              simp
            | intro id
              rw [t3 id]
              by_cases h : id = LockDataId.table tab_fd
              · rw [if_pos h, if_pos h, requests_of_append, hnone, requests_of_granted, hid]
                simp
              · rw [if_neg h, if_neg h]; exact hnone _
          · intro hfail; simp at hfail
  · intro hfail hcheck
    refine ⟨?_, ?_, (lock_exclusive_on_record_spec txn rid tab_fd lt).others⟩
    all_goals
      revert hfail
      unfold lock_exclusive_on_record
      split
      · next e txn₁ heq =>
        intro hfail
        rw [ensure_txn_can_lock_error txn txn₁ e heq] at hfail
        simp at hfail
      · next b txn₁ heq =>
        obtain ⟨hid, hls, hens⟩ := ensure_txn_can_lock_ok txn txn₁ b heq
        simp only
        have hfind : find_request
            ((lt.touch (LockDataId.record tab_fd rid)).index
              (LockDataId.table tab_fd)).request_queue_ txn₁.txn_id_ = none := by
          rw [LockTable.index_touch, find_request_eq_none_iff, hid]; exact hnone _
        have hcheck' : check_lock_conflict txn₁
            ((lt.touch (LockDataId.record tab_fd rid)).index
              (LockDataId.table tab_fd)).group_lock_mode_ .INTENTION_EXCLUSIVE = .ok () := by
          rw [LockTable.index_touch]; exact check_lock_conflict_ok_txn txn txn₁ _ _ hcheck
        obtain ⟨t1, t2, t3, t4⟩ := _lock_IX_on_table_first txn₁ tab_fd
          (lt.touch (LockDataId.record tab_fd rid)) hens hfind hcheck'
        rcases hres : _lock_IX_on_table txn₁ tab_fd (lt.touch (LockDataId.record tab_fd rid))
          with ⟨res, txn₂, lt₂⟩
        rw [hres] at t1 t2 t3 t4
        simp only at t1 t2 t3 t4
        subst t1
        simp only
        have hrec : lt₂.index (LockDataId.record tab_fd rid) =
            lt.index (LockDataId.record tab_fd rid) := by
          rw [t4 _ (Ne.symm hne), LockTable.index_touch]
        have hid₂ : txn₂.txn_id_ = txn.txn_id_ := by
          rw [t2]; unfold Transaction.append_lock_set; split_ifs <;> exact hid
        have hfind₂ : find_request (lt₂.index (LockDataId.record tab_fd rid)).request_queue_
            txn₂.txn_id_ = none := by
          rw [hrec, find_request_eq_none_iff, hid₂]; exact hnone _
        rw [hfind₂]
        simp only
        split
        · intro _
          simp only
          first
          | rw [t2]
            unfold Transaction.append_lock_set
            rw [hls, hset]
            simp
          | intro id
            rw [t3 id]
            by_cases h : id = LockDataId.table tab_fd
            · rw [if_pos h, if_pos h, LockTable.index_touch, requests_of_append, hnone,
                requests_of_granted, hid]
              simp
            · rw [if_neg h, if_neg h, LockTable.index_touch]; exact hnone _
        · intro hfail; simp at hfail

/-- Witness for C35 (amended) on `exWriterOnRecord` and `exReaderOnRecord`, where
transaction 2 holds no lock: both calls fail on the queue of `exRid`. -/
theorem record_lock_failure_keeps_intention_lock_witness :
    exLockless.lock_set_ = [] ∧
    (lock_shared_on_record exLockless exRid 7 exWriterOnRecord.lock_manager_).result =
      .error (.TransactionAbortException 2 .DEADLOCK_PREVENTION) ∧
    (lock_shared_on_record exLockless exRid 7 exWriterOnRecord.lock_manager_).txn.lock_set_ =
      [LockDataId.table 7] ∧
    (lock_exclusive_on_record exLockless exRid 7 exReaderOnRecord.lock_manager_).result =
      .error (.TransactionAbortException 2 .DEADLOCK_PREVENTION) ∧
    (∀ id, requests_of 2
        ((lock_exclusive_on_record exLockless exRid 7
          exReaderOnRecord.lock_manager_).lock_table_.index id).request_queue_ =
      if id = LockDataId.table 7 then [granted_request 2 .INTENTION_EXCLUSIVE] else []) :=
  ⟨rfl, by decide,
    ((record_lock_failure_keeps_intention_lock exLockless exRid 7 exWriterOnRecord.lock_manager_
      rfl (requests_of_idle exWriterOnRecord
        (.step _ _ (TransactionManager.reachable_run _ _ (.init _))) 2 exLockless
        (by decide) rfl)).1 (by decide) (by decide)).1,
    by decide,
    ((record_lock_failure_keeps_intention_lock exLockless exRid 7 exReaderOnRecord.lock_manager_
      rfl (requests_of_idle exReaderOnRecord
        (TransactionManager.reachable_run _ _ (.init _)) 2 exLockless
        (by decide) rfl)).2 (by decide) (by decide)).2.1⟩

/-! ## Nested-loop join: empty condition list, mirrored condition -/

theorem NestedLoopJoinExecutor.seek_no_conds (ix_compare : IxCompare)
    (left right : AbstractExecutor) (i j k : Nat) :
    NestedLoopJoinExecutor.seek ix_compare (k + 1)
        ((NestedLoopJoinExecutor.new left right []).at_cursors i j) =
      some (.ok (), (NestedLoopJoinExecutor.new left right []).at_cursors i j) := by
  unfold NestedLoopJoinExecutor.seek
  have hemp : ((NestedLoopJoinExecutor.new left right []).at_cursors i j).fed_conds_.isEmpty =
      true := rfl
  rw [hemp]
  simp only [if_true]
  split_ifs <;> rfl

theorem NestedLoopJoinExecutor.nextTuple_no_conds (ix_compare : IxCompare)
    (left right : AbstractExecutor) (i j k : Nat) :
    ((NestedLoopJoinExecutor.new left right []).at_cursors i j).nextTuple ix_compare (k + 1) =
      some (.ok (),
        if right.tuples.length ≤ j + 1 then
          (NestedLoopJoinExecutor.new left right []).at_cursors (i + 1) 0
        else (NestedLoopJoinExecutor.new left right []).at_cursors i (j + 1)) := by
  unfold NestedLoopJoinExecutor.nextTuple
  have hre : ((NestedLoopJoinExecutor.new left right []).at_cursors i j).right_.nextTuple.is_end
      = decide (right.tuples.length ≤ j + 1) := rfl
  rw [hre]
  by_cases hlast : right.tuples.length ≤ j + 1
  · rw [decide_eq_true hlast, if_pos hlast]
    simp only [if_true]
    exact NestedLoopJoinExecutor.seek_no_conds ix_compare left right (i + 1) 0 k
  · rw [decide_eq_false hlast, if_neg hlast]
    simp only [Bool.false_eq_true, if_false]
    exact NestedLoopJoinExecutor.seek_no_conds ix_compare left right i (j + 1) k

theorem NestedLoopJoinExecutor.rows_from_no_conds (ix_compare : IxCompare)
    (left right : AbstractExecutor) (hleft : left.WellFormed) (hright : right.WellFormed)
    (hR : right.tuples ≠ []) :
    ∀ (steps : Nat) (todo : List (RmRecord × RmRecord)) (i j : Nat),
      (i < left.tuples.length → j < right.tuples.length) →
      join_remaining left.tuples right.tuples i j = todo →
      todo.length < steps →
      NestedLoopJoinExecutor.rows_from ix_compare steps
          ((NestedLoopJoinExecutor.new left right []).at_cursors i j) =
        some (.ok (todo.map (join_record left right))) := by
  intro steps
  induction steps with
  | zero => intro todo i j _ _ h; exact absurd h (Nat.not_lt_zero _)
  | succ k ih =>
    intro todo i j hinv hrem hsteps
    unfold NestedLoopJoinExecutor.rows_from
    cases todo with
    | nil =>
      have hi : left.tuples.length ≤ i := by
        by_contra hlt
        have hi : i < left.tuples.length := by omega
        rw [join_remaining_cons _ _ i j hi (hinv hi)] at hrem
        cases hrem
      have : ((NestedLoopJoinExecutor.new left right []).at_cursors i j).is_end = true := by
        simp only [NestedLoopJoinExecutor.is_end, NestedLoopJoinExecutor.at_cursors,
          NestedLoopJoinExecutor.new, AbstractExecutor.is_end, decide_eq_true_eq]
        exact hi
      rw [if_pos this]
      rfl
    | cons p rest =>
      have hi : i < left.tuples.length := by
        by_contra hge
        rw [join_remaining_end _ _ i j (by omega)] at hrem
        cases hrem
      have hj := hinv hi
      rw [join_remaining_cons _ _ i j hi hj] at hrem
      simp only [List.cons.injEq] at hrem
      obtain ⟨hp, hrest⟩ := hrem
      have hend : ((NestedLoopJoinExecutor.new left right []).at_cursors i j).is_end =
          false := by
        simp only [NestedLoopJoinExecutor.is_end, NestedLoopJoinExecutor.at_cursors,
          NestedLoopJoinExecutor.new, AbstractExecutor.is_end, decide_eq_false_iff_not]
        omega
      rw [hend]
      simp only [Bool.false_eq_true, if_false]
      rw [NestedLoopJoinExecutor.Next_spec left right [] hleft hright i j hi hj, hp]
      simp only
      have hlen : rest.length < k := by simp only [List.length_cons] at hsteps; omega
      obtain ⟨k', rfl⟩ : ∃ k', k = k' + 1 := ⟨k - 1, by omega⟩
      rw [NestedLoopJoinExecutor.nextTuple_no_conds]
      simp only
      have hpos : 0 < right.tuples.length := List.length_pos.mpr hR
      by_cases hlast : right.tuples.length ≤ j + 1
      · rw [if_pos hlast] at hrest ⊢
        rw [ih rest (i + 1) 0 (fun _ => hpos) hrest hlen]
        rfl
      · rw [if_neg hlast] at hrest ⊢
        rw [ih rest i (j + 1) (fun _ => by omega) hrest hlen]
        rfl

/-- C36 (counterexample). The join of `exJoinLeft` and `exJoinRight` (three tuples each)
with an empty condition list: after `beginTuple()` and one `nextTuple()` the join is not
at its end but on the pair `(left[0], right[1])`, and it returns the nine tuples of the
cross product. -/
theorem join_without_conditions_goes_on :
    (((NestedLoopJoinExecutor.new exJoinLeft exJoinRight []).beginTuple exCompare 1).bind
      (fun begun => begun.2.nextTuple exCompare 1)).map
        (fun moved => (moved.2.left_.cursor, moved.2.right_.cursor, moved.2.is_end)) =
      some (0, 1, false) ∧
    (NestedLoopJoinExecutor.new exJoinLeft exJoinRight []).rows exCompare 10 =
      some (.ok
        [{ size := 2, data := [1, 2] }, { size := 2, data := [1, 3] },
         { size := 2, data := [1, 4] }, { size := 2, data := [2, 2] },
         { size := 2, data := [2, 3] }, { size := 2, data := [2, 4] },
         { size := 2, data := [3, 2] }, { size := 2, data := [3, 3] },
         { size := 2, data := [3, 4] }]) := by
  decide

/-- C36 (amended). A nested-loop join with an empty condition list over children with
well-formed tuples, the left one holding `l :: ls` and the right one `r :: rs`:
`beginTuple()` stops on the first pair, whose record is `l ++ r`; after one `nextTuple()`
the join is at its end exactly when both children hold a single tuple; and the loop
`beginTuple; while not is_end: Next; nextTuple` returns, with any fuel above `|L| * |R|`,
the records of the whole cross product in left-major order. -/
theorem join_without_conditions_is_cross_product (ix_compare : IxCompare)
    (left right : AbstractExecutor) (l r : RmRecord) (ls rs : List RmRecord) (steps : Nat)
    (hleft : left.WellFormed) (hright : right.WellFormed)
    (hL : left.tuples = l :: ls) (hR : right.tuples = r :: rs)
    (hsteps : left.tuples.length * right.tuples.length < steps) :
    (∃ begun moved,
      (NestedLoopJoinExecutor.new left right []).beginTuple ix_compare steps =
        some (.ok (), begun) ∧
      begun.is_end = false ∧
      begun.Next = .ok (join_record left right (l, r)) ∧
      begun.nextTuple ix_compare steps = some (.ok (), moved) ∧
      (moved.is_end = true ↔ ls = [] ∧ rs = [])) ∧
    (NestedLoopJoinExecutor.new left right []).rows ix_compare steps =
      some (.ok ((join_pairs left.tuples right.tuples).map (join_record left right))) := by
  have hRne : right.tuples ≠ [] := by rw [hR]; exact List.cons_ne_nil _ _
  have hlen := join_pairs_length left.tuples right.tuples
  have hLlen : 0 < left.tuples.length := by rw [hL]; simp
  have hRlen : 0 < right.tuples.length := by rw [hR]; simp
  obtain ⟨k, rfl⟩ : ∃ k, steps = k + 1 := ⟨steps - 1, by omega⟩
  have hrem0 : join_remaining left.tuples right.tuples 0 0 =
      join_pairs left.tuples right.tuples := by
    rw [← join_pairs_drop, List.drop_zero]
  have hbegin : (NestedLoopJoinExecutor.new left right []).beginTuple ix_compare (k + 1) =
      some (.ok (), (NestedLoopJoinExecutor.new left right []).at_cursors 0 0) := by
    unfold NestedLoopJoinExecutor.beginTuple
    have hbe : (NestedLoopJoinExecutor.new left right []).left_.beginTuple.is_end =
        decide (left.tuples.length ≤ 0) := rfl
    rw [hbe, decide_eq_false (by omega)]
    simp only [Bool.false_eq_true, if_false]
    exact NestedLoopJoinExecutor.seek_no_conds ix_compare left right 0 0 k
  refine ⟨⟨_, _, hbegin, ?_, ?_, NestedLoopJoinExecutor.nextTuple_no_conds _ _ _ 0 0 k, ?_⟩, ?_⟩
  · simp only [NestedLoopJoinExecutor.is_end, NestedLoopJoinExecutor.at_cursors,
      NestedLoopJoinExecutor.new, AbstractExecutor.is_end, decide_eq_false_iff_not]
    omega
  · rw [NestedLoopJoinExecutor.Next_spec left right [] hleft hright 0 0 hLlen hRlen]
    congr 2
    simp [hL, hR]
  · by_cases hlast : right.tuples.length ≤ 0 + 1
    · rw [if_pos hlast]
      simp only [NestedLoopJoinExecutor.is_end, NestedLoopJoinExecutor.at_cursors,
        NestedLoopJoinExecutor.new, AbstractExecutor.is_end, decide_eq_true_eq]
      rw [hL, hR] at *
      simp only [List.length_cons] at hlast ⊢
      constructor
      · intro h
        exact ⟨List.length_eq_zero.mp (by omega), List.length_eq_zero.mp (by omega)⟩
      · rintro ⟨rfl, -⟩
        simp
    · rw [if_neg hlast]
      simp only [NestedLoopJoinExecutor.is_end, NestedLoopJoinExecutor.at_cursors,
        NestedLoopJoinExecutor.new, AbstractExecutor.is_end, decide_eq_true_eq]
      rw [hR] at hlast
      simp only [List.length_cons] at hlast
      constructor
      · intro h; omega
      · rintro ⟨-, rfl⟩
        simp at hlast
  · unfold NestedLoopJoinExecutor.rows
    rw [hbegin]
    simp only
    exact NestedLoopJoinExecutor.rows_from_no_conds ix_compare left right hleft hright hRne
      (k + 1) _ 0 0 (fun _ => hRlen) hrem0 (by omega)

/-- Witness for C36 (amended) on `exJoinLeft` and `exJoinRight`. -/
theorem join_without_conditions_is_cross_product_witness :
    exJoinLeft.WellFormed ∧ exJoinRight.WellFormed ∧
    (join_pairs exJoinLeft.tuples exJoinRight.tuples).length = 9 ∧
    (NestedLoopJoinExecutor.new exJoinLeft exJoinRight []).rows exCompare 10 =
      some (.ok ((join_pairs exJoinLeft.tuples exJoinRight.tuples).map
        (join_record exJoinLeft exJoinRight))) :=
  ⟨by decide, by decide, by decide,
    (join_without_conditions_is_cross_product exCompare exJoinLeft exJoinRight
      { size := 1, data := [1] } { size := 1, data := [2] }
      [{ size := 1, data := [2] }, { size := 1, data := [3] }]
      [{ size := 1, data := [3] }, { size := 1, data := [4] }] 10
      (by decide) (by decide) rfl rfl (by decide)).2⟩

/-- The calls that the loop over the indexes of `UpdateExecutor::Next` makes: for each
index that it reaches, `delete_entry` and `insert_entry` with one and the same key, the
key of the bytes `data` that it is given. -/
theorem UpdateExecutor.update_indexes_calls (data : List Byte) (rid : Rid)
    (context : Option Context) :
    ∀ (indexes : List IndexMeta) (ix_calls : List IxCall),
      ∃ keys : List (IndexMeta × List Byte),
        (UpdateExecutor.update_indexes data rid context indexes ix_calls).2 =
          ix_calls ++ keys.flatMap
            (fun p => [IxCall.delete_entry p.1 p.2, IxCall.insert_entry p.1 p.2 rid]) ∧
        ∀ p ∈ keys, p.1 ∈ indexes ∧ build_key p.1 data = .ok p.2 := by
  intro indexes
  induction indexes with
  | nil => intro ix_calls; exact ⟨[], by simp [UpdateExecutor.update_indexes], by simp⟩
  | cons index rest ih =>
    intro ix_calls
    unfold UpdateExecutor.update_indexes
    cases hkey : build_key index data with
    | error e => exact ⟨[], by simp, by simp⟩
    | ok key =>
      cases context with
      | none => exact ⟨[], by simp, by simp⟩
      | some c =>
        obtain ⟨keys, h1, h2⟩ :=
          ih (ix_calls ++ [.delete_entry index key, .insert_entry index key rid])
        refine ⟨(index, key) :: keys, ?_, ?_⟩
        · simp only [h1, List.flatMap_cons, List.append_assoc]
        · intro p hp
          rcases List.mem_cons.mp hp with rfl | hp
          · exact ⟨List.mem_cons_self _ _, hkey⟩
          · exact ⟨List.mem_cons_of_mem _ (h2 p hp).1, (h2 p hp).2⟩

/-- C38 (behaviour of the code). For every rid that `UpdateExecutor::Next` updates, the
index calls it makes come in pairs `delete_entry(key)`, `insert_entry(key, rid)` with one
and the same key for each index. On `exIndexedUpdater`, where `SET b = 9` changes the
indexed column of the record `[1, 5]`: the key of the stored tuple is `[5]`, and both calls
are made with the key `[9]` of the updated tuple. -/
theorem update_executor_deletes_new_index_key :
    (∀ (ex : UpdateExecutor) (rid : Rid),
      ∃ keys : List (IndexMeta × List Byte),
        (ex.update_one rid).2.ix_calls_ =
          ex.ix_calls_ ++ keys.flatMap
            (fun p => [IxCall.delete_entry p.1 p.2, IxCall.insert_entry p.1 p.2 rid])) ∧
    exIndexedUpdater.fh_.stored { page_no := 1, slot_no := 0 } = [1, 5] ∧
    build_key exIndexOnB [1, 5] = .ok [5] ∧
    exIndexedUpdater.Next.1 = .ok () ∧
    exIndexedUpdater.Next.2.fh_.stored { page_no := 1, slot_no := 0 } = [1, 9] ∧
    exIndexedUpdater.Next.2.ix_calls_ =
      [.delete_entry exIndexOnB [9],
       .insert_entry exIndexOnB [9] { page_no := 1, slot_no := 0 }] := by
  refine ⟨?_, by decide, by decide, by decide, by decide, by decide⟩
  intro ex rid
  unfold UpdateExecutor.update_one
  split
  · exact ⟨[], by simp⟩
  · split
    · exact ⟨[], by simp⟩
    · next data _ =>
      simp only
      split
      · exact ⟨[], by simp⟩
      · obtain ⟨keys, h1, -⟩ := UpdateExecutor.update_indexes_calls data rid
          (update_record ex.fh_ rid data (get_record ex.fh_ rid ex.context_).context).context
          ex.tab_.indexes ex.ix_calls_
        exact ⟨keys, h1⟩

/-- C40 (behaviour of the code). For every rid whose page exists
(`rid.page_no < num_pages`), `insert_record(rid, buf)` allocates a new page: `num_pages`
and the number of pages of the file are one higher afterwards. -/
theorem insert_record_at_allocates_page (fh : RmFileHandle) (rid : Rid) (buf : List Byte)
    (h : rid.page_no < fh.file_hdr_.num_pages) :
    (insert_record_at fh rid buf).file.file_hdr_.num_pages = fh.file_hdr_.num_pages + 1 ∧
    (insert_record_at fh rid buf).file.pages.length = fh.pages.length + 1 := by
  obtain ⟨fh1, hfh1, hcases⟩ := insert_record_at_file_cases fh rid buf
  rw [if_pos h] at hfh1
  have h1 : fh1.file_hdr_.num_pages = fh.file_hdr_.num_pages + 1 := by rw [hfh1]; rfl
  have h2 : fh1.pages.length = fh.pages.length + 1 := by
    rw [hfh1]; simp [create_new_page_handle]
  rcases hcases with hfile | ⟨ph, page, -, -, hpages, -, -, -, hnp⟩
  · rw [hfile]; exact ⟨h1, h2⟩
  · rw [hnp, hpages, List.length_set]; exact ⟨h1, h2⟩

/-- Witness for C40 on `exFile`: the insertion at the vacant slot `(1, 0)` of the existing
page 1 sets the slot and leaves a file of three pages. -/
theorem insert_record_at_allocates_page_witness :
    exFile.Vacant { page_no := 1, slot_no := 0 } ∧
    exFile.file_hdr_.num_pages = 2 ∧
    (insert_record_at exFile { page_no := 1, slot_no := 0 } [5, 6]).result = .ok () ∧
    (insert_record_at exFile { page_no := 1, slot_no := 0 } [5, 6]).file.file_hdr_.num_pages =
      exFile.file_hdr_.num_pages + 1 ∧
    (insert_record_at exFile { page_no := 1, slot_no := 0 } [5, 6]).file.pages.length =
      exFile.pages.length + 1 :=
  ⟨by decide, by decide, by decide,
    insert_record_at_allocates_page exFile { page_no := 1, slot_no := 0 } [5, 6] (by decide)⟩

/-! ## Conditions with an operator outside the six relational ones -/

theorem SeqScanExecutor.for_conds_unknown_op (ix_compare : IxCompare) (cols_ : List ColMeta)
    (record : RmRecord) (c : Condition) (post : List Condition) (code : Nat) (cmp : Int)
    (hop : c.op = .other code)
    (hcmp : SeqScanExecutor.compare ix_compare cols_ record c = .ok cmp) :
    ∀ (pre : List Condition) (flag : Bool),
      (∀ p ∈ pre, ∃ cmp, SeqScanExecutor.compare ix_compare cols_ record p = .ok cmp ∧
        SeqScanExecutor.check_op p.op cmp = .ok true) →
      SeqScanExecutor.for_conds ix_compare cols_ record flag (pre ++ c :: post) =
        .error .InternalError := by
  intro pre
  induction pre with
  | nil =>
    intro flag _
    simp only [List.nil_append, SeqScanExecutor.for_conds, hcmp, hop, SeqScanExecutor.check_op]
  | cons p rest ih =>
    intro flag hpre
    obtain ⟨cmp', h1, h2⟩ := hpre p (List.mem_cons_self _ _)
    simp only [List.cons_append, SeqScanExecutor.for_conds, h1, h2]
    exact ih true (fun q hq => hpre q (List.mem_cons_of_mem _ hq))

theorem SeqScanExecutor.seek_error (ix_compare : IxCompare) (e : Error) (rid : Rid)
    (rest : List Rid) :
    ∀ (skipped : List Rid) (steps : Nat) (ex : SeqScanExecutor) (scan : RmScan),
      ex.context_ = none →
      scan.Visits (skipped ++ rid :: rest) →
      (∀ r ∈ skipped, ex.fh_.Occupied r ∧
        SeqScanExecutor.eval_conds ix_compare ex.cols_ ex.fed_conds_
          { size := ex.fh_.file_hdr_.record_size, data := ex.fh_.stored r } = .ok false) →
      ex.fh_.Occupied rid →
      SeqScanExecutor.eval_conds ix_compare ex.cols_ ex.fed_conds_
        { size := ex.fh_.file_hdr_.record_size, data := ex.fh_.stored rid } = .error e →
      skipped.length < steps →
      ∃ ex', SeqScanExecutor.seek ix_compare steps ex scan = some (.error e, ex') := by
  intro skipped
  induction skipped with
  | nil =>
    intro steps ex scan hctx hvis _ hocc heval hsteps
    obtain ⟨hend, hrid, -⟩ := RmScan.Visits.cons scan rid rest hvis
    obtain ⟨k, rfl⟩ : ∃ k, steps = k + 1 := ⟨steps - 1, by omega⟩
    have hget := (get_record_occupied ex.fh_ rid hocc).1
    rw [SeqScanExecutor.seek, hend]
    simp only [Bool.false_eq_true, if_false, hrid, hctx, hget, heval]
    exact ⟨_, rfl⟩
  | cons r more ih =>
    intro steps ex scan hctx hvis hskip hocc heval hsteps
    obtain ⟨hend, hrid, scan', hnext, hvis'⟩ := RmScan.Visits.cons scan r _ hvis
    obtain ⟨k, rfl⟩ : ∃ k, steps = k + 1 := ⟨steps - 1, by simp at hsteps; omega⟩
    obtain ⟨hror, hreval⟩ := hskip r (List.mem_cons_self _ _)
    have hget : (get_record ex.fh_ scan.rid ex.context_).result =
        .ok { size := ex.fh_.file_hdr_.record_size, data := ex.fh_.stored r } := by
      rw [hrid, hctx]; exact (get_record_occupied ex.fh_ r hror).1
    have hctx' : (get_record ex.fh_ scan.rid ex.context_).context = none := by
      rw [hrid, hctx]; exact (get_record_occupied ex.fh_ r hror).2
    rw [SeqScanExecutor.seek_succ ix_compare k ex scan scan' _ false hend hget hreval hnext]
    simp only [Bool.false_eq_true, if_false]
    exact ih k _ scan' hctx' hvis'
      (fun q hq => hskip q (List.mem_cons_of_mem _ hq)) hocc heval
      (by simp only [List.length_cons] at hsteps; omega)

theorem SeqScanExecutor.seek_error_after_skips (ix_compare : IxCompare) (e : Error)
    (ex : SeqScanExecutor) (scan : RmScan) (n : Nat) (ex₁ : SeqScanExecutor) (scan₁ : RmScan)
    (hskips : SeqScanExecutor.Skips ix_compare ex scan n ex₁ scan₁) :
    ∀ (record : RmRecord) (steps : Nat),
      scan₁.is_end = false →
      (get_record ex₁.fh_ scan₁.rid ex₁.context_).result = .ok record →
      SeqScanExecutor.eval_conds ix_compare ex₁.cols_ ex₁.fed_conds_ record = .error e →
      n < steps →
      ∃ ex', SeqScanExecutor.seek ix_compare steps ex scan = some (.error e, ex') := by
  induction hskips with
  | done ex scan =>
    intro record steps hend hget heval hsteps
    obtain ⟨k, rfl⟩ : ∃ k, steps = k + 1 := ⟨steps - 1, by omega⟩
    rw [SeqScanExecutor.seek, hend]
    simp only [Bool.false_eq_true, if_false, hget, heval]
    exact ⟨_, rfl⟩
  | skip ex scan rec next n ex' scan' hend hget heval hnext _ ih =>
    intro record steps hend₁ hget₁ heval₁ hsteps
    obtain ⟨k, rfl⟩ : ∃ k, steps = k + 1 := ⟨steps - 1, by omega⟩
    rw [SeqScanExecutor.seek_succ ix_compare k ex scan next _ false hend hget heval hnext]
    simp only [Bool.false_eq_true, if_false]
    exact ih record k hend₁ hget₁ heval₁ (by omega)

theorem NestedLoopJoinExecutor.join_for_conds_unknown_op (ix_compare : IxCompare)
    (ex : NestedLoopJoinExecutor) (l r : RmRecord) (c : Condition) (post : List Condition)
    (code : Nat) (cmp : Int) (hop : c.op = .other code)
    (hcmp : ex.compare ix_compare l r c = .ok cmp) :
    ∀ (pre : List Condition) (flag : Bool),
      (∀ p ∈ pre, ∃ cmp, ex.compare ix_compare l r p = .ok cmp ∧
        NestedLoopJoinExecutor.check_op p.op cmp = .ok true) →
      ex.for_conds ix_compare l r flag (pre ++ c :: post) = .error .InternalError := by
  intro pre
  induction pre with
  | nil =>
    intro flag _
    simp only [List.nil_append, NestedLoopJoinExecutor.for_conds, hcmp, hop,
      NestedLoopJoinExecutor.check_op]
  | cons p rest ih =>
    intro flag hpre
    obtain ⟨cmp', h1, h2⟩ := hpre p (List.mem_cons_self _ _)
    simp only [List.cons_append, NestedLoopJoinExecutor.for_conds, h1, h2]
    exact ih true (fun q hq => hpre q (List.mem_cons_of_mem _ hq))

theorem NestedLoopJoinExecutor.for_conds_at_cursors (ix_compare : IxCompare)
    (ex : NestedLoopJoinExecutor) (i j : Nat) (l r : RmRecord) :
    ∀ (conds : List Condition) (flag : Bool),
      (ex.at_cursors i j).for_conds ix_compare l r flag conds =
        ex.for_conds ix_compare l r flag conds := by
  intro conds
  induction conds with
  | nil => intro flag; rfl
  | cons c rest ih =>
    intro flag
    have hc : (ex.at_cursors i j).compare ix_compare l r c = ex.compare ix_compare l r c := rfl
    simp only [NestedLoopJoinExecutor.for_conds, hc, ih]

theorem NestedLoopJoinExecutor.join_seek_error (ix_compare : IxCompare)
    (ex : NestedLoopJoinExecutor) (e : Error) (l r : RmRecord)
    (rest : List (RmRecord × RmRecord))
    (hne : ex.fed_conds_ ≠ []) (hR : ex.right_.tuples ≠ [])
    (herr : ex.for_conds ix_compare l r false ex.fed_conds_ = .error e) :
    ∀ (skipped : List (RmRecord × RmRecord)) (i j steps : Nat),
      (i < ex.left_.tuples.length → j < ex.right_.tuples.length) →
      join_remaining ex.left_.tuples ex.right_.tuples i j = skipped ++ (l, r) :: rest →
      (∀ p ∈ skipped, ex.for_conds ix_compare p.1 p.2 false ex.fed_conds_ = .ok false) →
      skipped.length < steps →
      ∃ ex', NestedLoopJoinExecutor.seek ix_compare steps (ex.at_cursors i j) =
        some (.error e, ex') := by
  intro skipped
  induction skipped with
  | nil =>
    intro i j steps hinv hrem _ hsteps
    have hi : i < ex.left_.tuples.length := by
      by_contra hge
      rw [join_remaining_end _ _ i j (by omega)] at hrem
      cases hrem
    have hj := hinv hi
    rw [join_remaining_cons _ _ i j hi hj] at hrem
    simp only [List.nil_append, List.cons.injEq, Prod.mk.injEq] at hrem
    obtain ⟨⟨hl, hr⟩, -⟩ := hrem
    obtain ⟨k, rfl⟩ : ∃ k, steps = k + 1 := ⟨steps - 1, by omega⟩
    have hend : (ex.at_cursors i j).left_.is_end = false := by
      simp only [NestedLoopJoinExecutor.at_cursors, AbstractExecutor.is_end,
        decide_eq_false_iff_not]
      omega
    have hemp : (ex.at_cursors i j).fed_conds_.isEmpty = false := by
      simp only [NestedLoopJoinExecutor.at_cursors]
      cases hc : ex.fed_conds_ with
      | nil => exact absurd hc hne
      | cons _ _ => rfl
    have hln : (ex.at_cursors i j).left_.Next = .ok l := by
      simp only [NestedLoopJoinExecutor.at_cursors, AbstractExecutor.Next,
        List.getElem?_eq_getElem hi, hl]
    have hrn : (ex.at_cursors i j).right_.Next = .ok r := by
      simp only [NestedLoopJoinExecutor.at_cursors, AbstractExecutor.Next,
        List.getElem?_eq_getElem hj, hr]
    have hfc : (ex.at_cursors i j).for_conds ix_compare l r false
        (ex.at_cursors i j).fed_conds_ = .error e := by
      rw [NestedLoopJoinExecutor.for_conds_at_cursors]; exact herr
    unfold NestedLoopJoinExecutor.seek
    rw [hend, hemp]
    simp only [Bool.false_eq_true, if_false]
    rw [hln, hrn]
    simp only
    rw [hfc]
    exact ⟨_, rfl⟩
  | cons p more ih =>
    intro i j steps hinv hrem hskip hsteps
    have hi : i < ex.left_.tuples.length := by
      by_contra hge
      rw [join_remaining_end _ _ i j (by omega)] at hrem
      cases hrem
    have hj := hinv hi
    rw [join_remaining_cons _ _ i j hi hj] at hrem
    simp only [List.cons_append, List.cons.injEq] at hrem
    obtain ⟨hp, hrest⟩ := hrem
    obtain ⟨k, rfl⟩ : ∃ k, steps = k + 1 := ⟨steps - 1, by simp at hsteps; omega⟩
    have hend : (ex.at_cursors i j).left_.is_end = false := by
      simp only [NestedLoopJoinExecutor.at_cursors, AbstractExecutor.is_end,
        decide_eq_false_iff_not]
      omega
    have hemp : (ex.at_cursors i j).fed_conds_.isEmpty = false := by
      simp only [NestedLoopJoinExecutor.at_cursors]
      cases hc : ex.fed_conds_ with
      | nil => exact absurd hc hne
      | cons _ _ => rfl
    have hln : (ex.at_cursors i j).left_.Next = .ok ex.left_.tuples[i] := by
      simp only [NestedLoopJoinExecutor.at_cursors, AbstractExecutor.Next,
        List.getElem?_eq_getElem hi]
    have hrn : (ex.at_cursors i j).right_.Next = .ok ex.right_.tuples[j] := by
      simp only [NestedLoopJoinExecutor.at_cursors, AbstractExecutor.Next,
        List.getElem?_eq_getElem hj]
    have hfc : (ex.at_cursors i j).for_conds ix_compare ex.left_.tuples[i] ex.right_.tuples[j]
        false (ex.at_cursors i j).fed_conds_ = .ok false := by
      rw [NestedLoopJoinExecutor.for_conds_at_cursors]
      have := hskip p (List.mem_cons_self _ _)
      rw [← hp] at this
      exact this
    unfold NestedLoopJoinExecutor.seek
    rw [hend, hemp]
    simp only [Bool.false_eq_true, if_false]
    rw [hln, hrn]
    simp only
    rw [hfc]
    simp only
    have hre : (ex.at_cursors i j).right_.nextTuple.is_end
        = decide (ex.right_.tuples.length ≤ j + 1) := rfl
    rw [hre]
    have hpos : 0 < ex.right_.tuples.length := List.length_pos.mpr hR
    have hlen : more.length < k := by simp only [List.length_cons] at hsteps; omega
    by_cases hlast : ex.right_.tuples.length ≤ j + 1
    · rw [if_pos hlast] at hrest
      rw [decide_eq_true hlast]
      simp only [if_true]
      exact ih (i + 1) 0 k (fun _ => hpos) hrest
        (fun q hq => hskip q (List.mem_cons_of_mem _ hq)) hlen
    · rw [if_neg hlast] at hrest
      rw [decide_eq_false hlast]
      simp only [Bool.false_eq_true, if_false]
      exact ih i (j + 1) k (fun _ => by omega) hrest
        (fun q hq => hskip q (List.mem_cons_of_mem _ hq)) hlen

/-- C31. A condition whose operator is none of the six relational ones, reached on a
tuple after the conditions before it in the list have passed, makes `beginTuple` and
`nextTuple` fail with `InternalError`, with any fuel above the number of skipped tuples:
in the sequential scan without lock context (the scan visiting first the occupied rids
`skipped`, on which the condition list evaluates to false); in the sequential scan with
any lock context (the loop passing first `n` tuples that `get_record` returns and on
which the condition list evaluates to false, then reading the tuple `record`); and in the
nested-loop join (the walk visiting first the pairs `skipped`, on which the condition list
evaluates to false). -/
theorem unknown_operator_fails (ix_compare : IxCompare) :
    (∀ (ex : SeqScanExecutor) (scan : RmScan) (skipped : List Rid) (rid : Rid)
        (rest : List Rid) (pre : List Condition) (c : Condition) (post : List Condition)
        (code : Nat) (steps : Nat),
      ex.context_ = none →
      scan.Visits (skipped ++ rid :: rest) →
      (∀ r ∈ skipped, ex.fh_.Occupied r ∧
        SeqScanExecutor.eval_conds ix_compare ex.cols_ ex.fed_conds_
          { size := ex.fh_.file_hdr_.record_size, data := ex.fh_.stored r } = .ok false) →
      ex.fh_.Occupied rid →
      ex.fed_conds_ = pre ++ c :: post →
      (∀ p ∈ pre, ∃ cmp,
        SeqScanExecutor.compare ix_compare ex.cols_
          { size := ex.fh_.file_hdr_.record_size, data := ex.fh_.stored rid } p = .ok cmp ∧
        SeqScanExecutor.check_op p.op cmp = .ok true) →
      c.op = .other code →
      (∃ cmp, SeqScanExecutor.compare ix_compare ex.cols_
        { size := ex.fh_.file_hdr_.record_size, data := ex.fh_.stored rid } c = .ok cmp) →
      skipped.length < steps →
      (RmScan.new ex.fh_ = .ok scan →
        ∃ ex', SeqScanExecutor.beginTuple ix_compare steps ex =
          some (.error .InternalError, ex')) ∧
      (∀ before, ex.scan_ = some before → before.next = (.ok (), scan) →
        ∃ ex', SeqScanExecutor.nextTuple ix_compare steps ex =
          some (.error .InternalError, ex'))) ∧
    (∀ (ex : SeqScanExecutor) (scan : RmScan) (n : Nat) (ex₁ : SeqScanExecutor)
        (scan₁ : RmScan) (record : RmRecord) (pre : List Condition) (c : Condition)
        (post : List Condition) (code : Nat) (steps : Nat),
      SeqScanExecutor.Skips ix_compare ex scan n ex₁ scan₁ →
      scan₁.is_end = false →
      (get_record ex₁.fh_ scan₁.rid ex₁.context_).result = .ok record →
      ex₁.fed_conds_ = pre ++ c :: post →
      (∀ p ∈ pre, ∃ cmp,
        SeqScanExecutor.compare ix_compare ex₁.cols_ record p = .ok cmp ∧
        SeqScanExecutor.check_op p.op cmp = .ok true) →
      c.op = .other code →
      (∃ cmp, SeqScanExecutor.compare ix_compare ex₁.cols_ record c = .ok cmp) →
      n < steps →
      (RmScan.new ex.fh_ = .ok scan →
        ∃ ex', SeqScanExecutor.beginTuple ix_compare steps ex =
          some (.error .InternalError, ex')) ∧
      (∀ before, ex.scan_ = some before → before.next = (.ok (), scan) →
        ∃ ex', SeqScanExecutor.nextTuple ix_compare steps ex =
          some (.error .InternalError, ex'))) ∧
    (∀ (ex : NestedLoopJoinExecutor) (skipped : List (RmRecord × RmRecord)) (l r : RmRecord)
        (rest : List (RmRecord × RmRecord)) (pre : List Condition) (c : Condition)
        (post : List Condition) (code : Nat) (steps : Nat),
      ex.right_.tuples ≠ [] →
      (∀ p ∈ skipped, ex.for_conds ix_compare p.1 p.2 false ex.fed_conds_ = .ok false) →
      ex.fed_conds_ = pre ++ c :: post →
      (∀ p ∈ pre, ∃ cmp, ex.compare ix_compare l r p = .ok cmp ∧
        NestedLoopJoinExecutor.check_op p.op cmp = .ok true) →
      c.op = .other code →
      (∃ cmp, ex.compare ix_compare l r c = .ok cmp) →
      skipped.length < steps →
      (join_remaining ex.left_.tuples ex.right_.tuples 0 0 = skipped ++ (l, r) :: rest →
        ∃ ex', ex.beginTuple ix_compare steps = some (.error .InternalError, ex')) ∧
      (join_remaining ex.left_.tuples ex.right_.tuples
          (if ex.right_.tuples.length ≤ ex.right_.cursor + 1 then ex.left_.cursor + 1
           else ex.left_.cursor)
          (if ex.right_.tuples.length ≤ ex.right_.cursor + 1 then 0
           else ex.right_.cursor + 1) = skipped ++ (l, r) :: rest →
        ∃ ex', ex.nextTuple ix_compare steps = some (.error .InternalError, ex'))) := by
  refine ⟨?_, ?_, ?_⟩
  · intro ex scan skipped rid rest pre c post code steps hctx hvis hskip hocc hconds hpre hop
      hcmp hsteps
    obtain ⟨cmp, hcmp⟩ := hcmp
    have heval : SeqScanExecutor.eval_conds ix_compare ex.cols_ ex.fed_conds_
        { size := ex.fh_.file_hdr_.record_size, data := ex.fh_.stored rid } =
        .error .InternalError := by
      unfold SeqScanExecutor.eval_conds
      rw [if_neg (by rw [hconds]; simp)]
      rw [hconds]
      exact SeqScanExecutor.for_conds_unknown_op ix_compare ex.cols_ _ c post code cmp hop hcmp
        pre false hpre
    have hseek := SeqScanExecutor.seek_error ix_compare .InternalError rid rest skipped steps ex
      scan hctx hvis hskip hocc heval hsteps
    constructor
    · intro hnew
      unfold SeqScanExecutor.beginTuple
      rw [hnew]
      exact hseek
    · intro before hscan hnext
      unfold SeqScanExecutor.nextTuple
      rw [hscan]
      simp only [hnext]
      exact hseek
  · intro ex scan n ex₁ scan₁ record pre c post code steps hskips hend hget hconds hpre hop
      hcmp hsteps
    obtain ⟨cmp, hcmp⟩ := hcmp
    have heval : SeqScanExecutor.eval_conds ix_compare ex₁.cols_ ex₁.fed_conds_ record =
        .error .InternalError := by
      unfold SeqScanExecutor.eval_conds
      rw [if_neg (by rw [hconds]; simp)]
      rw [hconds]
      exact SeqScanExecutor.for_conds_unknown_op ix_compare ex₁.cols_ _ c post code cmp hop hcmp
        pre false hpre
    have hseek := SeqScanExecutor.seek_error_after_skips ix_compare .InternalError ex scan n
      ex₁ scan₁ hskips record steps hend hget heval hsteps
    constructor
    · intro hnew
      unfold SeqScanExecutor.beginTuple
      rw [hnew]
      exact hseek
    · intro before hscan hnext
      unfold SeqScanExecutor.nextTuple
      rw [hscan]
      simp only [hnext]
      exact hseek
  · intro ex skipped l r rest pre c post code steps hR hskip hconds hpre hop hcmp hsteps
    obtain ⟨cmp, hcmp⟩ := hcmp
    have hne : ex.fed_conds_ ≠ [] := by rw [hconds]; simp
    have herr : ex.for_conds ix_compare l r false ex.fed_conds_ = .error .InternalError := by
      rw [hconds]
      exact NestedLoopJoinExecutor.join_for_conds_unknown_op ix_compare ex l r c post code cmp hop
        hcmp pre false hpre
    have hpos : 0 < ex.right_.tuples.length := List.length_pos.mpr hR
    constructor
    · intro hrem
      have hL : ¬ ex.left_.tuples.length ≤ 0 := by
        intro hle
        rw [join_remaining_end _ _ 0 0 hle] at hrem
        cases skipped <;> cases hrem
      unfold NestedLoopJoinExecutor.beginTuple
      have hbe : ex.left_.beginTuple.is_end = decide (ex.left_.tuples.length ≤ 0) := rfl
      rw [hbe, decide_eq_false hL]
      simp only [Bool.false_eq_true, if_false]
      exact NestedLoopJoinExecutor.join_seek_error ix_compare ex .InternalError l r rest hne hR herr
        skipped 0 0 steps (fun _ => hpos) hrem hskip hsteps
    · intro hrem
      unfold NestedLoopJoinExecutor.nextTuple
      have hre : ex.right_.nextTuple.is_end =
          decide (ex.right_.tuples.length ≤ ex.right_.cursor + 1) := rfl
      rw [hre]
      by_cases hlast : ex.right_.tuples.length ≤ ex.right_.cursor + 1
      · rw [if_pos hlast, if_pos hlast] at hrem
        rw [decide_eq_true hlast]
        simp only [if_true]
        exact NestedLoopJoinExecutor.join_seek_error ix_compare ex .InternalError l r rest hne hR herr
          skipped (ex.left_.cursor + 1) 0 steps (fun _ => hpos) hrem hskip hsteps
      · rw [if_neg hlast, if_neg hlast] at hrem
        rw [decide_eq_false hlast]
        simp only [Bool.false_eq_true, if_false]
        exact NestedLoopJoinExecutor.join_seek_error ix_compare ex .InternalError l r rest hne hR herr
          skipped ex.left_.cursor (ex.right_.cursor + 1) steps (fun _ => by omega) hrem hskip
          hsteps

theorem RmScan.visits_new (fh : RmFileHandle) (scan : RmScan)
    (hpages : fh.file_hdr_.num_pages = fh.pages.length) (hdata : 2 ≤ fh.file_hdr_.num_pages)
    (hnew : RmScan.new fh = .ok scan) : scan.Visits fh.occupied_rids := by
  obtain ⟨scan', h1, -, h3⟩ := RmScan.new_spec fh hpages hdata
  rw [hnew] at h1
  simp only [Except.ok.injEq] at h1
  subst h1
  exact h3

theorem RmScan.visits_next (scan scan' : RmScan) (r : Rid) (rest : List Rid)
    (hvis : scan.Visits (r :: rest)) (hnext : scan.next = (.ok (), scan')) :
    scan'.Visits rest := by
  obtain ⟨-, -, scan'', h1, h2⟩ := RmScan.Visits.cons scan r rest hvis
  rw [hnext] at h1
  simp only [Prod.mk.injEq, true_and] at h1
  subst h1
  exact h2

/-- Witness for C31. On `exTable` under `t.b = 6 AND t.a ? 0` the scan skips the record
`(1, 5)` and evaluates the unknown operator on `(2, 6)`; with the lock
context of `exLockingScan` and `t.a ? 0` alone, `get_record` takes the `S` lock on the
first record and the unknown operator is evaluated on it; the join of `exJoinLeft` and
`exJoinRight` under `l.a = r.b AND l.a ? r.b` skips the pairs up to `(2, 2)` and evaluates
the unknown operator there. -/
theorem unknown_operator_fails_witness :
    RmScan.new exTable = .ok exScan ∧
    exTable.occupied_rids =
      [{ page_no := 1, slot_no := 0 }] ++
        { page_no := 1, slot_no := 1 } :: [{ page_no := 1, slot_no := 2 }] ∧
    (∃ ex', SeqScanExecutor.beginTuple exCompare 5 exUnknownExecutor =
      some (.error .InternalError, ex')) ∧
    (∃ ex', SeqScanExecutor.nextTuple exCompare 5
        { exUnknownExecutor with scan_ := some exScan } =
      some (.error .InternalError, ex')) ∧
    (get_record exTable { page_no := 1, slot_no := 0 } exLockingScan.context_).result =
      .ok { size := 2, data := [1, 5] } ∧
    (∃ ex', SeqScanExecutor.beginTuple exCompare 5 exLockingScan =
      some (.error .InternalError, ex')) ∧
    (∃ ex', (NestedLoopJoinExecutor.new exJoinLeft exJoinRight exJoinUnknownConds).beginTuple
        exCompare 5 = some (.error .InternalError, ex')) ∧
    (∃ ex', (NestedLoopJoinExecutor.new exJoinLeft exJoinRight exJoinUnknownConds).nextTuple
        exCompare 5 = some (.error .InternalError, ex')) := by
  have hnew : RmScan.new exTable = .ok exScan := by decide
  have hocc : exTable.occupied_rids =
      [{ page_no := 1, slot_no := 0 }] ++
        { page_no := 1, slot_no := 1 } :: [{ page_no := 1, slot_no := 2 }] := by decide
  have hvis : exScan.Visits
      ([{ page_no := 1, slot_no := 0 }] ++
        { page_no := 1, slot_no := 1 } :: [{ page_no := 1, slot_no := 2 }]) :=
    hocc ▸ RmScan.visits_new exTable exScan (by decide) (by decide) hnew
  have hvis' : ({ file_handle_ := exTable, rid_ := { page_no := 1, slot_no := 1 } } :
      RmScan).Visits ([] ++ { page_no := 1, slot_no := 1 } :: [{ page_no := 1, slot_no := 2 }]) :=
    RmScan.visits_next exScan _ _ _ hvis (by decide)
  refine ⟨hnew, hocc, ?_, ?_, by decide, ?_, ?_, ?_⟩
  · exact ((unknown_operator_fails exCompare).1 exUnknownExecutor exScan
      [{ page_no := 1, slot_no := 0 }] { page_no := 1, slot_no := 1 }
      [{ page_no := 1, slot_no := 2 }] [exUnknownConds.get ⟨0, by decide⟩]
      (exUnknownConds.get ⟨1, by decide⟩) [] 7 5 rfl hvis (by decide) (by decide) (by decide)
      (fun p hp => List.mem_singleton.mp hp ▸ ⟨0, by decide⟩) (by decide) ⟨2, by decide⟩
      (by decide)).1 hnew
  · exact ((unknown_operator_fails exCompare).1
      { exUnknownExecutor with scan_ := some exScan }
      { file_handle_ := exTable, rid_ := { page_no := 1, slot_no := 1 } }
      [] { page_no := 1, slot_no := 1 }
      [{ page_no := 1, slot_no := 2 }] [exUnknownConds.get ⟨0, by decide⟩]
      (exUnknownConds.get ⟨1, by decide⟩) [] 7 5 rfl hvis' (by decide) (by decide) (by decide)
      (fun p hp => List.mem_singleton.mp hp ▸ ⟨0, by decide⟩) (by decide) ⟨2, by decide⟩
      (by decide)).2 exScan rfl (by decide)
  · exact ((unknown_operator_fails exCompare).2.1 exLockingScan exScan 0 exLockingScan exScan
      { size := 2, data := [1, 5] } [] (exUnknownConds.get ⟨1, by decide⟩) [] 7 5
      (.done _ _) (by decide) (by decide) (by decide)
      (fun p hp => absurd hp (List.not_mem_nil p)) (by decide) ⟨1, by decide⟩
      (by decide)).1 hnew
  · exact ((unknown_operator_fails exCompare).2.2
      (NestedLoopJoinExecutor.new exJoinLeft exJoinRight exJoinUnknownConds)
      [({ size := 1, data := [1] }, { size := 1, data := [2] }),
       ({ size := 1, data := [1] }, { size := 1, data := [3] }),
       ({ size := 1, data := [1] }, { size := 1, data := [4] })]
      { size := 1, data := [2] } { size := 1, data := [2] }
      [({ size := 1, data := [2] }, { size := 1, data := [3] }),
       ({ size := 1, data := [2] }, { size := 1, data := [4] }),
       ({ size := 1, data := [3] }, { size := 1, data := [2] }),
       ({ size := 1, data := [3] }, { size := 1, data := [3] }),
       ({ size := 1, data := [3] }, { size := 1, data := [4] })]
      exJoinConds (exJoinUnknownConds.get ⟨1, by decide⟩) [] 7 5 (by decide) (by decide)
      (by decide) (fun p hp => List.mem_singleton.mp hp ▸ ⟨0, by decide⟩) (by decide)
      ⟨0, by decide⟩ (by decide)).1 (by decide)
  · exact ((unknown_operator_fails exCompare).2.2
      (NestedLoopJoinExecutor.new exJoinLeft exJoinRight exJoinUnknownConds)
      [({ size := 1, data := [1] }, { size := 1, data := [3] }),
       ({ size := 1, data := [1] }, { size := 1, data := [4] })]
      { size := 1, data := [2] } { size := 1, data := [2] }
      [({ size := 1, data := [2] }, { size := 1, data := [3] }),
       ({ size := 1, data := [2] }, { size := 1, data := [4] }),
       ({ size := 1, data := [3] }, { size := 1, data := [2] }),
       ({ size := 1, data := [3] }, { size := 1, data := [3] }),
       ({ size := 1, data := [3] }, { size := 1, data := [4] })]
      exJoinConds (exJoinUnknownConds.get ⟨1, by decide⟩) [] 7 5 (by decide) (by decide)
      (by decide) (fun p hp => List.mem_singleton.mp hp ▸ ⟨0, by decide⟩) (by decide)
      ⟨0, by decide⟩ (by decide)).2 (by decide)

/-! ## The free list of the reachable record files -/

theorem count_true_le_of_clear :
    ∀ (bm : List Bool) (n : Nat), (∀ i, n ≤ i → bm.getD i false = false) →
      bm.count true ≤ n ∧ (bm.count true < n → ∃ i, i < n ∧ bm.getD i false = false) := by
  intro bm
  induction bm with
  | nil => intro n _; exact ⟨by simp, fun h => ⟨0, by simpa using h, rfl⟩⟩
  | cons b t ih =>
    intro n hclear
    cases n with
    | zero =>
      have hb : b = false := by simpa using hclear 0 (le_refl _)
      have ht := (ih 0 (fun i _ => by simpa using hclear (i + 1) (by omega))).1
      subst hb
      exact ⟨by simpa using ht, fun h => absurd h (Nat.not_lt_zero _)⟩
    | succ m =>
      obtain ⟨h1, h2⟩ := ih m (fun i hi => by simpa using hclear (i + 1) (by omega))
      cases b with
      | false =>
        refine ⟨?_, fun _ => ⟨0, by omega, rfl⟩⟩
        simp only [List.count_cons, Bool.false_eq_true, beq_iff_eq, if_false, add_zero]
        omega
      | true =>
        simp only [List.count_cons, beq_self_eq_true, if_true]
        refine ⟨by omega, fun h => ?_⟩
        obtain ⟨i, hi, hb⟩ := h2 (by omega)
        exact ⟨i + 1, by omega, by simpa using hb⟩

theorem RmPage.Sound.free_slot (n : Int) (bs : Nat) (page : RmPage) (h : page.Sound n bs)
    (h0 : 0 ≤ n) :
    page.page_hdr.num_records ≤ n ∧
    (page.page_hdr.num_records < n →
      ∃ s : Int, 0 ≤ s ∧ s < n ∧ Bitmap.is_set page.bitmap s = false) := by
  obtain ⟨-, -, hpop, hclear, -⟩ := h
  obtain ⟨h1, h2⟩ := count_true_le_of_clear page.bitmap n.toNat
    (fun i hi => hclear i (by omega))
  unfold Bitmap.popcount at hpop
  refine ⟨by omega, fun hlt => ?_⟩
  obtain ⟨i, hi, hb⟩ := h2 (by omega)
  refine ⟨(i : Int), by omega, by omega, ?_⟩
  unfold Bitmap.is_set
  rw [List.getD_eq_getElem?_getD] at hb
  simp [hb]

theorem RmPage.Sound.set_bit (n : Int) (bs : Nat) (page : RmPage) (h : page.Sound n bs)
    (s : Int) (k : Nat) (x : List Byte) (hs0 : 0 ≤ s) (hs1 : s < n) (hn : n ≤ 8 * (bs : Int))
    (hbit : Bitmap.is_set page.bitmap s = false) :
    RmPage.Sound n bs
      { page_hdr := { page.page_hdr with num_records := page.page_hdr.num_records + 1 },
        bitmap := Bitmap.set page.bitmap s, slots := page.slots.set k x } := by
  obtain ⟨hlen, hslots, hpop, hclear, hnext⟩ := h
  refine ⟨by simp [Bitmap.set, hlen], by simp [hslots], ?_, ?_, hnext⟩
  · simp only
    rw [Bitmap.popcount_set _ _ hs0 (by rw [hlen]; omega) hbit, hpop]
  · intro i hi
    simp only [Bitmap.set]
    have hne : s.toNat ≠ i := by omega
    rw [List.getD_eq_getElem?_getD, List.getElem?_set_ne hne, ← List.getD_eq_getElem?_getD]
    exact hclear i hi

theorem RmPage.Sound.reset_bit (n : Int) (bs : Nat) (page : RmPage) (h : page.Sound n bs)
    (s : Int) (hs0 : 0 ≤ s) (hs1 : s < n) (hn : n ≤ 8 * (bs : Int))
    (hbit : Bitmap.is_set page.bitmap s = true) :
    RmPage.Sound n bs
      { page with
        page_hdr := { page.page_hdr with num_records := page.page_hdr.num_records - 1 },
        bitmap := Bitmap.reset page.bitmap s } ∧ 1 ≤ page.page_hdr.num_records := by
  obtain ⟨hlen, hslots, hpop, hclear, hnext⟩ := h
  have hreset := Bitmap.popcount_reset page.bitmap s hs0 (by rw [hlen]; omega) hbit
  have hpos : 1 ≤ Bitmap.popcount page.bitmap := by
    have h0 : 0 ≤ Bitmap.popcount (Bitmap.reset page.bitmap s) := by
      unfold Bitmap.popcount; omega
    omega
  refine ⟨⟨by simp [Bitmap.reset, hlen], hslots, ?_, ?_, hnext⟩, by omega⟩
  · simp only
    rw [Bitmap.popcount_reset _ _ hs0 (by rw [hlen]; omega) hbit, hpop]
  · intro i hi
    simp only [Bitmap.reset]
    have hne : s.toNat ≠ i := by omega
    rw [List.getD_eq_getElem?_getD, List.getElem?_set_ne hne, ← List.getD_eq_getElem?_getD]
    exact hclear i hi

theorem RmPage.Sound.set_slot (n : Int) (bs : Nat) (page : RmPage) (h : page.Sound n bs)
    (k : Nat) (x : List Byte) :
    RmPage.Sound n bs { page with slots := page.slots.set k x } := by
  obtain ⟨hlen, hslots, hpop, hclear, hnext⟩ := h
  exact ⟨hlen, by simp [hslots], hpop, hclear, hnext⟩

theorem RmPage.Sound.fresh_page (n : Int) (bs : Nat) (record_size : Nat) :
    RmPage.Sound n bs
      { page_hdr := { next_free_page_no := RM_NO_PAGE, num_records := 0 },
        bitmap := Bitmap.init bs,
        slots := List.replicate n.toNat (List.replicate record_size 0) } := by
  refine ⟨by simp [Bitmap.init], by simp, Bitmap.popcount_init bs, ?_, rfl⟩
  intro i _
  simp only [Bitmap.init, List.getD_eq_getElem?_getD]
  by_cases hi : i < 8 * bs
  · simp [List.getElem?_replicate, hi]
  · simp [List.getElem?_replicate, hi]

/-- Whatever the lock context, `delete_record` leaves the file as it was or, on a page
whose record count does not become `num_records_per_page`, that file with the bit of the
slot cleared and the record count lowered. -/
theorem delete_record_file_eq (fh : RmFileHandle) (rid : Rid) (ctx : Option Context) :
    (delete_record fh rid ctx).file = fh ∨
    ∃ ph, fetch_page_handle fh rid.page_no = .ok ph ∧ fh.slot_in_range rid.slot_no ∧
      (ph.page.page_hdr.num_records - 1 ≠ fh.file_hdr_.num_records_per_page →
        (delete_record fh rid ctx).file =
          fh.write_page rid.page_no
            { ph.page with
              page_hdr :=
                { ph.page.page_hdr with num_records := ph.page.page_hdr.num_records - 1 },
              bitmap := Bitmap.reset ph.page.bitmap rid.slot_no }) := by
  unfold delete_record
  rcases hl : Context.lock_exclusive ctx rid fh.fd_ with ⟨lr, ctx1⟩
  cases lr with
  | error e => left; rfl
  | ok b =>
    simp only
    cases hf : fetch_page_handle fh rid.page_no with
    | error e => left; rfl
    | ok ph =>
      simp only
      obtain ⟨-, -, hpn, -⟩ := fetch_page_handle_eq_ok fh rid.page_no ph hf
      by_cases hs : fh.slot_in_range rid.slot_no
      · right
        rw [if_pos hs]
        refine ⟨ph, rfl, hs, fun hne => ?_⟩
        rw [if_neg hne, hpn]
      · left
        simp only [hs, if_false]

/-- The file that `insert_record(rid, buf)` leaves: the file `fh1` that the guard has
left, or that file with the bit of the slot set, the record written, the record count
raised, and the head of the free list replaced when the page has become full. -/
theorem insert_record_at_file_eq (fh : RmFileHandle) (rid : Rid) (buf : List Byte) :
    ∃ fh1, fh1 = (if rid.page_no < fh.file_hdr_.num_pages then (create_new_page_handle fh).2
        else fh) ∧
    ((insert_record_at fh rid buf).file = fh1 ∨
     ∃ ph, fetch_page_handle fh1 rid.page_no = .ok ph ∧ fh1.slot_in_range rid.slot_no ∧
      (insert_record_at fh rid buf).file.pages = fh1.pages.set rid.page_no.toNat
        { page_hdr := { ph.page.page_hdr with num_records := ph.page.page_hdr.num_records + 1 },
          bitmap := Bitmap.set ph.page.bitmap rid.slot_no,
          slots := ph.page.slots.set rid.slot_no.toNat (buf.take fh1.file_hdr_.record_size) } ∧
      (insert_record_at fh rid buf).file.file_hdr_ =
        (if ph.page.page_hdr.num_records + 1 = fh1.file_hdr_.num_records_per_page then
          { fh1.file_hdr_ with first_free_page_no := ph.page.page_hdr.next_free_page_no }
         else fh1.file_hdr_)) := by
  refine ⟨_, rfl, ?_⟩
  unfold insert_record_at
  simp only
  generalize (if rid.page_no < fh.file_hdr_.num_pages then (create_new_page_handle fh).2
    else fh) = fh1
  cases hf : fetch_page_handle fh1 rid.page_no with
  | error e => left; rfl
  | ok ph =>
    simp only
    obtain ⟨-, -, hpn, -⟩ := fetch_page_handle_eq_ok fh1 rid.page_no ph hf
    by_cases hs : fh1.slot_in_range rid.slot_no
    · right
      rw [if_pos hs]
      refine ⟨ph, rfl, hs, ?_, ?_⟩
      · split_ifs <;> simp [hpn]
      · simp only [RmFileHandle.write_page_file_hdr]
        split_ifs <;> rfl
    · left
      simp only [hs, if_false]

theorem RmFileHandle.FreeListInvariant.free_list_set_page (fh fh' : RmFileHandle) (p : Nat)
    (page' : RmPage) (h : fh.FreeListInvariant)
    (hnp : fh'.file_hdr_.num_pages = fh.file_hdr_.num_pages)
    (hn : fh'.file_hdr_.num_records_per_page = fh.file_hdr_.num_records_per_page)
    (hb : fh'.file_hdr_.bitmap_size = fh.file_hdr_.bitmap_size)
    (hpages : fh'.pages = fh.pages.set p page')
    (hsound : 1 ≤ p → page'.Sound fh.file_hdr_.num_records_per_page fh.file_hdr_.bitmap_size)
    (hhead : fh'.file_hdr_.first_free_page_no = RM_NO_PAGE ∨
      1 ≤ fh'.file_hdr_.first_free_page_no ∧
      ∃ page, fh'.pages[fh'.file_hdr_.first_free_page_no.toNat]? = some page ∧
        page.page_hdr.num_records < fh.file_hdr_.num_records_per_page) :
    fh'.FreeListInvariant := by
  obtain ⟨h1, h2, h3, h4, h5, -⟩ := h
  refine ⟨by rw [hnp, hpages, h1]; simp, by rw [hnp]; exact h2, by rw [hn]; exact h3,
    by rw [hn, hb]; exact h4, ?_, by rw [hn]; exact hhead⟩
  intro x hx
  rw [hn, hb]
  rw [hpages] at hx
  cases p with
  | zero =>
    have : (fh.pages.set 0 page').tail = fh.pages.tail := by cases fh.pages <;> rfl
    rw [this] at hx
    exact h5 x hx
  | succ q =>
    rcases mem_tail_set _ _ _ _ hx with hx | rfl
    · exact h5 x hx
    · exact hsound (by omega)

theorem RmFileHandle.FreeListInvariant.free_list_new_page (fh : RmFileHandle)
    (h : fh.FreeListInvariant) :
    (create_new_page_handle fh).2.FreeListInvariant ∧
    ∃ page, (create_new_page_handle fh).2.pages[fh.pages.length]? = some page ∧
      page.page_hdr.num_records = 0 ∧
      page.Sound fh.file_hdr_.num_records_per_page fh.file_hdr_.bitmap_size ∧
      (create_new_page_handle fh).1 = { page_no := fh.pages.length, page := page } := by
  obtain ⟨h1, h2, h3, h4, h5, -⟩ := h
  have hsound := RmPage.Sound.fresh_page fh.file_hdr_.num_records_per_page
    fh.file_hdr_.bitmap_size fh.file_hdr_.record_size
  have hget : (create_new_page_handle fh).2.pages[fh.pages.length]? =
      some { page_hdr := { next_free_page_no := RM_NO_PAGE, num_records := 0 },
             bitmap := Bitmap.init fh.file_hdr_.bitmap_size,
             slots := List.replicate fh.file_hdr_.num_records_per_page.toNat
               (List.replicate fh.file_hdr_.record_size 0) } := by
    simp [create_new_page_handle]
  refine ⟨⟨?_, ?_, h3, h4, ?_, Or.inr ⟨?_, ?_⟩⟩, _, hget, rfl, hsound, rfl⟩
  · simp only [create_new_page_handle, List.length_append, List.length_singleton]
    push_cast; omega
  · simp only [create_new_page_handle]; omega
  · intro x hx
    rcases mem_tail_append_singleton _ _ _ hx with hx | rfl
    · exact h5 x hx
    · exact hsound
  · simp only [create_new_page_handle]; omega
  · have : ((create_new_page_handle fh).2.file_hdr_.first_free_page_no).toNat =
        fh.pages.length := by
      simp [create_new_page_handle]
    rw [this]
    exact ⟨_, hget, h3⟩

/-- The page handle that `create_page_handle` returns on a file with the invariant: the
page at the head of the free list of the file it leaves, which holds fewer records than it
has slots. -/
theorem RmFileHandle.FreeListInvariant.free_list_create_page_handle (fh : RmFileHandle)
    (h : fh.FreeListInvariant) :
    (Rucbase.create_page_handle fh).2.FreeListInvariant ∧
    (Rucbase.create_page_handle fh).2.file_hdr_.num_records_per_page =
      fh.file_hdr_.num_records_per_page ∧
    (Rucbase.create_page_handle fh).2.file_hdr_.bitmap_size = fh.file_hdr_.bitmap_size ∧
    ∃ ph, (Rucbase.create_page_handle fh).1 = .ok ph ∧
      ph.page_no = (Rucbase.create_page_handle fh).2.file_hdr_.first_free_page_no ∧
      1 ≤ ph.page_no ∧
      (Rucbase.create_page_handle fh).2.pages[ph.page_no.toNat]? = some ph.page ∧
      ph.page.page_hdr.num_records < fh.file_hdr_.num_records_per_page ∧
      ph.page.Sound fh.file_hdr_.num_records_per_page fh.file_hdr_.bitmap_size ∧
      (fh.file_hdr_.first_free_page_no ≠ RM_NO_PAGE →
        (Rucbase.create_page_handle fh).2 = fh) ∧
      (fh.file_hdr_.first_free_page_no = RM_NO_PAGE → (ph.page_no : Int) = fh.pages.length) := by
  unfold Rucbase.create_page_handle
  by_cases hff : fh.file_hdr_.first_free_page_no = RM_NO_PAGE
  · rw [if_pos hff]
    obtain ⟨hinv, page, hget, hnum, hsound, hph⟩ :=
      RmFileHandle.FreeListInvariant.free_list_new_page fh h
    obtain ⟨h1, h2, h3, h4, h5, -⟩ := h
    refine ⟨hinv, rfl, rfl, _, rfl, ?_, ?_, ?_, ?_, ?_, fun hne => absurd hff hne, ?_⟩
    all_goals rw [hph]
    · rfl
    · simp only; omega
    · simp only [Int.toNat_ofNat]; exact hget
    · rw [hnum]; exact h3
    · exact hsound
    · intro _; rfl
  · rw [if_neg hff]
    have hinv := h
    obtain ⟨h1, h2, h3, h4, h5, h6⟩ := h
    rcases h6 with h6 | ⟨h61, page, hpage, hnum⟩
    · exact absurd h6 hff
    · have hlt : fh.file_hdr_.first_free_page_no < fh.file_hdr_.num_pages := by
        have := (List.getElem?_eq_some_iff.mp hpage).1
        omega
      rw [fetch_page_handle_ok fh _ page (by omega) hlt hpage]
      exact ⟨hinv, rfl, rfl, _, rfl, rfl, h61, hpage, hnum,
        h5 page (mem_tail_of_getElem? _ _ _ (by omega) hpage), fun _ => rfl,
        fun hc => absurd hc hff⟩

theorem RmFileHandle.FreeListInvariant.free_list_of_fresh (fh : RmFileHandle) (h : fh.Fresh) :
    fh.FreeListInvariant := by
  obtain ⟨h1, h2, h3, h4, h5⟩ := h
  refine ⟨by rw [h1, h2]; rfl, by omega, by omega, h5, ?_, Or.inl h3⟩
  intro page hpage
  have : fh.pages.tail = [] := List.length_eq_zero.mp (by rw [List.length_tail, h1])
  rw [this] at hpage
  cases hpage

theorem RmFileHandle.FreeListInvariant.free_list_insert_record (fh : RmFileHandle) (buf : List Byte)
    (ctx : Option Context) (h : fh.FreeListInvariant) :
    (Rucbase.insert_record fh buf ctx).file.FreeListInvariant := by
  obtain ⟨hinv1, hn, hb, ph, hc, hpn, hp1, hget, hnum, hsound, -, -⟩ :=
    RmFileHandle.FreeListInvariant.free_list_create_page_handle fh h
  rcases insert_record_file_cases fh buf ctx with hfile | ⟨ph', hc', hs, hfile⟩
  · rw [hfile]; exact hinv1
  · rw [hc] at hc'
    simp only [Except.ok.injEq] at hc'
    subst hc'
    rw [hfile]
    obtain ⟨hs0, hs1⟩ := hs
    have hinvc := hinv1
    obtain ⟨g1, g2, g3, g4, -, -⟩ := hinv1
    have hclear := (Bitmap.first_bit_spec false ph.page.bitmap
      (Rucbase.create_page_handle fh).2.file_hdr_.num_records_per_page (by omega)).2.2.1 hs1
    have hlen : ph.page_no.toNat < (Rucbase.create_page_handle fh).2.pages.length :=
      (List.getElem?_eq_some_iff.mp hget).1
    refine RmFileHandle.FreeListInvariant.free_list_set_page (Rucbase.create_page_handle fh).2 _
      ph.page_no.toNat _ hinvc rfl rfl rfl rfl ?_ ?_
    · intro _
      rw [hn, hb]
      rw [hn] at hs0 hs1 hclear
      exact RmPage.Sound.set_bit _ _ ph.page hsound _ _ _ hs0 hs1 (by rw [← hn, ← hb]; exact g4)
        hclear
    · simp only [insert_record_file]
      by_cases hfull : ph.page.page_hdr.num_records + 1 =
          (Rucbase.create_page_handle fh).2.file_hdr_.num_records_per_page
      · left
        rw [if_pos hfull]
        exact hsound.2.2.2.2
      · right
        rw [if_neg hfull, ← hpn]
        refine ⟨hp1, _, List.getElem?_set_self hlen, ?_⟩
        simp only
        rw [hn] at hfull ⊢
        omega

theorem RmFileHandle.FreeListInvariant.free_list_delete_record (fh : RmFileHandle) (rid : Rid)
    (ctx : Option Context) (h : fh.FreeListInvariant) (hocc : fh.Occupied rid) :
    (Rucbase.delete_record fh rid ctx).file.FreeListInvariant := by
  obtain ⟨hp1, hp2, hsr, page, hpage, hbit⟩ := fh.slot_bit_eq_some rid true hocc
  rcases delete_record_file_eq fh rid ctx with hfile | ⟨ph, hf, hs, hfile⟩
  · rw [hfile]; exact h
  · obtain ⟨-, -, hpn, hph⟩ := fetch_page_handle_eq_ok fh rid.page_no ph hf
    rw [hpage] at hph
    simp only [Option.some.injEq] at hph
    subst hph
    have hinv := h
    obtain ⟨g1, g2, g3, g4, g5, g6⟩ := h
    have hsound := g5 ph.page (mem_tail_of_getElem? _ _ _ (by omega) hpage)
    obtain ⟨hs0, hs1⟩ := hsr
    obtain ⟨hsound', hpos⟩ :=
      RmPage.Sound.reset_bit _ _ ph.page hsound rid.slot_no hs0 hs1 g4 hbit
    have hle := (RmPage.Sound.free_slot _ _ ph.page hsound (by omega)).1
    rw [hfile (by omega)]
    have hlen : rid.page_no.toNat < fh.pages.length := (List.getElem?_eq_some_iff.mp hpage).1
    refine RmFileHandle.FreeListInvariant.free_list_set_page fh _ rid.page_no.toNat _ hinv rfl rfl rfl rfl
      (fun _ => hsound') ?_
    rcases g6 with g6 | ⟨g61, page0, hpage0, hnum0⟩
    · left; exact g6
    · right
      refine ⟨g61, ?_⟩
      simp only [RmFileHandle.write_page_file_hdr, RmFileHandle.write_page_pages]
      by_cases heq : rid.page_no.toNat = fh.file_hdr_.first_free_page_no.toNat
      · rw [← heq]
        refine ⟨_, List.getElem?_set_self hlen, ?_⟩
        simp only
        omega
      · rw [List.getElem?_set_ne heq]
        exact ⟨page0, hpage0, hnum0⟩

theorem RmFileHandle.FreeListInvariant.free_list_insert_record_at (fh : RmFileHandle) (rid : Rid)
    (buf : List Byte) (h : fh.FreeListInvariant) (hvac : fh.Vacant rid) :
    (Rucbase.insert_record_at fh rid buf).file.FreeListInvariant := by
  obtain ⟨hp1, hp2, hsr, page, hpage, hbit⟩ := fh.slot_bit_eq_some rid false hvac
  obtain ⟨hinv1, newp, hnew, hnum, hsnew, -⟩ := RmFileHandle.FreeListInvariant.free_list_new_page fh h
  obtain ⟨fh1, hfh1, hcases⟩ := insert_record_at_file_eq fh rid buf
  rw [if_pos hp2] at hfh1
  subst hfh1
  obtain ⟨g1, g2, g3, g4, g5, -⟩ := h
  have hlen : rid.page_no.toNat < fh.pages.length := (List.getElem?_eq_some_iff.mp hpage).1
  have hpage1 : (create_new_page_handle fh).2.pages[rid.page_no.toNat]? = some page := by
    simp only [create_new_page_handle]
    rw [List.getElem?_append_left hlen]
    exact hpage
  rcases hcases with hfile | ⟨ph, hf, hs, hpages, hhdr⟩
  · rw [hfile]; exact hinv1
  · obtain ⟨-, -, hpn, hph⟩ := fetch_page_handle_eq_ok _ rid.page_no ph hf
    rw [hpage1] at hph
    simp only [Option.some.injEq] at hph
    subst hph
    have hsound := g5 ph.page (mem_tail_of_getElem? _ _ _ (by omega) hpage)
    obtain ⟨hs0, hs1⟩ := hsr
    refine RmFileHandle.FreeListInvariant.free_list_set_page (create_new_page_handle fh).2 _
      rid.page_no.toNat _ hinv1 ?_ ?_ ?_ hpages ?_ ?_
    · rw [hhdr]; split_ifs <;> rfl
    · rw [hhdr]; split_ifs <;> rfl
    · rw [hhdr]; split_ifs <;> rfl
    · intro _
      exact RmPage.Sound.set_bit _ _ ph.page hsound _ _ _ hs0 hs1 g4 hbit
    · rw [hhdr, hpages]
      by_cases hfull : ph.page.page_hdr.num_records + 1 =
          (create_new_page_handle fh).2.file_hdr_.num_records_per_page
      · left
        rw [if_pos hfull]
        exact hsound.2.2.2.2
      · right
        rw [if_neg hfull]
        have hff : (create_new_page_handle fh).2.file_hdr_.first_free_page_no =
            (fh.pages.length : Int) := rfl
        rw [hff]
        refine ⟨by omega, newp, ?_, by rw [hnum]; exact g3⟩
        simp only [Int.toNat_ofNat]
        rw [List.getElem?_set_ne (by omega)]
        exact hnew

theorem RmFileHandle.FreeListInvariant.free_list_update_record (fh : RmFileHandle) (rid : Rid)
    (buf : List Byte) (ctx : Option Context) (h : fh.FreeListInvariant) :
    (Rucbase.update_record fh rid buf ctx).file.FreeListInvariant := by
  rcases update_record_file_cases fh rid buf ctx with hfile | ⟨ph, hf, hs, hfile⟩
  · rw [hfile]; exact h
  · obtain ⟨hp0, -, hpn, hph⟩ := fetch_page_handle_eq_ok fh rid.page_no ph hf
    have hinv := h
    obtain ⟨g1, g2, g3, g4, g5, g6⟩ := h
    have hlen : rid.page_no.toNat < fh.pages.length := (List.getElem?_eq_some_iff.mp hph).1
    rw [hfile]
    refine RmFileHandle.FreeListInvariant.free_list_set_page fh _ rid.page_no.toNat _ hinv rfl rfl rfl rfl
      (fun h1 => RmPage.Sound.set_slot _ _ ph.page
        (g5 ph.page (mem_tail_of_getElem? _ _ _ h1 hph)) _ _) ?_
    rcases g6 with g6 | ⟨g61, page0, hpage0, hnum0⟩
    · left; exact g6
    · right
      refine ⟨g61, ?_⟩
      simp only [RmFileHandle.write_page_file_hdr, RmFileHandle.write_page_pages]
      by_cases heq : rid.page_no.toNat = fh.file_hdr_.first_free_page_no.toNat
      · rw [← heq]
        refine ⟨_, List.getElem?_set_self hlen, ?_⟩
        simp only
        rw [← heq, hph] at hpage0
        simp only [Option.some.injEq] at hpage0
        rw [hpage0]
        exact hnum0
      · rw [List.getElem?_set_ne heq]
        exact ⟨page0, hpage0, hnum0⟩

theorem RmFileHandle.Reachable.free_list_invariant (fh : RmFileHandle) (h : fh.Reachable) :
    fh.FreeListInvariant := by
  induction h with
  | fresh fh hfresh => exact RmFileHandle.FreeListInvariant.free_list_of_fresh fh hfresh
  | step fh op ctx _ hop ih =>
    cases op with
    | insert_record buf => exact RmFileHandle.FreeListInvariant.free_list_insert_record fh buf ctx ih
    | delete_record rid => exact RmFileHandle.FreeListInvariant.free_list_delete_record fh rid ctx ih hop
    | insert_record_at rid buf =>
      exact RmFileHandle.FreeListInvariant.free_list_insert_record_at fh rid buf ih hop
    | update_record rid buf =>
      exact RmFileHandle.FreeListInvariant.free_list_update_record fh rid buf ctx ih

theorem _lock_IX_on_table_error (txn : Transaction) (tab_fd : Int) (lt : LockTable) (e : Error)
    (h : (_lock_IX_on_table txn tab_fd lt).result = .error e) : e ≠ .MemoryFault := by
  revert h
  unfold _lock_IX_on_table
  split
  · next e' txn₁ heq =>
    intro h
    simp only [Except.error.injEq] at h
    rw [← h, ensure_txn_can_lock_error txn txn₁ e' heq]
    simp
  · simp only
    split
    · split_ifs <;> intro h <;> simp only [Except.error.injEq, reduceCtorEq] at h
      rw [← h]; simp
    · split
      · next e' hch =>
        intro h
        simp only [Except.error.injEq] at h
        rw [← h, check_lock_conflict_error _ _ _ e' hch]
        simp
      · intro h; simp at h

theorem lock_exclusive_on_record_error (txn : Transaction) (rid : Rid) (tab_fd : Int)
    (lt : LockTable) (e : Error)
    (h : (lock_exclusive_on_record txn rid tab_fd lt).result = .error e) : e ≠ .MemoryFault := by
  revert h
  unfold lock_exclusive_on_record
  split
  · next e' txn₁ heq =>
    intro h
    simp only [Except.error.injEq] at h
    rw [← h, ensure_txn_can_lock_error txn txn₁ e' heq]
    simp
  · next b txn₁ heq =>
    simp only
    have htab := _lock_IX_on_table_error txn₁ tab_fd (lt.touch (LockDataId.record tab_fd rid))
    split
    · next e' txn₂ lt₂ heq₂ =>
      intro h
      simp only [Except.error.injEq] at h
      rw [heq₂] at htab
      rw [← h]
      exact htab e' rfl
    · split
      · split_ifs <;> intro h <;> simp only [Except.error.injEq, reduceCtorEq] at h
        rw [← h]; simp
      · split
        · next e' hch =>
          intro h
          simp only [Except.error.injEq] at h
          rw [← h, check_lock_conflict_error _ _ _ e' hch]
          simp
        · intro h; simp at h

/-- C39. In every state of a record file reachable from a freshly created file through
`insert_record(buf)`, `delete_record` of an occupied slot, `insert_record(rid, buf)` at a
vacant slot of an existing page and `update_record`, whatever the lock contexts:
`first_free_page_no` is `RM_NO_PAGE` or the number of an existing data page with a clear
bitmap bit among its slots; `insert_record` without lock context returns; with any lock
context it never leaves the slot array (no `MemoryFault`), and the rid it returns names a
slot of the slot array that is not occupied. -/
theorem reachable_free_list_head (fh : RmFileHandle) (h : fh.Reachable) :
    (fh.file_hdr_.first_free_page_no = RM_NO_PAGE ∨
      fh.HasFreeSlot fh.file_hdr_.first_free_page_no) ∧
    (∀ buf, ∃ rid, (insert_record fh buf none).result = .ok rid) ∧
    (∀ buf context, (insert_record fh buf context).result ≠ .error .MemoryFault) ∧
    ∀ buf context rid, (insert_record fh buf context).result = .ok rid →
      fh.slot_in_range rid.slot_no ∧ ¬ fh.Occupied rid := by
  have hinv := RmFileHandle.Reachable.free_list_invariant fh h
  obtain ⟨hinv1, hn, hb, ph, hc, hpn, hp1, hget, hnum, hsound, hsame, hnewp⟩ :=
    RmFileHandle.FreeListInvariant.free_list_create_page_handle fh hinv
  obtain ⟨g1, g2, g3, g4, g5, g6⟩ := hinv
  have hfree := (RmPage.Sound.free_slot _ _ ph.page hsound (by omega)).2 hnum
  obtain ⟨f0, f1, f2⟩ := Bitmap.first_bit_lt false ph.page.bitmap
    fh.file_hdr_.num_records_per_page hfree
  have hrange : (create_page_handle fh).2.slot_in_range
      (Bitmap.first_bit false ph.page.bitmap
        (create_page_handle fh).2.file_hdr_.num_records_per_page) := by
    unfold RmFileHandle.slot_in_range
    rw [hn]
    exact ⟨f0, f1⟩
  have hcp : create_page_handle fh = (.ok ph, (create_page_handle fh).2) := by
    rw [← hc]
  refine ⟨?_, ?_, ?_, ?_⟩
  · rcases g6 with g6 | ⟨g61, page0, hpage0, hnum0⟩
    · left; exact g6
    · right
      have hs0 := g5 page0 (mem_tail_of_getElem? _ _ _ (by omega) hpage0)
      obtain ⟨s, s0, s1, s2⟩ := (RmPage.Sound.free_slot _ _ page0 hs0 (by omega)).2 hnum0
      have hlt : fh.file_hdr_.first_free_page_no < fh.file_hdr_.num_pages := by
        have := (List.getElem?_eq_some_iff.mp hpage0).1
        omega
      refine ⟨s, ?_⟩
      unfold RmFileHandle.Vacant
      rw [RmFileHandle.slot_bit_of_page fh _ s page0 g61 hlt ⟨s0, s1⟩ hpage0, s2]
  · intro buf
    exact ⟨_, (insert_record_none_ok fh _ ph buf hcp hrange).1⟩
  · intro buf context hfault
    revert hfault
    unfold insert_record
    rw [hcp]
    simp only
    cases context with
    | none =>
      simp only [Context.lock_exclusive]
      rw [if_pos hrange]
      intro hfault
      simp at hfault
    | some c =>
      simp only [Context.lock_exclusive]
      split
      · next e ctx' heq =>
        intro hfault
        simp only [Prod.mk.injEq] at heq
        simp only [Except.error.injEq] at hfault
        rw [hfault] at heq
        exact lock_exclusive_on_record_error _ _ _ _ _ heq.1 rfl
      · rw [if_pos hrange]
        intro hfault
        simp at hfault
  · intro buf context rid hok
    obtain ⟨ph', hc', hs, hrid, -⟩ := insert_record_ok_inv fh buf context rid hok
    rw [hc] at hc'
    simp only [Except.ok.injEq] at hc'
    subst hc'
    refine ⟨?_, ?_⟩
    · unfold RmFileHandle.slot_in_range at hs ⊢
      rw [hn] at hs
      exact hs
    · intro hocc
      obtain ⟨o1, o2, o3, page, hpage, hbit⟩ := fh.slot_bit_eq_some rid true hocc
      have hpno : rid.page_no = ph.page_no := by rw [hrid]
      have hsno : rid.slot_no =
          Bitmap.first_bit false ph.page.bitmap fh.file_hdr_.num_records_per_page := by
        rw [hrid, hn]
      by_cases hff : fh.file_hdr_.first_free_page_no = RM_NO_PAGE
      · have := hnewp hff
        omega
      · have hfh := hsame hff
        rw [hfh] at hget
        rw [hpno, hget] at hpage
        simp only [Option.some.injEq] at hpage
        rw [← hpage, hsno, f2] at hbit
        cases hbit

/-- Witness for C39 on the file that one `insert_record` leaves of the freshly created
file `exEmptyFile`. -/
theorem reachable_free_list_head_witness :
    exEmptyFile.Fresh ∧
    ((RmOp.insert_record [1, 2]).run exEmptyFile none).file_hdr_.first_free_page_no = 1 ∧
    ((RmOp.insert_record [1, 2]).run exEmptyFile none).HasFreeSlot 1 ∧
    (∀ buf, ∃ rid,
      (insert_record ((RmOp.insert_record [1, 2]).run exEmptyFile none) buf none).result =
        .ok rid) ∧
    (∀ buf context,
      (insert_record ((RmOp.insert_record [1, 2]).run exEmptyFile none) buf context).result ≠
        .error .MemoryFault) :=
  ⟨by decide, by decide, ⟨1, by decide⟩,
    (reachable_free_list_head _
      (.step exEmptyFile (.insert_record [1, 2]) none (.fresh exEmptyFile (by decide))
        trivial)).2.1,
    (reachable_free_list_head _
      (.step exEmptyFile (.insert_record [1, 2]) none (.fresh exEmptyFile (by decide))
        trivial)).2.2.1⟩

/-! ## Sequential scan over a table without data page -/

theorem RmScan.new_header_only (fh : RmFileHandle) (h : fh.file_hdr_.num_pages = 1) :
    RmScan.new fh = .error (.PageNotExistError 1) := by
  unfold RmScan.new RmScan.next
  cases (fh.file_hdr_.num_pages - RM_FIRST_RECORD_PAGE).toNat <;>
    simp [RmScan.next_loop, fetch_page_handle, h, RM_FIRST_RECORD_PAGE, INVALID_PAGE_ID]

/-- C20 (behaviour of the code). On a table whose file has only its header page
(`num_pages == 1`, a table that holds no record yet) the loop
`for (beginTuple(); !is_end(); nextTuple())` of the sequential scan does not stop at the
empty sequence of rids: `beginTuple` throws `PageNotExistError(1)` out of the constructor
of `RmScan`, whatever the conditions. On a table whose file has at least one data page
(and whose header counts its pages), with conditions whose operators are among the six
relational operators and whose columns are columns of the table, the rids at which the
executor stops are the rids `visited` of the `RmScan`, filtered by "the record stored
there satisfies every condition": without a lock context the loop returns them, with a
lock context they are the rids whenever the loop returns, and with an empty condition
list they are `visited` itself. -/
theorem seq_scan_header_only_table_throws (ix_compare : IxCompare) (ex : SeqScanExecutor) :
    (ex.fh_.file_hdr_.num_pages = 1 →
      ∀ steps, SeqScanExecutor.stops ix_compare steps ex =
        some (.error (.PageNotExistError 1))) ∧
    (ex.fh_.file_hdr_.num_pages = ex.fh_.pages.length →
      2 ≤ ex.fh_.file_hdr_.num_pages →
      (∀ c ∈ ex.fed_conds_, c.op.is_relational = true) →
      (∀ c ∈ ex.fed_conds_, c.resolves ex.cols_ = true) →
      ∃ scan visited, RmScan.new ex.fh_ = .ok scan ∧ scan.Visits visited ∧
        (∀ steps, visited.length < steps →
          SeqScanExecutor.stops ix_compare steps { ex with context_ := none } =
            some (.ok (visited.filter
              (RmFileHandle.satisfies ix_compare ex.cols_ ex.fed_conds_ ex.fh_)))) ∧
        (∀ steps stops, SeqScanExecutor.stops ix_compare steps ex = some (.ok stops) →
          stops = visited.filter
            (RmFileHandle.satisfies ix_compare ex.cols_ ex.fed_conds_ ex.fh_)) ∧
        (ex.fed_conds_ = [] →
          visited.filter (RmFileHandle.satisfies ix_compare ex.cols_ ex.fed_conds_ ex.fh_) =
            visited)) := by
  constructor
  · intro h steps
    unfold SeqScanExecutor.stops SeqScanExecutor.beginTuple
    rw [RmScan.new_header_only ex.fh_ h]
  · intro hpages hdata hops hcols
    exact SeqScanExecutor.stops_on_data_pages ix_compare ex hpages hdata hops hcols

/-- Witness for C20: on `exFreshScan`, a scan without conditions of the header-only file
`exEmptyFile`, the loop throws; on `exExecutor`, of the three records of `exTable` the
scan under `t.b = 6 AND t.a <= t.b` stops at slots 1 and 2. -/
theorem seq_scan_header_only_table_throws_witness :
    exFreshScan.fh_.file_hdr_.num_pages = 1 ∧ exFreshScan.fh_.pages.length = 1 ∧
    exFreshScan.fed_conds_ = [] ∧
    (∀ steps, SeqScanExecutor.stops exCompare steps exFreshScan =
      some (.error (.PageNotExistError 1))) ∧
    (∀ c ∈ exExecutor.fed_conds_, c.op.is_relational = true) ∧
    (∀ c ∈ exExecutor.fed_conds_, c.resolves exExecutor.cols_ = true) ∧
    SeqScanExecutor.stops exCompare 4 exExecutor =
      some (.ok [{ page_no := 1, slot_no := 1 }, { page_no := 1, slot_no := 2 }]) ∧
    ∃ scan visited, RmScan.new exExecutor.fh_ = .ok scan ∧ scan.Visits visited ∧
      (∀ steps, visited.length < steps →
        SeqScanExecutor.stops exCompare steps { exExecutor with context_ := none } =
          some (.ok (visited.filter
            (RmFileHandle.satisfies exCompare exExecutor.cols_ exExecutor.fed_conds_
              exExecutor.fh_)))) ∧
      (∀ steps stops, SeqScanExecutor.stops exCompare steps exExecutor = some (.ok stops) →
        stops = visited.filter
          (RmFileHandle.satisfies exCompare exExecutor.cols_ exExecutor.fed_conds_
            exExecutor.fh_)) ∧
      (exExecutor.fed_conds_ = [] →
        visited.filter (RmFileHandle.satisfies exCompare exExecutor.cols_
          exExecutor.fed_conds_ exExecutor.fh_) = visited) :=
  ⟨by decide, by decide, by decide,
    (seq_scan_header_only_table_throws exCompare exFreshScan).1 (by decide),
    by decide, by decide, by decide,
    (seq_scan_header_only_table_throws exCompare exExecutor).2 (by decide) (by decide)
      (by decide) (by decide)⟩

/-! ## Two-phase rule until the next `begin` -/

theorem ensure_txn_can_lock_frozen (txn : Transaction)
    (h : txn.state_ ≠ .DEFAULT ∧ txn.state_ ≠ .GROWING) :
    ensure_txn_can_lock txn =
      (.error (.TransactionAbortException txn.txn_id_ .LOCK_ON_SHIRINKING), txn) := by
  obtain ⟨h1, h2⟩ := h
  unfold ensure_txn_can_lock
  cases hs : txn.state_ <;> simp_all

theorem LockCall.run_of_frozen (call : LockCall) (txn : Transaction) (lock_table_ : LockTable)
    (h : txn.state_ ≠ .DEFAULT ∧ txn.state_ ≠ .GROWING) :
    call.run txn lock_table_ =
      { result := .error (.TransactionAbortException txn.txn_id_ .LOCK_ON_SHIRINKING),
        txn := txn, lock_table_ := lock_table_ } := by
  cases call <;>
    simp [LockCall.run, lock_shared_on_record, lock_exclusive_on_record, lock_shared_on_table,
      lock_exclusive_on_table, lock_IS_on_table, lock_IX_on_table,
      ensure_txn_can_lock_frozen txn h]

theorem LockOp.txn_of_frozen (op : LockOp) (txn : Transaction) (lock_table_ : LockTable)
    (h : txn.state_ ≠ .DEFAULT ∧ txn.state_ ≠ .GROWING) :
    (op.run txn lock_table_).txn = txn := by
  cases op with
  | lock call => simp [LockOp.run, LockCall.run_of_frozen call txn lock_table_ h]
  | unlock id => simp [LockOp.run, unlock_state, h.2]

theorem unlock_all_txn_id (ids : List LockDataId) :
    ∀ (txn : Transaction) (lt : LockTable),
      (unlock_all txn ids lt).1.txn_id_ = txn.txn_id_ := by
  induction ids with
  | nil => intro txn lt; rfl
  | cons id rest ih =>
    intro txn lt
    rw [unlock_all, ih, unlock_txn_id]

theorem Context.lock_exclusive_frozen (c : Context) (rid : Rid) (fd : Int)
    (h : c.txn_.state_ ≠ .DEFAULT ∧ c.txn_.state_ ≠ .GROWING) :
    Context.lock_exclusive (some c) rid fd =
      (.error (.TransactionAbortException c.txn_.txn_id_ .LOCK_ON_SHIRINKING), some c) := by
  have hrun := LockCall.run_of_frozen (.exclusive_on_record rid fd) c.txn_ c.lock_mgr_ h
  simp only [LockCall.run] at hrun
  simp only [Context.lock_exclusive, hrun]

theorem undo_write_record_frozen (wr : WriteRecord) (st : UndoState)
    (h : st.context.txn_.state_ ≠ .DEFAULT ∧ st.context.txn_.state_ ≠ .GROWING) :
    (undo_write_record wr st).2.context = st.context := by
  unfold undo_write_record
  cases hf : st.sm_manager_.fhs_ wr.tab_name_ with
  | none => rfl
  | some fh =>
    cases hw : wr.wtype_ with
    | INSERT_TUPLE =>
      simp only [delete_record, Context.lock_exclusive_frozen st.context wr.rid_ fh.fd_ h,
        Option.getD_some]
    | DELETE_TUPLE =>
      simp only [insert_record]
      cases hc : create_page_handle fh with
      | mk r fh1 =>
        cases r with
        | error e => simp only [Option.getD_some]
        | ok ph =>
          simp only [Context.lock_exclusive_frozen st.context _ fh1.fd_ h, Option.getD_some]
    | UPDATE_TUPLE =>
      simp only [update_record, Context.lock_exclusive_frozen st.context wr.rid_ fh.fd_ h,
        Option.getD_some]

theorem undo_all_frozen (write_records : List WriteRecord) :
    ∀ st : UndoState,
      st.context.txn_.state_ ≠ .DEFAULT ∧ st.context.txn_.state_ ≠ .GROWING →
      (undo_all write_records st).2.context = st.context := by
  induction write_records with
  | nil => intro st _; rfl
  | cons wr rest ih =>
    intro st h
    have hstep := undo_write_record_frozen wr st h
    unfold undo_all
    cases hu : undo_write_record wr st with
    | mk r st' =>
      rw [hu] at hstep
      cases r with
      | error e => exact hstep
      | ok u =>
        simp only
        simp only at hstep
        rw [ih st' (by rw [hstep]; exact h), hstep]

theorem abort_frozen (txn : Transaction) (lock_table_ : LockTable) (sm_manager_ : SmManager)
    (h : txn.state_ ≠ .DEFAULT ∧ txn.state_ ≠ .GROWING) :
    ((abort txn lock_table_ sm_manager_).txn.state_ ≠ .DEFAULT ∧
      (abort txn lock_table_ sm_manager_).txn.state_ ≠ .GROWING) ∧
    (abort txn lock_table_ sm_manager_).txn.txn_id_ = txn.txn_id_ := by
  have hctx := undo_all_frozen txn.write_set_.reverse
    { sm_manager_ := sm_manager_, context := { lock_mgr_ := lock_table_, txn_ := txn } } h
  unfold abort
  cases hu : undo_all txn.write_set_.reverse
      { sm_manager_ := sm_manager_, context := { lock_mgr_ := lock_table_, txn_ := txn } } with
  | mk r st =>
    rw [hu] at hctx
    simp only at hctx
    cases r with
    | error e =>
      simp only [hctx]
      exact ⟨h, trivial⟩
    | ok u =>
      simp only [hctx]
      refine ⟨⟨by simp, by simp⟩, ?_⟩
      exact unlock_all_txn_id _ _ _

theorem TxnEvent.event_of_frozen (event : TxnEvent) (txn : Transaction)
    (h : txn.state_ ≠ .DEFAULT ∧ txn.state_ ≠ .GROWING) :
    ((event.run txn).state_ ≠ .DEFAULT ∧ (event.run txn).state_ ≠ .GROWING) ∧
    (event.run txn).txn_id_ = txn.txn_id_ := by
  cases event with
  | call op lt =>
    simp only [TxnEvent.run, LockOp.txn_of_frozen op txn lt h]
    exact ⟨h, trivial⟩
  | append_write_record wr => exact ⟨h, rfl⟩
  | commit lt =>
    simp only [TxnEvent.run, commit_eq]
    exact ⟨⟨by simp, by simp⟩, unlock_all_txn_id _ _ _⟩
  | abort lt sm => exact abort_frozen txn lt sm h

theorem Transaction.after_events_frozen (events : List TxnEvent) :
    ∀ txn : Transaction, txn.state_ ≠ .DEFAULT ∧ txn.state_ ≠ .GROWING →
      ((txn.after_events events).state_ ≠ .DEFAULT ∧
        (txn.after_events events).state_ ≠ .GROWING) ∧
      (txn.after_events events).txn_id_ = txn.txn_id_ := by
  induction events with
  | nil => intro txn h; exact ⟨h, rfl⟩
  | cons event rest ih =>
    intro txn h
    obtain ⟨h1, h2⟩ := event.event_of_frozen txn h
    obtain ⟨h3, h4⟩ := ih (event.run txn) h1
    exact ⟨h3, h4.trans h2⟩

/-- C7 (counterexample). Transaction 0 takes `S` on table 7 and releases it while
`GROWING`, which makes it `SHRINKING`. `TransactionManager::begin(txn)` on the same
transaction object sets its state back to `GROWING`, and its later call of
`lock_IS_on_table` on table 9 returns true: a request is added to the queue of table 9
and the lock set grows. -/
theorem lock_after_begin_again_granted :
    exUnlocked.txn_map 0 = some exShrunk ∧
    exShrunk.state_ = .SHRINKING ∧
    exShrunk.lock_set_ = [LockDataId.table 7] ∧
    exBegunAgain.1.state_ = .GROWING ∧ exBegunAgain.1.txn_id_ = 0 ∧
    exBegunAgain.2.txn_map 0 = some exBegunAgain.1 ∧
    (lock_IS_on_table exBegunAgain.1 9 exBegunAgain.2.lock_manager_).result = .ok true ∧
    (lock_IS_on_table exBegunAgain.1 9 exBegunAgain.2.lock_manager_).txn.lock_set_ =
      [LockDataId.table 7, LockDataId.table 9] ∧
    ((lock_IS_on_table exBegunAgain.1 9 exBegunAgain.2.lock_manager_).lock_table_.index
      (LockDataId.table 9)).request_queue_ = [granted_request 0 .INTENTION_SHARED] := by
  decide

/-- C7 (amended). Two-phase rule: once a `GROWING` transaction has called `unlock`, it is
`SHRINKING`, and after any further events on the transaction object other than
`TransactionManager::begin` (its own lock requests and unlocks, write records appended by
the executors, `commit`, `abort`) every one of the six lock requests fails with
`LOCK_ON_SHIRINKING`, leaving the lock table and the transaction (its lock set included)
as they were before the request. -/
theorem lock_after_unlock_fails (txn : Transaction) (id : LockDataId) (lock_table_ : LockTable)
    (hgrow : txn.state_ = .GROWING)
    (events : List TxnEvent) (call : LockCall) (later_table : LockTable) :
    (unlock txn id lock_table_).txn.state_ = .SHRINKING ∧
    call.run ((unlock txn id lock_table_).txn.after_events events) later_table =
      { result := .error (.TransactionAbortException txn.txn_id_ .LOCK_ON_SHIRINKING),
        txn := (unlock txn id lock_table_).txn.after_events events,
        lock_table_ := later_table } := by
  have hs : (unlock txn id lock_table_).txn.state_ = .SHRINKING := by
    simp [unlock_state, hgrow]
  have hid : (unlock txn id lock_table_).txn.txn_id_ = txn.txn_id_ := unlock_txn_id txn id _
  have hfrozen : (unlock txn id lock_table_).txn.state_ ≠ .DEFAULT ∧
      (unlock txn id lock_table_).txn.state_ ≠ .GROWING := by
    rw [hs]; exact ⟨by simp, by simp⟩
  obtain ⟨h1, h2⟩ := Transaction.after_events_frozen events _ hfrozen
  refine ⟨hs, ?_⟩
  rw [LockCall.run_of_frozen call _ later_table h1, h2, hid]

/-- Witness for C7: transaction 1 unlocks table 0, tries `lock_IS_on_table` (refused),
commits, is aborted, and its later `lock_exclusive_on_record` is refused as well. -/
theorem lock_after_unlock_fails_witness :
    exT1.state_ = .GROWING ∧
    ((unlock exT1 (LockDataId.table 0) LockTable.empty).txn.after_events
      [.call (.lock (.IS_on_table 0)) LockTable.empty, .commit LockTable.empty,
       .abort LockTable.empty (exSm exFile)]).state_ = .ABORTED ∧
    ((LockCall.exclusive_on_record exRid 0).run
        ((unlock exT1 (LockDataId.table 0) LockTable.empty).txn.after_events
          [.call (.lock (.IS_on_table 0)) LockTable.empty, .commit LockTable.empty,
           .abort LockTable.empty (exSm exFile)]) LockTable.empty).result =
      .error (.TransactionAbortException 1 .LOCK_ON_SHIRINKING) :=
  ⟨rfl, by decide,
    congrArg LockResult.result
      (lock_after_unlock_fails exT1 (LockDataId.table 0) LockTable.empty rfl
        [.call (.lock (.IS_on_table 0)) LockTable.empty, .commit LockTable.empty,
         .abort LockTable.empty (exSm exFile)] (.exclusive_on_record exRid 0)
        LockTable.empty).2⟩

/-! ## Nested-loop join: the left-hand column is read in the left record -/

theorem Bitmap.is_set_set_ne (bm : List Bool) (s j : Int) (hs : 0 ≤ s) (hj : 0 ≤ j)
    (hne : j ≠ s) : Bitmap.is_set (Bitmap.set bm s) j = Bitmap.is_set bm j := by
  unfold Bitmap.is_set Bitmap.set
  have hne' : s.toNat ≠ j.toNat := by omega
  simp [List.getD_eq_getElem?_getD, List.getElem?_set_ne hne']

theorem delete_record_vacates (fh : RmFileHandle) (rid : Rid) (ctx : Option Context)
    (hpages : fh.file_hdr_.num_pages = fh.pages.length) (hrid : 1 ≤ rid.page_no)
    (hok : (delete_record fh rid ctx).result = .ok ()) :
    (delete_record fh rid ctx).file.file_hdr_.num_pages =
      (delete_record fh rid ctx).file.pages.length ∧
    (delete_record fh rid ctx).file.Vacant rid ∧
    ((delete_record fh rid ctx).file.pages[rid.page_no.toNat]?).map
        (fun page => page.page_hdr.num_records) =
      (fh.pages[rid.page_no.toNat]?).map (fun page => page.page_hdr.num_records - 1) := by
  obtain ⟨page, page', h0, hlt, hp, hs, hset, hbm, hnum, -, -, hnp, hn, -, -, -⟩ :=
    delete_record_ok_inv fh rid ctx hok
  have hbit := RmFileHandle.slot_bit_set_page fh (delete_record fh rid ctx).file rid.page_no
    page page' h0 hp hnp hn hset rid
  rw [if_pos rfl, RmFileHandle.slot_bit_of_page fh rid.page_no rid.slot_no page hrid hlt hs hp]
    at hbit
  have hlen : rid.page_no.toNat < fh.pages.length := (List.getElem?_eq_some_iff.mp hp).1
  refine ⟨?_, ?_, ?_⟩
  · rw [hnp, hset, List.length_set, hpages]
  · unfold RmFileHandle.Vacant
    rw [hbit, hbm]
    simp only [Option.map_some', Bitmap.is_set_reset_self]
  · rw [hset, List.getElem?_set_self hlen, hp]
    simp only [Option.map_some', hnum]

theorem delete_record_keeps_vacant (fh : RmFileHandle) (rid' : Rid) (ctx : Option Context)
    (rid : Rid) (hpages : fh.file_hdr_.num_pages = fh.pages.length) (hvac : fh.Vacant rid)
    (hok : (delete_record fh rid' ctx).result = .ok ()) :
    (delete_record fh rid' ctx).file.file_hdr_.num_pages =
      (delete_record fh rid' ctx).file.pages.length ∧
    (delete_record fh rid' ctx).file.Vacant rid := by
  obtain ⟨page, page', h0, hlt, hp, hs, hset, hbm, -, -, -, hnp, hn, -, -, -⟩ :=
    delete_record_ok_inv fh rid' ctx hok
  have hbit := RmFileHandle.slot_bit_set_page fh (delete_record fh rid' ctx).file rid'.page_no
    page page' h0 hp hnp hn hset rid
  obtain ⟨-, -, hsr, page0, hp0, hbit0⟩ := fh.slot_bit_eq_some rid false hvac
  refine ⟨by rw [hnp, hset, List.length_set, hpages], ?_⟩
  unfold RmFileHandle.Vacant at hvac ⊢
  rw [hbit, hvac]
  split_ifs with hsame
  · rw [hsame, hp] at hp0
    simp only [Option.some.injEq] at hp0
    subst hp0
    simp only [Option.map_some', Option.some.injEq, hbm]
    by_cases hslot : rid.slot_no = rid'.slot_no
    · rw [hslot]; exact Bitmap.is_set_reset_self _ _
    · rw [Bitmap.is_set_reset_ne _ _ _ hs.1 hsr.1 hslot]; exact hbit0
  · rfl

theorem delete_record_keeps_pages (fh : RmFileHandle) (rid' : Rid) (ctx : Option Context)
    (hpages : fh.file_hdr_.num_pages = fh.pages.length)
    (hok : (delete_record fh rid' ctx).result = .ok ()) :
    (delete_record fh rid' ctx).file.file_hdr_.num_pages =
      (delete_record fh rid' ctx).file.pages.length := by
  obtain ⟨page, page', -, -, -, -, hset, -, -, -, -, hnp, -, -, -, -⟩ :=
    delete_record_ok_inv fh rid' ctx hok
  rw [hnp, hset, List.length_set, hpages]

theorem update_record_keeps_pages (fh : RmFileHandle) (rid' : Rid) (buf : List Byte)
    (ctx : Option Context) (hpages : fh.file_hdr_.num_pages = fh.pages.length)
    (hok : (update_record fh rid' buf ctx).result = .ok ()) :
    (update_record fh rid' buf ctx).file.file_hdr_.num_pages =
      (update_record fh rid' buf ctx).file.pages.length := by
  obtain ⟨page, -, -, -, -, hfile, -⟩ := update_record_ok_inv fh rid' buf ctx hok
  rw [hfile]
  simp only [RmFileHandle.write_page, List.length_set]
  exact hpages

theorem update_record_keeps_vacant (fh : RmFileHandle) (rid' : Rid) (buf : List Byte)
    (ctx : Option Context) (rid : Rid) (hvac : fh.Vacant rid)
    (hok : (update_record fh rid' buf ctx).result = .ok ()) :
    (update_record fh rid' buf ctx).file.Vacant rid := by
  obtain ⟨page, h0, -, hp, -, hfile, -⟩ := update_record_ok_inv fh rid' buf ctx hok
  have hbit := RmFileHandle.slot_bit_set_page fh (update_record fh rid' buf ctx).file
    rid'.page_no page
    { page with
      slots := page.slots.set rid'.slot_no.toNat (buf.take fh.file_hdr_.record_size) }
    h0 hp (by rw [hfile]; rfl) (by rw [hfile]; rfl) (by rw [hfile]; rfl) rid
  obtain ⟨-, -, -, page0, hp0, hbit0⟩ := fh.slot_bit_eq_some rid false hvac
  unfold RmFileHandle.Vacant at hvac ⊢
  rw [hbit, hvac]
  split_ifs with hsame
  · rw [hsame, hp] at hp0
    simp only [Option.some.injEq] at hp0
    subst hp0
    simp only [Option.map_some', Option.some.injEq]
    exact hbit0
  · rfl

theorem create_page_handle_ok_inv (fh : RmFileHandle) (ph : RmPageHandle)
    (hpages : fh.file_hdr_.num_pages = fh.pages.length)
    (h : (create_page_handle fh).1 = .ok ph) :
    (create_page_handle fh).2.file_hdr_.num_pages = (create_page_handle fh).2.pages.length ∧
    (create_page_handle fh).2.file_hdr_.num_records_per_page =
      fh.file_hdr_.num_records_per_page ∧
    0 ≤ ph.page_no ∧
    (create_page_handle fh).2.pages[ph.page_no.toNat]? = some ph.page ∧
    ∀ r b, fh.slot_bit r = some b → (create_page_handle fh).2.slot_bit r = some b := by
  unfold create_page_handle at h ⊢
  split_ifs at h ⊢ with hff
  · simp only [Except.ok.injEq] at h
    subst h
    refine ⟨?_, rfl, ?_, ?_, ?_⟩
    · simp only [create_new_page_handle, List.length_append, List.length_singleton,
        Nat.cast_add, Nat.cast_one, hpages]
    · simp only [create_new_page_handle]; omega
    · simp only [create_new_page_handle, Int.toNat_ofNat, List.getElem?_concat_length]
    · intro r b hb
      obtain ⟨r1, r2, r3, page, hp, hbit⟩ := fh.slot_bit_eq_some r b hb
      have hlen : r.page_no.toNat < fh.pages.length := (List.getElem?_eq_some_iff.mp hp).1
      have hp' : (create_new_page_handle fh).2.pages[r.page_no.toNat]? = some page := by
        simp only [create_new_page_handle]
        rw [List.getElem?_append_left hlen]
        exact hp
      have hnp : (create_new_page_handle fh).2.file_hdr_.num_pages =
          fh.file_hdr_.num_pages + 1 := rfl
      have := RmFileHandle.slot_bit_of_page (create_new_page_handle fh).2 r.page_no r.slot_no
        page r1 (by rw [hnp]; omega) r3 hp'
      rw [this, hbit]
  · simp only at h
    obtain ⟨f0, -, f2, f3⟩ := fetch_page_handle_eq_ok fh _ ph h
    refine ⟨hpages, rfl, by rw [f2]; exact f0, by rw [f2]; exact f3, fun r b hb => hb⟩

theorem insert_record_keeps_pages (fh : RmFileHandle) (buf : List Byte) (ctx : Option Context)
    (rid' : Rid) (hpages : fh.file_hdr_.num_pages = fh.pages.length)
    (hok : (insert_record fh buf ctx).result = .ok rid') :
    (insert_record fh buf ctx).file.file_hdr_.num_pages =
      (insert_record fh buf ctx).file.pages.length := by
  obtain ⟨ph, hc, -, -, hfile⟩ := insert_record_ok_inv fh buf ctx rid' hok
  obtain ⟨h1, -, -, -, -⟩ := create_page_handle_ok_inv fh ph hpages hc
  rw [hfile]
  simp only [insert_record_file, List.length_set]
  exact h1

theorem insert_record_keeps_vacant (fh : RmFileHandle) (buf : List Byte) (ctx : Option Context)
    (rid' rid : Rid) (hpages : fh.file_hdr_.num_pages = fh.pages.length)
    (hvac : fh.Vacant rid) (hne : rid' ≠ rid)
    (hok : (insert_record fh buf ctx).result = .ok rid') :
    (insert_record fh buf ctx).file.Vacant rid := by
  obtain ⟨ph, hc, hs, hrid, hfile⟩ := insert_record_ok_inv fh buf ctx rid' hok
  obtain ⟨-, hn, h0, hp, hkeep⟩ := create_page_handle_ok_inv fh ph hpages hc
  have hvac1 := hkeep rid false hvac
  have hbit := RmFileHandle.slot_bit_set_page (create_page_handle fh).2
    (insert_record fh buf ctx).file ph.page_no ph.page
    { page_hdr := { ph.page.page_hdr with num_records := ph.page.page_hdr.num_records + 1 },
      bitmap := Bitmap.set ph.page.bitmap
        (Bitmap.first_bit false ph.page.bitmap
          (create_page_handle fh).2.file_hdr_.num_records_per_page),
      slots := ph.page.slots.set
        (Bitmap.first_bit false ph.page.bitmap
          (create_page_handle fh).2.file_hdr_.num_records_per_page).toNat
        (buf.take (create_page_handle fh).2.file_hdr_.record_size) }
    h0 hp (by rw [hfile]; rfl) (by rw [hfile]; rfl) (by rw [hfile]; rfl) rid
  obtain ⟨-, -, hsr, page0, hp0, hbit0⟩ :=
    (create_page_handle fh).2.slot_bit_eq_some rid false hvac1
  unfold RmFileHandle.Vacant
  rw [hbit, hvac1]
  split_ifs with hsame
  · rw [hsame, hp] at hp0
    simp only [Option.some.injEq] at hp0
    subst hp0
    simp only [Option.map_some', Option.some.injEq]
    have hslot : rid.slot_no ≠ Bitmap.first_bit false ph.page.bitmap
        (create_page_handle fh).2.file_hdr_.num_records_per_page := by
      intro hc'
      apply hne
      rw [hrid]
      cases rid
      simp only [Rid.mk.injEq] at hsame hc' ⊢
      exact ⟨hsame.symm, hc'.symm⟩
    rw [hrid] at hs
    rw [Bitmap.is_set_set_ne _ _ _ hs.1 hsr.1 hslot]
    exact hbit0
  · rfl

theorem undo_all_append (a b : List WriteRecord) :
    ∀ st : UndoState,
      (undo_all (a ++ b) st).1 = .ok () →
      (undo_all a st).1 = .ok () ∧ undo_all (a ++ b) st = undo_all b (undo_all a st).2 := by
  induction a with
  | nil => intro st _; exact ⟨rfl, rfl⟩
  | cons wr rest ih =>
    intro st h
    rw [List.cons_append, undo_all] at h ⊢
    rw [undo_all]
    cases hu : undo_write_record wr st with
    | mk r st' =>
      rw [hu] at h
      cases r with
      | error e => simp at h
      | ok u => exact ih st' h

theorem undo_reinserts_append (a b : List WriteRecord) :
    ∀ st : UndoState,
      (undo_all a st).1 = .ok () →
      undo_reinserts (a ++ b) st =
        undo_reinserts a st ++ undo_reinserts b (undo_all a st).2 := by
  induction a with
  | nil => intro st _; rfl
  | cons wr rest ih =>
    intro st h
    rw [undo_all] at h ⊢
    rw [List.cons_append, undo_reinserts, undo_reinserts]
    cases hu : undo_write_record wr st with
    | mk r st' =>
      rw [hu] at h
      cases r with
      | error e => simp at h
      | ok u =>
        simp only
        rw [ih st' h, List.append_assoc]

theorem undo_write_record_keeps_pages (wr : WriteRecord) (st : UndoState) (tab : String)
    (fh : RmFileHandle) (hfile : st.sm_manager_.fhs_ tab = some fh)
    (hpages : fh.file_hdr_.num_pages = fh.pages.length)
    (hok : (undo_write_record wr st).1 = .ok ()) :
    ∃ fh', (undo_write_record wr st).2.sm_manager_.fhs_ tab = some fh' ∧
      fh'.file_hdr_.num_pages = fh'.pages.length := by
  unfold undo_write_record at hok ⊢
  by_cases htab : wr.tab_name_ = tab
  · rw [htab, hfile] at hok ⊢
    cases hw : wr.wtype_ with
    | INSERT_TUPLE =>
      rw [hw] at hok
      simp only at hok ⊢
      exact ⟨_, by simp [SmManager.put], delete_record_keeps_pages fh _ _ hpages hok⟩
    | DELETE_TUPLE =>
      rw [hw] at hok
      simp only at hok ⊢
      cases hr : (insert_record fh wr.record_ (some st.context)).result with
      | error e => rw [hr] at hok; simp [Except.map] at hok
      | ok rid' =>
        exact ⟨_, by simp [SmManager.put], insert_record_keeps_pages fh _ _ rid' hpages hr⟩
    | UPDATE_TUPLE =>
      rw [hw] at hok
      simp only at hok ⊢
      exact ⟨_, by simp [SmManager.put], update_record_keeps_pages fh _ _ _ hpages hok⟩
  · have hne : tab ≠ wr.tab_name_ := fun h => htab h.symm
    cases hf : st.sm_manager_.fhs_ wr.tab_name_ with
    | none => rw [hf] at hok; simp at hok
    | some fhw =>
      refine ⟨fh, ?_, hpages⟩
      cases hw : wr.wtype_ <;>
        simp only [SmManager.put, Function.update_noteq hne, hfile]

theorem undo_write_record_keeps_vacant (wr : WriteRecord) (st : UndoState) (tab : String)
    (rid : Rid) (fh : RmFileHandle) (hfile : st.sm_manager_.fhs_ tab = some fh)
    (hpages : fh.file_hdr_.num_pages = fh.pages.length) (hvac : fh.Vacant rid)
    (hok : (undo_write_record wr st).1 = .ok ())
    (hre : (tab, rid) ∉ undo_reinserts [wr] st) :
    ∃ fh', (undo_write_record wr st).2.sm_manager_.fhs_ tab = some fh' ∧
      fh'.file_hdr_.num_pages = fh'.pages.length ∧ fh'.Vacant rid := by
  obtain ⟨fh', h1, h2⟩ := undo_write_record_keeps_pages wr st tab fh hfile hpages hok
  refine ⟨fh', h1, h2, ?_⟩
  have hre' : ∀ rid', wr.wtype_ = .DELETE_TUPLE → wr.tab_name_ = tab →
      (insert_record fh wr.record_ (some st.context)).result = .ok rid' → rid' ≠ rid := by
    intro rid' hw htab hr hc
    apply hre
    rw [undo_reinserts]
    cases hu : undo_write_record wr st with
    | mk r st' =>
      rw [hu] at hok
      simp only at hok
      subst hok
      simp only [hw, htab, hfile, hr, undo_reinserts, List.append_nil, List.mem_singleton,
        Prod.mk.injEq, true_and]
      exact hc.symm
  unfold undo_write_record at hok h1
  by_cases htab : wr.tab_name_ = tab
  · rw [htab, hfile] at hok h1
    cases hw : wr.wtype_ with
    | INSERT_TUPLE =>
      rw [hw] at hok h1
      simp only [SmManager.put, Function.update_same, Option.some.injEq] at hok h1
      rw [← h1]
      exact (delete_record_keeps_vacant fh _ _ rid hpages hvac hok).2
    | DELETE_TUPLE =>
      rw [hw] at hok h1
      simp only [SmManager.put, Function.update_same, Option.some.injEq] at hok h1
      rw [← h1]
      cases hr : (insert_record fh wr.record_ (some st.context)).result with
      | error e => rw [hr] at hok; simp [Except.map] at hok
      | ok rid' =>
        exact insert_record_keeps_vacant fh _ _ rid' rid hpages hvac (hre' rid' hw htab hr) hr
    | UPDATE_TUPLE =>
      rw [hw] at hok h1
      simp only [SmManager.put, Function.update_same, Option.some.injEq] at hok h1
      rw [← h1]
      exact update_record_keeps_vacant fh _ _ _ rid hvac hok
  · have hne : tab ≠ wr.tab_name_ := fun h => htab h.symm
    cases hf : st.sm_manager_.fhs_ wr.tab_name_ with
    | none => rw [hf] at hok; simp at hok
    | some fhw =>
      rw [hf] at h1
      have : fh' = fh := by
        cases hw : wr.wtype_ <;> rw [hw] at h1 <;>
          simp only [SmManager.put, Function.update_noteq hne, hfile, Option.some.injEq] at h1 <;>
          exact h1.symm
      rw [this]
      exact hvac

theorem undo_all_keeps_pages (write_records : List WriteRecord) (tab : String) :
    ∀ (st : UndoState) (fh : RmFileHandle),
      st.sm_manager_.fhs_ tab = some fh →
      fh.file_hdr_.num_pages = fh.pages.length →
      (undo_all write_records st).1 = .ok () →
      ∃ fh', (undo_all write_records st).2.sm_manager_.fhs_ tab = some fh' ∧
        fh'.file_hdr_.num_pages = fh'.pages.length := by
  induction write_records with
  | nil => intro st fh hfile hpages _; exact ⟨fh, hfile, hpages⟩
  | cons wr rest ih =>
    intro st fh hfile hpages hok
    rw [undo_all] at hok ⊢
    cases hu : undo_write_record wr st with
    | mk r st' =>
      rw [hu] at hok
      cases r with
      | error e => simp at hok
      | ok u =>
        obtain ⟨fh', h1, h2⟩ := undo_write_record_keeps_pages wr st tab fh hfile hpages
          (by rw [hu])
        rw [hu] at h1
        exact ih st' fh' h1 h2 hok

theorem undo_all_keeps_vacant (write_records : List WriteRecord) (tab : String) (rid : Rid) :
    ∀ (st : UndoState) (fh : RmFileHandle),
      st.sm_manager_.fhs_ tab = some fh →
      fh.file_hdr_.num_pages = fh.pages.length → fh.Vacant rid →
      (undo_all write_records st).1 = .ok () →
      (tab, rid) ∉ undo_reinserts write_records st →
      ∃ fh', (undo_all write_records st).2.sm_manager_.fhs_ tab = some fh' ∧
        fh'.file_hdr_.num_pages = fh'.pages.length ∧ fh'.Vacant rid := by
  induction write_records with
  | nil => intro st fh hfile hpages hvac _ _; exact ⟨fh, hfile, hpages, hvac⟩
  | cons wr rest ih =>
    intro st fh hfile hpages hvac hok hre
    have hsplit := undo_reinserts_append [wr] rest st
    rw [undo_all] at hok ⊢
    cases hu : undo_write_record wr st with
    | mk r st' =>
      rw [hu] at hok
      cases r with
      | error e => simp at hok
      | ok u =>
        have hone : (undo_all [wr] st).1 = .ok () := by
          simp only [undo_all, hu]
        have hst : (undo_all [wr] st).2 = st' := by
          simp only [undo_all, hu]
        rw [List.singleton_append, hst] at hsplit
        rw [hsplit hone, List.mem_append, not_or] at hre
        obtain ⟨fh', h1, h2, h3⟩ := undo_write_record_keeps_vacant wr st tab rid fh hfile
          hpages hvac (by rw [hu]) hre.1
        rw [hu] at h1
        exact ih st' fh' h1 h2 h3 hok hre.2

theorem abort_ok_inv (txn : Transaction) (lock_table_ : LockTable) (sm : SmManager)
    (hab : (abort txn lock_table_ sm).result = .ok ()) :
    (undo_all txn.write_set_.reverse
      { sm_manager_ := sm, context := { lock_mgr_ := lock_table_, txn_ := txn } }).1 = .ok () ∧
    (abort txn lock_table_ sm).sm_manager_ =
      (undo_all txn.write_set_.reverse
        { sm_manager_ := sm,
          context := { lock_mgr_ := lock_table_, txn_ := txn } }).2.sm_manager_ := by
  unfold abort at hab ⊢
  cases hu : undo_all txn.write_set_.reverse
      { sm_manager_ := sm, context := { lock_mgr_ := lock_table_, txn_ := txn } } with
  | mk r st =>
    rw [hu] at hab
    cases r with
    | error e => simp at hab
    | ok u => exact ⟨rfl, rfl⟩

/-- C26 (amended). A write set that holds an `INSERT_TUPLE` record `wr` for a rid of a
data page of its table, after the write records `earlier` and before the write records
`later`; the header of the file of the table counts its pages. When `abort` returns: the
undo of that write record leaves slot `rid` vacant and the record count of its page one
lower than it found it; in the file that `abort` leaves, slot `rid` is vacant and a fresh
`RmScan` visits a list of rids that does not contain `rid`, provided that no
`DELETE_TUPLE` record of `earlier` was undone by an `insert_record` that returned `rid`.
When the record is the only one of the write set and the file is the one that the insert
left, every other slot has the bit it had after the insert and the record count of the
page of `rid` is the one before the insert (0 when the insert created the page). -/
theorem abort_insert_vacates (txn : Transaction) (lock_table_ : LockTable) (sm : SmManager)
    (wr : WriteRecord) (earlier later : List WriteRecord) (fh : RmFileHandle)
    (hw : wr.wtype_ = .INSERT_TUPLE)
    (hfile : sm.fhs_ wr.tab_name_ = some fh)
    (hpages : fh.file_hdr_.num_pages = fh.pages.length)
    (hrid : 1 ≤ wr.rid_.page_no)
    (hws : txn.write_set_ = earlier ++ wr :: later)
    (hab : (abort txn lock_table_ sm).result = .ok ())
    (hre : (wr.tab_name_, wr.rid_) ∉ undo_reinserts earlier.reverse
      (undo_all (wr :: later).reverse
        { sm_manager_ := sm, context := { lock_mgr_ := lock_table_, txn_ := txn } }).2) :
    (∃ found left,
      (undo_all later.reverse
        { sm_manager_ := sm,
          context := { lock_mgr_ := lock_table_, txn_ := txn } }).2.sm_manager_.fhs_
          wr.tab_name_ = some found ∧
      (undo_all (wr :: later).reverse
        { sm_manager_ := sm,
          context := { lock_mgr_ := lock_table_, txn_ := txn } }).2.sm_manager_.fhs_
          wr.tab_name_ = some left ∧
      left.Vacant wr.rid_ ∧
      (left.pages[wr.rid_.page_no.toNat]?).map (fun page => page.page_hdr.num_records) =
        (found.pages[wr.rid_.page_no.toNat]?).map
          (fun page => page.page_hdr.num_records - 1)) ∧
    (∃ fh', (abort txn lock_table_ sm).sm_manager_.fhs_ wr.tab_name_ = some fh' ∧
      fh'.Vacant wr.rid_ ∧
      ∃ scan visited, RmScan.new fh' = .ok scan ∧ scan.Visits visited ∧ wr.rid_ ∉ visited) ∧
    (earlier = [] → later = [] →
      ∀ (fh₀ : RmFileHandle) (ctx : Option Context),
        fh₀.WellFormed → 1 ≤ fh₀.file_hdr_.num_pages →
        (fh₀.file_hdr_.first_free_page_no = RM_NO_PAGE ∨
          1 ≤ fh₀.file_hdr_.first_free_page_no) →
        (insert_record fh₀ wr.record_ ctx).result = .ok wr.rid_ →
        fh = (insert_record fh₀ wr.record_ ctx).file →
        ∃ fh', (abort txn lock_table_ sm).sm_manager_.fhs_ wr.tab_name_ = some fh' ∧
          (∀ r, r ≠ wr.rid_ → fh'.slot_bit r = fh.slot_bit r) ∧
          (fh'.pages[wr.rid_.page_no.toNat]?).map (fun page => page.page_hdr.num_records) =
            some (((fh₀.pages[wr.rid_.page_no.toNat]?).map
              (fun page => page.page_hdr.num_records)).getD 0)) := by
  obtain ⟨hundo, hsm⟩ := abort_ok_inv txn lock_table_ sm hab
  have hrev : (wr :: later).reverse = later.reverse ++ [wr] := List.reverse_cons _ _
  rw [hws, List.reverse_append, hrev] at hundo hsm
  rw [hrev] at hre ⊢
  obtain ⟨hmid, hrest⟩ := undo_all_append _ _ _ hundo
  obtain ⟨hlater, hone⟩ := undo_all_append _ _ _ hmid
  obtain ⟨found, hfound, hfpages⟩ := undo_all_keeps_pages later.reverse wr.tab_name_ _ fh
    hfile hpages hlater
  rw [hone] at hmid hrest hre ⊢
  -- the undo of the insert itself
  have hstep : (undo_all [wr] (undo_all later.reverse
        { sm_manager_ := sm, context := { lock_mgr_ := lock_table_, txn_ := txn } }).2).1 =
      (delete_record found wr.rid_ (some (undo_all later.reverse
          { sm_manager_ := sm,
            context := { lock_mgr_ := lock_table_, txn_ := txn } }).2.context)).result ∧
      (undo_all [wr] (undo_all later.reverse
          { sm_manager_ := sm,
            context := { lock_mgr_ := lock_table_, txn_ := txn } }).2).2.sm_manager_.fhs_
          wr.tab_name_ =
        some (delete_record found wr.rid_ (some (undo_all later.reverse
          { sm_manager_ := sm,
            context := { lock_mgr_ := lock_table_, txn_ := txn } }).2.context)).file := by
    simp only [undo_all, undo_write_record, hfound, hw]
    cases hd : (delete_record found wr.rid_ (some (undo_all later.reverse
        { sm_manager_ := sm,
          context := { lock_mgr_ := lock_table_, txn_ := txn } }).2.context)).result with
    | error e => exact ⟨rfl, by simp [SmManager.put]⟩
    | ok u => exact ⟨rfl, by simp [SmManager.put]⟩
  obtain ⟨hstep1, hstep2⟩ := hstep
  have hdel : (delete_record found wr.rid_ (some (undo_all later.reverse
      { sm_manager_ := sm,
        context := { lock_mgr_ := lock_table_, txn_ := txn } }).2.context)).result = .ok () := by
    rw [hstep1] at hmid
    exact hmid
  obtain ⟨d1, d2, d3⟩ := delete_record_vacates found wr.rid_ _ hfpages hrid hdel
  obtain ⟨fh', hfh', hp', hv'⟩ := undo_all_keeps_vacant earlier.reverse wr.tab_name_ wr.rid_
    _ _ hstep2 d1 d2 (by rw [← hrest]; exact hundo) hre
  rw [← hrest, ← hsm] at hfh'
  refine ⟨⟨found, _, hfound, hstep2, d2, d3⟩, ⟨fh', hfh', hv', ?_⟩, ?_⟩
  · obtain ⟨hr1, hr2, -, -⟩ := fh'.slot_bit_eq_some wr.rid_ false hv'
    obtain ⟨scan, hnew, -, hrids⟩ := RmScan.new_spec fh' hp' (by omega)
    refine ⟨scan, _, hnew, hrids, ?_⟩
    intro hmem
    rw [RmFileHandle.occupied_rids,
      RmFileHandle.mem_occupied_from _ wr.rid_ _ 1 rfl (le_refl _)] at hmem
    have := hmem.2
    unfold RmFileHandle.Occupied at this
    unfold RmFileHandle.Vacant at hv'
    rw [hv'] at this
    simp at this
  · intro he hl fh₀ ctx hwf hhdr hhead hins hfh
    subst he hl hfh
    simp only [List.nil_append] at hws
    obtain ⟨wt, tn, r, rec⟩ := wr
    simp only at hw
    subst hw
    obtain ⟨-, fh'', a1, -, a3, a4, -⟩ := abort_single_insert_effect fh₀ rec ctx txn
      lock_table_ sm tn r hwf hhdr hhead hins hfile hws hab
    exact ⟨fh'', a1, a3, a4⟩

/-- Witness for C26 (amended) on `exSecondInserter`, whose write set is
`[DELETE (1, 0), INSERT (1, 0), INSERT (1, 3)]`: the undo of the delete puts its record
back at `(2, 0)`, and after the abort the slot `(1, 3)` is vacant. -/
theorem abort_insert_vacates_witness :
    exSecondInserter.write_set_ =
      [{ wtype_ := .DELETE_TUPLE, tab_name_ := "t", rid_ := { page_no := 1, slot_no := 0 },
         record_ := [1, 5] },
       { wtype_ := .INSERT_TUPLE, tab_name_ := "t", rid_ := { page_no := 1, slot_no := 0 },
         record_ := [7, 7] }] ++
       { wtype_ := .INSERT_TUPLE, tab_name_ := "t", rid_ := { page_no := 1, slot_no := 3 },
         record_ := [8, 8] } :: [] ∧
    exSecondInsert.result = .ok { page_no := 1, slot_no := 3 } ∧
    exAbortAfterSecondInsert.result = .ok () ∧
    undo_reinserts exSecondInserter.write_set_.reverse
        { sm_manager_ := exSm exSecondInsert.file,
          context :=
            { lock_mgr_ := (exSecondInsert.context.getD exDeleted).lock_mgr_,
              txn_ := exSecondInserter } } =
      [("t", { page_no := 2, slot_no := 0 })] ∧
    ∃ fh', exAbortAfterSecondInsert.sm_manager_.fhs_ "t" = some fh' ∧
      fh'.Vacant { page_no := 1, slot_no := 3 } ∧
      ∃ scan visited, RmScan.new fh' = .ok scan ∧ scan.Visits visited ∧
        ({ page_no := 1, slot_no := 3 } : Rid) ∉ visited :=
  ⟨by decide, by decide, by decide, by decide,
    (abort_insert_vacates exSecondInserter
      (exSecondInsert.context.getD exDeleted).lock_mgr_ (exSm exSecondInsert.file)
      { wtype_ := .INSERT_TUPLE, tab_name_ := "t", rid_ := { page_no := 1, slot_no := 3 },
        record_ := [8, 8] }
      [{ wtype_ := .DELETE_TUPLE, tab_name_ := "t", rid_ := { page_no := 1, slot_no := 0 },
         record_ := [1, 5] },
       { wtype_ := .INSERT_TUPLE, tab_name_ := "t", rid_ := { page_no := 1, slot_no := 0 },
         record_ := [7, 7] }] [] exSecondInsert.file rfl rfl (by decide) (by decide)
      (by decide) (by decide) (by decide)).2.1⟩

end Rucbase
